import Mathlib

/-!
# minigpt: tensor library, layers, model, optimizer, data and tokenizer

The Go sources under `llm/tensor`, `llm/nn`, `llm/transformer`, `llm/optim`,
`llm/io` (namespace `checkpoint`), `llm/data` and `llm/tokenizer` are embedded
as Lean functions.

Modelling conventions.

* A Go `int` is a `Nat`: dimensions, sizes and indices are non-negative and
  products of dimensions are taken without wrap-around. The one exception is
  the size test of `View`, which is the subject of a statement of its own:
  there the product is taken modulo `2^64`, as the 64-bit `int` takes it.
* A `float32` element is a value of a carrier `α` (a semiring, or an ordered
  field where the code divides and compares), so the statements about sums
  and quotients are statements of exact arithmetic. `math.Exp`, `math.Sqrt`,
  `math.Tanh` and `math.Cos` are parameters `ex`, `sqrt`, `th`, `cos : α → α`,
  and the conversion `int(x)` is a parameter `toInt : α → Int`.
* `rand.Float32()` is a stream `rnd : Nat → α`; the constructors and the
  `Forward` methods of the model that draw random values take the number `k`
  of values drawn so far and return the number drawn after the call.
* `rand.Intn(n)` is a function `intn : Nat → Nat → Nat` of the number of the
  call and of `n`, with the contract `intn c n < n` for `0 < n`.
* A Go `string` is a list of bytes. A Go `map` is an association list read by
  `mapGet` and written by `mapSet`; the order in which `range` visits a map is
  a parameter `order`, of which only "a permutation of the entries" is
  assumed. The key `fmt.Sprintf("%d,%d", p.a, p.b)` is the pair itself.
  The loop `for { ... }` of `Encode` takes a bound on the number of iterations
  that merge.
* A slice is a `List`. A read `s[i]` is `s[i]?` and a write `s[i] = v` is
  `setIdx`, both of which fail when `i` is past the end, as the run-time
  bounds check does.
* A function that can panic returns `Option`: `none` stands for "does not
  return a result" (a run-time panic, or a loop that never ends).
  `View`, which reports an error value, returns `Except`.
* `for i := 0; i < n; i++ { body }` is `forRange body n`.
-/

namespace tensor

/-! ## Loops and slices -/

/-- The loop `for i := 0; i < n; i++ { s = body i s }`, where the body may panic. -/
def forRange {σ : Type} (body : Nat → σ → Option σ) : Nat → σ → Option σ
  | 0, s => some s
  | n + 1, s => (forRange body n s).bind (body n)

/-- The bounds-checked write `s[i] = v`. -/
def setIdx {α : Type} (s : List α) (i : Nat) (v : α) : Option (List α) :=
  if i < s.length then some (s.set i v) else none

/-- The loop `size := 1; for _, s := range shape { size *= s }`. -/
def shapeSize (shape : List Nat) : Nat :=
  shape.foldl (fun size s => size * s) 1

/-! ## `llm/tensor/ndarray.go` -/

/-- The struct `NDArray`. -/
structure NDArray (α : Type) where
  Data : List α
  Shape : List Nat
  Strides : List Nat
  Size : Nat
deriving DecidableEq

/-- The loop of `computeStrides`, run from the last axis to the first: the
strides of the axes seen so far, and the running `stride`. -/
def stridesLoop : List Nat → List Nat × Nat
  | [] => ([], 1)
  | s :: rest => ((stridesLoop rest).2 :: (stridesLoop rest).1, (stridesLoop rest).2 * s)

/-- The function `computeStrides` (a nil slice is the empty list). -/
def computeStrides (shape : List Nat) : List Nat :=
  if shape.length = 0 then [] else (stridesLoop shape).1

/-- The function `makeCopy`: a fresh slice with the same elements. -/
def makeCopy (s : List Nat) : List Nat :=
  (List.replicate s.length 0).zipWith (fun _ x => x) s

/-- The constructor `New`: a zero-filled tensor. -/
def New {α : Type} [Zero α] (shape : List Nat) : NDArray α :=
  { Data := List.replicate (shapeSize shape) 0
    Shape := makeCopy shape
    Strides := computeStrides shape
    Size := shapeSize shape }

/-- The constructor `NewFull`: every element of `New shape` is overwritten by `val`. -/
def NewFull {α : Type} [Zero α] (val : α) (shape : List Nat) : NDArray α :=
  { (New shape : NDArray α) with Data := (New shape : NDArray α).Data.map (fun _ => val) }

/-- The constructor `NewFromData`: `copy(t.Data, data)` overwrites the first
`min (len t.Data) (len data)` elements of `New shape`. -/
def NewFromData {α : Type} [Zero α] (data : List α) (shape : List Nat) : NDArray α :=
  { (New shape : NDArray α) with
    Data := data.take (New shape : NDArray α).Data.length
      ++ (New shape : NDArray α).Data.drop data.length }

/-- The loop `size := 1; for _, s := range shape { size *= s }` of `View` in
the 64-bit arithmetic of `int`: every product is taken modulo `2^64`. -/
def wrapSize (shape : List Nat) : Nat :=
  shape.foldl (fun size s => size * s % 2 ^ 64) 1

/-- The method `View`: the same buffer under a new shape, or an error. The
test `size != t.Size` compares two 64-bit values: `size` is the wrapped
product `wrapSize shape` and `t.Size` is read modulo `2^64` (a size that fits
an `int` is below `2^63` and is its own residue). Where the test passes,
`size` and `t.Size` are the same `int`, and the field `Size: size` of the
result is `t.Size`. -/
def NDArray.View {α : Type} (t : NDArray α) (shape : List Nat) : Except String (NDArray α) :=
  if wrapSize shape ≠ t.Size % 2 ^ 64 then
    Except.error "view size does not match tensor size"
  else
    Except.ok
      { Data := t.Data
        Shape := makeCopy shape
        Strides := computeStrides shape
        Size := t.Size }

/-- The method `Clone`: a deep copy. -/
def NDArray.Clone {α : Type} [Zero α] (t : NDArray α) : NDArray α :=
  { (New t.Shape : NDArray α) with
    Data := t.Data.take (New t.Shape : NDArray α).Data.length
      ++ (New t.Shape : NDArray α).Data.drop t.Data.length }

/-! ## `llm/tensor/ops.go` -/

/-- The constant `math.MaxFloat32`, which is `2^128 - 2^104`. -/
def maxFloat32 {α : Type} [LinearOrderedField α] : α :=
  ((340282346638528859811704183484516925440 : Nat) : α)

/-- The function `Add`: `out[i] = a[i] + b[i]` for every index of `New(a.Shape)`. -/
def Add {α : Type} [Semiring α] (a b : NDArray α) : Option (NDArray α) :=
  (forRange (fun i d => do
      let x ← a.Data[i]?
      let y ← b.Data[i]?
      setIdx d i (x + y)) (New a.Shape : NDArray α).Data.length (New a.Shape : NDArray α).Data).map
    (fun d => { (New a.Shape : NDArray α) with Data := d })

/-- The function `Sub`: `out[i] = a[i] - b[i]` for every index of `New(a.Shape)`. -/
def Sub {α : Type} [Ring α] (a b : NDArray α) : Option (NDArray α) :=
  (forRange (fun i d => do
      let x ← a.Data[i]?
      let y ← b.Data[i]?
      setIdx d i (x - y)) (New a.Shape : NDArray α).Data.length (New a.Shape : NDArray α).Data).map
    (fun d => { (New a.Shape : NDArray α) with Data := d })

/-- The function `Mul`: panics when the buffers differ in length, else
`out[i] = a[i] * b[i]` for every index of `New(a.Shape)`. -/
def Mul {α : Type} [Semiring α] (a b : NDArray α) : Option (NDArray α) :=
  if a.Data.length ≠ b.Data.length then none
  else
    (forRange (fun i d => do
        let x ← a.Data[i]?
        let y ← b.Data[i]?
        setIdx d i (x * y)) (New a.Shape : NDArray α).Data.length (New a.Shape : NDArray α).Data).map
      (fun d => { (New a.Shape : NDArray α) with Data := d })

/-- The function `Div`: `out[i] = a[i] / b[i]` for every index of `New(a.Shape)`. -/
def Div {α : Type} [Field α] (a b : NDArray α) : Option (NDArray α) :=
  (forRange (fun i d => do
      let x ← a.Data[i]?
      let y ← b.Data[i]?
      setIdx d i (x / y)) (New a.Shape : NDArray α).Data.length (New a.Shape : NDArray α).Data).map
    (fun d => { (New a.Shape : NDArray α) with Data := d })

/-- The innermost loop of `PureGoMatMul`: `sum += a[offA + i*k + l] * b[offB + l*n + j]`. -/
def dotLoop {α : Type} [Semiring α] (aData bData : List α) (offA offB i j k n : Nat) : Option α :=
  forRange (fun l sum => do
    let valA ← aData[offA + i * k + l]?
    let valB ← bData[offB + l * n + j]?
    some (sum + valA * valB)) k 0

/-- The function `PureGoMatMul`. The batch count is the product of the first
`rank - 2` dimensions of `a`. -/
def PureGoMatMul {α : Type} [Semiring α] (a b : NDArray α) : Option (NDArray α) :=
  if a.Shape.length < 2 then none
  else do
    let m ← a.Shape[a.Shape.length - 2]?
    let k ← a.Shape[a.Shape.length - 1]?
    let kb ← b.Shape[a.Shape.length - 2]?
    if kb ≠ k then none
    else do
      let n ← b.Shape[a.Shape.length - 1]?
      let out : NDArray α := New ((makeCopy a.Shape).set (a.Shape.length - 1) n)
      let batch := shapeSize (a.Shape.take (a.Shape.length - 2))
      let data ← forRange (fun bIdx d =>
        forRange (fun i d =>
          forRange (fun j d => do
            let sum ← dotLoop a.Data b.Data (bIdx * (m * k)) (bIdx * (k * n)) i j k n
            setIdx d (bIdx * (m * n) + i * n + j) sum) n d) m d) batch out.Data
      some { out with Data := data }

/-- The function `MatMul`, with `MatMulImpl` at its default `PureGoMatMul`. -/
def MatMul {α : Type} [Semiring α] (a b : NDArray α) : Option (NDArray α) :=
  PureGoMatMul a b

/-- The function `Transpose`. -/
def Transpose {α : Type} [Zero α] (t : NDArray α) : Option (NDArray α) :=
  if t.Shape.length < 2 then none
  else do
    let m ← t.Shape[t.Shape.length - 2]?
    let n ← t.Shape[t.Shape.length - 1]?
    let out : NDArray α :=
      New (((makeCopy t.Shape).set (t.Shape.length - 2) n).set (t.Shape.length - 1) m)
    let batch := shapeSize (t.Shape.take (t.Shape.length - 2))
    let data ← forRange (fun bIdx d =>
      forRange (fun i d =>
        forRange (fun j d => do
          let val ← t.Data[bIdx * (m * n) + i * n + j]?
          setIdx d (bIdx * (n * m) + j * m + i) val) n d) m d) batch out.Data
    some { out with Data := data }

/-- The first inner loop of `Softmax`: the running maximum of a row, from `-MaxFloat32`. -/
def rowMaxLoop {α : Type} [LinearOrderedField α] (tData : List α) (offset stride : Nat) :
    Option α :=
  forRange (fun i maxVal => do
    let x ← tData[offset + i]?
    some (if x > maxVal then x else maxVal)) stride (-maxFloat32)

/-- The second inner loop of `Softmax`: `out[offset+i] = exp(t[offset+i] - maxVal)`, summed. -/
def rowExpLoop {α : Type} [LinearOrderedField α] (ex : α → α) (tData : List α)
    (offset stride : Nat) (maxVal : α) (d : List α) : Option (List α × α) :=
  forRange (fun i (p : List α × α) => do
    let x ← tData[offset + i]?
    let d1 ← setIdx p.1 (offset + i) (ex (x - maxVal))
    some (d1, p.2 + ex (x - maxVal))) stride (d, 0)

/-- The third inner loop of `Softmax`: `out[offset+i] /= sum`. -/
def rowNormLoop {α : Type} [LinearOrderedField α] (offset stride : Nat) (sum : α)
    (d : List α) : Option (List α) :=
  forRange (fun i d => do
    let y ← d[offset + i]?
    setIdx d (offset + i) (y / sum)) stride d

/-- The body of the outer loop of `Softmax`, for the row that starts at `offset`. -/
def softmaxRow {α : Type} [LinearOrderedField α] (ex : α → α) (tData : List α)
    (offset stride : Nat) (d : List α) : Option (List α) := do
  let maxVal ← rowMaxLoop tData offset stride
  let p ← rowExpLoop ex tData offset stride maxVal d
  rowNormLoop offset stride p.2 p.1

/-- The outer loop of `Softmax`, `for offset := 0; offset < total; offset += stride`,
with a bound on the number of loop tests: when the bound is used up the loop
has not ended and there is no result. -/
def softmaxLoop {α : Type} [LinearOrderedField α] (ex : α → α) (tData : List α)
    (stride total : Nat) : Nat → Nat → List α → Option (List α)
  | 0, _, _ => none
  | fuel + 1, offset, d =>
    if offset < total then
      (softmaxRow ex tData offset stride d).bind (softmaxLoop ex tData stride total fuel (offset + stride))
    else some d

/-- The function `Softmax`. With `stride ≥ 1` the loop makes at most `total`
iterations, so `total + 1` loop tests are enough; with `stride = 0` and
`total > 0` the loop of the source never ends. The read `t.Shape[rank-1]`
panics for rank 0. -/
def Softmax {α : Type} [LinearOrderedField α] (ex : α → α) (t : NDArray α) :
    Option (NDArray α) :=
  if t.Shape.length = 0 then none
  else do
    let lastDim ← t.Shape[t.Shape.length - 1]?
    let data ← softmaxLoop ex t.Data lastDim t.Size (t.Size + 1) 0 (New t.Shape : NDArray α).Data
    some { (New t.Shape : NDArray α) with Data := data }

/-- The inner loop of `Sum`: `s += t[offset + j]`. -/
def rowSumLoop {α : Type} [Semiring α] (tData : List α) (offset stride : Nat) : Option α :=
  forRange (fun j s => do
    let x ← tData[offset + j]?
    some (s + x)) stride 0

/-- The function `Sum`, over the last axis. The slice `t.Shape[:rank-1]`
panics for rank 0. -/
def Sum {α : Type} [Semiring α] (t : NDArray α) : Option (NDArray α) :=
  if t.Shape.length = 0 then none
  else do
    let stride ← t.Shape[t.Shape.length - 1]?
    let out : NDArray α := New (t.Shape.take (t.Shape.length - 1))
    let data ← forRange (fun i d => do
      let s ← rowSumLoop t.Data (i * stride) stride
      setIdx d i s) out.Size out.Data
    some { out with Data := data }

/-- The function `Max`: one value, the running maximum over the whole buffer. -/
def Max {α : Type} [LinearOrderedField α] (t : NDArray α) : α :=
  t.Data.foldl (fun m v => if v > m then v else m) (-maxFloat32)

/-- The inner loop of `ArgMax`: the running maximum of a row and its index. -/
def rowArgMaxLoop {α : Type} [LinearOrderedField α] (tData : List α) (offset stride : Nat) :
    Option (α × Nat) :=
  forRange (fun j (p : α × Nat) => do
    let x ← tData[offset + j]?
    some (if x > p.1 then (x, j) else p)) stride (-maxFloat32, 0)

/-- The function `ArgMax`, over the last axis. The division `t.Size / stride`
panics for `stride = 0`. -/
def ArgMax {α : Type} [LinearOrderedField α] (t : NDArray α) : Option (List Nat) :=
  if t.Shape.length = 0 then none
  else do
    let stride ← t.Shape[t.Shape.length - 1]?
    if stride = 0 then none
    else
      forRange (fun i out => do
        let p ← rowArgMaxLoop t.Data (i * stride) stride
        setIdx out i p.2) (t.Size / stride) (List.replicate (t.Size / stride) 0)


/-- The value `GELU` stores for an element `x`: `0.5 * x * (1 + tanh(inner))` with
`cube := x*x*x`, `inner := c1 * (x + c2*cube)`, `c1 := sqrt(2/pi)`, `c2 := 0.044715`. -/
def geluValue {α : Type} [Field α] (sqrt th : α → α) (pi x : α) : α :=
  1 / 2 * x * (1 + th (sqrt (2 / pi) * (x + 44715 / 1000000 * (x * x * x))))

/-- The factor `dydx` of `GELUBackward` for a cached element `x`:
`0.5*(1+tanh) + 0.5*x*sech2*dzdx` with `sech2 := 1 - tanh*tanh` and
`dzdx := c1 * (1 + 3*c2*x*x)`. -/
def geluSlope {α : Type} [Field α] (sqrt th : α → α) (pi x : α) : α :=
  1 / 2 * (1 + th (sqrt (2 / pi) * (x + 44715 / 1000000 * (x * x * x))))
    + 1 / 2 * x
      * (1 - th (sqrt (2 / pi) * (x + 44715 / 1000000 * (x * x * x)))
          * th (sqrt (2 / pi) * (x + 44715 / 1000000 * (x * x * x))))
      * (sqrt (2 / pi) * (1 + 3 * (44715 / 1000000) * x * x))

/-- The function `GELU`; `math.Sqrt`, `math.Tanh` and `math.Pi` are parameters. -/
def GELU {α : Type} [Field α] (sqrt th : α → α) (pi : α) (t : NDArray α) : Option (NDArray α) :=
  (forRange (fun i d => do
      let x ← t.Data[i]?
      setIdx d i (geluValue sqrt th pi x)) t.Data.length (New t.Shape : NDArray α).Data).map
    (fun d => { (New t.Shape : NDArray α) with Data := d })

/-- The function `GELUWithCache`: the output and the cache. -/
def GELUWithCache {α : Type} [Field α] (sqrt th : α → α) (pi : α) (t : NDArray α) :
    Option (NDArray α × NDArray α) :=
  (forRange (fun i (p : List α × List α) => do
      let x ← t.Data[i]?
      let c ← setIdx p.2 i x
      let o ← setIdx p.1 i (geluValue sqrt th pi x)
      some (o, c)) t.Data.length
      ((New t.Shape : NDArray α).Data, (New t.Shape : NDArray α).Data)).map
    (fun p => ({ (New t.Shape : NDArray α) with Data := p.1 },
      { (New t.Shape : NDArray α) with Data := p.2 }))

/-- The function `GELUBackward`. -/
def GELUBackward {α : Type} [Field α] (sqrt th : α → α) (pi : α)
    (gradOutput cache : NDArray α) : Option (NDArray α) :=
  (forRange (fun i d => do
      let x ← cache.Data[i]?
      let g ← gradOutput.Data[i]?
      setIdx d i (g * geluSlope sqrt th pi x)) cache.Data.length
      (New cache.Shape : NDArray α).Data).map
    (fun d => { (New cache.Shape : NDArray α) with Data := d })

/-- The function `Dropout`; `rnd i` is the value of the `i`-th call of
`rand.Float32()`. The output and the keep-mask. -/
def Dropout {α : Type} [LinearOrderedField α] (rnd : Nat → α) (t : NDArray α) (p : α) :
    Option (NDArray α × NDArray α) :=
  (forRange (fun i (q : List α × List α) =>
      if rnd i > p then do
        let m ← setIdx q.2 i 1
        let x ← t.Data[i]?
        let o ← setIdx q.1 i (x * (1 / (1 - p)))
        some (o, m)
      else do
        let m ← setIdx q.2 i 0
        let o ← setIdx q.1 i 0
        some (o, m)) t.Data.length
      ((New t.Shape : NDArray α).Data, (New t.Shape : NDArray α).Data)).map
    (fun q => ({ (New t.Shape : NDArray α) with Data := q.1 },
      { (New t.Shape : NDArray α) with Data := q.2 }))

/-! ### `llm/tensor/sampling.go` -/

/-- The loop of `SampleMultinomial` from index `i` with running `cumSum`: the
index at which the loop returns, if it does. -/
def sampleLoop {α : Type} [LinearOrderedField α] (r : α) : List α → Nat → α → Option Nat
  | [], _, _ => none
  | p :: ps, i, cumSum =>
    if r < cumSum + p then some i else sampleLoop r ps (i + 1) (cumSum + p)

/-- The function `SampleMultinomial`; `r` is the value of `rand.Float32()`. -/
def SampleMultinomial {α : Type} [LinearOrderedField α] (r : α) (probs : NDArray α) : Int :=
  match sampleLoop r probs.Data 0 0 with
  | some i => (i : Int)
  | none => (probs.Data.length : Int) - 1

/-- The last loop of `TopK` and of `TopP`: `out[pairs[i].idx] = logits[pairs[i].idx]`
for `i < count`. -/
def keepLoop {α : Type} (pairs : List (Nat × α)) (logitsData : List α) (count : Nat)
    (d : List α) : Option (List α) :=
  forRange (fun i d => do
    let pr ← pairs[i]?
    let x ← logitsData[pr.1]?
    setIdx d pr.1 x) count d

/-- The function `TopK`. `sortSlice` is `sort.Slice` with the comparison
"value greater than", applied to the index-value pairs, and `negInf` is the
value `float32(math.Inf(-1))`. -/
def TopK {α : Type} [LinearOrderedField α] (sortSlice : List (Nat × α) → List (Nat × α))
    (negInf : α) (logits : NDArray α) (k : Nat) : Option (NDArray α) :=
  if k = 0 ∨ k ≥ logits.Data.length then some logits
  else
    (keepLoop (sortSlice logits.Data.enum) logits.Data k
        ((New logits.Shape : NDArray α).Data.map (fun _ => negInf))).map
      (fun d => { (New logits.Shape : NDArray α) with Data := d })

/-- The cutoff loop of `TopP` from index `i` with running `cumSum`: the value
`i + 1` assigned to `cutoff` at the `break`, if the loop breaks. -/
def cutoffLoop {α : Type} [LinearOrderedField α] (p : α) : List (Nat × α) → Nat → α → Option Nat
  | [], _, _ => none
  | pr :: rest, i, cumSum =>
    if cumSum + pr.2 ≥ p then some (i + 1) else cutoffLoop p rest (i + 1) (cumSum + pr.2)

/-- The function `TopP`. `sortSlice` is `sort.Slice` with the comparison
"probability greater than", applied to the index-probability pairs. -/
def TopP {α : Type} [LinearOrderedField α] (sortSlice : List (Nat × α) → List (Nat × α))
    (negInf : α) (ex : α → α) (logits : NDArray α) (p : α) : Option (NDArray α) :=
  if p ≥ 1 then some logits
  else
    (Softmax ex logits).bind (fun probs =>
      (keepLoop (sortSlice probs.Data.enum) logits.Data
          ((cutoffLoop p (sortSlice probs.Data.enum) 0 0).getD
            (sortSlice probs.Data.enum).length)
          ((New logits.Shape : NDArray α).Data.map (fun _ => negInf))).map
        (fun d => { (New logits.Shape : NDArray α) with Data := d }))

/-- The constructor `NewRandom`. `rnd` is the stream of values of `rand.Float32()`
and `k` the number of values drawn so far: the tensor, and the number drawn
after the call. -/
def NewRandom {α : Type} [Zero α] (rnd : Nat → α) (k : Nat) (shape : List Nat) : NDArray α × Nat :=
  ({ (New shape : NDArray α) with
      Data := (List.range (New shape : NDArray α).Data.length).map (fun i => rnd (k + i)) },
    k + (New shape : NDArray α).Data.length)

/-! ## Specification vocabulary -/

/-- Row-major strides of a shape: the stride of an axis is the product of the
dimensions after it. -/
def rowMajor : List Nat → List Nat
  | [] => []
  | _ :: rest => rest.prod :: rowMajor rest

/-- The flat offset of a multi-index under given strides. -/
def offsetOf : List Nat → List Nat → Nat
  | i :: idx, s :: strides => i * s + offsetOf idx strides
  | _, _ => 0

/-- A multi-index is inside a shape: one coordinate per axis, each below its dimension. -/
def InShape (idx shape : List Nat) : Prop :=
  List.Forall₂ (fun i d => i < d) idx shape

/-- The element of a tensor at a multi-index, addressed through its strides. -/
def NDArray.entry {α : Type} (t : NDArray α) (idx : List Nat) : Option α :=
  t.Data[offsetOf idx t.Strides]?

/-- The element at a multi-index, with `0` standing in for a missing element. -/
def NDArray.entryD {α : Type} [Zero α] (t : NDArray α) (idx : List Nat) : α :=
  (t.entry idx).getD 0

/-- The entries of row `r` of the buffer when the last axis has length `n`. -/
def NDArray.rowList {α : Type} (t : NDArray α) (n r : Nat) : List α :=
  (t.Data.drop (r * n)).take n

/-- The data-model invariant: `Size` is the product of the shape, the buffer
holds `Size` elements and the strides are those `computeStrides` derives. -/
def NDArray.WF {α : Type} (t : NDArray α) : Prop :=
  t.Size = t.Shape.prod ∧ t.Data.length = t.Size ∧ t.Strides = computeStrides t.Shape

/-- A tensor is built by one of the constructors `New`, `NewFull`, `NewFromData`. -/
def Constructed {α : Type} [Zero α] (t : NDArray α) : Prop :=
  ∃ shape : List Nat,
    t = New shape ∨ (∃ val : α, t = NewFull val shape) ∨ (∃ data : List α, t = NewFromData data shape)

end tensor

/-! ## `llm/nn/module.go`, `llm/nn/linear.go` -/

namespace nn

open tensor

/-- The struct `Parameter`. -/
structure Parameter (α : Type) where
  Data : NDArray α
  Grad : NDArray α
  Name : String

/-- The struct `Linear`; `input` is nil until the first `Forward`. -/
structure Linear (α : Type) where
  W : Parameter α
  B : Parameter α
  input : Option (NDArray α)

/-- The bias loop of `Linear.Forward`: `out[i] += B[i % stride]`; the
remainder panics for `stride = 0`. -/
def biasLoop {α : Type} [Semiring α] (bData : List α) (stride total : Nat) (d : List α) :
    Option (List α) :=
  forRange (fun i d =>
    if stride = 0 then none
    else do
      let b ← bData[i % stride]?
      let y ← d[i]?
      setIdx d i (y + b)) total d

/-- The method `Linear.Forward`: the layer with its cached input, and the
output. The division `x.Size / inDim` panics for `inDim = 0`; a failed
`View` leaves a nil tensor whose first use panics. -/
def Linear.Forward {α : Type} [Semiring α] (l : Linear α) (x : NDArray α) :
    Option (Linear α × NDArray α) := do
  let inDim ← x.Shape[x.Shape.length - 1]?
  let wIn ← l.W.Data.Shape[1]?
  if inDim ≠ wIn then none
  else if inDim = 0 then none
  else
    match x.View [x.Size / inDim, inDim] with
    | Except.error _ => none
    | Except.ok xFlat => do
      let wt ← Transpose l.W.Data
      let outFlat ← MatMul xFlat wt
      let wOut ← l.W.Data.Shape[0]?
      match outFlat.View ((makeCopy x.Shape).set (x.Shape.length - 1) wOut) with
      | Except.error _ => none
      | Except.ok out => do
        let data ← biasLoop l.B.Data.Data l.B.Data.Size out.Size out.Data
        some ({ l with input := some x }, { out with Data := data })

/-- The weight-gradient loops of `Linear.Backward` for one row of the batch:
`W.Grad[r*inDim+c] += gradOutput[offsetGrad+r] * input[offsetIn+c]`. -/
def gradRowLoop {α : Type} [Semiring α] (gData xData : List α)
    (offsetGrad offsetIn outDim inDim : Nat) (wg : List α) : Option (List α) :=
  forRange (fun r wg => do
    let gradVal ← gData[offsetGrad + r]?
    forRange (fun c wg => do
      let xv ← xData[offsetIn + c]?
      let y ← wg[r * inDim + c]?
      setIdx wg (r * inDim + c) (y + gradVal * xv)) inDim wg) outDim wg

/-- The bias-gradient loop of `Linear.Backward` for one row of the batch:
`B.Grad[r] += gradOutput[offsetGrad+r]`. -/
def biasGradLoop {α : Type} [Semiring α] (gData : List α) (offsetGrad outDim : Nat)
    (bg : List α) : Option (List α) :=
  forRange (fun r bg => do
    let gv ← gData[offsetGrad + r]?
    let y ← bg[r]?
    setIdx bg r (y + gv)) outDim bg

/-- The method `Linear.Backward`: the layer with its accumulated gradients, and
the input gradient (nil when the last `View` reports an error, which the
source ignores). The divisions panic for a zero divisor; the cached input is
nil before the first `Forward`. -/
def Linear.Backward {α : Type} [Semiring α] (l : Linear α) (gradOutput : NDArray α) :
    Option (Linear α × Option (NDArray α)) := do
  let outDim ← gradOutput.Shape[gradOutput.Shape.length - 1]?
  if outDim = 0 then none
  else
    match gradOutput.View [gradOutput.Size / outDim, outDim] with
    | Except.error _ => none
    | Except.ok gradFlat => do
      let dInputFlat ← MatMul gradFlat l.W.Data
      let inDim ← l.W.Data.Shape[1]?
      let dInput : Option (NDArray α) :=
        match dInputFlat.View ((makeCopy gradOutput.Shape).set (gradOutput.Shape.length - 1) inDim) with
        | Except.error _ => none
        | Except.ok v => some v
      let input ← l.input
      if inDim = 0 then none
      else do
        let outDim2 ← l.W.Data.Shape[0]?
        let p ← forRange (fun i (p : List α × List α) => do
          let wg ← gradRowLoop gradOutput.Data input.Data (i * outDim2) (i * inDim) outDim2 inDim p.1
          let bg ← biasGradLoop gradOutput.Data (i * outDim2) outDim2 p.2
          some (wg, bg)) (input.Size / inDim) (l.W.Grad.Data, l.B.Grad.Data)
        some ({ l with
                W := { l.W with Grad := { l.W.Grad with Data := p.1 } }
                B := { l.B with Grad := { l.B.Grad with Data := p.2 } } }, dInput)

/-! ## `llm/nn/layernorm.go`: the `Dropout` layer -/

/-- The struct `Dropout`; `mask` is nil until the first `Forward` with `P ≠ 0`. -/
structure Dropout (α : Type) where
  P : α
  mask : Option (NDArray α)

/-- The method `Dropout.Forward`: the layer with its mask, and the output. -/
def Dropout.Forward {α : Type} [LinearOrderedField α] (rnd : Nat → α) (d : Dropout α)
    (x : NDArray α) : Option (Dropout α × NDArray α) :=
  if d.P = 0 then some (d, x)
  else do
    let r ← tensor.Dropout rnd x d.P
    some ({ d with mask := some r.2 }, r.1)

/-- The method `Dropout.Backward`; a nil mask makes `Mul` panic. -/
def Dropout.Backward {α : Type} [LinearOrderedField α] (d : Dropout α) (gradOutput : NDArray α) :
    Option (NDArray α) :=
  if d.P = 0 then some gradOutput
  else do
    let mask ← d.mask
    Mul gradOutput mask

/-! ## `llm/nn/layernorm.go`: `LayerNorm` -/

/-- The struct `LayerNorm`; `input` is nil and `mean`, `rstd` are empty until
the first `Forward`. -/
structure LayerNorm (α : Type) where
  Gamma : Parameter α
  Beta : Parameter α
  Eps : α
  input : Option (NDArray α)
  mean : List α
  rstd : List α

/-- The constructor `NewLayerNorm`: scale `1`, shift `0`, `Eps = 1e-5`. -/
def NewLayerNorm {α : Type} [Field α] (dim : Nat) : LayerNorm α :=
  { Gamma := { Data := NewFull 1 [dim], Grad := New [dim], Name := "ln_gamma" }
    Beta := { Data := NewFull 0 [dim], Grad := New [dim], Name := "ln_beta" }
    Eps := 1 / 100000
    input := none
    mean := []
    rstd := [] }

/-- The variance loop of `LayerNorm.Forward`: `diff := x[offset+i] - mean; sumSq += diff*diff`. -/
def sumSqLoop {α : Type} [Field α] (xData : List α) (offset dim : Nat) (mean : α) : Option α :=
  forRange (fun i sumSq => do
    let x ← xData[offset + i]?
    some (sumSq + (x - mean) * (x - mean))) dim 0

/-- The last inner loop of `LayerNorm.Forward`:
`out[offset+i] = (x[offset+i] - mean) * rstd * gamma[i] + beta[i]`. -/
def normLoop {α : Type} [Field α] (xData gamma beta : List α) (offset dim : Nat) (mean rstd : α)
    (d : List α) : Option (List α) :=
  forRange (fun i d => do
    let x ← xData[offset + i]?
    let gm ← gamma[i]?
    let bt ← beta[i]?
    setIdx d (offset + i) ((x - mean) * rstd * gm + bt)) dim d

/-- The body of the row loop of `LayerNorm.Forward` on the state
`(out.Data, ln.mean, ln.rstd)`; the mean loop is the loop `s += x[offset+i]`;
`math.Sqrt` is a parameter. -/
def lnForwardRow {α : Type} [Field α] (sqrt : α → α) (xData gamma beta : List α) (eps : α)
    (dim b : Nat) (st : List α × List α × List α) : Option (List α × List α × List α) := do
  let sum ← rowSumLoop xData (b * dim) dim
  let ms ← setIdx st.2.1 b (sum / (dim : α))
  let sumSq ← sumSqLoop xData (b * dim) dim (sum / (dim : α))
  let rs ← setIdx st.2.2 b (1 / sqrt (sumSq / (dim : α) + eps))
  let o ← normLoop xData gamma beta (b * dim) dim (sum / (dim : α))
    (1 / sqrt (sumSq / (dim : α) + eps)) st.1
  some (o, ms, rs)

/-- The method `LayerNorm.Forward`: the layer with its caches, and the
output. The division `x.Size / dim` panics for `dim = 0`. -/
def LayerNorm.Forward {α : Type} [Field α] (sqrt : α → α) (ln : LayerNorm α) (x : NDArray α) :
    Option (LayerNorm α × NDArray α) := do
  let dim ← x.Shape[x.Shape.length - 1]?
  if dim = 0 then none
  else do
    let st ← forRange
      (lnForwardRow sqrt x.Data ln.Gamma.Data.Data ln.Beta.Data.Data ln.Eps dim)
      (x.Size / dim)
      ((New x.Shape : NDArray α).Data, List.replicate (x.Size / dim) 0,
        List.replicate (x.Size / dim) 0)
    some ({ ln with input := some x, mean := st.2.1, rstd := st.2.2 },
      { (New x.Shape : NDArray α) with Data := st.1 })

/-- The state of the first inner loop of `LayerNorm.Backward`. -/
structure LnAcc (α : Type) where
  gammaGrad : List α
  betaGrad : List α
  dxHat : List α
  xHat : List α
  sumDxHat : α
  sumDxHatXHat : α

/-- The first inner loop of `LayerNorm.Backward`, for the row at `offset`. -/
def lnGradLoop {α : Type} [Field α] (gData xData gamma : List α) (offset dim : Nat)
    (mean rstd : α) (gg bg : List α) : Option (LnAcc α) :=
  forRange (fun i (a : LnAcc α) => do
    let dy ← gData[offset + i]?
    let x ← xData[offset + i]?
    let xh ← setIdx a.xHat i ((x - mean) * rstd)
    let g0 ← a.gammaGrad[i]?
    let gg ← setIdx a.gammaGrad i (g0 + dy * ((x - mean) * rstd))
    let b0 ← a.betaGrad[i]?
    let bg ← setIdx a.betaGrad i (b0 + dy)
    let gm ← gamma[i]?
    let dxh ← setIdx a.dxHat i (dy * gm)
    some { gammaGrad := gg, betaGrad := bg, dxHat := dxh, xHat := xh,
           sumDxHat := a.sumDxHat + dy * gm,
           sumDxHatXHat := a.sumDxHatXHat + dy * gm * ((x - mean) * rstd) }) dim
    { gammaGrad := gg, betaGrad := bg, dxHat := List.replicate dim 0,
      xHat := List.replicate dim 0, sumDxHat := 0, sumDxHatXHat := 0 }

/-- The second inner loop of `LayerNorm.Backward`:
`dInput[offset+i] = scale * (dim*dxHat[i] - term2 - xHat[i]*term3)`. -/
def lnInputGradLoop {α : Type} [Field α] (dxHat xHat : List α) (offset dim : Nat)
    (scale term2 term3 : α) (d : List α) : Option (List α) :=
  forRange (fun i d => do
    let dxh ← dxHat[i]?
    let xh ← xHat[i]?
    setIdx d (offset + i) (scale * ((dim : α) * dxh - term2 - xh * term3))) dim d

/-- The body of the row loop of `LayerNorm.Backward` on the state
`(dInput.Data, Gamma.Grad.Data, Beta.Grad.Data)`. -/
def lnBackwardRow {α : Type} [Field α] (gData xData gamma means rstds : List α) (dim b : Nat)
    (st : List α × List α × List α) : Option (List α × List α × List α) := do
  let mean ← means[b]?
  let rstd ← rstds[b]?
  let a ← lnGradLoop gData xData gamma (b * dim) dim mean rstd st.2.1 st.2.2
  let d ← lnInputGradLoop a.dxHat a.xHat (b * dim) dim (rstd / (dim : α)) a.sumDxHat
    a.sumDxHatXHat st.1
  some (d, a.gammaGrad, a.betaGrad)

/-- The method `LayerNorm.Backward`: the layer with its accumulated gradients,
and the input gradient. -/
def LayerNorm.Backward {α : Type} [Field α] (ln : LayerNorm α) (gradOutput : NDArray α) :
    Option (LayerNorm α × NDArray α) := do
  let input ← ln.input
  let dim ← input.Shape[input.Shape.length - 1]?
  if dim = 0 then none
  else do
    let st ← forRange
      (lnBackwardRow gradOutput.Data input.Data ln.Gamma.Data.Data ln.mean ln.rstd dim)
      (input.Size / dim)
      ((New input.Shape : NDArray α).Data, ln.Gamma.Grad.Data, ln.Beta.Grad.Data)
    some ({ ln with
            Gamma := { ln.Gamma with Grad := { ln.Gamma.Grad with Data := st.2.1 } }
            Beta := { ln.Beta with Grad := { ln.Beta.Grad with Data := st.2.2 } } },
      { (New input.Shape : NDArray α) with Data := st.1 })

/-! ## Row statistics (specification vocabulary) -/

/-- The mean of row `b` of a buffer whose rows have length `D`. -/
def rowMean {α : Type} [Field α] (xData : List α) (D b : Nat) : α :=
  (∑ i in Finset.range D, (xData[b * D + i]?).getD 0) / (D : α)

/-- The biased (population) variance of row `b` of a buffer whose rows have length `D`. -/
def rowVar {α : Type} [Field α] (xData : List α) (D b : Nat) : α :=
  (∑ i in Finset.range D,
    ((xData[b * D + i]?).getD 0 - rowMean xData D b)
      * ((xData[b * D + i]?).getD 0 - rowMean xData D b)) / (D : α)

/-- The reciprocal standard deviation `1/sqrt(v + eps)` of row `b`. -/
def rowRstd {α : Type} [Field α] (sqrt : α → α) (eps : α) (xData : List α) (D b : Nat) : α :=
  1 / sqrt (rowVar xData D b + eps)

/-- The normalized entry `xhat[i] = (x[i] - mean) * rstd` of row `b`. -/
def xHatAt {α : Type} [Field α] (sqrt : α → α) (eps : α) (xData : List α) (D b i : Nat) : α :=
  ((xData[b * D + i]?).getD 0 - rowMean xData D b) * rowRstd sqrt eps xData D b

/-! ## `llm/nn/embedding.go` -/

/-- The struct `Embedding`; `inputIndices` is nil until the first `ForwardIndices`. -/
structure Embedding (α : Type) where
  Weight : Parameter α
  inputIndices : List Nat

/-- The method `ForwardIndices`: the layer with its cached indices, and the
gathered rows. -/
def Embedding.ForwardIndices {α : Type} [Zero α] (e : Embedding α) (indices : List Nat)
    (batch seqLen : Nat) : Option (Embedding α × NDArray α) := do
  let embDim ← e.Weight.Data.Shape[1]?
  let d ← forRange (fun i d => do
    let idx ← indices[i]?
    forRange (fun j d => do
      let v ← e.Weight.Data.Data[idx * embDim + j]?
      setIdx d (i * embDim + j) v) embDim d) indices.length
    (New [batch, seqLen, embDim] : NDArray α).Data
  some ({ e with inputIndices := indices },
    { (New [batch, seqLen, embDim] : NDArray α) with Data := d })

/-- The inner loop of `Embedding.Backward` for position `i` with index `idx`:
`Weight.Grad[idx*embDim+j] += gradOutput[i*embDim+j]`. -/
def scatterRow {α : Type} [Semiring α] (gData : List α) (embDim i idx : Nat) (wg : List α) :
    Option (List α) :=
  forRange (fun j wg => do
    let g ← gData[i * embDim + j]?
    let y ← wg[idx * embDim + j]?
    setIdx wg (idx * embDim + j) (y + g)) embDim wg

/-- The method `Embedding.Backward`: the layer with its accumulated gradient. -/
def Embedding.Backward {α : Type} [Semiring α] (e : Embedding α) (gradOutput : NDArray α) :
    Option (Embedding α) := do
  let embDim ← e.Weight.Data.Shape[1]?
  let wg ← forRange (fun i wg => do
    let idx ← e.inputIndices[i]?
    scatterRow gradOutput.Data embDim i idx wg) e.inputIndices.length e.Weight.Grad.Data
  some { e with Weight := { e.Weight with Grad := { e.Weight.Grad with Data := wg } } }

/-! ## `llm/nn/loss.go` -/

/-- The struct `CrossEntropyLoss`, which has no fields. -/
structure CrossEntropyLoss where

/-- The target loop of `CrossEntropyLoss.Backward`:
`dLogits[i*vocabSize + targets[i]] -= 1.0`. -/
def targetLoop {α : Type} [Ring α] (targets : List Nat) (batchSize vocabSize : Nat)
    (d : List α) : Option (List α) :=
  forRange (fun i d => do
    let target ← targets[i]?
    let y ← d[i * vocabSize + target]?
    setIdx d (i * vocabSize + target) (y - 1)) batchSize d

/-- The method `CrossEntropyLoss.Backward`. `copy(dLogits.Data, probs.Data)`
overwrites the first `min (len dLogits.Data) (len probs.Data)` elements. -/
def CrossEntropyLoss.Backward {α : Type} [LinearOrderedField α] (_l : CrossEntropyLoss)
    (ex : α → α) (logits : NDArray α) (targets : List Nat) : Option (NDArray α) := do
  let probs ← Softmax ex logits
  let batchSize ← logits.Shape[0]?
  let vocabSize ← logits.Shape[1]?
  let d0 := probs.Data.take (New logits.Shape : NDArray α).Data.length
    ++ (New logits.Shape : NDArray α).Data.drop probs.Data.length
  let d1 ← targetLoop targets batchSize vocabSize d0
  let d2 ← forRange (fun i d => do
    let y ← d[i]?
    setIdx d i (y * (1 / (batchSize : α)))) d1.length d1
  some { (New logits.Shape : NDArray α) with Data := d2 }

/-! ## Constructors and parameter lists of the layers -/

/-- The constructor `NewLinear`: the weight is `NewRandom(out, in)` with every
element replaced by `(w - 0.5) * scale`, `scale := 1 / in`. The layer, and the
number of random values drawn after the call. -/
def NewLinear {α : Type} [Field α] (rnd : Nat → α) (k : Nat) (inFeatures outFeatures : Nat) :
    Linear α × Nat :=
  ({ W := { Data := { (NewRandom rnd k [outFeatures, inFeatures]).1 with
                      Data := (NewRandom rnd k [outFeatures, inFeatures]).1.Data.map
                        (fun w => (w - 1 / 2) * (1 / (inFeatures : α))) }
            Grad := New [outFeatures, inFeatures]
            Name := "weight" }
     B := { Data := New [outFeatures], Grad := New [outFeatures], Name := "bias" }
     input := none },
    (NewRandom rnd k [outFeatures, inFeatures]).2)

/-- The method `Linear.Parameters`. -/
def Linear.Parameters {α : Type} (l : Linear α) : List (Parameter α) :=
  [l.W, l.B]

/-- The constructor `NewEmbedding`. -/
def NewEmbedding {α : Type} [Zero α] (rnd : Nat → α) (k : Nat) (vocabSize embDim : Nat) :
    Embedding α × Nat :=
  ({ Weight := { Data := (NewRandom rnd k [vocabSize, embDim]).1
                 Grad := New [vocabSize, embDim]
                 Name := "embedding" }
     inputIndices := [] },
    (NewRandom rnd k [vocabSize, embDim]).2)

/-- The method `Embedding.Parameters`. -/
def Embedding.Parameters {α : Type} (e : Embedding α) : List (Parameter α) :=
  [e.Weight]

/-- The method `LayerNorm.Parameters`. -/
def LayerNorm.Parameters {α : Type} (ln : LayerNorm α) : List (Parameter α) :=
  [ln.Gamma, ln.Beta]

/-- The constructor `NewDropout`. -/
def NewDropout {α : Type} (p : α) : Dropout α :=
  { P := p, mask := none }

/-- The method `Dropout.Parameters`, which returns nil. -/
def Dropout.Parameters {α : Type} (_d : Dropout α) : List (Parameter α) :=
  []

/-- The method `Dropout.Forward` at position `k` of the stream `rnd` of values of
`rand.Float32()`: `tensor.Dropout` draws one value per element. The layer, the
output, and the number of random values drawn after the call. -/
def Dropout.ForwardAt {α : Type} [LinearOrderedField α] (rnd : Nat → α) (k : Nat)
    (d : Dropout α) (x : NDArray α) : Option (Dropout α × NDArray α × Nat) :=
  (d.Forward (fun i => rnd (k + i)) x).map
    (fun r => (r.1, r.2, if d.P = 0 then k else k + x.Data.length))

/-! ## `llm/nn/mlp.go` -/

/-- The struct `MLP`; the caches are nil until the first `Forward`. -/
structure MLP (α : Type) where
  FC1 : Linear α
  FC2 : Linear α
  Drop : Dropout α
  input : Option (NDArray α)
  fc1Out : Option (NDArray α)
  geluOut : Option (NDArray α)
  geluCache : Option (NDArray α)

/-- The constructor `NewMLP`. -/
def NewMLP {α : Type} [Field α] (rnd : Nat → α) (k : Nat) (nEmb : Nat) (dropoutP : α) :
    MLP α × Nat :=
  ({ FC1 := (NewLinear rnd k nEmb (4 * nEmb)).1
     FC2 := (NewLinear rnd (NewLinear rnd k nEmb (4 * nEmb)).2 (4 * nEmb) nEmb).1
     Drop := NewDropout dropoutP
     input := none
     fc1Out := none
     geluOut := none
     geluCache := none },
    (NewLinear rnd (NewLinear rnd k nEmb (4 * nEmb)).2 (4 * nEmb) nEmb).2)

/-- The method `MLP.Forward`: the layer with its caches, the output, and the
number of random values drawn after the call. -/
def MLP.Forward {α : Type} [LinearOrderedField α] (sqrt th : α → α) (pi : α) (rnd : Nat → α)
    (k : Nat) (m : MLP α) (x : NDArray α) : Option (MLP α × NDArray α × Nat) := do
  let r1 ← m.FC1.Forward x
  let g ← GELUWithCache sqrt th pi r1.2
  let r2 ← m.FC2.Forward g.1
  let r3 ← m.Drop.ForwardAt rnd k r2.2
  some ({ m with
          FC1 := r1.1, FC2 := r2.1, Drop := r3.1, input := some x, fc1Out := some r1.2,
          geluOut := some g.1, geluCache := some g.2 }, r3.2.1, r3.2.2)

/-- The method `MLP.Parameters`. -/
def MLP.Parameters {α : Type} (m : MLP α) : List (Parameter α) :=
  m.FC1.Parameters ++ m.FC2.Parameters

/-! ## Shapes of the parameters of a layer (specification vocabulary) -/

/-- A `Linear` layer from `inF` to `outF` features: weight `[outF, inF]`, bias `[outF]`. -/
def Linear.Shaped {α : Type} (l : Linear α) (inF outF : Nat) : Prop :=
  l.W.Data.WF ∧ l.W.Data.Shape = [outF, inF] ∧ l.B.Data.WF ∧ l.B.Data.Shape = [outF]

/-- A `LayerNorm` over `dim` features. -/
def LayerNorm.Shaped {α : Type} (ln : LayerNorm α) (dim : Nat) : Prop :=
  ln.Gamma.Data.WF ∧ ln.Gamma.Data.Shape = [dim] ∧ ln.Beta.Data.WF ∧ ln.Beta.Data.Shape = [dim]

/-- An `Embedding` table of `vocabSize` rows of width `embDim`. -/
def Embedding.Shaped {α : Type} (e : Embedding α) (vocabSize embDim : Nat) : Prop :=
  e.Weight.Data.WF ∧ e.Weight.Data.Shape = [vocabSize, embDim]

end nn

/-! ## `llm/transformer/attention.go` -/

namespace transformer

open tensor nn

/-- The struct `CausalSelfAttention`; the caches are nil until the first `Forward`. -/
structure CausalSelfAttention (α : Type) where
  CAttn : Linear α
  CProj : Linear α
  NHead : Nat
  NEmb : Nat
  input : Option (NDArray α)
  q : Option (NDArray α)
  k : Option (NDArray α)
  v : Option (NDArray α)
  att : Option (NDArray α)

/-- Step 2 of `CausalSelfAttention.Forward`: the loops that split `qkv` into
heads. The state is the triple of the buffers of `q`, `k` and `v`; with
`dst := ((b*NHead + h)*T + t)*headDim + d` and `src := (b*T + t)*3C + h*headDim + d`
the body is `q[dst] = qkv[src]; k[dst] = qkv[src + C]; v[dst] = qkv[src + 2C]`. -/
def splitLoop {α : Type} (qkvData : List α) (B T C NHead headDim : Nat)
    (s : List α × List α × List α) : Option (List α × List α × List α) :=
  forRange (fun b s => forRange (fun t s => forRange (fun h s => forRange (fun d s => do
    let xq ← qkvData[(b * T + t) * (3 * C) + h * headDim + d]?
    let q1 ← setIdx s.1 (((b * NHead + h) * T + t) * headDim + d) xq
    let xk ← qkvData[(b * T + t) * (3 * C) + C + h * headDim + d]?
    let k1 ← setIdx s.2.1 (((b * NHead + h) * T + t) * headDim + d) xk
    let xv ← qkvData[(b * T + t) * (3 * C) + 2 * C + h * headDim + d]?
    let v1 ← setIdx s.2.2 (((b * NHead + h) * T + t) * headDim + d) xv
    some (q1, k1, v1)) headDim s) NHead s) T s) B s

/-- The loop `for i := range att.Data { att.Data[i] *= scale }`. -/
def scaleLoop {α : Type} [Semiring α] (scale : α) (d : List α) : Option (List α) :=
  forRange (fun i d => do
    let y ← d[i]?
    setIdx d i (y * scale)) d.length d

/-- The causal mask: for `t2 > t1` and every `b < B*NHead`,
`att[(b*T + t1)*T + t2] = minVal` with `minVal = -1e9`. -/
def maskLoop {α : Type} [Ring α] (B T NHead : Nat) (d : List α) : Option (List α) :=
  forRange (fun t1 d => forRange (fun t2 d =>
    if t2 > t1 then
      forRange (fun b d => setIdx d ((b * T + t1) * T + t2) (-1000000000)) (B * NHead) d
    else some d) T d) T d

/-- Step 5 of `CausalSelfAttention.Forward`: the loops that reassemble the heads,
`out[(b*T + t)*C + h*headDim + d] = y[((b*NHead + h)*T + t)*headDim + d]`. -/
def reassembleLoop {α : Type} (yData : List α) (B T C NHead headDim : Nat) (d : List α) :
    Option (List α) :=
  forRange (fun b s => forRange (fun t s => forRange (fun h s => forRange (fun d s => do
    let val ← yData[((b * NHead + h) * T + t) * headDim + d]?
    setIdx s ((b * T + t) * C + h * headDim + d) val) headDim s) NHead s) T s) B d

/-- Steps 1 to 3 of `CausalSelfAttention.Forward`, up to and including the
causal mask: the projection layer with its cached input, the tensors `q`, `k`,
`v` and the scaled and masked scores `att` that `Softmax` is applied to.
`math.Sqrt` is the parameter `sqrt`. The reads `x.Shape[0..2]` panic for rank
below 3 and the division `C / csa.NHead` panics for `NHead = 0`. -/
def CausalSelfAttention.maskedScores {α : Type} [LinearOrderedField α] (sqrt : α → α)
    (csa : CausalSelfAttention α) (x : NDArray α) :
    Option (Linear α × NDArray α × NDArray α × NDArray α × NDArray α) := do
  let B ← x.Shape[0]?
  let T ← x.Shape[1]?
  let C ← x.Shape[2]?
  if csa.NHead = 0 then none
  else do
    let headDim := C / csa.NHead
    let r ← csa.CAttn.Forward x
    let s ← splitLoop r.2.Data B T C csa.NHead headDim
      ((New [B, csa.NHead, T, headDim] : NDArray α).Data,
        (New [B, csa.NHead, T, headDim] : NDArray α).Data,
        (New [B, csa.NHead, T, headDim] : NDArray α).Data)
    let q : NDArray α := { (New [B, csa.NHead, T, headDim] : NDArray α) with Data := s.1 }
    let k : NDArray α := { (New [B, csa.NHead, T, headDim] : NDArray α) with Data := s.2.1 }
    let v : NDArray α := { (New [B, csa.NHead, T, headDim] : NDArray α) with Data := s.2.2 }
    let kt ← Transpose k
    let att ← MatMul q kt
    let d1 ← scaleLoop (1 / sqrt (headDim : α)) att.Data
    let d2 ← maskLoop B T csa.NHead d1
    some (r.1, q, k, v, { att with Data := d2 })

/-- The method `CausalSelfAttention.Forward`: the layer with its caches, and the
output. `math.Exp` and `math.Sqrt` are the parameters `ex` and `sqrt`. -/
def CausalSelfAttention.Forward {α : Type} [LinearOrderedField α] (ex sqrt : α → α)
    (csa : CausalSelfAttention α) (x : NDArray α) :
    Option (CausalSelfAttention α × NDArray α) := do
  let B ← x.Shape[0]?
  let T ← x.Shape[1]?
  let C ← x.Shape[2]?
  let m ← csa.maskedScores sqrt x
  let probs ← Softmax ex m.2.2.2.2
  let y ← MatMul probs m.2.2.2.1
  let d ← reassembleLoop y.Data B T C csa.NHead (C / csa.NHead) (New [B, T, C] : NDArray α).Data
  let r ← csa.CProj.Forward { (New [B, T, C] : NDArray α) with Data := d }
  some ({ csa with
          CAttn := m.1, CProj := r.1, input := some x,
          q := some m.2.1, k := some m.2.2.1, v := some m.2.2.2.1, att := some probs }, r.2)

end transformer

/-! ## `llm/optim/scheduler.go` -/

namespace optim

/-- The struct `CosineScheduleWithWarmup`. -/
structure CosineScheduleWithWarmup (α : Type) where
  WarmupSteps : Nat
  MaxSteps : Nat
  LRMax : α
  LRMin : α

/-- The method `GetLR`; `math.Cos` and `math.Pi` are the parameters `cos` and `pi`.
In the last branch `WarmupSteps ≤ step ≤ MaxSteps`, so both differences are
taken without going below zero. -/
def CosineScheduleWithWarmup.GetLR {α : Type} [Field α] (cos : α → α) (pi : α)
    (s : CosineScheduleWithWarmup α) (step : Nat) : α :=
  if step < s.WarmupSteps then
    s.LRMax * (step : α) / (s.WarmupSteps : α)
  else if step > s.MaxSteps then
    s.LRMin
  else
    s.LRMin + (s.LRMax - s.LRMin)
      * (1 / 2 * (1 + cos (pi * (((step - s.WarmupSteps : Nat) : α)
          / ((s.MaxSteps - s.WarmupSteps : Nat) : α)))))

end optim

/-! ## `llm/optim/adamw.go` -/

namespace optim

open tensor nn

/-- The struct `AdamW`. -/
structure AdamW (α : Type) where
  Params : List (Parameter α)
  LR : α
  Beta1 : α
  Beta2 : α
  Eps : α
  WeightDecay : α
  step : Nat
  m : List α
  v : List α

/-- The constructor `NewAdamW`. -/
def NewAdamW {α : Type} [Field α] (params : List (Parameter α)) (lr : α) : AdamW α :=
  { Params := params
    LR := lr
    Beta1 := 9 / 10
    Beta2 := 999 / 1000
    Eps := 1 / 100000000
    WeightDecay := 1 / 100
    step := 0
    m := List.replicate (params.foldl (fun totalSize p => totalSize + p.Data.Size) 0) 0
    v := List.replicate (params.foldl (fun totalSize p => totalSize + p.Data.Size) 0) 0 }

/-- The inner loop of `AdamW.Step` for one parameter with gradient buffer
`gData` and `size` elements. The state is the triple of the parameter's value
buffer and the moment buffers `opt.m`, `opt.v`. `math.Sqrt` is the parameter
`sqrt`. -/
def stepParam {α : Type} [Field α] (sqrt : α → α) (opt : AdamW α)
    (biasCorrection1 biasCorrection2 : α) (gData : List α) (size offset : Nat)
    (s : List α × List α × List α) : Option (List α × List α × List α) :=
  forRange (fun i s => do
    let grad ← gData[i]?
    let data ← s.1[i]?
    let data1 := data - opt.LR * opt.WeightDecay * data
    let m0 ← s.2.1[offset + i]?
    let v0 ← s.2.2[offset + i]?
    let m1 := opt.Beta1 * m0 + (1 - opt.Beta1) * grad
    let v1 := opt.Beta2 * v0 + (1 - opt.Beta2) * grad * grad
    let ms ← setIdx s.2.1 (offset + i) m1
    let vs ← setIdx s.2.2 (offset + i) v1
    let denom := sqrt v1 / sqrt biasCorrection2 + opt.Eps
    let stepSize := opt.LR / biasCorrection1
    let ds ← setIdx s.1 i (data1 - stepSize * (m1 / denom))
    some (ds, ms, vs)) size s

/-- The outer loop of `AdamW.Step`, `for _, p := range opt.Params`, with the
running `offset`: the updated parameters and moment buffers. -/
def stepLoop {α : Type} [Field α] (sqrt : α → α) (opt : AdamW α)
    (biasCorrection1 biasCorrection2 : α) :
    List (Parameter α) → Nat → List α → List α →
      Option (List (Parameter α) × List α × List α)
  | [], _, m, v => some ([], m, v)
  | p :: ps, offset, m, v =>
    (stepParam sqrt opt biasCorrection1 biasCorrection2 p.Grad.Data p.Data.Size offset
        (p.Data.Data, m, v)).bind (fun s =>
      (stepLoop sqrt opt biasCorrection1 biasCorrection2 ps (offset + p.Data.Size) s.2.1
          s.2.2).bind (fun r =>
        some ({ p with Data := { p.Data with Data := s.1 } } :: r.1, r.2.1, r.2.2)))

/-- The method `AdamW.Step`; `math.Pow(beta, step)` is the power `beta ^ step`. -/
def AdamW.Step {α : Type} [Field α] (sqrt : α → α) (opt : AdamW α) : Option (AdamW α) :=
  (stepLoop sqrt opt (1 - opt.Beta1 ^ (opt.step + 1)) (1 - opt.Beta2 ^ (opt.step + 1))
      opt.Params 0 opt.m opt.v).map (fun r =>
    { opt with Params := r.1, step := opt.step + 1, m := r.2.1, v := r.2.2 })

/-- The inner loop of the norm computation of `ClipGradNorm`:
`totalNorm += grad * grad` over the first `p.Data.Size` gradient elements. -/
def gradSqLoop {α : Type} [Semiring α] (p : Parameter α) (totalNorm : α) : Option α :=
  forRange (fun i totalNorm => do
    let grad ← p.Grad.Data[i]?
    some (totalNorm + grad * grad)) p.Data.Size totalNorm

/-- The outer loop of the norm computation of `ClipGradNorm`. -/
def totalNormLoop {α : Type} [Semiring α] : List (Parameter α) → α → Option α
  | [], totalNorm => some totalNorm
  | p :: ps, totalNorm => (gradSqLoop p totalNorm).bind (totalNormLoop ps)

/-- The inner loop of the clipping: `p.Grad.Data[i] *= clipCoef`. -/
def clipParam {α : Type} [Semiring α] (clipCoef : α) (p : Parameter α) : Option (Parameter α) :=
  (forRange (fun i d => do
      let g ← d[i]?
      setIdx d i (g * clipCoef)) p.Data.Size p.Grad.Data).map
    (fun d => { p with Grad := { p.Grad with Data := d } })

/-- The outer loop of the clipping. -/
def clipLoop {α : Type} [Semiring α] (clipCoef : α) : List (Parameter α) →
    Option (List (Parameter α))
  | [] => some []
  | p :: ps => (clipParam clipCoef p).bind (fun p1 =>
      (clipLoop clipCoef ps).bind (fun ps1 => some (p1 :: ps1)))

/-- The method `AdamW.ClipGradNorm`. -/
def AdamW.ClipGradNorm {α : Type} [LinearOrderedField α] (sqrt : α → α) (opt : AdamW α)
    (maxNorm : α) : Option (AdamW α) :=
  if maxNorm ≤ 0 then some opt
  else
    (totalNormLoop opt.Params 0).bind (fun total =>
      if sqrt total > maxNorm then
        (clipLoop (maxNorm / (sqrt total + 1 / 1000000)) opt.Params).map
          (fun ps => { opt with Params := ps })
      else some opt)

/-- The first moment that `AdamW.Step` stores for an element with moment `m` and gradient `g`. -/
def adamM {α : Type} [Field α] (opt : AdamW α) (m g : α) : α :=
  opt.Beta1 * m + (1 - opt.Beta1) * g

/-- The second moment that `AdamW.Step` stores for an element with moment `v` and gradient `g`. -/
def adamV {α : Type} [Field α] (opt : AdamW α) (v g : α) : α :=
  opt.Beta2 * v + (1 - opt.Beta2) * g * g

/-- The value that `AdamW.Step` stores for an element with value `w` and new
moments `m1`, `v1`, under the bias corrections `bc1`, `bc2`. -/
def adamW {α : Type} [Field α] (sqrt : α → α) (opt : AdamW α) (bc1 bc2 w m1 v1 : α) : α :=
  (w - opt.LR * opt.WeightDecay * w) - opt.LR / bc1 * (m1 / (sqrt v1 / sqrt bc2 + opt.Eps))

/-- The flattened offset of parameter `j`: the sum of the sizes of the parameters before it. -/
def flatOffset {α : Type} (params : List (Parameter α)) (j : Nat) : Nat :=
  ((params.take j).map (fun p => p.Data.Size)).sum

/-- The sum of the squares of all gradient elements of all parameters. -/
def gradSqSum {α : Type} [Semiring α] (params : List (Parameter α)) : α :=
  (params.map (fun p => (p.Grad.Data.map (fun g => g * g)).sum)).sum

end optim

/-! ## `llm/transformer/config.go`, `attention.go` (constructor), `block.go`, `gpt.go` -/

namespace transformer

open tensor nn

/-- The struct `Config`. -/
structure Config (α : Type) where
  VocabSize : Nat
  BlockSize : Nat
  NLayer : Nat
  NHead : Nat
  NEmb : Nat
  PDrop : α

/-- The constructor `NewCausalSelfAttention`, which makes no check on the
configuration. The layer, and the number of random values drawn after the call. -/
def NewCausalSelfAttention {α : Type} [Field α] (rnd : Nat → α) (k : Nat) (cfg : Config α) :
    CausalSelfAttention α × Nat :=
  ({ CAttn := (NewLinear rnd k cfg.NEmb (3 * cfg.NEmb)).1
     CProj := (NewLinear rnd (NewLinear rnd k cfg.NEmb (3 * cfg.NEmb)).2 cfg.NEmb cfg.NEmb).1
     NHead := cfg.NHead
     NEmb := cfg.NEmb
     input := none
     q := none
     k := none
     v := none
     att := none },
    (NewLinear rnd (NewLinear rnd k cfg.NEmb (3 * cfg.NEmb)).2 cfg.NEmb cfg.NEmb).2)

/-- The method `CausalSelfAttention.Parameters`. -/
def CausalSelfAttention.Parameters {α : Type} (csa : CausalSelfAttention α) :
    List (Parameter α) :=
  csa.CAttn.Parameters ++ csa.CProj.Parameters

/-- The struct `Block`. -/
structure Block (α : Type) where
  LN1 : LayerNorm α
  Attn : CausalSelfAttention α
  LN2 : LayerNorm α
  MLP : MLP α
  Drop1 : Dropout α
  Drop2 : Dropout α

/-- The constructor `NewBlock`. -/
def NewBlock {α : Type} [Field α] (rnd : Nat → α) (k : Nat) (cfg : Config α) : Block α × Nat :=
  ({ LN1 := NewLayerNorm cfg.NEmb
     Attn := (NewCausalSelfAttention rnd k cfg).1
     LN2 := NewLayerNorm cfg.NEmb
     MLP := (NewMLP rnd (NewCausalSelfAttention rnd k cfg).2 cfg.NEmb cfg.PDrop).1
     Drop1 := NewDropout cfg.PDrop
     Drop2 := NewDropout cfg.PDrop },
    (NewMLP rnd (NewCausalSelfAttention rnd k cfg).2 cfg.NEmb cfg.PDrop).2)

/-- The method `Block.Forward`: the block with the caches of its layers, the
output, and the number of random values drawn after the call. -/
def Block.Forward {α : Type} [LinearOrderedField α] (ex sqrt th : α → α) (pi : α)
    (rnd : Nat → α) (k : Nat) (b : Block α) (x : NDArray α) :
    Option (Block α × NDArray α × Nat) := do
  let n1 ← b.LN1.Forward sqrt x
  let a ← b.Attn.Forward ex sqrt n1.2
  let d1 ← b.Drop1.ForwardAt rnd k a.2
  let x1 ← tensor.Add x d1.2.1
  let n2 ← b.LN2.Forward sqrt x1
  let m ← b.MLP.Forward sqrt th pi rnd d1.2.2 n2.2
  let d2 ← b.Drop2.ForwardAt rnd m.2.2 m.2.1
  let x2 ← tensor.Add x1 d2.2.1
  some ({ b with LN1 := n1.1, Attn := a.1, Drop1 := d1.1, LN2 := n2.1, MLP := m.1,
                 Drop2 := d2.1 }, x2, d2.2.2)

/-- The method `Block.Parameters`. -/
def Block.Parameters {α : Type} (b : Block α) : List (Parameter α) :=
  b.LN1.Parameters ++ b.Attn.Parameters ++ b.LN2.Parameters ++ b.MLP.Parameters

/-- The struct `GPT`. -/
structure GPT (α : Type) where
  Config : Config α
  WTE : Embedding α
  WPE : Embedding α
  Drop : Dropout α
  Blocks : List (Block α)
  LNF : LayerNorm α
  LMHead : Linear α

/-- The loop `for i := 0; i < cfg.NLayer; i++ { gpt.Blocks[i] = NewBlock(cfg) }`:
the blocks, and the number of random values drawn after the loop. -/
def newBlocks {α : Type} [Field α] (rnd : Nat → α) (cfg : Config α) :
    Nat → Nat → List (Block α) × Nat
  | 0, k => ([], k)
  | n + 1, k =>
    ((NewBlock rnd k cfg).1 :: (newBlocks rnd cfg n (NewBlock rnd k cfg).2).1,
      (newBlocks rnd cfg n (NewBlock rnd k cfg).2).2)

/-- The constructor `NewGPT`, which makes no check on the configuration. -/
def NewGPT {α : Type} [Field α] (rnd : Nat → α) (k : Nat) (cfg : Config α) : GPT α × Nat :=
  let wte := NewEmbedding rnd k cfg.VocabSize cfg.NEmb
  let wpe := NewEmbedding rnd wte.2 cfg.BlockSize cfg.NEmb
  let head := NewLinear rnd wpe.2 cfg.NEmb cfg.VocabSize
  let blocks := newBlocks rnd cfg cfg.NLayer head.2
  ({ Config := cfg
     WTE := wte.1
     WPE := wpe.1
     Drop := NewDropout cfg.PDrop
     Blocks := blocks.1
     LNF := NewLayerNorm cfg.NEmb
     LMHead := head.1 },
    blocks.2)

/-- The loop `for i := range flatIdx { flatIdx[i] = int(idx.Data[i]) }` over
`flatIdx := make([]int, n)`; `toInt` is the conversion `int(·)`. A negative id
is an index below zero, with which the lookup in the embedding table panics. -/
def flatIdxLoop {α : Type} (toInt : α → Int) (idxData : List α) (n : Nat) : Option (List Nat) :=
  forRange (fun i flatIdx => do
    let v ← idxData[i]?
    if toInt v < 0 then none else setIdx flatIdx i (toInt v).toNat) n (List.replicate n 0)

/-- The loops `for b { for t { flatPos[b*T + t] = t } }` over `flatPos := make([]int, B*T)`. -/
def flatPosLoop (B T : Nat) : Option (List Nat) :=
  forRange (fun b flatPos =>
    forRange (fun t flatPos => setIdx flatPos (b * T + t) t) T flatPos) B
    (List.replicate (B * T) 0)

/-- The loop `for _, block := range gpt.Blocks { x = block.Forward(x) }`. -/
def blocksForward {α : Type} [LinearOrderedField α] (ex sqrt th : α → α) (pi : α)
    (rnd : Nat → α) : List (Block α) → Nat → NDArray α →
    Option (List (Block α) × NDArray α × Nat)
  | [], k, x => some ([], x, k)
  | b :: bs, k, x =>
    (b.Forward ex sqrt th pi rnd k x).bind (fun r =>
      (blocksForward ex sqrt th pi rnd bs r.2.2 r.2.1).bind (fun rs =>
        some (r.1 :: rs.1, rs.2.1, rs.2.2)))

/-- The first part of `GPT.Forward`, up to `x = gpt.Drop.Forward(x)`: the two
embedding layers with their caches, then the dropout layer, its output and the
number of random values drawn after the call. The reads `idx.Shape[0]` and
`idx.Shape[1]` panic for rank below 2. The slice `posIdx` that the source fills
first is never read. -/
def GPT.embed {α : Type} [LinearOrderedField α] (toInt : α → Int) (rnd : Nat → α) (k : Nat)
    (gpt : GPT α) (idx : NDArray α) :
    Option (Embedding α × Embedding α × Dropout α × NDArray α × Nat) := do
  let B ← idx.Shape[0]?
  let T ← idx.Shape[1]?
  let flatIdx ← flatIdxLoop toInt idx.Data (B * T)
  let tok ← gpt.WTE.ForwardIndices flatIdx B T
  let flatPos ← flatPosLoop B T
  let pos ← gpt.WPE.ForwardIndices flatPos B T
  let x ← tensor.Add tok.2 pos.2
  let d ← gpt.Drop.ForwardAt rnd k x
  some (tok.1, pos.1, d)

/-- The method `GPT.Forward`: the model with the caches of its layers, the
logits, and the number of random values drawn after the call. -/
def GPT.Forward {α : Type} [LinearOrderedField α] (ex sqrt th : α → α) (pi : α)
    (toInt : α → Int) (rnd : Nat → α) (k : Nat) (gpt : GPT α) (idx : NDArray α) :
    Option (GPT α × NDArray α × Nat) := do
  let e ← gpt.embed toInt rnd k idx
  let bs ← blocksForward ex sqrt th pi rnd gpt.Blocks e.2.2.2.2 e.2.2.2.1
  let n ← gpt.LNF.Forward sqrt bs.2.1
  let h ← gpt.LMHead.Forward n.2
  some ({ gpt with WTE := e.1, WPE := e.2.1, Drop := e.2.2.1, Blocks := bs.1, LNF := n.1,
                   LMHead := h.1 }, h.2, bs.2.2)

/-- The method `GPT.Parameters`; the loop over the blocks appends
`b.Parameters()` for each block in order. -/
def GPT.Parameters {α : Type} (gpt : GPT α) : List (Parameter α) :=
  gpt.Blocks.foldl (fun params b => params ++ b.Parameters)
      (([] ++ gpt.WTE.Parameters) ++ gpt.WPE.Parameters)
    ++ gpt.LNF.Parameters ++ gpt.LMHead.Parameters

end transformer

namespace transformer

open tensor nn

/-! ## Shapes of the parameters of a model (specification vocabulary) -/

/-- The parameters of a block have the shapes `NewBlock(cfg)` gives them. -/
def Block.Shaped {α : Type} (b : Block α) (cfg : Config α) : Prop :=
  b.LN1.Shaped cfg.NEmb ∧ b.Attn.CAttn.Shaped cfg.NEmb (3 * cfg.NEmb) ∧
  b.Attn.CProj.Shaped cfg.NEmb cfg.NEmb ∧ b.Attn.NHead = cfg.NHead ∧
  b.LN2.Shaped cfg.NEmb ∧ b.MLP.FC1.Shaped cfg.NEmb (4 * cfg.NEmb) ∧
  b.MLP.FC2.Shaped (4 * cfg.NEmb) cfg.NEmb

/-- The parameters of a model have the shapes `NewGPT(cfg)` gives them. -/
def GPT.Shaped {α : Type} (gpt : GPT α) : Prop :=
  gpt.WTE.Shaped gpt.Config.VocabSize gpt.Config.NEmb ∧
  gpt.WPE.Shaped gpt.Config.BlockSize gpt.Config.NEmb ∧
  (∀ b, b ∈ gpt.Blocks → b.Shaped gpt.Config) ∧
  gpt.LNF.Shaped gpt.Config.NEmb ∧ gpt.LMHead.Shaped gpt.Config.NEmb gpt.Config.VocabSize

/-- The parameter list in the order the specification gives: token embedding,
position embedding, then for each block in index order LN1 gamma, LN1 beta,
CAttn W, CAttn B, CProj W, CProj B, LN2 gamma, LN2 beta, FC1 W, FC1 B, FC2 W,
FC2 B, then final LayerNorm gamma, beta, then LMHead W, B. -/
def specParameters {α : Type} (gpt : GPT α) : List (Parameter α) :=
  [gpt.WTE.Weight, gpt.WPE.Weight]
    ++ (gpt.Blocks.map (fun b =>
        [b.LN1.Gamma, b.LN1.Beta, b.Attn.CAttn.W, b.Attn.CAttn.B, b.Attn.CProj.W, b.Attn.CProj.B,
          b.LN2.Gamma, b.LN2.Beta, b.MLP.FC1.W, b.MLP.FC1.B, b.MLP.FC2.W, b.MLP.FC2.B])).flatten
    ++ [gpt.LNF.Gamma, gpt.LNF.Beta, gpt.LMHead.W, gpt.LMHead.B]

end transformer

/-! ## `llm/io/checkpoint.go` -/

namespace checkpoint

open tensor nn transformer

/-- One record of `weights.bin`, as `writeParam` writes it and `readParam` returns it. -/
structure Record (α : Type) where
  name : String
  shape : List Nat
  data : List α
deriving DecidableEq

/-- The records that `SaveCheckpoint` writes: one per parameter of
`model.Parameters()`, in order. -/
def SaveCheckpoint {α : Type} (model : GPT α) : List (Record α) :=
  model.Parameters.map (fun p => { name := p.Name, shape := p.Data.Shape, data := p.Data.Data })

/-- The map `paramMap` of `LoadCheckpoint`, built by
`for _, p := range model.Parameters() { paramMap[p.Name] = p }`: a name is
mapped to the position (in `model.Parameters()`) of the last parameter with
that name. -/
def paramMap {α : Type} (params : List (Parameter α)) : String → Option Nat :=
  params.enum.foldl (fun m ip => fun name => if name = ip.2.Name then some ip.1 else m name)
    (fun _ => none)

/-- The body of the restore loop of `LoadCheckpoint` for one record: the
parameters (in the order of `model.Parameters()`) after it. -/
def restoreOne {α : Type} (pm : String → Option Nat) (params : List (Parameter α))
    (r : Record α) : List (Parameter α) :=
  match pm r.name with
  | none => params
  | some j =>
    match params[j]? with
    | none => params
    | some p =>
      if p.Data.Data.length ≠ r.data.length then params
      else params.set j { p with Data := { p.Data with Data := r.data } }

/-- The restore loop of `LoadCheckpoint` over the records read from
`weights.bin`: the parameters of the model, in the order of
`model.Parameters()`, after the load. -/
def LoadCheckpoint {α : Type} (records : List (Record α)) (model : GPT α) : List (Parameter α) :=
  records.foldl (restoreOne (paramMap model.Parameters)) model.Parameters

end checkpoint

/-! ## `llm/transformer/attention.go`: the loops of `Backward` that change the layout -/

namespace transformer

open tensor nn

/-- The loops "Inverse reassemble" of `CausalSelfAttention.Backward`, on the
buffer of `dY := tensor.New(B, csa.NHead, T, headDim)`:
`dY[((b*NHead + h)*T + t)*headDim + d] = dY_flat[(b*T + t)*NEmb + h*headDim + d]`. -/
def inverseReassembleLoop {α : Type} (flatData : List α) (B T NEmb NHead headDim : Nat)
    (d : List α) : Option (List α) :=
  forRange (fun b s => forRange (fun t s => forRange (fun h s => forRange (fun d s => do
    let val ← flatData[(b * T + t) * NEmb + h * headDim + d]?
    setIdx s (((b * NHead + h) * T + t) * headDim + d) val) headDim s) NHead s) T s) B d

/-- Step 8 of `CausalSelfAttention.Backward`, on the buffer of
`dQKV := tensor.New(B, T, 3*csa.NEmb)`: with
`src := ((b*NHead + h)*T + t)*headDim + d` and `offsetSrc := (b*T + t)*(3*NEmb)` the body is
`dQKV[offsetSrc + h*headDim + d] = dQ[src]`,
`dQKV[offsetSrc + NEmb + h*headDim + d] = dK[src]`,
`dQKV[offsetSrc + 2*NEmb + h*headDim + d] = dV[src]`. -/
def qkvGradLoop {α : Type} (dQ dK dV : List α) (B T NEmb NHead headDim : Nat) (d : List α) :
    Option (List α) :=
  forRange (fun b s => forRange (fun t s => forRange (fun h s => forRange (fun d s => do
    let xq ← dQ[((b * NHead + h) * T + t) * headDim + d]?
    let s1 ← setIdx s ((b * T + t) * (3 * NEmb) + h * headDim + d) xq
    let xk ← dK[((b * NHead + h) * T + t) * headDim + d]?
    let s2 ← setIdx s1 ((b * T + t) * (3 * NEmb) + NEmb + h * headDim + d) xk
    let xv ← dV[((b * NHead + h) * T + t) * headDim + d]?
    setIdx s2 ((b * T + t) * (3 * NEmb) + 2 * NEmb + h * headDim + d) xv) headDim s) NHead s) T s)
    B d

end transformer

/-! ## `llm/data/dataset.go` -/

namespace data

open tensor

/-- The struct `TextDataset`; the token ids are values of type `int`. -/
structure TextDataset where
  Tokens : List Int
  BlockSize : Nat

/-- The constructor `NewTextDataset`. -/
def NewTextDataset (tokens : List Int) (blockSize : Nat) : TextDataset :=
  { Tokens := tokens, BlockSize := blockSize }

/-- The inner loop of `GetBatch` for row `b` at `offset`, on the state
`(x.Data, y)`: `x.Data[b*BlockSize+t] = float32(Tokens[offset+t])` and
`y[b*BlockSize+t] = Tokens[offset+t+1]`. -/
def fillRow {α : Type} [Ring α] (tokens : List Int) (blockSize b offset : Nat)
    (s : List α × List Int) : Option (List α × List Int) :=
  forRange (fun t s => do
    let token ← tokens[offset + t]?
    let target ← tokens[offset + t + 1]?
    let x ← setIdx s.1 (b * blockSize + t) (token : α)
    let y ← setIdx s.2 (b * blockSize + t) target
    some (x, y)) blockSize s

/-- The method `GetBatch`. `intn c n` is the value of the call `rand.Intn(n)`
when `c` random values have been drawn before it; `k` is the number drawn
before `GetBatch`. The tensor `x`, the targets `y`, and the number of random
values drawn after the call. -/
def TextDataset.GetBatch {α : Type} [Ring α] (intn : Nat → Nat → Nat) (k : Nat)
    (ds : TextDataset) (batchSize : Nat) : Option (NDArray α × List Int × Nat) :=
  if (ds.Tokens.length : Int) - (ds.BlockSize : Int) - 1 ≤ 0 then
    some (New [batchSize, ds.BlockSize], List.replicate (batchSize * ds.BlockSize) 0, k)
  else
    (forRange (fun b s =>
        fillRow ds.Tokens ds.BlockSize b
          (intn (k + b) (ds.Tokens.length - ds.BlockSize - 1)) s) batchSize
      ((New [batchSize, ds.BlockSize] : NDArray α).Data,
        List.replicate (batchSize * ds.BlockSize) 0)).map
      (fun s => ({ (New [batchSize, ds.BlockSize] : NDArray α) with Data := s.1 }, s.2,
        k + batchSize))

end data

/-! ## `llm/tokenizer/bpe.go` -/

namespace tokenizer

/-- A Go `string`: a sequence of bytes. -/
abbrev Bytes := List (Fin 256)

/-- The type `pair`. -/
structure Pair where
  a : Int
  b : Int
deriving DecidableEq

/-- The read `m[k]` of a Go map, held as a list of key-value pairs with distinct
keys: the value, if the key is present. -/
def mapGet {κ ν : Type} [DecidableEq κ] : List (κ × ν) → κ → Option ν
  | [], _ => none
  | (k', v) :: rest, k => if k' = k then some v else mapGet rest k

/-- The write `m[k] = v` of a Go map. -/
def mapSet {κ ν : Type} [DecidableEq κ] : List (κ × ν) → κ → ν → List (κ × ν)
  | [], k, v => [(k, v)]
  | (k', v') :: rest, k, v => if k' = k then (k, v) :: rest else (k', v') :: mapSet rest k v

/-- The struct `Tokenizer`. The key `fmt.Sprintf("%d,%d", p.a, p.b)` of `Merges`
determines the pair and is held as the pair. -/
structure Tokenizer where
  Vocab : List (Int × Bytes)
  Merges : List (Pair × Int)
  Encoder : List (Bytes × Int)
  Decoder : List (Int × Bytes)
  VocabSize : Int

/-- The constructor `New`. -/
def New : Tokenizer :=
  { Vocab := [], Merges := [], Encoder := [], Decoder := [], VocabSize := 256 }

/-- The function `getStats`, from the index `i` on, with the map `counts` built
so far: `counts[pair{ids[i], ids[i+1]}]++` for every `i < len(ids) - 1`. -/
def statsLoop : List Int → List (Pair × Int) → List (Pair × Int)
  | a :: b :: rest, counts =>
    statsLoop (b :: rest) (mapSet counts ⟨a, b⟩ ((mapGet counts ⟨a, b⟩).getD 0 + 1))
  | _, counts => counts

/-- The function `getStats`. -/
def getStats (ids : List Int) : List (Pair × Int) :=
  statsLoop ids []

/-- The function `getMax` on the entries of `stats` in the order in which the
`range` loop visits them. -/
def getMax (stats : List (Pair × Int)) : Pair :=
  (stats.foldl (fun (acc : Int × Pair) pv => if pv.2 > acc.1 then (pv.2, pv.1) else acc)
    (-1, ⟨0, 0⟩)).2

/-- The function `merge`. -/
def merge : List Int → Pair → Int → List Int
  | a :: b :: rest, p, idx =>
    if a = p.a ∧ b = p.b then idx :: merge rest p idx else a :: merge (b :: rest) p idx
  | [a], _, _ => [a]
  | [], _, _ => []

/-- The body of the first loop of `Train`:
`b := string([]byte{byte(i)}); t.Encoder[b] = i; t.Decoder[i] = b`. -/
def initStep (t : Tokenizer) (i : Nat) : Tokenizer :=
  { t with
    Encoder := mapSet t.Encoder [Fin.ofNat i] (i : Int)
    Decoder := mapSet t.Decoder (i : Int) [Fin.ofNat i] }

/-- The first loop of `Train`, `for i := 0; i < n; i++`. -/
def initLoop : Nat → Tokenizer → Tokenizer
  | 0, t => t
  | n + 1, t => initStep (initLoop n t) n

/-- The body of the merge loop of `Train` after `pair := getMax(stats)`, with
`idx := 256 + i`: `t.Merges[key] = idx`,
`tokenBytes := t.Decoder[pair.a] + t.Decoder[pair.b]`, `t.Decoder[idx] = tokenBytes`,
`t.Encoder[tokenBytes] = idx`. -/
def recordMerge (t : Tokenizer) (pair : Pair) (idx : Int) : Tokenizer :=
  { t with
    Merges := mapSet t.Merges pair idx
    Decoder := mapSet t.Decoder idx
      ((mapGet t.Decoder pair.a).getD [] ++ (mapGet t.Decoder pair.b).getD [])
    Encoder := mapSet t.Encoder
      ((mapGet t.Decoder pair.a).getD [] ++ (mapGet t.Decoder pair.b).getD []) idx }

/-- The merge loop of `Train` with `n` iterations left, at iteration `i`.
`order i` lists the entries of a map in the order in which the `range` loop of
`getMax` visits them in iteration `i`. -/
def trainLoop (order : Nat → List (Pair × Int) → List (Pair × Int)) :
    Nat → Nat → Tokenizer → List Int → Tokenizer
  | 0, _, t, _ => t
  | n + 1, i, t, ids =>
    if (getStats ids).length = 0 then t
    else
      trainLoop order n (i + 1)
        (recordMerge t (getMax (order i (getStats ids))) (256 + (i : Int)))
        (merge ids (getMax (order i (getStats ids))) (256 + (i : Int)))

/-- The last statement of `Train`: `t.VocabSize = 256 + len(t.Merges)`. -/
def setVocabSize (t : Tokenizer) : Tokenizer :=
  { t with VocabSize := 256 + (t.Merges.length : Int) }

/-- The method `Train`; a negative `numMerges` runs no iteration. -/
def Tokenizer.Train (order : Nat → List (Pair × Int) → List (Pair × Int)) (t : Tokenizer)
    (text : Bytes) (vocabSize : Int) : Tokenizer :=
  setVocabSize (trainLoop order (vocabSize - 256).toNat 0 (initLoop 256 t)
    (text.map (fun c => (c.val : Int))))

/-- The search for the pair of lowest rank in `Encode`, over the keys of
`stats` in the order in which the `range` loop visits them: `minRank`,
`bestPair` and `found`. -/
def bestPair (t : Tokenizer) (stats : List (Pair × Int)) : Int × Pair × Bool :=
  stats.foldl (fun (acc : Int × Pair × Bool) pv =>
    match mapGet t.Merges pv.1 with
    | some rank => if rank < acc.1 then (rank, pv.1, true) else acc
    | none => acc) (10000000, ⟨0, 0⟩, false)

/-- One pass through the body of the loop of `Encode`, given the result
`r = (minRank, bestPair, found)` of the search: `none` for `break`, else the
merged ids. -/
def encodeStep (ids : List Int) (r : Int × Pair × Bool) : Option (List Int) :=
  if r.2.2 = false then none else some (merge ids r.2.1 r.1)

/-- The loop `for { ... }` of `Encode`, at iteration `c`. The fuel bounds the
number of iterations that merge; `none` stands for a loop that has not ended
when the fuel is used up. -/
def encodeLoop (order : Nat → List (Pair × Int) → List (Pair × Int)) (t : Tokenizer) :
    Nat → Nat → List Int → Option (List Int)
  | 0, c, ids =>
    if (getStats ids).length = 0 then some ids
    else
      match encodeStep ids (bestPair t (order c (getStats ids))) with
      | none => some ids
      | some _ => none
  | fuel + 1, c, ids =>
    if (getStats ids).length = 0 then some ids
    else
      match encodeStep ids (bestPair t (order c (getStats ids))) with
      | none => some ids
      | some merged => encodeLoop order t fuel (c + 1) merged

/-- The method `Encode` (`nil` is the empty list). -/
def Tokenizer.Encode (order : Nat → List (Pair × Int) → List (Pair × Int)) (fuel : Nat)
    (t : Tokenizer) (text : Bytes) : Option (List Int) :=
  if t.Encoder.length = 0 then some []
  else encodeLoop order t fuel 0 (text.map (fun c => (c.val : Int)))

/-- The method `Decode`; a missing key reads as the empty string. -/
def Tokenizer.Decode (t : Tokenizer) (ids : List Int) : Bytes :=
  ids.foldl (fun sb id => sb ++ (mapGet t.Decoder id).getD []) []

end tokenizer

/-! ## Specification vocabulary for the tokenizer -/

namespace tokenizer

/-- The pair `p` occurs at two adjacent positions of `ids`. -/
def Adjacent (ids : List Int) (p : Pair) : Prop :=
  ∃ l r, ids = l ++ p.a :: p.b :: r

/-- The bytes `t.Decoder[id]` (empty for a missing key). -/
def Tokenizer.bytesOf (t : Tokenizer) (id : Int) : Bytes :=
  (mapGet t.Decoder id).getD []

/-- Every recorded merge `(a, b) -> r` has `a < r` and `b < r`. -/
def Tokenizer.Ranked (t : Tokenizer) : Prop :=
  ∀ p r, mapGet t.Merges p = some r → p.a < r ∧ p.b < r

/-- The invariant of a trained tokenizer: the encoder is not empty, every byte
decodes to itself, and every recorded merge `(a, b) -> r` has `a < r`, `b < r`
and `Decoder[r] = Decoder[a] + Decoder[b]`. -/
def Tokenizer.Trained (t : Tokenizer) : Prop :=
  t.Encoder.length ≠ 0 ∧
  (∀ c : Fin 256, mapGet t.Decoder (c.val : Int) = some [c]) ∧
  ∀ p r, mapGet t.Merges p = some r →
    p.a < r ∧ p.b < r ∧ t.bytesOf r = t.bytesOf p.a ++ t.bytesOf p.b

end tokenizer

namespace tensor

/-! ## Basic facts -/

theorem makeCopy_eq (s : List Nat) : makeCopy s = s := by
  unfold makeCopy
  induction s with
  | nil => rfl
  | cons x xs ih => simp [List.replicate_succ, ih]

theorem shapeSize_eq_prod (shape : List Nat) : shapeSize shape = shape.prod := by
  unfold shapeSize
  have h : ∀ (l : List Nat) (a : Nat), l.foldl (fun size s => size * s) a = a * l.prod := by
    intro l
    induction l with
    | nil => intro a; simp
    | cons x xs ih => intro a; simp [ih, Nat.mul_assoc]
  simpa using h shape 1

theorem stridesLoop_eq (shape : List Nat) :
    stridesLoop shape = (rowMajor shape, shape.prod) := by
  induction shape with
  | nil => rfl
  | cons x xs ih => simp [stridesLoop, rowMajor, ih, Nat.mul_comm]

theorem computeStrides_eq (shape : List Nat) : computeStrides shape = rowMajor shape := by
  unfold computeStrides
  cases shape with
  | nil => rfl
  | cons x xs => simp [stridesLoop_eq]

/-! ## `View` -/

theorem wrapSize_eq (shape : List Nat) : wrapSize shape = shape.prod % 2 ^ 64 := by
  unfold wrapSize
  have h : ∀ (l : List Nat) (a : Nat), a < 2 ^ 64 →
      l.foldl (fun size s => size * s % 2 ^ 64) a = a * l.prod % 2 ^ 64 := by
    intro l
    induction l with
    | nil =>
      intro a ha
      simp only [List.foldl_nil, List.prod_nil, Nat.mul_one]
      exact (Nat.mod_eq_of_lt ha).symm
    | cons x xs ih =>
      intro a _
      simp only [List.foldl_cons, List.prod_cons]
      rw [ih _ (Nat.mod_lt _ (by norm_num)), Nat.mod_mul_mod, Nat.mul_assoc]
  simpa using h shape 1 (by norm_num)

theorem View_ok_of_eq {α : Type} (t : NDArray α) (shape : List Nat) (h : shape.prod = t.Size) :
    t.View shape = Except.ok ⟨t.Data, shape, rowMajor shape, t.Size⟩ := by
  unfold NDArray.View
  simp [wrapSize_eq, makeCopy_eq, computeStrides_eq, h]

theorem View_ok_of_mod_eq {α : Type} (t : NDArray α) (shape : List Nat)
    (h : shape.prod % 2 ^ 64 = t.Size % 2 ^ 64) :
    t.View shape = Except.ok ⟨t.Data, shape, rowMajor shape, t.Size⟩ := by
  unfold NDArray.View
  rw [wrapSize_eq, if_neg (not_not.mpr h), makeCopy_eq, computeStrides_eq]

theorem View_error_of_ne {α : Type} (t : NDArray α) (shape : List Nat)
    (h : shape.prod % 2 ^ 64 ≠ t.Size % 2 ^ 64) :
    t.View shape = Except.error "view size does not match tensor size" := by
  unfold NDArray.View
  rw [wrapSize_eq, if_pos h]

/-- What `View` does on every tensor and every requested shape: it returns an
error exactly when the product of the requested dimensions and `t.Size`
differ modulo `2^64` (so exactly when they differ, if both are below `2^64`);
a successful view has the requested shape, the size of `t`, the row-major
strides of the requested shape and the data of `t`. -/
theorem View_behaviour {α : Type} (t : NDArray α) (shape : List Nat) :
    ((∃ e, t.View shape = Except.error e) ↔ shape.prod % 2 ^ 64 ≠ t.Size % 2 ^ 64) ∧
    (shape.prod < 2 ^ 64 → t.Size < 2 ^ 64 →
      ((∃ e, t.View shape = Except.error e) ↔ shape.prod ≠ t.Size)) ∧
    (∀ v, t.View shape = Except.ok v →
      v.Shape = shape ∧ v.Size = t.Size ∧ v.Strides = rowMajor shape ∧ v.Data = t.Data) := by
  have key : ((∃ e, t.View shape = Except.error e) ↔ shape.prod % 2 ^ 64 ≠ t.Size % 2 ^ 64) ∧
      (∀ v, t.View shape = Except.ok v →
        v.Shape = shape ∧ v.Size = t.Size ∧ v.Strides = rowMajor shape ∧ v.Data = t.Data) := by
    by_cases h : shape.prod % 2 ^ 64 = t.Size % 2 ^ 64
    · rw [View_ok_of_mod_eq t shape h]
      refine ⟨⟨fun ⟨e, he⟩ => (by cases he), fun hne => absurd h hne⟩, ?_⟩
      intro v hv
      cases hv
      exact ⟨rfl, rfl, rfl, rfl⟩
    · rw [View_error_of_ne t shape h]
      refine ⟨⟨fun _ => h, fun _ => ⟨_, rfl⟩⟩, ?_⟩
      intro v hv
      cases hv
  refine ⟨key.1, ?_, key.2⟩
  intro h1 h2
  rw [key.1, Nat.mod_eq_of_lt h1, Nat.mod_eq_of_lt h2]

/-- C2: `View` does not fail on every size mismatch. The empty tensor `New(0)`
has `Size = 0`; the request `View(1<<32, 1<<32)` has the product `2^64`, which
differs from `0`, yet the 64-bit product `size` wraps to `0` and `View`
returns a tensor of shape `[2^32, 2^32]` over the empty buffer instead of the
size-mismatch error. -/
theorem View_size_mismatch_succeeds :
    ([4294967296, 4294967296] : List Nat).prod ≠ (New [0] : NDArray ℤ).Size ∧
    (New [0] : NDArray ℤ).View [4294967296, 4294967296]
      = Except.ok ⟨[], [4294967296, 4294967296], [4294967296, 1], 0⟩ := by
  refine ⟨by decide, ?_⟩
  rw [View_ok_of_mod_eq _ _ (by decide)]
  rfl

theorem New_facts {α : Type} [Zero α] (shape : List Nat) :
    (New shape : NDArray α).Shape = shape ∧ (New shape : NDArray α).Size = shape.prod ∧
    (New shape : NDArray α).Strides = rowMajor shape ∧
    (New shape : NDArray α).Data = List.replicate shape.prod 0 := by
  simp [New, makeCopy_eq, shapeSize_eq_prod, computeStrides_eq]

theorem View_roundtrip {α : Type} (t : NDArray α) (s : List Nat)
    (hsize : t.Size = t.Shape.prod) (hstr : t.Strides = rowMajor t.Shape)
    (hs : s.prod = t.Size) :
    ∃ v, t.View s = Except.ok v ∧ v.View t.Shape = Except.ok t := by
  refine ⟨_, View_ok_of_eq t s hs, ?_⟩
  rw [View_ok_of_eq _ t.Shape (by simpa using hsize.symm)]
  cases t
  simp_all

/-- C3: for a tensor `t` built by `New`, `NewFull` or `NewFromData` and a shape
`s` whose product is `t.Size`, viewing `t` as `s` succeeds, and viewing the
result as `t.Shape` succeeds and gives back `t` itself (same shape, strides,
size and data). -/
theorem View_round_trip {α : Type} [Zero α] (t : NDArray α) (s : List Nat)
    (ht : Constructed t) (hs : s.prod = t.Size) :
    ∃ v, t.View s = Except.ok v ∧ v.View t.Shape = Except.ok t := by
  obtain ⟨shape, h | ⟨val, h⟩ | ⟨data, h⟩⟩ := ht <;> subst h <;>
    apply View_roundtrip <;>
    simp [NewFull, NewFromData, New_facts] <;> simpa [NewFull, NewFromData, New_facts] using hs

theorem View_round_trip_witness :
    ∃ v, (NewFromData [1, 2, 3, 4, 5, 6] [2, 3] : NDArray ℤ).View [6, 1] = Except.ok v ∧
      v.View (NewFromData [1, 2, 3, 4, 5, 6] [2, 3] : NDArray ℤ).Shape
        = Except.ok (NewFromData [1, 2, 3, 4, 5, 6] [2, 3]) :=
  View_round_trip (NewFromData [1, 2, 3, 4, 5, 6] [2, 3]) [6, 1]
    ⟨[2, 3], Or.inr (Or.inr ⟨[1, 2, 3, 4, 5, 6], rfl⟩)⟩ (by decide)

/-! ## Loop rules -/

theorem forRange_inv {σ : Type} (body : Nat → σ → Option σ) (Inv : Nat → σ → Prop) (n : Nat)
    (s0 : σ) (h0 : Inv 0 s0)
    (hstep : ∀ i s, i < n → Inv i s → ∃ s', body i s = some s' ∧ Inv (i + 1) s') :
    ∃ s', forRange body n s0 = some s' ∧ Inv n s' := by
  induction n with
  | zero => exact ⟨s0, rfl, h0⟩
  | succ k ih =>
    obtain ⟨s1, h1, hI⟩ := ih (fun i s hi => hstep i s (Nat.lt_succ_of_lt hi))
    obtain ⟨s2, h2, hI2⟩ := hstep k s1 (Nat.lt_succ_self k) hI
    exact ⟨s2, by simp [forRange, h1, h2], hI2⟩

theorem setIdx_eq_some {α : Type} (s : List α) (i : Nat) (v : α) (h : i < s.length) :
    setIdx s i v = some (s.set i v) := by
  simp [setIdx, h]

theorem setIdx_eq_none {α : Type} (s : List α) (i : Nat) (v : α) (h : s.length ≤ i) :
    setIdx s i v = none := by
  simp [setIdx, Nat.not_lt.mpr h]

/-! ## Index arithmetic -/

theorem idx2_lt {m n i j : Nat} (hi : i < m) (hj : j < n) : i * n + j < m * n := by
  calc i * n + j < i * n + n := by omega
    _ = (i + 1) * n := by ring
    _ ≤ m * n := Nat.mul_le_mul_right n hi

theorem idx3_lt {B m n b i j : Nat} (hb : b < B) (hi : i < m) (hj : j < n) :
    b * (m * n) + i * n + j < B * (m * n) := by
  have h := idx2_lt hi hj
  have h2 : b * (m * n) + (i * n + j) < B * (m * n) := idx2_lt hb h
  omega

theorem idx2_inj {n a j a' j' : Nat} (hj : j < n) (hj' : j' < n)
    (h : a * n + j = a' * n + j') : a = a' ∧ j = j' := by
  have h1 : (a * n + j) / n = a := by
    rw [Nat.add_comm, Nat.add_mul_div_right _ _ (by omega), Nat.div_eq_of_lt hj]; simp
  have h2 : (a' * n + j') / n = a' := by
    rw [Nat.add_comm, Nat.add_mul_div_right _ _ (by omega), Nat.div_eq_of_lt hj']; simp
  have ha : a = a' := by rw [← h1, ← h2, h]
  subst ha
  exact ⟨rfl, by omega⟩

theorem idx3_inj {m n b i j b' i' j' : Nat} (hi : i < m) (hj : j < n) (hi' : i' < m)
    (hj' : j' < n) (h : b * (m * n) + i * n + j = b' * (m * n) + i' * n + j') :
    b = b' ∧ i = i' ∧ j = j' := by
  have h1 : (b * m + i) * n + j = (b' * m + i') * n + j' := by
    have e1 : (b * m + i) * n + j = b * (m * n) + i * n + j := by ring
    have e2 : (b' * m + i') * n + j' = b' * (m * n) + i' * n + j' := by ring
    rw [e1, e2, h]
  obtain ⟨h2, h3⟩ := idx2_inj hj hj' h1
  obtain ⟨h4, h5⟩ := idx2_inj hi hi' h2
  exact ⟨h4, h5, h3⟩

/-! ## Three nested loops that write each cell once -/

theorem nest3_write {α : Type} (B m n L : Nat) (pos : Nat → Nat → Nat → Nat)
    (val : Nat → Nat → Nat → Option α) (w : Nat → Nat → Nat → α) (d0 : List α)
    (hval : ∀ b i j, b < B → i < m → j < n → val b i j = some (w b i j))
    (hpos : ∀ b i j, b < B → i < m → j < n → pos b i j < L)
    (hinj : ∀ b i j b' i' j', b < B → i < m → j < n → b' < B → i' < m → j' < n →
      pos b i j = pos b' i' j' → b = b' ∧ i = i' ∧ j = j')
    (hlen : d0.length = L) :
    ∃ d, forRange (fun b d => forRange (fun i d => forRange (fun j d =>
            (val b i j).bind (fun v => setIdx d (pos b i j) v)) n d) m d) B d0 = some d ∧
      d.length = L ∧
      (∀ b i j, b < B → i < m → j < n → d[pos b i j]? = some (w b i j)) ∧
      (∀ p, (∀ b i j, b < B → i < m → j < n → pos b i j ≠ p) → d[p]? = d0[p]?) := by
  -- the invariant before the iteration `(b, i, j)`
  let P : Nat → Nat → Nat → List α → Prop := fun b i j d =>
    d.length = L ∧
    (∀ b' i' j', b' < B → i' < m → j' < n →
      (b' < b ∨ (b' = b ∧ (i' < i ∨ (i' = i ∧ j' < j)))) → d[pos b' i' j']? = some (w b' i' j')) ∧
    (∀ p, (∀ b i j, b < B → i < m → j < n → pos b i j ≠ p) → d[p]? = d0[p]?)
  have hcell : ∀ b i j d, b < B → i < m → j < n → P b i j d →
      ∃ d', (val b i j).bind (fun v => setIdx d (pos b i j) v) = some d' ∧ P b i (j + 1) d' := by
    intro b i j d hb hi hj ⟨hl, hdone, hrest⟩
    have hp : pos b i j < d.length := hl ▸ hpos b i j hb hi hj
    refine ⟨d.set (pos b i j) (w b i j), by simp [hval b i j hb hi hj, setIdx_eq_some _ _ _ hp],
      by simpa using hl, ?_, ?_⟩
    · intro b' i' j' hb' hi' hj' hlt
      by_cases heq : pos b i j = pos b' i' j'
      · obtain ⟨e1, e2, e3⟩ := hinj b i j b' i' j' hb hi hj hb' hi' hj' heq
        subst e1 e2 e3
        simp [List.getElem?_set_self, hp]
      · rw [List.getElem?_set_ne heq]
        apply hdone b' i' j' hb' hi' hj'
        by_contra hcon
        apply heq
        have : b' = b ∧ i' = i ∧ j' = j := by omega
        obtain ⟨e1, e2, e3⟩ := this
        subst e1 e2 e3
        rfl
    · intro p hp'
      rw [List.getElem?_set_ne (hp' b i j hb hi hj)]
      exact hrest p hp'
  have hrow : ∀ b i d, b < B → i < m → P b i 0 d →
      ∃ d', forRange (fun j d => (val b i j).bind (fun v => setIdx d (pos b i j) v)) n d = some d' ∧
        P b (i + 1) 0 d' := by
    intro b i d hb hi hP
    obtain ⟨d', h1, hl, hdone, hrest⟩ :=
      forRange_inv (fun j d => (val b i j).bind (fun v => setIdx d (pos b i j) v))
        (fun j d => P b i j d) n d hP (fun j s hj hs => hcell b i j s hb hi hj hs)
    refine ⟨d', h1, hl, ?_, hrest⟩
    intro b' i' j' hb' hi' hj' hlt
    exact hdone b' i' j' hb' hi' hj' (by omega)
  have hslab : ∀ b d, b < B → P b 0 0 d →
      ∃ d', forRange (fun i d => forRange (fun j d =>
          (val b i j).bind (fun v => setIdx d (pos b i j) v)) n d) m d = some d' ∧
        P (b + 1) 0 0 d' := by
    intro b d hb hP
    obtain ⟨d', h1, hl, hdone, hrest⟩ :=
      forRange_inv (fun i d => forRange (fun j d =>
          (val b i j).bind (fun v => setIdx d (pos b i j) v)) n d)
        (fun i d => P b i 0 d) m d hP (fun i s hi hs => hrow b i s hb hi hs)
    refine ⟨d', h1, hl, ?_, hrest⟩
    intro b' i' j' hb' hi' hj' hlt
    exact hdone b' i' j' hb' hi' hj' (by omega)
  obtain ⟨d, h1, hl, hdone, hrest⟩ :=
    forRange_inv (fun b d => forRange (fun i d => forRange (fun j d =>
          (val b i j).bind (fun v => setIdx d (pos b i j) v)) n d) m d)
      (fun b d => P b 0 0 d) B d0
      ⟨hlen, fun b' i' j' _ _ _ h => by omega, fun _ _ => rfl⟩
      (fun b s hb hs => hslab b s hb hs)
  exact ⟨d, h1, hl, fun b i j hb hi hj => hdone b i j hb hi hj (by omega), hrest⟩

/-! ## Shapes that end in two matrix axes -/

theorem two_get_left (dims : List Nat) (x y : Nat) :
    (dims ++ [x, y])[dims.length]? = some x := by
  rw [List.getElem?_append_right (by omega)]
  simp

theorem two_get_right (dims : List Nat) (x y : Nat) :
    (dims ++ [x, y])[dims.length + 1]? = some y := by
  rw [List.getElem?_append_right (by omega)]
  simp

theorem two_take (dims : List Nat) (x y : Nat) : (dims ++ [x, y]).take dims.length = dims := by
  simp

theorem two_set_left (dims : List Nat) (x y z : Nat) :
    (dims ++ [x, y]).set dims.length z = dims ++ [z, y] := by
  rw [List.set_append_right _ _ (by omega)]
  simp

theorem two_set_right (dims : List Nat) (x y z : Nat) :
    (dims ++ [x, y]).set (dims.length + 1) z = dims ++ [x, z] := by
  rw [List.set_append_right _ _ (by omega)]
  simp

theorem prod_two (dims : List Nat) (x y : Nat) : (dims ++ [x, y]).prod = dims.prod * (x * y) := by
  simp

/-! ## `PureGoMatMul` -/

theorem dotLoop_eq {α : Type} [Semiring α] (aData bData : List α) (offA offB i j k n : Nat)
    (ha : ∀ l, l < k → offA + i * k + l < aData.length)
    (hb : ∀ l, l < k → offB + l * n + j < bData.length) :
    dotLoop aData bData offA offB i j k n
      = some (∑ l in Finset.range k,
          (aData[offA + i * k + l]?).getD 0 * (bData[offB + l * n + j]?).getD 0) := by
  obtain ⟨s, h1, h2⟩ := forRange_inv
    (fun l sum => do
      let valA ← aData[offA + i * k + l]?
      let valB ← bData[offB + l * n + j]?
      some (sum + valA * valB))
    (fun l s => s = ∑ l' in Finset.range l,
      (aData[offA + i * k + l']?).getD 0 * (bData[offB + l' * n + j]?).getD 0) k 0
    (by simp)
    (by
      intro l s hl hs
      refine ⟨s + (aData[offA + i * k + l]?).getD 0 * (bData[offB + l * n + j]?).getD 0, ?_, ?_⟩
      · simp [List.getElem?_eq_getElem (ha l hl), List.getElem?_eq_getElem (hb l hl)]
      · show _ = _
        rw [Finset.sum_range_succ, hs])
  unfold dotLoop
  rw [h1, h2]

theorem PureGoMatMul_flat {α : Type} [Semiring α] (a b : NDArray α) (dims dims2 : List Nat)
    (M K N : Nat) (ha : a.Shape = dims ++ [M, K]) (hb : b.Shape = dims2 ++ [K, N])
    (hd : dims2.length = dims.length)
    (hla : a.Data.length = dims.prod * (M * K)) (hlb : dims.prod * (K * N) ≤ b.Data.length) :
    ∃ out, PureGoMatMul a b = some out ∧ out.Shape = dims ++ [M, N] ∧
      out.Size = dims.prod * (M * N) ∧ out.Strides = rowMajor (dims ++ [M, N]) ∧
      out.Data.length = dims.prod * (M * N) ∧
      ∀ β i j, β < dims.prod → i < M → j < N →
        out.Data[β * (M * N) + i * N + j]? = some (∑ l in Finset.range K,
          (a.Data[β * (M * K) + i * K + l]?).getD 0 * (b.Data[β * (K * N) + l * N + j]?).getD 0) := by
  obtain ⟨d, h1, hl, hcell, -⟩ := nest3_write dims.prod M N (dims.prod * (M * N))
    (fun β i j => β * (M * N) + i * N + j)
    (fun β i j => dotLoop a.Data b.Data (β * (M * K)) (β * (K * N)) i j K N)
    (fun β i j => ∑ l in Finset.range K,
      (a.Data[β * (M * K) + i * K + l]?).getD 0 * (b.Data[β * (K * N) + l * N + j]?).getD 0)
    (List.replicate (dims.prod * (M * N)) (0 : α))
    (by
      intro β i j hβ hi hj
      apply dotLoop_eq
      · intro l hl
        rw [hla]
        exact idx3_lt hβ hi hl
      · intro l hl
        exact lt_of_lt_of_le (idx3_lt hβ hl hj) hlb)
    (fun β i j hβ hi hj => idx3_lt hβ hi hj)
    (fun β i j β' i' j' _ hi hj _ hi' hj' h => idx3_inj hi hj hi' hj' h)
    (by simp)
  refine ⟨⟨d, dims ++ [M, N], rowMajor (dims ++ [M, N]), dims.prod * (M * N)⟩, ?_, rfl, rfl, rfl,
    hl, hcell⟩
  unfold PureGoMatMul
  have e1 : (dims ++ [M, K]).length - 2 = dims.length := by simp
  have e2 : (dims ++ [M, K]).length - 1 = dims.length + 1 := by simp
  have e3 : (dims2 ++ [K, N])[dims.length]? = some K := by rw [← hd]; exact two_get_left _ _ _
  have e4 : (dims2 ++ [K, N])[dims.length + 1]? = some N := by
    rw [← hd]; exact two_get_right _ _ _
  have e5 : ¬ (dims ++ [M, K]).length < 2 := by simp
  rw [ha, hb, if_neg e5, e1, e2, two_get_left, two_get_right, e3, e4]
  simp only [Option.bind_eq_bind, Option.some_bind, ne_eq, not_true_eq_false, if_false,
    makeCopy_eq, two_set_right, two_take, shapeSize_eq_prod, New, computeStrides_eq, prod_two]
  exact congrArg (fun o => Option.bind o _) h1 |>.trans (by simp)

/-! ## Multi-indices and flat offsets -/

theorem rowMajor_cons (d : Nat) (rest : List Nat) :
    rowMajor (d :: rest) = rest.prod :: rowMajor rest := rfl

theorem offsetOf_cons (i s : Nat) (idx strides : List Nat) :
    offsetOf (i :: idx) (s :: strides) = i * s + offsetOf idx strides := rfl

theorem rowMajor_two (M N : Nat) : rowMajor [M, N] = [N, 1] := by
  simp [rowMajor]

theorem offsetOf_append (bs dims rest idx : List Nat) (h : bs.length = dims.length) :
    offsetOf (bs ++ idx) (rowMajor (dims ++ rest))
      = offsetOf bs (rowMajor dims) * rest.prod + offsetOf idx (rowMajor rest) := by
  induction bs generalizing dims with
  | nil =>
    cases dims with
    | nil => simp [offsetOf, rowMajor]
    | cons d ds => simp at h
  | cons x xs ih =>
    cases dims with
    | nil => simp at h
    | cons d ds =>
      have hl : xs.length = ds.length := by simpa using h
      rw [List.cons_append, List.cons_append, rowMajor_cons, rowMajor_cons, offsetOf_cons,
        offsetOf_cons, ih ds hl, List.prod_append]
      ring

theorem InShape.length_eq {bs dims : List Nat} (h : InShape bs dims) : bs.length = dims.length :=
  List.Forall₂.length_eq h

theorem offsetOf_lt {bs dims : List Nat} (h : InShape bs dims) :
    offsetOf bs (rowMajor dims) < dims.prod := by
  induction h with
  | nil => simp [offsetOf]
  | cons hx _ ih =>
    rw [rowMajor_cons, offsetOf_cons, List.prod_cons]
    exact idx2_lt hx ih

theorem offsetOf_two (bs dims : List Nat) (M N i j : Nat) (h : InShape bs dims) :
    offsetOf (bs ++ [i, j]) (rowMajor (dims ++ [M, N]))
      = offsetOf bs (rowMajor dims) * (M * N) + i * N + j := by
  rw [offsetOf_append bs dims [M, N] [i, j] h.length_eq, rowMajor_two]
  simp [offsetOf]
  ring

theorem NDArray.WF.length_two {α : Type} {t : NDArray α} (h : t.WF) {dims : List Nat} {x y : Nat}
    (hs : t.Shape = dims ++ [x, y]) : t.Data.length = dims.prod * (x * y) := by
  obtain ⟨h1, h2, -⟩ := h
  rw [h2, h1, hs, prod_two]

theorem NDArray.WF.entry_two {α : Type} {t : NDArray α} (h : t.WF) {dims : List Nat} {x y : Nat}
    (hs : t.Shape = dims ++ [x, y]) (bs : List Nat) (i j : Nat) (hbs : InShape bs dims) :
    t.entry (bs ++ [i, j]) = t.Data[offsetOf bs (rowMajor dims) * (x * y) + i * y + j]? := by
  obtain ⟨-, -, h3⟩ := h
  unfold NDArray.entry
  rw  [h3, computeStrides_eq, hs, offsetOf_two bs dims x y i j hbs]

/-- C1: for `a` of shape `[..., M, K]` and `b` of shape `[..., K, N]` with the
same leading axes, `MatMul` returns a tensor of shape `[..., M, N]` whose
element at batch `bs`, row `i`, column `j` is the sum over `l < K` of
`a[bs, i, l] * b[bs, l, j]`; on `[[1,2,3],[4,5,6]]` and `[[7,8],[9,10],[11,12]]`
it returns `[[58,64],[139,154]]`. -/
theorem MatMul_spec {α : Type} [Semiring α] (a b : NDArray α) (dims : List Nat) (M K N : Nat)
    (ha : a.WF) (hb : b.WF) (hsa : a.Shape = dims ++ [M, K]) (hsb : b.Shape = dims ++ [K, N]) :
    (∃ out, MatMul a b = some out ∧ out.Shape = dims ++ [M, N] ∧ out.WF ∧
      ∀ bs i j, InShape bs dims → i < M → j < N →
        out.entry (bs ++ [i, j]) = some (∑ l in Finset.range K,
          a.entryD (bs ++ [i, l]) * b.entryD (bs ++ [l, j]))) ∧
    MatMul (NewFromData [1, 2, 3, 4, 5, 6] [2, 3] : NDArray ℤ) (NewFromData [7, 8, 9, 10, 11, 12] [3, 2])
      = some (NewFromData [58, 64, 139, 154] [2, 2]) := by
  refine ⟨?_, by decide⟩
  obtain ⟨out, h1, h2, h3, h4, h5, h6⟩ := PureGoMatMul_flat a b dims dims M K N hsa hsb rfl
    (ha.length_two hsa) (le_of_eq (hb.length_two hsb).symm)
  have hwf : out.WF := ⟨by rw [h3, h2, prod_two], by rw [h5, h3], by rw [h4, h2, computeStrides_eq]⟩
  refine ⟨out, h1, h2, hwf, ?_⟩
  intro bs i j hbs hi hj
  rw [hwf.entry_two h2 bs i j hbs, h6 _ i j (offsetOf_lt hbs) hi hj]
  simp only [NDArray.entryD, ha.entry_two hsa bs _ _ hbs, hb.entry_two hsb bs _ _ hbs]

theorem MatMul_spec_witness :
    ∃ out, MatMul (NewFromData [1, 2, 3, 4, 5, 6, 7, 8] [2, 2, 2] : NDArray ℤ)
        (NewFromData [1, 0, 0, 1, 2, 0, 0, 2] [2, 2, 2]) = some out ∧
      out.Shape = [2] ++ [2, 2] ∧ out.WF ∧
      ∀ bs i j, InShape bs [2] → i < 2 → j < 2 →
        out.entry (bs ++ [i, j]) = some (∑ l in Finset.range 2,
          (NewFromData [1, 2, 3, 4, 5, 6, 7, 8] [2, 2, 2] : NDArray ℤ).entryD (bs ++ [i, l])
            * (NewFromData [1, 0, 0, 1, 2, 0, 0, 2] [2, 2, 2] : NDArray ℤ).entryD (bs ++ [l, j])) :=
  (MatMul_spec (NewFromData [1, 2, 3, 4, 5, 6, 7, 8] [2, 2, 2] : NDArray ℤ)
    (NewFromData [1, 0, 0, 1, 2, 0, 0, 2] [2, 2, 2]) [2] 2 2 2
    ⟨by decide, by decide, by decide⟩ ⟨by decide, by decide, by decide⟩ (by decide) (by decide)).1

/-! ## `Transpose` -/

theorem getElem?_eq_some_getD {α : Type} [Zero α] (l : List α) (i : Nat) (h : i < l.length) :
    l[i]? = some ((l[i]?).getD 0) := by
  simp [List.getElem?_eq_getElem h]

theorem idx3_decomp {B m n p : Nat} (h : p < B * (m * n)) :
    ∃ b i j, b < B ∧ i < m ∧ j < n ∧ p = b * (m * n) + i * n + j := by
  have hmn : 0 < m * n := by
    rcases Nat.eq_zero_or_pos (m * n) with h0 | h0
    · rw [h0] at h; simp at h
    · exact h0
  have hn : 0 < n := Nat.pos_of_ne_zero (fun h0 => by rw [h0] at hmn; simp at hmn)
  refine ⟨p / (m * n), (p % (m * n)) / n, (p % (m * n)) % n, ?_, ?_, Nat.mod_lt _ hn, ?_⟩
  · exact Nat.div_lt_of_lt_mul (by rwa [Nat.mul_comm] at h)
  · exact Nat.div_lt_of_lt_mul (by rw [Nat.mul_comm n m]; exact Nat.mod_lt _ hmn)
  · have e1 := Nat.div_add_mod p (m * n)
    have e2 := Nat.div_add_mod (p % (m * n)) n
    calc p = m * n * (p / (m * n)) + p % (m * n) := e1.symm
      _ = m * n * (p / (m * n)) + (n * (p % (m * n) / n) + p % (m * n) % n) := by rw [e2]
      _ = p / (m * n) * (m * n) + p % (m * n) / n * n + p % (m * n) % n := by ring

theorem Transpose_flat {α : Type} [Zero α] (t : NDArray α) (dims : List Nat) (M N : Nat)
    (hs : t.Shape = dims ++ [M, N]) (hl : t.Data.length = dims.prod * (M * N)) :
    ∃ out, Transpose t = some out ∧ out.Shape = dims ++ [N, M] ∧
      out.Size = dims.prod * (N * M) ∧ out.Strides = rowMajor (dims ++ [N, M]) ∧
      out.Data.length = dims.prod * (N * M) ∧
      ∀ β i j, β < dims.prod → i < M → j < N →
        out.Data[β * (N * M) + j * M + i]? = t.Data[β * (M * N) + i * N + j]? := by
  obtain ⟨d, h1, hlen, hcell, -⟩ := nest3_write dims.prod M N (dims.prod * (N * M))
    (fun β i j => β * (N * M) + j * M + i)
    (fun β i j => t.Data[β * (M * N) + i * N + j]?)
    (fun β i j => (t.Data[β * (M * N) + i * N + j]?).getD 0)
    (List.replicate (dims.prod * (N * M)) (0 : α))
    (fun β i j hβ hi hj => getElem?_eq_some_getD _ _ (hl ▸ idx3_lt hβ hi hj))
    (fun β i j hβ hi hj => idx3_lt hβ hj hi)
    (fun β i j β' i' j' _ hi hj _ hi' hj' h => by
      obtain ⟨e1, e2, e3⟩ := idx3_inj hj hi hj' hi' h
      exact ⟨e1, e3, e2⟩)
    (by simp)
  refine ⟨⟨d, dims ++ [N, M], rowMajor (dims ++ [N, M]), dims.prod * (N * M)⟩, ?_, rfl, rfl, rfl,
    hlen, ?_⟩
  · unfold Transpose
    have e1 : (dims ++ [M, N]).length - 2 = dims.length := by simp
    have e2 : (dims ++ [M, N]).length - 1 = dims.length + 1 := by simp
    have e5 : ¬ (dims ++ [M, N]).length < 2 := by simp
    rw [hs, if_neg e5, e1, e2, two_get_left, two_get_right]
    simp only [Option.bind_eq_bind, Option.some_bind, makeCopy_eq, two_set_left, two_set_right,
      two_take, shapeSize_eq_prod, New, computeStrides_eq, prod_two]
    exact congrArg (fun o => Option.bind o _) h1 |>.trans (by simp)
  · intro β i j hβ hi hj
    rw [hcell β i j hβ hi hj]
    exact (getElem?_eq_some_getD _ _ (hl ▸ idx3_lt hβ hi hj)).symm

theorem Transpose_Transpose {α : Type} [Zero α] (t : NDArray α) (dims : List Nat) (M N : Nat)
    (ht : t.WF) (hs : t.Shape = dims ++ [M, N]) :
    ∃ out, Transpose t = some out ∧ Transpose out = some t := by
  obtain ⟨out, h1, h2, h3, h4, h5, h6⟩ := Transpose_flat t dims M N hs (ht.length_two hs)
  obtain ⟨out2, g1, g2, g3, g4, g5, g6⟩ := Transpose_flat out dims N M h2 h5
  refine ⟨out, h1, ?_⟩
  rw [g1]
  congr 1
  obtain ⟨w1, w2, w3⟩ := ht
  have hlen : t.Data.length = dims.prod * (M * N) := by rw [w2, w1, hs, prod_two]
  have hdata : out2.Data = t.Data := by
    apply List.ext_getElem?
    intro p
    by_cases hp : p < dims.prod * (M * N)
    · obtain ⟨β, i, j, hβ, hi, hj, rfl⟩ := idx3_decomp hp
      rw [g6 β j i hβ hj hi, h6 β i j hβ hi hj]
    · rw [List.getElem?_eq_none (by omega), List.getElem?_eq_none (by omega)]
  cases t
  cases out2
  simp_all [computeStrides_eq]

/-- C4: for a tensor `t` of shape `[..., M, N]`, `Transpose(t)` is a tensor
built on the zero-filled buffer of `New`, of shape `[..., N, M]`, with
`out[bs, j, i] = t[bs, i, j]` for every batch `bs`, `i < M`, `j < N`;
transposing twice gives back the shape and data of `t` (the tensor `t`,
which `Transpose` only reads); `[[1,2,3],[4,5,6]]` maps to `[[1,4],[2,5],[3,6]]`. -/
theorem Transpose_spec {α : Type} [Zero α] (t : NDArray α) (dims : List Nat) (M N : Nat)
    (ht : t.WF) (hs : t.Shape = dims ++ [M, N]) :
    (∃ out, Transpose t = some out ∧ out.Shape = dims ++ [N, M] ∧ out.WF ∧
      (∀ bs i j, InShape bs dims → i < M → j < N →
        out.entry (bs ++ [j, i]) = t.entry (bs ++ [i, j]) ∧ (t.entry (bs ++ [i, j])).isSome) ∧
      Transpose out = some t) ∧
    Transpose (NewFromData [1, 2, 3, 4, 5, 6] [2, 3] : NDArray ℤ)
      = some (NewFromData [1, 4, 2, 5, 3, 6] [3, 2]) := by
  refine ⟨?_, by decide⟩
  obtain ⟨out, h1, h2, h3, h4, h5, h6⟩ := Transpose_flat t dims M N hs (ht.length_two hs)
  obtain ⟨out', h1', hback⟩ := Transpose_Transpose t dims M N ht hs
  have hwf : out.WF := ⟨by rw [h3, h2, prod_two], by rw [h5, h3], by rw [h4, h2, computeStrides_eq]⟩
  have hoo : out' = out := by rw [h1] at h1'; exact (Option.some.inj h1').symm
  refine ⟨out, h1, h2, hwf, ?_, hoo ▸ hback⟩
  intro bs i j hbs hi hj
  rw [hwf.entry_two h2 bs j i hbs, ht.entry_two hs bs i j hbs, h6 _ i j (offsetOf_lt hbs) hi hj]
  refine ⟨rfl, ?_⟩
  rw [getElem?_eq_some_getD _ _ (by rw [ht.length_two hs]; exact idx3_lt (offsetOf_lt hbs) hi hj)]
  rfl

theorem Transpose_spec_witness :
    ∃ out, Transpose (NewFromData [1, 2, 3, 4, 5, 6, 7, 8, 9, 10, 11, 12] [2, 2, 3] : NDArray ℤ)
        = some out ∧ out.Shape = [2] ++ [3, 2] ∧ out.WF ∧
      (∀ bs i j, InShape bs [2] → i < 2 → j < 3 →
        out.entry (bs ++ [j, i])
          = (NewFromData [1, 2, 3, 4, 5, 6, 7, 8, 9, 10, 11, 12] [2, 2, 3] : NDArray ℤ).entry
              (bs ++ [i, j]) ∧
        ((NewFromData [1, 2, 3, 4, 5, 6, 7, 8, 9, 10, 11, 12] [2, 2, 3] : NDArray ℤ).entry
              (bs ++ [i, j])).isSome) ∧
      Transpose out = some (NewFromData [1, 2, 3, 4, 5, 6, 7, 8, 9, 10, 11, 12] [2, 2, 3]) :=
  (Transpose_spec (NewFromData [1, 2, 3, 4, 5, 6, 7, 8, 9, 10, 11, 12] [2, 2, 3] : NDArray ℤ)
    [2] 2 3 ⟨by decide, by decide, by decide⟩ (by decide)).1

/-! ## `Softmax` -/

theorem rowMaxLoop_isSome {α : Type} [LinearOrderedField α] (tData : List α) (offset stride : Nat)
    (h : offset + stride ≤ tData.length) :
    ∃ mx, rowMaxLoop tData offset stride = some mx := by
  obtain ⟨mx, h1, -⟩ := forRange_inv
    (fun i maxVal => do
      let x ← tData[offset + i]?
      some (if x > maxVal then x else maxVal))
    (fun _ _ => True) stride (-maxFloat32) trivial
    (by
      intro i s hi _
      have hlt : offset + i < tData.length := by omega
      exact ⟨if tData[offset + i] > s then tData[offset + i] else s,
        by simp [List.getElem?_eq_getElem hlt], trivial⟩)
  exact ⟨mx, h1⟩

theorem rowExpLoop_spec {α : Type} [LinearOrderedField α] (ex : α → α) (tData : List α)
    (offset stride : Nat) (mx : α) (d : List α) (h : offset + stride ≤ tData.length)
    (hd : offset + stride ≤ d.length) :
    ∃ d1, rowExpLoop ex tData offset stride mx d
        = some (d1, ∑ j in Finset.range stride, ex ((tData[offset + j]?).getD 0 - mx)) ∧
      d1.length = d.length ∧
      (∀ i, i < stride → d1[offset + i]? = some (ex ((tData[offset + i]?).getD 0 - mx))) ∧
      (∀ p, (p < offset ∨ offset + stride ≤ p) → d1[p]? = d[p]?) := by
  obtain ⟨⟨d1, s⟩, h1, hl, hs, hin, hout⟩ := forRange_inv
    (fun i (p : List α × α) => do
      let x ← tData[offset + i]?
      let d1 ← setIdx p.1 (offset + i) (ex (x - mx))
      some (d1, p.2 + ex (x - mx)))
    (fun i p => p.1.length = d.length ∧
      p.2 = ∑ j in Finset.range i, ex ((tData[offset + j]?).getD 0 - mx) ∧
      (∀ i', i' < i → p.1[offset + i']? = some (ex ((tData[offset + i']?).getD 0 - mx))) ∧
      (∀ q, (q < offset ∨ offset + i ≤ q) → p.1[q]? = d[q]?))
    stride (d, 0) ⟨rfl, by simp, fun i' hi' => absurd hi' (Nat.not_lt_zero _), fun _ _ => rfl⟩
    (by
      intro i p hi ⟨hl, hs, hin, hout⟩
      have hlt : offset + i < tData.length := by omega
      have hlt2 : offset + i < p.1.length := by omega
      refine ⟨(p.1.set (offset + i) (ex (tData[offset + i] - mx)), p.2 + ex (tData[offset + i] - mx)),
        by simp [List.getElem?_eq_getElem hlt, setIdx_eq_some _ _ _ hlt2], by simpa using hl, ?_, ?_, ?_⟩
      · show _ = _
        rw [Finset.sum_range_succ, ← hs]
        simp [List.getElem?_eq_getElem hlt]
      · intro i' hi'
        show (p.1.set _ _)[offset + i']? = _
        by_cases he : i' = i
        · subst he
          simp [List.getElem?_set_self hlt2, List.getElem?_eq_getElem hlt]
        · rw [List.getElem?_set_ne (by omega)]
          exact hin i' (by omega)
      · intro q hq
        show (p.1.set _ _)[q]? = _
        rw [List.getElem?_set_ne (by omega)]
        exact hout q (by omega))
  refine ⟨d1, ?_, hl, hin, hout⟩
  unfold rowExpLoop
  rw [h1]
  simp only at hs
  rw [hs]

theorem rowNormLoop_spec {α : Type} [LinearOrderedField α] (offset stride : Nat) (sum : α)
    (d : List α) (v : Nat → α) (hd : offset + stride ≤ d.length)
    (hv : ∀ i, i < stride → d[offset + i]? = some (v i)) :
    ∃ d2, rowNormLoop offset stride sum d = some d2 ∧ d2.length = d.length ∧
      (∀ i, i < stride → d2[offset + i]? = some (v i / sum)) ∧
      (∀ p, (p < offset ∨ offset + stride ≤ p) → d2[p]? = d[p]?) := by
  obtain ⟨d2, h1, hl, hin, -, hout⟩ := forRange_inv
    (fun i d => do
      let y ← d[offset + i]?
      setIdx d (offset + i) (y / sum))
    (fun i s => s.length = d.length ∧
      (∀ i', i' < i → s[offset + i']? = some (v i' / sum)) ∧
      (∀ i', i ≤ i' → i' < stride → s[offset + i']? = some (v i')) ∧
      (∀ q, (q < offset ∨ offset + stride ≤ q) → s[q]? = d[q]?))
    stride d ⟨rfl, fun i' hi' => absurd hi' (Nat.not_lt_zero _), fun i' _ hi' => hv i' hi',
      fun _ _ => rfl⟩
    (by
      intro i s hi ⟨hl, hdone, htodo, hout⟩
      have hlt : offset + i < s.length := by omega
      refine ⟨s.set (offset + i) (v i / sum),
        by simp [htodo i (le_refl i) hi, setIdx_eq_some _ _ _ hlt], by simpa using hl, ?_, ?_, ?_⟩
      · intro i' hi'
        by_cases he : i' = i
        · subst he
          simp [List.getElem?_set_self hlt]
        · rw [List.getElem?_set_ne (by omega)]
          exact hdone i' (by omega)
      · intro i' h1 h2
        rw [List.getElem?_set_ne (by omega)]
        exact htodo i' (by omega) h2
      · intro q hq
        rw [List.getElem?_set_ne (by omega)]
        exact hout q hq)
  exact ⟨d2, h1, hl, hin, hout⟩

theorem softmaxRow_spec {α : Type} [LinearOrderedField α] (ex : α → α) (tData : List α)
    (offset stride : Nat) (d : List α) (h : offset + stride ≤ tData.length)
    (hd : offset + stride ≤ d.length) :
    ∃ d2, softmaxRow ex tData offset stride d = some d2 ∧ d2.length = d.length ∧
      (∀ i, i < stride → d2[offset + i]? = some
        (ex ((tData[offset + i]?).getD 0 - (rowMaxLoop tData offset stride).getD 0)
          / ∑ j in Finset.range stride,
              ex ((tData[offset + j]?).getD 0 - (rowMaxLoop tData offset stride).getD 0))) ∧
      (∀ p, (p < offset ∨ offset + stride ≤ p) → d2[p]? = d[p]?) := by
  obtain ⟨mx, hmx⟩ := rowMaxLoop_isSome tData offset stride h
  obtain ⟨d1, h1, hl1, hin1, hout1⟩ := rowExpLoop_spec ex tData offset stride mx d h hd
  obtain ⟨d2, h2, hl2, hin2, hout2⟩ := rowNormLoop_spec offset stride
    (∑ j in Finset.range stride, ex ((tData[offset + j]?).getD 0 - mx)) d1
    (fun i => ex ((tData[offset + i]?).getD 0 - mx)) (by omega) hin1
  refine ⟨d2, ?_, by omega, ?_, fun p hp => (hout2 p hp).trans (hout1 p hp)⟩
  · simp [softmaxRow, hmx, h1, h2]
  · intro i hi
    rw [hin2 i hi, hmx]
    rfl

theorem softmaxLoop_spec {α : Type} [LinearOrderedField α] (ex : α → α) (tData : List α)
    (stride R : Nat) (hs : 0 < stride) (hlen : tData.length = R * stride) :
    ∀ k r fuel d, r + k = R → k < fuel → d.length = R * stride →
      ∃ d2, softmaxLoop ex tData stride (R * stride) fuel (r * stride) d = some d2 ∧
        d2.length = R * stride ∧
        (∀ r' i, r ≤ r' → r' < R → i < stride → d2[r' * stride + i]? = some
          (ex ((tData[r' * stride + i]?).getD 0 - (rowMaxLoop tData (r' * stride) stride).getD 0)
            / ∑ j in Finset.range stride,
                ex ((tData[r' * stride + j]?).getD 0
                  - (rowMaxLoop tData (r' * stride) stride).getD 0))) ∧
        (∀ p, p < r * stride → d2[p]? = d[p]?) := by
  intro k
  induction k with
  | zero =>
    intro r fuel d hr hf hd
    obtain ⟨f, rfl⟩ : ∃ f, fuel = f + 1 := ⟨fuel - 1, by omega⟩
    have hrR : r = R := by omega
    subst hrR
    refine ⟨d, by simp [softmaxLoop], hd, ?_, fun _ _ => rfl⟩
    intro r' i h1 h2
    omega
  | succ k ih =>
    intro r fuel d hr hf hd
    obtain ⟨f, rfl⟩ : ∃ f, fuel = f + 1 := ⟨fuel - 1, by omega⟩
    have hrR : r < R := by omega
    have hoff : r * stride + stride ≤ R * stride := by
      calc r * stride + stride = (r + 1) * stride := by ring
        _ ≤ R * stride := Nat.mul_le_mul_right stride hrR
    obtain ⟨d1, h1, hl1, hin1, hout1⟩ := softmaxRow_spec ex tData (r * stride) stride d
      (by omega) (by omega)
    obtain ⟨d2, h2, hl2, hin2, hout2⟩ := ih (r + 1) f d1 (by omega) (by omega) (by omega)
    have e : (r + 1) * stride = r * stride + stride := by ring
    rw [e] at h2 hout2
    refine ⟨d2, ?_, hl2, ?_, ?_⟩
    · have hlt : r * stride < R * stride := by omega
      simp [softmaxLoop, hlt, h1, h2]
    · intro r' i hr' hr'R hi
      by_cases he : r' = r
      · subst he
        rw [hout2 _ (by omega)]
        exact hin1 i hi
      · exact hin2 r' i (by omega) hr'R hi
    · intro p hp
      rw [hout2 p (by omega)]
      exact hout1 p (Or.inl hp)

theorem two_last (dims : List Nat) (n : Nat) :
    (dims ++ [n])[(dims ++ [n]).length - 1]? = some n := by
  simp

theorem Softmax_rows {α : Type} [LinearOrderedField α] (ex : α → α) (t : NDArray α)
    (dims : List Nat) (n : Nat) (ht : t.WF) (hs : t.Shape = dims ++ [n]) (hn : 0 < n) :
    ∃ out, Softmax ex t = some out ∧ out.Shape = t.Shape ∧ out.Strides = t.Strides ∧
      out.Size = t.Size ∧ out.Data.length = dims.prod * n ∧
      ∀ r i, r < dims.prod → i < n → out.Data[r * n + i]? = some
        (ex ((t.Data[r * n + i]?).getD 0 - (rowMaxLoop t.Data (r * n) n).getD 0)
          / ∑ j in Finset.range n,
              ex ((t.Data[r * n + j]?).getD 0 - (rowMaxLoop t.Data (r * n) n).getD 0)) := by
  obtain ⟨w1, w2, w3⟩ := ht
  have hsize : t.Size = dims.prod * n := by rw [w1, hs]; simp
  obtain ⟨d2, h2, hl2, hin2, -⟩ := softmaxLoop_spec ex t.Data n dims.prod hn (by rw [w2, hsize])
    dims.prod 0 (dims.prod * n + 1) (List.replicate (dims.prod * n) 0) (by omega)
    (Nat.lt_succ_of_le (Nat.le_mul_of_pos_right _ hn)) (by simp)
  refine ⟨⟨d2, t.Shape, t.Strides, t.Size⟩, ?_, rfl, rfl, rfl, hl2, ?_⟩
  · unfold Softmax
    have e0 : ¬ t.Shape.length = 0 := by rw [hs]; simp
    rw [if_neg e0]
    have e1 : t.Shape[t.Shape.length - 1]? = some n := by rw [hs]; exact two_last dims n
    rw [e1, hsize]
    simp only [Option.bind_eq_bind, Option.some_bind, New, makeCopy_eq, shapeSize_eq_prod, w3]
    rw [hs]
    simp only [List.prod_append, List.prod_cons, List.prod_nil, Nat.mul_one]
    simp only [Nat.zero_mul] at h2
    rw [h2]
    simp
  · intro r i hr hi
    exact hin2 r i (Nat.zero_le r) hr hi

theorem idx2_decomp {R n p : Nat} (h : p < R * n) : ∃ r i, r < R ∧ i < n ∧ p = r * n + i := by
  have hn : 0 < n := Nat.pos_of_ne_zero (fun h0 => by rw [h0] at h; simp at h)
  refine ⟨p / n, p % n, Nat.div_lt_of_lt_mul (by rwa [Nat.mul_comm] at h), Nat.mod_lt _ hn, ?_⟩
  have e := Nat.div_add_mod p n
  calc p = n * (p / n) + p % n := e.symm
    _ = p / n * n + p % n := by ring

theorem ex_sub {α : Type} [LinearOrderedField α] (ex : α → α)
    (hadd : ∀ a b, ex (a + b) = ex a * ex b) (hpos : ∀ a, 0 < ex a) (x m : α) :
    ex (x - m) = ex x * (ex m)⁻¹ := by
  have h := hadd (x - m) m
  rw [sub_add_cancel] at h
  rw [h, mul_assoc, mul_inv_cancel₀ (ne_of_gt (hpos m)), mul_one]

theorem softmax_shift_max {α : Type} [LinearOrderedField α] (ex : α → α)
    (hadd : ∀ a b, ex (a + b) = ex a * ex b) (hpos : ∀ a, 0 < ex a) (x : Nat → α) (m : α)
    (n i : Nat) :
    ex (x i - m) / ∑ j in Finset.range n, ex (x j - m)
      = ex (x i) / ∑ j in Finset.range n, ex (x j) := by
  simp only [ex_sub ex hadd hpos]
  rw [← Finset.sum_mul]
  exact mul_div_mul_right _ _ (inv_ne_zero (ne_of_gt (hpos m)))

theorem softmax_shift_row {α : Type} [LinearOrderedField α] (ex : α → α)
    (hadd : ∀ a b, ex (a + b) = ex a * ex b) (hpos : ∀ a, 0 < ex a) (x : Nat → α) (c : α)
    (n i : Nat) :
    ex (x i + c) / ∑ j in Finset.range n, ex (x j + c)
      = ex (x i) / ∑ j in Finset.range n, ex (x j) := by
  simp only [hadd]
  rw [← Finset.sum_mul]
  exact mul_div_mul_right _ _ (ne_of_gt (hpos c))

theorem Softmax_closed {α : Type} [LinearOrderedField α] (ex : α → α)
    (hadd : ∀ a b, ex (a + b) = ex a * ex b) (hpos : ∀ a, 0 < ex a) (t : NDArray α)
    (dims : List Nat) (n : Nat) (ht : t.WF) (hs : t.Shape = dims ++ [n]) (hn : 0 < n) :
    ∃ out, Softmax ex t = some out ∧ out.Shape = t.Shape ∧ out.Strides = t.Strides ∧
      out.Size = t.Size ∧ out.Data.length = dims.prod * n ∧
      ∀ r i, r < dims.prod → i < n → out.Data[r * n + i]? = some
        (ex ((t.Data[r * n + i]?).getD 0)
          / ∑ j in Finset.range n, ex ((t.Data[r * n + j]?).getD 0)) := by
  obtain ⟨out, h1, h2, h3, h4, h5, h6⟩ := Softmax_rows ex t dims n ht hs hn
  refine ⟨out, h1, h2, h3, h4, h5, ?_⟩
  intro r i hr hi
  rw [h6 r i hr hi]
  exact congrArg some (softmax_shift_max ex hadd hpos (fun i => (t.Data[r * n + i]?).getD 0) _ n i)

theorem NDArray.ext_of {α : Type} {s t : NDArray α} (h1 : s.Data = t.Data) (h2 : s.Shape = t.Shape)
    (h3 : s.Strides = t.Strides) (h4 : s.Size = t.Size) : s = t := by
  cases s
  cases t
  simp_all

theorem Softmax_shift {α : Type} [LinearOrderedField α] (ex : α → α)
    (hadd : ∀ a b, ex (a + b) = ex a * ex b) (hpos : ∀ a, 0 < ex a) (t t' : NDArray α)
    (dims : List Nat) (n : Nat) (c : Nat → α) (ht : t.WF) (ht' : t'.WF)
    (hs : t.Shape = dims ++ [n]) (hs' : t'.Shape = t.Shape) (hn : 0 < n)
    (hshift : ∀ r i, r < dims.prod → i < n →
      t'.Data[r * n + i]? = (t.Data[r * n + i]?).map (fun x => x + c r)) :
    (Softmax ex t).isSome ∧ Softmax ex t' = Softmax ex t := by
  obtain ⟨out, h1, h2, h3, h4, h5, h6⟩ := Softmax_closed ex hadd hpos t dims n ht hs hn
  obtain ⟨out', g1, g2, g3, g4, g5, g6⟩ :=
    Softmax_closed ex hadd hpos t' dims n ht' (hs'.trans hs) hn
  refine ⟨by rw [h1]; rfl, ?_⟩
  rw [h1, g1]
  congr 1
  have hlen : t.Data.length = dims.prod * n := by
    obtain ⟨w1, w2, -⟩ := ht
    rw [w2, w1, hs]; simp
  have hx : ∀ r i, r < dims.prod → i < n →
      (t'.Data[r * n + i]?).getD 0 = (t.Data[r * n + i]?).getD 0 + c r := by
    intro r i hr hi
    rw [hshift r i hr hi, List.getElem?_eq_getElem (by rw [hlen]; exact idx2_lt hr hi)]
    rfl
  apply NDArray.ext_of
  · apply List.ext_getElem?
    intro p
    by_cases hp : p < dims.prod * n
    · obtain ⟨r, i, hr, hi, rfl⟩ := idx2_decomp hp
      rw [g6 r i hr hi, h6 r i hr hi, hx r i hr hi]
      have hsum : ∑ j in Finset.range n, ex ((t'.Data[r * n + j]?).getD 0)
          = ∑ j in Finset.range n, ex ((t.Data[r * n + j]?).getD 0 + c r) :=
        Finset.sum_congr rfl (fun j hj => by rw [hx r j hr (Finset.mem_range.mp hj)])
      rw [hsum]
      exact congrArg some
        (softmax_shift_row ex hadd hpos (fun i => (t.Data[r * n + i]?).getD 0) (c r) n i)
    · rw [List.getElem?_eq_none (by omega), List.getElem?_eq_none (by omega)]
  · rw [g2, h2, hs']
  · rw [g3, h3, ht'.2.2, ht.2.2, hs']
  · rw [g4, h4, ht'.1, ht.1, hs']

theorem wf_pair (x y : ℝ) : (NewFromData [x, y] [1, 2] : NDArray ℝ).WF :=
  ⟨rfl, rfl, rfl⟩

theorem data_pair (x y : ℝ) : (NewFromData [x, y] [1, 2] : NDArray ℝ).Data = [x, y] := rfl

/-- C5: in exact arithmetic (`ex` turns sums into products and is positive, as
the real exponential does), adding a constant `c r` to every entry of row `r`
of a tensor with non-empty last axis does not change the output of `Softmax`;
`Softmax([1000,1001])` equals `Softmax([-1,0])`, whose second entry is
`1/(1+e^-1)`. -/
theorem Softmax_shift_invariant {α : Type} [LinearOrderedField α] (ex : α → α)
    (hadd : ∀ a b, ex (a + b) = ex a * ex b) (hpos : ∀ a, 0 < ex a) (t t' : NDArray α)
    (dims : List Nat) (n : Nat) (c : Nat → α) (ht : t.WF) (ht' : t'.WF)
    (hs : t.Shape = dims ++ [n]) (hs' : t'.Shape = t.Shape) (hn : 0 < n)
    (hshift : ∀ r i, r < dims.prod → i < n →
      t'.Data[r * n + i]? = (t.Data[r * n + i]?).map (fun x => x + c r)) :
    ((Softmax ex t).isSome ∧ Softmax ex t' = Softmax ex t) ∧
    (Softmax Real.exp (NewFromData [1000, 1001] [1, 2] : NDArray ℝ)
        = Softmax Real.exp (NewFromData [-1, 0] [1, 2]) ∧
      ∃ out, Softmax Real.exp (NewFromData [-1, 0] [1, 2] : NDArray ℝ) = some out ∧
        out.Data[1]? = some (1 / (1 + Real.exp (-1)))) := by
  refine ⟨Softmax_shift ex hadd hpos t t' dims n c ht ht' hs hs' hn hshift, ?_, ?_⟩
  · refine (Softmax_shift Real.exp Real.exp_add Real.exp_pos (NewFromData [-1, 0] [1, 2])
      (NewFromData [1000, 1001] [1, 2]) [1] 2 (fun _ => 1001) (wf_pair _ _) (wf_pair _ _)
      rfl rfl (by norm_num) ?_).2
    intro r i hr hi
    have hr0 : r = 0 := by simpa using hr
    subst hr0
    rw [data_pair, data_pair]
    interval_cases i <;> norm_num
  · obtain ⟨out, h1, -, -, -, -, h6⟩ := Softmax_closed Real.exp Real.exp_add Real.exp_pos
      (NewFromData [-1, 0] [1, 2]) [1] 2 (wf_pair _ _) rfl (by norm_num)
    refine ⟨out, h1, ?_⟩
    have h := h6 0 1 (by norm_num) (by norm_num)
    rw [data_pair] at h
    simp only [Nat.zero_mul, Nat.zero_add] at h
    rw [h]
    simp [Finset.sum_range_succ, add_comm]

theorem Softmax_shift_invariant_witness :
    ((Softmax Real.exp (NewFromData [-1, 0] [1, 2] : NDArray ℝ)).isSome ∧
      Softmax Real.exp (NewFromData [1000, 1001] [1, 2] : NDArray ℝ)
        = Softmax Real.exp (NewFromData [-1, 0] [1, 2])) :=
  (Softmax_shift_invariant Real.exp Real.exp_add Real.exp_pos (NewFromData [-1, 0] [1, 2])
    (NewFromData [1000, 1001] [1, 2]) [1] 2 (fun _ => 1001) (wf_pair _ _) (wf_pair _ _)
    rfl rfl (by norm_num) (by
      intro r i hr hi
      have hr0 : r = 0 := by simpa using hr
      subst hr0
      rw [data_pair, data_pair]
      interval_cases i <;> norm_num)).1

/-- C6: for a tensor with non-empty last axis (every value of the carrier is
finite; `ex` is positive, as the exponential is), every row of `Softmax(t)`
is a probability distribution: each entry lies in `[0,1]` and the entries of
the row sum to `1`; a row of `n` equal entries maps to `1/n` in every
position, and `[0,0]` maps to `[1/2,1/2]`. -/
theorem Softmax_distribution {α : Type} [LinearOrderedField α] (ex : α → α)
    (hpos : ∀ a, 0 < ex a) (t : NDArray α) (dims : List Nat) (n : Nat) (ht : t.WF)
    (hs : t.Shape = dims ++ [n]) (hn : 0 < n) :
    (∃ out, Softmax ex t = some out ∧ out.Shape = t.Shape ∧ out.WF ∧
      ∀ r, r < dims.prod →
        (∀ i, i < n → ∃ p, out.Data[r * n + i]? = some p ∧ 0 ≤ p ∧ p ≤ 1) ∧
        (∑ i in Finset.range n, (out.Data[r * n + i]?).getD 0) = 1 ∧
        ((∀ i, i < n → t.Data[r * n + i]? = t.Data[r * n]?) →
          ∀ i, i < n → out.Data[r * n + i]? = some (1 / (n : α)))) ∧
    (Softmax Real.exp (NewFromData [0, 0] [1, 2] : NDArray ℝ)).map (fun out => out.Data)
      = some [1 / 2, 1 / 2] := by
  have main : ∀ {β : Type} [LinearOrderedField β] (ex : β → β) (_ : ∀ a, 0 < ex a)
      (t : NDArray β) (dims : List Nat) (n : Nat) (_ : t.WF) (_ : t.Shape = dims ++ [n])
      (_ : 0 < n),
      ∃ out, Softmax ex t = some out ∧ out.Shape = t.Shape ∧ out.WF ∧
        ∀ r, r < dims.prod →
          (∀ i, i < n → ∃ p, out.Data[r * n + i]? = some p ∧ 0 ≤ p ∧ p ≤ 1) ∧
          (∑ i in Finset.range n, (out.Data[r * n + i]?).getD 0) = 1 ∧
          ((∀ i, i < n → t.Data[r * n + i]? = t.Data[r * n]?) →
            ∀ i, i < n → out.Data[r * n + i]? = some (1 / (n : β))) := by
    intro β _ ex hpos t dims n ht hs hn
    obtain ⟨out, h1, h2, h3, h4, h5, h6⟩ := Softmax_rows ex t dims n ht hs hn
    have hsize : t.Size = dims.prod * n := by rw [ht.1, hs]; simp
    refine ⟨out, h1, h2, ⟨by rw [h4, h2, ht.1], by rw [h5, h4, hsize], by rw [h3, h2, ht.2.2]⟩, ?_⟩
    intro r hr
    have hS : 0 < ∑ j in Finset.range n,
        ex ((t.Data[r * n + j]?).getD 0 - (rowMaxLoop t.Data (r * n) n).getD 0) :=
      Finset.sum_pos (fun j _ => hpos _) ⟨0, Finset.mem_range.mpr hn⟩
    refine ⟨?_, ?_, ?_⟩
    · intro i hi
      refine ⟨_, h6 r i hr hi, div_nonneg (le_of_lt (hpos _)) (le_of_lt hS), ?_⟩
      rw [div_le_one hS]
      exact Finset.single_le_sum
        (f := fun j => ex ((t.Data[r * n + j]?).getD 0 - (rowMaxLoop t.Data (r * n) n).getD 0))
        (fun j _ => le_of_lt (hpos _)) (Finset.mem_range.mpr hi)
    · have e : ∑ i in Finset.range n, (out.Data[r * n + i]?).getD 0
          = ∑ i in Finset.range n,
              ex ((t.Data[r * n + i]?).getD 0 - (rowMaxLoop t.Data (r * n) n).getD 0)
                / ∑ j in Finset.range n,
                    ex ((t.Data[r * n + j]?).getD 0 - (rowMaxLoop t.Data (r * n) n).getD 0) :=
        Finset.sum_congr rfl (fun i hi => by rw [h6 r i hr (Finset.mem_range.mp hi)]; rfl)
      rw [e, ← Finset.sum_div, div_self (ne_of_gt hS)]
    · intro heq i hi
      rw [h6 r i hr hi]
      have hv : ∀ j, j < n →
          ex ((t.Data[r * n + j]?).getD 0 - (rowMaxLoop t.Data (r * n) n).getD 0)
            = ex ((t.Data[r * n]?).getD 0 - (rowMaxLoop t.Data (r * n) n).getD 0) := by
        intro j hj
        rw [heq j hj]
      rw [hv i hi, Finset.sum_congr rfl (fun j hj => hv j (Finset.mem_range.mp hj))]
      rw [Finset.sum_const, Finset.card_range, nsmul_eq_mul]
      congr 1
      have hne := ne_of_gt (hpos ((t.Data[r * n]?).getD 0 - (rowMaxLoop t.Data (r * n) n).getD 0))
      have hn0 : (n : β) ≠ 0 := Nat.cast_ne_zero.mpr (by omega)
      field_simp
      ring
  refine ⟨main ex hpos t dims n ht hs hn, ?_⟩
  obtain ⟨out, h1, hsh, hwf, h6⟩ := main Real.exp Real.exp_pos (NewFromData [0, 0] [1, 2]) [1] 2
    (wf_pair _ _) rfl (by norm_num)
  obtain ⟨-, -, h⟩ := h6 0 (by norm_num)
  have h0 := h (fun i _ => by rw [data_pair]; interval_cases i <;> rfl) 0 (by norm_num)
  have h1' := h (fun i _ => by rw [data_pair]; interval_cases i <;> rfl) 1 (by norm_num)
  have hlen : out.Data.length = 2 := by
    rw [hwf.2.1, hwf.1, hsh]
    rfl
  rw [h1]
  obtain ⟨d, sh, st, sz⟩ := out
  simp only at h0 h1' hlen ⊢
  match d, hlen with
  | [a, b], _ =>
    simp at h0 h1'
    simp [h0, h1']

theorem Softmax_distribution_witness :
    ∃ out, Softmax Real.exp (NewFromData [1, 3] [1, 2] : NDArray ℝ) = some out ∧
      out.Shape = (NewFromData [1, 3] [1, 2] : NDArray ℝ).Shape ∧ out.WF ∧
      ∀ r, r < [1].prod →
        (∀ i, i < 2 → ∃ p, out.Data[r * 2 + i]? = some p ∧ 0 ≤ p ∧ p ≤ 1) ∧
        (∑ i in Finset.range 2, (out.Data[r * 2 + i]?).getD 0) = 1 ∧
        ((∀ i, i < 2 → (NewFromData [1, 3] [1, 2] : NDArray ℝ).Data[r * 2 + i]?
            = (NewFromData [1, 3] [1, 2] : NDArray ℝ).Data[r * 2]?) →
          ∀ i, i < 2 → out.Data[r * 2 + i]? = some (1 / ((2 : Nat) : ℝ))) :=
  (Softmax_distribution Real.exp Real.exp_pos (NewFromData [1, 3] [1, 2]) [1] 2
    (wf_pair _ _) rfl (by norm_num)).1

/-! ## Elementwise operations and batched `MatMul` on mismatched shapes -/

/-- C7: on `a` of shape `[2,3]` and `b` of shape `[3,2]` (different shapes,
equal buffer lengths) each of `Add`, `Sub`, `Mul`, `Div` returns a tensor of
shape `[2,3]` rather than faulting; on shapes `[2]` and `[3]` the guard of
`Mul` faults while `Add`, `Sub` and `Div` return a tensor of shape `[2]`. -/
theorem elementwise_mismatch_returns :
    (NewFromData [1, 2, 3, 4, 5, 6] [2, 3] : NDArray ℚ).Shape
        ≠ (NewFromData [1, 2, 3, 4, 5, 6] [3, 2] : NDArray ℚ).Shape ∧
    Add (NewFromData [1, 2, 3, 4, 5, 6] [2, 3] : NDArray ℚ) (NewFromData [1, 2, 3, 4, 5, 6] [3, 2])
      = some ⟨[2, 4, 6, 8, 10, 12], [2, 3], [3, 1], 6⟩ ∧
    Sub (NewFromData [1, 2, 3, 4, 5, 6] [2, 3] : NDArray ℚ) (NewFromData [1, 2, 3, 4, 5, 6] [3, 2])
      = some ⟨[0, 0, 0, 0, 0, 0], [2, 3], [3, 1], 6⟩ ∧
    Mul (NewFromData [1, 2, 3, 4, 5, 6] [2, 3] : NDArray ℚ) (NewFromData [1, 2, 3, 4, 5, 6] [3, 2])
      = some ⟨[1, 4, 9, 16, 25, 36], [2, 3], [3, 1], 6⟩ ∧
    Div (NewFromData [1, 2, 3, 4, 5, 6] [2, 3] : NDArray ℚ) (NewFromData [1, 2, 3, 4, 5, 6] [3, 2])
      = some ⟨[1, 1, 1, 1, 1, 1], [2, 3], [3, 1], 6⟩ ∧
    Mul (NewFromData [1, 2] [2] : NDArray ℚ) (NewFromData [10, 20, 30] [3]) = none ∧
    Add (NewFromData [1, 2] [2] : NDArray ℚ) (NewFromData [10, 20, 30] [3])
      = some ⟨[11, 22], [2], [1], 2⟩ ∧
    Sub (NewFromData [1, 2] [2] : NDArray ℚ) (NewFromData [10, 20, 30] [3])
      = some ⟨[-9, -18], [2], [1], 2⟩ ∧
    Div (NewFromData [10, 20] [2] : NDArray ℚ) (NewFromData [10, 20, 30] [3])
      = some ⟨[1, 1], [2], [1], 2⟩ := by
  refine ⟨by decide, ?_, ?_, ?_, ?_, ?_, ?_, ?_, ?_⟩
  · simp [Add, forRange, setIdx, New, NewFromData, shapeSize, makeCopy, computeStrides,
      stridesLoop]
    norm_num
  · simp [Sub, forRange, setIdx, New, NewFromData, shapeSize, makeCopy, computeStrides,
      stridesLoop]
  · simp [Mul, forRange, setIdx, New, NewFromData, shapeSize, makeCopy, computeStrides,
      stridesLoop]
    norm_num
  · simp [Div, forRange, setIdx, New, NewFromData, shapeSize, makeCopy, computeStrides,
      stridesLoop]
  · simp [Mul, New, NewFromData, shapeSize]
  · simp [Add, forRange, setIdx, New, NewFromData, shapeSize, makeCopy, computeStrides,
      stridesLoop]
    norm_num
  · simp [Sub, forRange, setIdx, New, NewFromData, shapeSize, makeCopy, computeStrides,
      stridesLoop]
    norm_num
  · simp [Div, forRange, setIdx, New, NewFromData, shapeSize, makeCopy, computeStrides,
      stridesLoop]

/-- C8: on `a` of shape `[1,1,1]` and `b` of shape `[2,1,1]` (batch axes 1 and
2) `MatMul` returns the tensor `[[[6]]]` of shape `[1,1,1]` rather than
faulting; with the operands swapped (batch axes 2 and 1) it faults, on the
read past the end of the shorter buffer. -/
theorem MatMul_batch_mismatch_returns :
    MatMul (NewFromData [2] [1, 1, 1] : NDArray ℤ) (NewFromData [3, 5] [2, 1, 1])
      = some ⟨[6], [1, 1, 1], [1, 1, 1], 1⟩ ∧
    MatMul (NewFromData [3, 5] [2, 1, 1] : NDArray ℤ) (NewFromData [2] [1, 1, 1]) = none := by
  decide

/-! ## Reductions: `Max`, `Sum`, `ArgMax` -/

theorem maxFold_spec {α : Type} [LinearOrderedField α] (l : List α) (init : α) :
    init ≤ l.foldl (fun m v => if v > m then v else m) init ∧
    (∀ x ∈ l, x ≤ l.foldl (fun m v => if v > m then v else m) init) ∧
    (l.foldl (fun m v => if v > m then v else m) init = init ∨
      l.foldl (fun m v => if v > m then v else m) init ∈ l) := by
  induction l generalizing init with
  | nil => simp
  | cons x xs ih =>
    simp only [List.foldl_cons, List.mem_cons]
    obtain ⟨h1, h2, h3⟩ := ih (if x > init then x else init)
    have hle : init ≤ (if x > init then x else init) := by
      split_ifs with h
      · exact le_of_lt h
      · exact le_refl _
    have hxle : x ≤ (if x > init then x else init) := by
      split_ifs with h
      · exact le_refl _
      · exact not_lt.mp h
    refine ⟨le_trans hle h1, ?_, ?_⟩
    · intro y hy
      rcases hy with rfl | hy
      · exact le_trans hxle h1
      · exact h2 y hy
    · rcases h3 with h3 | h3
      · by_cases h : x > init
        · right; left
          rw [h3, if_pos h]
        · left
          rw [h3, if_neg h]
      · right; right
        exact h3

theorem loop_write {β γ : Type} (R : Nat) (val : Nat → Option γ) (g : γ → β) (w : Nat → γ)
    (d0 : List β) (hval : ∀ r, r < R → val r = some (w r)) (hlen : R ≤ d0.length) :
    ∃ d, forRange (fun r d => (val r).bind (fun v => setIdx d r (g v))) R d0 = some d ∧
      d.length = d0.length ∧ ∀ r, r < R → d[r]? = some (g (w r)) := by
  obtain ⟨d, h1, hl, hin⟩ := forRange_inv
    (fun r d => (val r).bind (fun v => setIdx d r (g v)))
    (fun i d => d.length = d0.length ∧ ∀ r, r < i → d[r]? = some (g (w r))) R d0
    ⟨rfl, fun r hr => absurd hr (Nat.not_lt_zero _)⟩
    (by
      intro i s hi ⟨hl, hin⟩
      have hlt : i < s.length := by omega
      refine ⟨s.set i (g (w i)), by simp [hval i hi, setIdx_eq_some _ _ _ hlt], by simpa using hl, ?_⟩
      intro r hr
      by_cases he : r = i
      · subst he
        simp [List.getElem?_set_self hlt]
      · rw [List.getElem?_set_ne (by omega)]
        exact hin r (by omega))
  exact ⟨d, h1, hl, hin⟩

theorem rowSumLoop_eq {α : Type} [Semiring α] (tData : List α) (offset stride : Nat)
    (h : offset + stride ≤ tData.length) :
    rowSumLoop tData offset stride
      = some (∑ j in Finset.range stride, (tData[offset + j]?).getD 0) := by
  obtain ⟨s, h1, h2⟩ := forRange_inv
    (fun j s => do
      let x ← tData[offset + j]?
      some (s + x))
    (fun j s => s = ∑ j' in Finset.range j, (tData[offset + j']?).getD 0) stride 0 (by simp)
    (by
      intro j s hj hs
      have hlt : offset + j < tData.length := by omega
      refine ⟨s + (tData[offset + j]?).getD 0, by simp [List.getElem?_eq_getElem hlt], ?_⟩
      show _ = _
      rw [Finset.sum_range_succ, hs])
  unfold rowSumLoop
  rw [h1, h2]

theorem rowArgMaxLoop_spec {α : Type} [LinearOrderedField α] (tData : List α)
    (offset stride : Nat) (h : offset + stride ≤ tData.length) (hs : 0 < stride)
    (hfin : ∀ x ∈ tData, -maxFloat32 ≤ x) :
    ∃ p, rowArgMaxLoop tData offset stride = some p ∧ p.2 < stride ∧
      ∀ j, j < stride → (tData[offset + j]?).getD 0 ≤ (tData[offset + p.2]?).getD 0 := by
  obtain ⟨p, h1, hle, hcase⟩ := forRange_inv
    (fun j (p : α × Nat) => do
      let x ← tData[offset + j]?
      some (if x > p.1 then (x, j) else p))
    (fun j p => (∀ j', j' < j → (tData[offset + j']?).getD 0 ≤ p.1) ∧
      ((p.1 = -maxFloat32 ∧ p.2 = 0) ∨ (p.2 < j ∧ (tData[offset + p.2]?).getD 0 = p.1)))
    stride (-maxFloat32, 0)
    ⟨fun j' hj' => absurd hj' (Nat.not_lt_zero _), Or.inl ⟨rfl, rfl⟩⟩
    (by
      intro j p hj ⟨hle, hcase⟩
      have hlt : offset + j < tData.length := by omega
      refine ⟨if tData[offset + j] > p.1 then (tData[offset + j], j) else p,
        by simp [List.getElem?_eq_getElem hlt], ?_⟩
      by_cases hgt : tData[offset + j] > p.1
      · rw [if_pos hgt]
        refine ⟨?_, Or.inr ⟨Nat.lt_succ_self j, by simp [List.getElem?_eq_getElem hlt]⟩⟩
        intro j' hj'
        by_cases he : j' = j
        · subst he
          simp [List.getElem?_eq_getElem hlt]
        · exact le_trans (hle j' (by omega)) (le_of_lt hgt)
      · rw [if_neg hgt]
        refine ⟨?_, ?_⟩
        · intro j' hj'
          by_cases he : j' = j
          · subst he
            simpa [List.getElem?_eq_getElem hlt] using not_lt.mp hgt
          · exact hle j' (by omega)
        · rcases hcase with hc | ⟨hc1, hc2⟩
          · exact Or.inl hc
          · exact Or.inr ⟨Nat.lt_succ_of_lt hc1, hc2⟩)
  refine ⟨p, h1, ?_, ?_⟩
  · rcases hcase with ⟨-, hc⟩ | ⟨hc, -⟩
    · rw [hc]; exact hs
    · exact hc
  · intro j hj
    rcases hcase with ⟨hc1, hc2⟩ | ⟨-, hc⟩
    · have h0 : offset + 0 < tData.length := by omega
      have hx0 : -maxFloat32 ≤ (tData[offset + p.2]?).getD 0 := by
        rw [hc2, List.getElem?_eq_getElem h0]
        exact hfin _ (List.getElem_mem h0)
      exact le_trans (hc1 ▸ hle j hj) hx0
    · rw [hc]
      exact hle j hj

theorem take_last (dims : List Nat) (n : Nat) :
    (dims ++ [n]).take ((dims ++ [n]).length - 1) = dims := by
  simp

/-- C9, as the code has it: `Max` reduces over the whole tensor. It yields one
value, the greatest entry of all rows together (for a non-empty tensor whose
entries are not below `-MaxFloat32`). `Sum` and `ArgMax` do reduce over the
last axis only: for `R` rows of length `n ≥ 1` they yield `R` values, the
`r`-th being the sum of row `r`, respectively an index of a maximum of row `r`. -/
theorem Max_whole_tensor {α : Type} [LinearOrderedField α] (t : NDArray α) (dims : List Nat)
    (n : Nat) (ht : t.WF) (hs : t.Shape = dims ++ [n]) (hn : 0 < n) (hR : 0 < dims.prod)
    (hfin : ∀ x ∈ t.Data, -maxFloat32 ≤ x) :
    (Max t ∈ t.Data ∧ ∀ x ∈ t.Data, x ≤ Max t) ∧
    (∃ out, Sum t = some out ∧ out.Shape = dims ∧ out.Data.length = dims.prod ∧
      ∀ r, r < dims.prod →
        out.Data[r]? = some (∑ j in Finset.range n, (t.Data[r * n + j]?).getD 0)) ∧
    (∃ idx, ArgMax t = some idx ∧ idx.length = dims.prod ∧
      ∀ r, r < dims.prod → ∃ k, idx[r]? = some k ∧ k < n ∧
        ∀ j, j < n → (t.Data[r * n + j]?).getD 0 ≤ (t.Data[r * n + k]?).getD 0) := by
  have hsize : t.Size = dims.prod * n := by rw [ht.1, hs]; simp
  have hlen : t.Data.length = dims.prod * n := by rw [ht.2.1, hsize]
  have hrow : ∀ r, r < dims.prod → r * n + n ≤ t.Data.length := by
    intro r hr
    rw [hlen]
    calc r * n + n = (r + 1) * n := by ring
      _ ≤ dims.prod * n := Nat.mul_le_mul_right n hr
  have e0 : ¬ t.Shape.length = 0 := by rw [hs]; simp
  have e1 : t.Shape[t.Shape.length - 1]? = some n := by rw [hs]; exact two_last dims n
  refine ⟨?_, ?_, ?_⟩
  · obtain ⟨h1, h2, h3⟩ := maxFold_spec t.Data (-maxFloat32)
    refine ⟨?_, h2⟩
    rcases h3 with h3 | h3
    · have hpos : 0 < t.Data.length := by rw [hlen]; exact Nat.mul_pos hR hn
      have hmem : t.Data[0] ∈ t.Data := List.getElem_mem hpos
      have hle : t.Data[0] ≤ -maxFloat32 := h3 ▸ h2 _ hmem
      have heq : t.Data[0] = -maxFloat32 := le_antisymm hle (hfin _ hmem)
      show List.foldl _ _ _ ∈ _
      rw [h3, ← heq]
      exact hmem
    · exact h3
  · obtain ⟨d, h1, hl, hin⟩ := loop_write dims.prod
      (fun r => rowSumLoop t.Data (r * n) n) (fun v => v)
      (fun r => ∑ j in Finset.range n, (t.Data[r * n + j]?).getD 0)
      (List.replicate dims.prod (0 : α))
      (fun r hr => rowSumLoop_eq _ _ _ (hrow r hr)) (by simp)
    refine ⟨⟨d, dims, rowMajor dims, dims.prod⟩, ?_, rfl, by simpa using hl, hin⟩
    unfold Sum
    rw [if_neg e0, e1]
    simp only [Option.bind_eq_bind, Option.some_bind, New, makeCopy_eq, shapeSize_eq_prod,
      computeStrides_eq]
    rw [hs, take_last]
    exact congrArg (fun o => Option.bind o _) h1 |>.trans (by simp)
  · obtain ⟨d, h1, hl, hin⟩ := loop_write dims.prod
      (fun r => rowArgMaxLoop t.Data (r * n) n) (fun p => p.2)
      (fun r => ((rowArgMaxLoop t.Data (r * n) n).getD (0, 0)))
      (List.replicate dims.prod 0)
      (fun r hr => by
        obtain ⟨p, hp, -⟩ := rowArgMaxLoop_spec t.Data (r * n) n (hrow r hr) hn hfin
        show rowArgMaxLoop t.Data (r * n) n = some ((rowArgMaxLoop t.Data (r * n) n).getD (0, 0))
        rw [hp]; rfl) (by simp)
    refine ⟨d, ?_, by simpa using hl, ?_⟩
    · unfold ArgMax
      rw [if_neg e0, e1]
      simp only [Option.bind_eq_bind, Option.some_bind, if_neg (Nat.pos_iff_ne_zero.mp hn)]
      rw [hsize, Nat.mul_div_cancel _ hn]
      exact h1
    · intro r hr
      obtain ⟨p, hp, hk, hmax⟩ := rowArgMaxLoop_spec t.Data (r * n) n (hrow r hr) hn hfin
      refine ⟨p.2, ?_, hk, hmax⟩
      rw [hin r hr, hp]
      rfl

theorem Max_whole_tensor_witness :
    (Max (NewFromData [1, 2, 3, 4] [2, 2] : NDArray ℚ)
        ∈ (NewFromData [1, 2, 3, 4] [2, 2] : NDArray ℚ).Data ∧
      ∀ x ∈ (NewFromData [1, 2, 3, 4] [2, 2] : NDArray ℚ).Data,
        x ≤ Max (NewFromData [1, 2, 3, 4] [2, 2] : NDArray ℚ)) :=
  (Max_whole_tensor (NewFromData [1, 2, 3, 4] [2, 2] : NDArray ℚ) [2] 2 ⟨rfl, rfl, rfl⟩ rfl
    (by norm_num) (by norm_num) (by
      intro x hx
      have hd : (NewFromData [1, 2, 3, 4] [2, 2] : NDArray ℚ).Data = [1, 2, 3, 4] := rfl
      rw [hd] at hx
      simp only [List.mem_cons, List.mem_singleton, List.not_mem_nil, or_false] at hx
      rcases hx with rfl | rfl | rfl | rfl <;> simp [maxFloat32] <;> norm_num)).1

/-- C9, as stated, fails on `[[1,2],[3,4]]`: `Max` yields the single value `4`,
which is not the maximum of row 0 (it is not even an entry of that row). -/
theorem Max_not_per_row :
    ¬ (∀ r, r < 2 →
      Max (NewFromData [1, 2, 3, 4] [2, 2] : NDArray ℚ)
          ∈ (NewFromData [1, 2, 3, 4] [2, 2] : NDArray ℚ).rowList 2 r ∧
        ∀ x ∈ (NewFromData [1, 2, 3, 4] [2, 2] : NDArray ℚ).rowList 2 r,
          x ≤ Max (NewFromData [1, 2, 3, 4] [2, 2] : NDArray ℚ)) := by
  intro h
  have h0 := (h 0 (by norm_num)).1
  have hd : (NewFromData [1, 2, 3, 4] [2, 2] : NDArray ℚ).Data = [1, 2, 3, 4] := rfl
  have hm : Max (NewFromData [1, 2, 3, 4] [2, 2] : NDArray ℚ) = 4 := by
    simp [Max, hd, maxFloat32]
    norm_num
  rw [hm] at h0
  simp [NDArray.rowList, hd] at h0

end tensor

/-! ## `Linear.Forward` -/

namespace nn

open tensor

theorem biasLoop_spec {α : Type} [Semiring α] (bData : List α) (stride N : Nat) (d : List α)
    (hb : bData.length = stride) (hd : d.length = N * stride) :
    ∃ d2, biasLoop bData stride (N * stride) d = some d2 ∧ d2.length = N * stride ∧
      ∀ n r, n < N → r < stride →
        d2[n * stride + r]? = some ((d[n * stride + r]?).getD 0 + (bData[r]?).getD 0) := by
  obtain ⟨d2, h1, hl, hin, -⟩ := forRange_inv
    (fun i d =>
      if stride = 0 then none
      else do
        let b ← bData[i % stride]?
        let y ← d[i]?
        setIdx d i (y + b))
    (fun i s => s.length = N * stride ∧
      (∀ p, p < i → s[p]? = some ((d[p]?).getD 0 + (bData[p % stride]?).getD 0)) ∧
      (∀ p, i ≤ p → s[p]? = d[p]?))
    (N * stride) d ⟨hd, fun p hp => absurd hp (Nat.not_lt_zero _), fun _ _ => rfl⟩
    (by
      intro i s hi ⟨hl, hdone, htodo⟩
      have hs0 : stride ≠ 0 := fun h0 => by rw [h0] at hi; simp at hi
      have hmod : i % stride < bData.length := by
        rw [hb]; exact Nat.mod_lt _ (Nat.pos_of_ne_zero hs0)
      have hlt : i < s.length := by omega
      have hltd : i < d.length := by omega
      have hsi : s[i]? = some d[i] := by rw [htodo i (le_refl i), List.getElem?_eq_getElem hltd]
      refine ⟨s.set i (d[i] + bData[i % stride]), ?_, by simpa using hl, ?_, ?_⟩
      · simp [hs0, List.getElem?_eq_getElem hmod, hsi, setIdx_eq_some _ _ _ hlt]
      · intro p hp
        by_cases he : p = i
        · subst he
          simp [List.getElem?_set_self hlt, List.getElem?_eq_getElem hltd,
            List.getElem?_eq_getElem hmod]
        · rw [List.getElem?_set_ne (by omega)]
          exact hdone p (by omega)
      · intro p hp
        rw [List.getElem?_set_ne (by omega)]
        exact htodo p (by omega))
  refine ⟨d2, h1, hl, ?_⟩
  intro n r hn hr
  rw [hin _ (idx2_lt hn hr)]
  have hmod : (n * stride + r) % stride = r := by
    rw [Nat.add_comm, Nat.add_mul_mod_self_right, Nat.mod_eq_of_lt hr]
  rw [hmod]

theorem one_set_last (dims : List Nat) (x z : Nat) :
    (dims ++ [x]).set ((dims ++ [x]).length - 1) z = dims ++ [z] := by
  have e : (dims ++ [x]).length - 1 = dims.length := by simp
  rw [e, List.set_append_right _ _ (by omega)]
  simp

theorem Linear_Forward_mismatch {α : Type} [Semiring α] (l : Linear α) (x : NDArray α)
    (dims : List Nat) (inDim Out In : Nat) (hW : l.W.Data.Shape = [Out, In])
    (hx : x.Shape = dims ++ [inDim]) (hne : inDim ≠ In) :
    l.Forward x = none := by
  unfold Linear.Forward
  rw [hx, two_last, hW]
  simp [hne]

theorem Linear_Forward_ok {α : Type} [Semiring α] (l : Linear α) (x : NDArray α)
    (dims : List Nat) (Out In : Nat) (hWwf : l.W.Data.WF) (hW : l.W.Data.Shape = [Out, In])
    (hBwf : l.B.Data.WF) (hB : l.B.Data.Shape = [Out]) (hxwf : x.WF)
    (hx : x.Shape = dims ++ [In]) (hIn : 0 < In) :
    ∃ out, l.Forward x = some ({ l with input := some x }, out) ∧
      out.Shape = dims ++ [Out] ∧ out.WF ∧
      ∀ n r, n < dims.prod → r < Out →
        out.Data[n * Out + r]? = some
          ((∑ c in Finset.range In,
              (x.Data[n * In + c]?).getD 0 * (l.W.Data.Data[r * In + c]?).getD 0)
            + (l.B.Data.Data[r]?).getD 0) := by
  have hxsize : x.Size = dims.prod * In := by rw [hxwf.1, hx]; simp
  have hxlen : x.Data.length = dims.prod * In := by rw [hxwf.2.1, hxsize]
  have hdiv : x.Size / In = dims.prod := by rw [hxsize, Nat.mul_div_cancel _ hIn]
  -- the flattened view of the input
  have hview := View_ok_of_eq x [dims.prod, In] (by simp [hxsize])
  -- the transposed weight
  obtain ⟨wt, t1, t2, t3, t4, t5, t6⟩ := Transpose_flat l.W.Data [] Out In (by simpa using hW)
    (by rw [hWwf.2.1, hWwf.1, hW]; simp)
  -- the product
  obtain ⟨outFlat, m1, m2, m3, m4, m5, m6⟩ := PureGoMatMul_flat
    (⟨x.Data, [dims.prod, In], rowMajor [dims.prod, In], x.Size⟩ : NDArray α) wt []
    [] dims.prod In Out (by simp) (by simpa using t2) rfl (by simpa using hxlen)
    (by simpa using le_of_eq t5.symm)
  simp only [List.prod_nil, Nat.one_mul, List.nil_append] at m2 m3 m4 m5 m6 t2 t5 t6
  -- the view of the product under the output shape
  have hview2 := View_ok_of_eq outFlat (dims ++ [Out]) (by simp [m3])
  -- the bias
  have hBsize : l.B.Data.Size = Out := by rw [hBwf.1, hB]; simp
  obtain ⟨d2, b1, b2, b3⟩ := biasLoop_spec l.B.Data.Data Out dims.prod outFlat.Data
    (by rw [hBwf.2.1, hBsize]) m5
  refine ⟨⟨d2, dims ++ [Out], rowMajor (dims ++ [Out]), outFlat.Size⟩, ?_, rfl,
    ⟨by simp [m3], by simp [b2, m3], by simp [computeStrides_eq]⟩, ?_⟩
  · unfold Linear.Forward
    rw [hx, two_last, hW]
    simp only [List.getElem?_cons_succ, List.getElem?_cons_zero, Option.bind_eq_bind,
      Option.some_bind, ne_eq, not_true_eq_false, if_false, if_neg (Nat.pos_iff_ne_zero.mp hIn)]
    rw [← hx, hdiv, hview]
    simp only [t1, Option.some_bind, MatMul, m1]
    rw [hx, makeCopy_eq, one_set_last, hview2]
    simp only [hBsize, m3, b1, Option.some_bind]
  · intro n r hn hr
    have hm := m6 0 n r (by norm_num) hn hr
    simp only [Nat.zero_mul, Nat.zero_add] at hm
    rw [b3 n r hn hr, hm]
    simp only [Option.getD_some]
    congr 2
    apply Finset.sum_congr rfl
    intro c hc
    have h := t6 0 r c (by norm_num) hr (Finset.mem_range.mp hc)
    simp only [Nat.zero_mul, Nat.zero_add] at h
    rw [h]

/-- C10, for input width `In ≥ 1`: for a `Linear` layer with weight of shape
`[Out, In]` and bias of shape `[Out]` and an input `x` of shape `[..., inDim]`,
`Forward` panics exactly when `inDim` differs from `In`; otherwise it caches
`x` and returns a tensor whose shape is that of `x` with the last dimension
replaced by `Out` and whose entry at flattened row `n`, column `r` is
`(sum over c < In of x[n,c] * W[r,c]) + B[r]`. -/
theorem Linear_Forward_spec {α : Type} [Semiring α] (l : Linear α) (x : NDArray α)
    (dims : List Nat) (inDim Out In : Nat) (hWwf : l.W.Data.WF) (hW : l.W.Data.Shape = [Out, In])
    (hBwf : l.B.Data.WF) (hB : l.B.Data.Shape = [Out]) (hxwf : x.WF)
    (hx : x.Shape = dims ++ [inDim]) (hIn : 0 < In) :
    (l.Forward x = none ↔ inDim ≠ In) ∧
    (inDim = In → ∃ out, l.Forward x = some ({ l with input := some x }, out) ∧
      out.Shape = dims ++ [Out] ∧ out.WF ∧
      ∀ n r, n < dims.prod → r < Out →
        out.Data[n * Out + r]? = some
          ((∑ c in Finset.range In,
              (x.Data[n * In + c]?).getD 0 * (l.W.Data.Data[r * In + c]?).getD 0)
            + (l.B.Data.Data[r]?).getD 0)) := by
  constructor
  · constructor
    · intro hnone heq
      subst heq
      obtain ⟨out, h, -⟩ := Linear_Forward_ok l x dims Out inDim hWwf hW hBwf hB hxwf hx hIn
      rw [h] at hnone
      cases hnone
    · exact Linear_Forward_mismatch l x dims inDim Out In hW hx
  · intro heq
    subst heq
    exact Linear_Forward_ok l x dims Out inDim hWwf hW hBwf hB hxwf hx hIn

theorem Linear_Forward_spec_witness :
    ∃ out,
      Linear.Forward
        (⟨⟨NewFromData [1, 2, 3, 4, 5, 6] [2, 3], New [2, 3], "weight"⟩,
          ⟨NewFromData [10, 20] [2], New [2], "bias"⟩, none⟩ : Linear ℤ)
        (NewFromData [1, 0, 0, 0, 1, 0, 1, 1, 1, 2, 2, 2] [2, 2, 3])
        = some (⟨⟨NewFromData [1, 2, 3, 4, 5, 6] [2, 3], New [2, 3], "weight"⟩,
            ⟨NewFromData [10, 20] [2], New [2], "bias"⟩,
            some (NewFromData [1, 0, 0, 0, 1, 0, 1, 1, 1, 2, 2, 2] [2, 2, 3])⟩, out) ∧
      out.Shape = [2, 2] ++ [2] ∧ out.WF ∧
      ∀ n r, n < [2, 2].prod → r < 2 →
        out.Data[n * 2 + r]? = some
          ((∑ c in Finset.range 3,
              ((NewFromData [1, 0, 0, 0, 1, 0, 1, 1, 1, 2, 2, 2] [2, 2, 3] :
                  NDArray ℤ).Data[n * 3 + c]?).getD 0
                * ((NewFromData [1, 2, 3, 4, 5, 6] [2, 3] : NDArray ℤ).Data[r * 3 + c]?).getD 0)
            + ((NewFromData [10, 20] [2] : NDArray ℤ).Data[r]?).getD 0) :=
  (Linear_Forward_spec
    (⟨⟨NewFromData [1, 2, 3, 4, 5, 6] [2, 3], New [2, 3], "weight"⟩,
      ⟨NewFromData [10, 20] [2], New [2], "bias"⟩, none⟩ : Linear ℤ)
    (NewFromData [1, 0, 0, 0, 1, 0, 1, 1, 1, 2, 2, 2] [2, 2, 3]) [2, 2] 3 2 3
    ⟨rfl, rfl, rfl⟩ rfl ⟨rfl, rfl, rfl⟩ rfl ⟨rfl, rfl, rfl⟩ rfl (by decide)).2 rfl

/-- C10, as stated, fails for input width `In = 0`: the weight and the input
both have shape `[1,0]` (so the last dimension of the input, `0`, equals
`In`) and the bias has shape `[1]`, yet `Forward` panics, because the
division `x.Size / inDim` divides by zero; the claim has it return the
`[1,1]` tensor `[[5]]`. -/
theorem Linear_Forward_zero_width :
    (New [1, 0] : NDArray ℤ).Shape = [1, 0] ∧ (NewFromData [5] [1] : NDArray ℤ).Shape = [1] ∧
    Linear.Forward
      (⟨⟨New [1, 0], New [1, 0], "weight"⟩, ⟨NewFromData [5] [1], New [1], "bias"⟩, none⟩ :
        Linear ℤ)
      (New [1, 0]) = none :=
  ⟨rfl, rfl, rfl⟩

end nn

namespace tensor

/-! ## Loops whose iterations update disjoint cells -/

theorem loop_effect {α : Type} (m L : Nat) (body : Nat → List α → Option (List α))
    (touch : Nat → Nat → Prop) (G : Nat → Nat → α → α) (d0 : List α)
    (hbody : ∀ r d, r < m → d.length = L → ∃ d', body r d = some d' ∧ d'.length = L ∧
      (∀ p, touch r p → d'[p]? = (d[p]?).map (G r p)) ∧ (∀ p, ¬ touch r p → d'[p]? = d[p]?))
    (hdisj : ∀ r r' p, r < m → r' < m → touch r p → touch r' p → r = r')
    (hlen : d0.length = L) :
    ∃ d', forRange body m d0 = some d' ∧ d'.length = L ∧
      (∀ r p, r < m → touch r p → d'[p]? = (d0[p]?).map (G r p)) ∧
      (∀ p, (∀ r, r < m → ¬ touch r p) → d'[p]? = d0[p]?) := by
  obtain ⟨d', h1, hl, hin, hout⟩ := forRange_inv body
    (fun i d => d.length = L ∧
      (∀ r p, r < i → r < m → touch r p → d[p]? = (d0[p]?).map (G r p)) ∧
      (∀ p, (∀ r, r < i → ¬ touch r p) → d[p]? = d0[p]?))
    m d0 ⟨hlen, fun r p hr => absurd hr (Nat.not_lt_zero _), fun _ _ => rfl⟩
    (by
      intro i d hi ⟨hl, hin, hout⟩
      obtain ⟨d', h1, hl', ht, hn⟩ := hbody i d hi hl
      refine ⟨d', h1, hl', ?_, ?_⟩
      · intro r p hr hrm htr
        by_cases he : r = i
        · subst he
          rw [ht p htr, hout p]
          intro r' hr' htr'
          have := hdisj r' r p (by omega) hrm htr' htr
          omega
        · have hnt : ¬ touch i p := fun hti => he (hdisj r i p hrm hi htr hti)
          rw [hn p hnt]
          exact hin r p (by omega) hrm htr
      · intro p hp
        rw [hn p (hp i (Nat.lt_succ_self i))]
        exact hout p (fun r hr => hp r (Nat.lt_succ_of_lt hr)))
  exact ⟨d', h1, hl, fun r p hr htr => hin r p hr hr htr, hout⟩

end tensor

namespace nn
open tensor

/-! ## `Linear.Backward` -/

theorem gradRowLoop_spec {α : Type} [Semiring α] (gData xData : List α)
    (offsetGrad offsetIn outDim inDim : Nat) (wg : List α)
    (hg : offsetGrad + outDim ≤ gData.length) (hx : offsetIn + inDim ≤ xData.length)
    (hw : wg.length = outDim * inDim) :
    ∃ wg', gradRowLoop gData xData offsetGrad offsetIn outDim inDim wg = some wg' ∧
      wg'.length = outDim * inDim ∧
      ∀ r c, r < outDim → c < inDim → wg'[r * inDim + c]? = some
        ((wg[r * inDim + c]?).getD 0
          + (gData[offsetGrad + r]?).getD 0 * (xData[offsetIn + c]?).getD 0) := by
  obtain ⟨wg', h1, hl, hin, -⟩ := loop_effect outDim (outDim * inDim)
    (fun r wg => do
      let gradVal ← gData[offsetGrad + r]?
      forRange (fun c wg => do
        let xv ← xData[offsetIn + c]?
        let y ← wg[r * inDim + c]?
        setIdx wg (r * inDim + c) (y + gradVal * xv)) inDim wg)
    (fun r p => r * inDim ≤ p ∧ p < r * inDim + inDim)
    (fun r p y => y + (gData[offsetGrad + r]?).getD 0 * (xData[offsetIn + (p - r * inDim)]?).getD 0)
    wg
    (by
      intro r d hr hd
      have hgr : offsetGrad + r < gData.length := by omega
      obtain ⟨d', h1, hl, hin, hout⟩ := loop_effect inDim (outDim * inDim)
        (fun c wg => do
          let xv ← xData[offsetIn + c]?
          let y ← wg[r * inDim + c]?
          setIdx wg (r * inDim + c) (y + gData[offsetGrad + r] * xv))
        (fun c p => p = r * inDim + c)
        (fun c _ y => y + gData[offsetGrad + r] * (xData[offsetIn + c]?).getD 0)
        d
        (by
          intro c s hc hs
          have hxc : offsetIn + c < xData.length := by omega
          have hp : r * inDim + c < s.length := by rw [hs]; exact idx2_lt hr hc
          refine ⟨s.set (r * inDim + c) (s[r * inDim + c] + gData[offsetGrad + r] * xData[offsetIn + c]),
            by simp [List.getElem?_eq_getElem hxc, List.getElem?_eq_getElem hp,
              setIdx_eq_some _ _ _ hp], by simpa using hs, ?_, ?_⟩
          · intro p hpe
            subst hpe
            simp [List.getElem?_set_self hp, List.getElem?_eq_getElem hp,
              List.getElem?_eq_getElem hxc]
          · intro p hpe
            rw [List.getElem?_set_ne (fun h => hpe h.symm)])
        (by intro c c' p _ _ h1 h2; omega)
        hd
      refine ⟨d', by simpa [List.getElem?_eq_getElem hgr] using h1, hl, ?_, ?_⟩
      · intro p ⟨hp1, hp2⟩
        have := hin (p - r * inDim) p (by omega) (by omega)
        rw [this]
        simp [List.getElem?_eq_getElem hgr]
      · intro p hp
        apply hout
        intro c hc hpe
        apply hp
        omega)
    (by
      intro r r' p _ _ ⟨h1, h2⟩ ⟨h3, h4⟩
      by_contra hne
      rcases Nat.lt_or_gt_of_ne hne with h | h
      · have : (r + 1) * inDim ≤ r' * inDim := Nat.mul_le_mul_right _ h
        have e : (r + 1) * inDim = r * inDim + inDim := by ring
        omega
      · have : (r' + 1) * inDim ≤ r * inDim := Nat.mul_le_mul_right _ h
        have e : (r' + 1) * inDim = r' * inDim + inDim := by ring
        omega)
    hw
  refine ⟨wg', h1, hl, ?_⟩
  intro r c hr hc
  rw [hin r (r * inDim + c) hr ⟨by omega, by omega⟩]
  have hp : r * inDim + c < wg.length := by rw [hw]; exact idx2_lt hr hc
  simp [List.getElem?_eq_getElem hp]

theorem biasGradLoop_spec {α : Type} [Semiring α] (gData : List α) (offsetGrad outDim : Nat)
    (bg : List α) (hg : offsetGrad + outDim ≤ gData.length) (hb : bg.length = outDim) :
    ∃ bg', biasGradLoop gData offsetGrad outDim bg = some bg' ∧ bg'.length = outDim ∧
      ∀ r, r < outDim → bg'[r]? = some ((bg[r]?).getD 0 + (gData[offsetGrad + r]?).getD 0) := by
  obtain ⟨bg', h1, hl, hin, -⟩ := loop_effect outDim outDim
    (fun r bg => do
      let gv ← gData[offsetGrad + r]?
      let y ← bg[r]?
      setIdx bg r (y + gv))
    (fun r p => p = r)
    (fun r _ y => y + (gData[offsetGrad + r]?).getD 0)
    bg
    (by
      intro r s hr hs
      have hgr : offsetGrad + r < gData.length := by omega
      have hp : r < s.length := by omega
      refine ⟨s.set r (s[r] + gData[offsetGrad + r]),
        by simp [List.getElem?_eq_getElem hgr, List.getElem?_eq_getElem hp,
          setIdx_eq_some _ _ _ hp], by simpa using hs, ?_, ?_⟩
      · intro p hpe
        subst hpe
        simp [List.getElem?_set_self hp, List.getElem?_eq_getElem hp,
          List.getElem?_eq_getElem hgr]
      · intro p hpe
        rw [List.getElem?_set_ne (fun h => hpe h.symm)])
    (by intro r r' p _ _ h1 h2; omega)
    hb
  refine ⟨bg', h1, hl, ?_⟩
  intro r hr
  rw [hin r r hr rfl]
  have hp : r < bg.length := by omega
  simp [List.getElem?_eq_getElem hp]

end nn
namespace nn
open tensor

theorem gradAccLoop_spec {α : Type} [Semiring α] (gData xData : List α) (N Out In : Nat)
    (wg0 bg0 : List α) (hg : gData.length = N * Out) (hx : xData.length = N * In)
    (hw : wg0.length = Out * In) (hb : bg0.length = Out) :
    ∃ p, forRange (fun i (p : List α × List α) => do
          let wg ← gradRowLoop gData xData (i * Out) (i * In) Out In p.1
          let bg ← biasGradLoop gData (i * Out) Out p.2
          some (wg, bg)) N (wg0, bg0) = some p ∧
      p.1.length = Out * In ∧ p.2.length = Out ∧
      (∀ r c, r < Out → c < In → p.1[r * In + c]? = some
        ((wg0[r * In + c]?).getD 0 + ∑ n in Finset.range N,
          (gData[n * Out + r]?).getD 0 * (xData[n * In + c]?).getD 0)) ∧
      (∀ r, r < Out → p.2[r]? = some
        ((bg0[r]?).getD 0 + ∑ n in Finset.range N, (gData[n * Out + r]?).getD 0)) := by
  obtain ⟨p, h1, hl1, hl2, hwv, hbv⟩ := forRange_inv
    (fun i (p : List α × List α) => do
      let wg ← gradRowLoop gData xData (i * Out) (i * In) Out In p.1
      let bg ← biasGradLoop gData (i * Out) Out p.2
      some (wg, bg))
    (fun i p => p.1.length = Out * In ∧ p.2.length = Out ∧
      (∀ r c, r < Out → c < In → p.1[r * In + c]? = some
        ((wg0[r * In + c]?).getD 0 + ∑ n in Finset.range i,
          (gData[n * Out + r]?).getD 0 * (xData[n * In + c]?).getD 0)) ∧
      (∀ r, r < Out → p.2[r]? = some
        ((bg0[r]?).getD 0 + ∑ n in Finset.range i, (gData[n * Out + r]?).getD 0)))
    N (wg0, bg0)
    ⟨hw, hb,
      fun r c hr hc => by
        have hp : r * In + c < wg0.length := by rw [hw]; exact idx2_lt hr hc
        simp [List.getElem?_eq_getElem hp],
      fun r hr => by
        have hp : r < bg0.length := by omega
        simp [List.getElem?_eq_getElem hp]⟩
    (by
      intro i p hi ⟨hl1, hl2, hwv, hbv⟩
      have hgi : i * Out + Out ≤ gData.length := by
        rw [hg]
        calc i * Out + Out = (i + 1) * Out := by ring
          _ ≤ N * Out := Nat.mul_le_mul_right _ hi
      have hxi : i * In + In ≤ xData.length := by
        rw [hx]
        calc i * In + In = (i + 1) * In := by ring
          _ ≤ N * In := Nat.mul_le_mul_right _ hi
      obtain ⟨wg', w1, w2, w3⟩ := gradRowLoop_spec gData xData (i * Out) (i * In) Out In p.1
        hgi hxi hl1
      obtain ⟨bg', b1, b2, b3⟩ := biasGradLoop_spec gData (i * Out) Out p.2 hgi hl2
      refine ⟨(wg', bg'), by simp [w1, b1], w2, b2, ?_, ?_⟩
      · intro r c hr hc
        show wg'[r * In + c]? = _
        rw [w3 r c hr hc, hwv r c hr hc, Finset.sum_range_succ]
        simp [add_assoc]
      · intro r hr
        show bg'[r]? = _
        rw [b3 r hr, hbv r hr, Finset.sum_range_succ]
        simp [add_assoc])
  exact ⟨p, h1, hl1, hl2, hwv, hbv⟩

theorem Linear_Backward_ok {α : Type} [Semiring α] (l : Linear α) (x g : NDArray α)
    (dims : List Nat) (Out In : Nat) (hWwf : l.W.Data.WF) (hW : l.W.Data.Shape = [Out, In])
    (hWg : l.W.Grad.Data.length = Out * In) (hBg : l.B.Grad.Data.length = Out)
    (hinp : l.input = some x) (hxwf : x.WF) (hx : x.Shape = dims ++ [In]) (hIn : 0 < In)
    (hgwf : g.WF) (hg : g.Shape = dims ++ [Out]) (hOut : 0 < Out) :
    ∃ wg bg dx, l.Backward g = some
        ({ l with
            W := { l.W with Grad := { l.W.Grad with Data := wg } }
            B := { l.B with Grad := { l.B.Grad with Data := bg } } }, some dx) ∧
      wg.length = Out * In ∧ bg.length = Out ∧
      (∀ r c, r < Out → c < In → wg[r * In + c]? = some
        ((l.W.Grad.Data[r * In + c]?).getD 0 + ∑ n in Finset.range dims.prod,
          (g.Data[n * Out + r]?).getD 0 * (x.Data[n * In + c]?).getD 0)) ∧
      (∀ r, r < Out → bg[r]? = some
        ((l.B.Grad.Data[r]?).getD 0 + ∑ n in Finset.range dims.prod,
          (g.Data[n * Out + r]?).getD 0)) ∧
      dx.Shape = x.Shape ∧ dx.WF ∧
      ∀ n c, n < dims.prod → c < In → dx.Data[n * In + c]? = some
        (∑ r in Finset.range Out,
          (g.Data[n * Out + r]?).getD 0 * (l.W.Data.Data[r * In + c]?).getD 0) := by
  have hxsize : x.Size = dims.prod * In := by rw [hxwf.1, hx]; simp
  have hxlen : x.Data.length = dims.prod * In := by rw [hxwf.2.1, hxsize]
  have hgsize : g.Size = dims.prod * Out := by rw [hgwf.1, hg]; simp
  have hglen : g.Data.length = dims.prod * Out := by rw [hgwf.2.1, hgsize]
  have hdivg : g.Size / Out = dims.prod := by rw [hgsize, Nat.mul_div_cancel _ hOut]
  have hdivx : x.Size / In = dims.prod := by rw [hxsize, Nat.mul_div_cancel _ hIn]
  have hview := View_ok_of_eq g [dims.prod, Out] (by simp [hgsize])
  obtain ⟨dflat, m1, m2, m3, m4, m5, m6⟩ := PureGoMatMul_flat
    (⟨g.Data, [dims.prod, Out], rowMajor [dims.prod, Out], g.Size⟩ : NDArray α) l.W.Data []
    [] dims.prod Out In (by simp) (by simpa using hW) rfl (by simpa using hglen)
    (by rw [hWwf.2.1, hWwf.1, hW]; simp)
  simp only [List.prod_nil, Nat.one_mul, List.nil_append] at m2 m3 m4 m5 m6
  have hview2 := View_ok_of_eq dflat (dims ++ [In]) (by simp [m3])
  obtain ⟨p, a1, a2, a3, a4, a5⟩ := gradAccLoop_spec g.Data x.Data dims.prod Out In
    l.W.Grad.Data l.B.Grad.Data hglen hxlen hWg hBg
  refine ⟨p.1, p.2, ⟨dflat.Data, dims ++ [In], rowMajor (dims ++ [In]), dflat.Size⟩, ?_, a2, a3,
    a4, a5, by simp [hx], ⟨by simp [m3], by simp [m5, m3], by simp [computeStrides_eq]⟩, ?_⟩
  · unfold Linear.Backward
    rw [hg, two_last]
    simp only [Option.bind_eq_bind, Option.some_bind, if_neg (Nat.pos_iff_ne_zero.mp hOut)]
    rw [← hg, hdivg, hview]
    simp only [MatMul, m1, Option.some_bind, hW, List.getElem?_cons_succ,
      List.getElem?_cons_zero, hinp, if_neg (Nat.pos_iff_ne_zero.mp hIn), hdivx, a1]
    rw [hg, makeCopy_eq, one_set_last, hview2]
    have a1' := a1
    simp only [Option.bind_eq_bind] at a1'
    rw [a1']
    rfl
  · intro n c hn hc
    have hm := m6 0 n c (by norm_num) hn hc
    simp only [Nat.zero_mul, Nat.zero_add] at hm
    exact hm

end nn
namespace nn
open tensor

theorem Linear_Forward_zero {α : Type} [Semiring α] (l : Linear α) (x : NDArray α)
    (dims : List Nat) (Out : Nat) (hW : l.W.Data.Shape = [Out, 0]) (hx : x.Shape = dims ++ [0]) :
    l.Forward x = none := by
  unfold Linear.Forward
  rw [hx, two_last, hW]
  simp

/-- C11, for output width `Out ≥ 1`: for a `Linear` layer with weight and weight
gradient of shape `[Out, In]` and bias and bias gradient of shape `[Out]`,
after `Forward(x)` with `N` flattened rows, `Backward(g)` (with `g` of the
shape of the output) adds to the gradient buffers: `W.Grad[r,c]` becomes its
previous value plus the sum over rows `n` of `g[n,r] * x[n,c]`, `B.Grad[r]`
its previous value plus the sum over rows `n` of `g[n,r]`; the returned input
gradient has the shape of `x` and entry `[n,c]` equal to the sum over `r` of
`g[n,r] * W[r,c]`; `W.Data` and `B.Data` are unchanged. -/
theorem Linear_Backward_spec {α : Type} [Semiring α] (l0 l1 : Linear α) (x out g : NDArray α)
    (dims : List Nat) (d Out In : Nat) (hWwf : l0.W.Data.WF) (hW : l0.W.Data.Shape = [Out, In])
    (hBwf : l0.B.Data.WF) (hB : l0.B.Data.Shape = [Out])
    (hWg : l0.W.Grad.Data.length = Out * In) (hBg : l0.B.Grad.Data.length = Out)
    (hxwf : x.WF) (hx : x.Shape = dims ++ [d]) (hF : l0.Forward x = some (l1, out))
    (hgwf : g.WF) (hg : g.Shape = dims ++ [Out]) (hOut : 0 < Out) :
    ∃ l2 dx, l1.Backward g = some (l2, some dx) ∧
      l2.W.Data = l0.W.Data ∧ l2.B.Data = l0.B.Data ∧
      (∀ r c, r < Out → c < In → l2.W.Grad.Data[r * In + c]? = some
        ((l0.W.Grad.Data[r * In + c]?).getD 0 + ∑ n in Finset.range dims.prod,
          (g.Data[n * Out + r]?).getD 0 * (x.Data[n * In + c]?).getD 0)) ∧
      (∀ r, r < Out → l2.B.Grad.Data[r]? = some
        ((l0.B.Grad.Data[r]?).getD 0 + ∑ n in Finset.range dims.prod,
          (g.Data[n * Out + r]?).getD 0)) ∧
      dx.Shape = x.Shape ∧ dx.WF ∧
      ∀ n c, n < dims.prod → c < In → dx.Data[n * In + c]? = some
        (∑ r in Finset.range Out,
          (g.Data[n * Out + r]?).getD 0 * (l0.W.Data.Data[r * In + c]?).getD 0) := by
  have hd : d = In := by
    by_contra hne
    rw [Linear_Forward_mismatch l0 x dims d Out In hW hx hne] at hF
    cases hF
  subst hd
  have hIn : 0 < d := by
    rcases Nat.eq_zero_or_pos d with h0 | h0
    · subst h0
      rw [Linear_Forward_zero l0 x dims Out hW hx] at hF
      cases hF
    · exact h0
  have hl1 : l1 = { l0 with input := some x } := by
    obtain ⟨out', hF', -⟩ := Linear_Forward_ok l0 x dims Out d hWwf hW hBwf hB hxwf hx hIn
    rw [hF] at hF'
    exact (Prod.mk.inj (Option.some.inj hF')).1
  subst hl1
  obtain ⟨wg, bg, dx, h1, -, -, h4, h5, h6, h7, h8⟩ := Linear_Backward_ok
    ({ l0 with input := some x } : Linear α) x g dims Out d hWwf hW hWg hBg rfl hxwf hx hIn
    hgwf hg hOut
  exact ⟨_, dx, h1, rfl, rfl, h4, h5, h6, h7, h8⟩

theorem Linear_Backward_spec_witness :
    ∃ l2 dx,
      Linear.Backward
        (⟨⟨NewFromData [1, 2, 3, 4, 5, 6] [2, 3], New [2, 3], "weight"⟩,
          ⟨NewFromData [10, 20] [2], New [2], "bias"⟩,
          some (NewFromData [1, 0, 0, 0, 1, 0, 1, 1, 1, 2, 2, 2] [2, 2, 3])⟩ : Linear ℤ)
        (NewFromData [1, 2, 3, 4, 5, 6, 7, 8] [2, 2, 2]) = some (l2, some dx) ∧
      l2.W.Data = NewFromData [1, 2, 3, 4, 5, 6] [2, 3] ∧
      l2.B.Data = NewFromData [10, 20] [2] ∧
      (∀ r c, r < 2 → c < 3 → l2.W.Grad.Data[r * 3 + c]? = some
        (((New [2, 3] : NDArray ℤ).Data[r * 3 + c]?).getD 0 + ∑ n in Finset.range [2, 2].prod,
          ((NewFromData [1, 2, 3, 4, 5, 6, 7, 8] [2, 2, 2] : NDArray ℤ).Data[n * 2 + r]?).getD 0
            * ((NewFromData [1, 0, 0, 0, 1, 0, 1, 1, 1, 2, 2, 2] [2, 2, 3] :
                NDArray ℤ).Data[n * 3 + c]?).getD 0)) ∧
      (∀ r, r < 2 → l2.B.Grad.Data[r]? = some
        (((New [2] : NDArray ℤ).Data[r]?).getD 0 + ∑ n in Finset.range [2, 2].prod,
          ((NewFromData [1, 2, 3, 4, 5, 6, 7, 8] [2, 2, 2] : NDArray ℤ).Data[n * 2 + r]?).getD 0)) ∧
      dx.Shape = (NewFromData [1, 0, 0, 0, 1, 0, 1, 1, 1, 2, 2, 2] [2, 2, 3] : NDArray ℤ).Shape ∧
      dx.WF ∧
      ∀ n c, n < [2, 2].prod → c < 3 → dx.Data[n * 3 + c]? = some
        (∑ r in Finset.range 2,
          ((NewFromData [1, 2, 3, 4, 5, 6, 7, 8] [2, 2, 2] : NDArray ℤ).Data[n * 2 + r]?).getD 0
            * ((NewFromData [1, 2, 3, 4, 5, 6] [2, 3] : NDArray ℤ).Data[r * 3 + c]?).getD 0) :=
  Linear_Backward_spec
    (⟨⟨NewFromData [1, 2, 3, 4, 5, 6] [2, 3], New [2, 3], "weight"⟩,
      ⟨NewFromData [10, 20] [2], New [2], "bias"⟩, none⟩ : Linear ℤ)
    (⟨⟨NewFromData [1, 2, 3, 4, 5, 6] [2, 3], New [2, 3], "weight"⟩,
      ⟨NewFromData [10, 20] [2], New [2], "bias"⟩,
      some (NewFromData [1, 0, 0, 0, 1, 0, 1, 1, 1, 2, 2, 2] [2, 2, 3])⟩ : Linear ℤ)
    (NewFromData [1, 0, 0, 0, 1, 0, 1, 1, 1, 2, 2, 2] [2, 2, 3])
    (NewFromData [11, 24, 12, 25, 16, 35, 22, 50] [2, 2, 2])
    (NewFromData [1, 2, 3, 4, 5, 6, 7, 8] [2, 2, 2]) [2, 2] 3 2 3
    ⟨rfl, rfl, rfl⟩ rfl ⟨rfl, rfl, rfl⟩ rfl rfl rfl ⟨rfl, rfl, rfl⟩ rfl rfl ⟨rfl, rfl, rfl⟩ rfl
    (by decide)

/-- C11, as stated, fails for output width `Out = 0`: with a weight of shape
`[0,1]` and a bias of shape `[0]`, `Forward` on an input of shape `[1,1]`
returns (an output of shape `[1,0]`), and `Backward` on a gradient of that
shape then panics, because the division `gradOutput.Size / outDim` divides by
zero. -/
theorem Linear_Backward_zero_width :
    (Linear.Forward
        (⟨⟨New [0, 1], New [0, 1], "weight"⟩, ⟨New [0], New [0], "bias"⟩, none⟩ : Linear ℤ)
        (NewFromData [7] [1, 1])).map (fun p => p.2.Shape) = some [1, 0] ∧
    (Linear.Forward
        (⟨⟨New [0, 1], New [0, 1], "weight"⟩, ⟨New [0], New [0], "bias"⟩, none⟩ : Linear ℤ)
        (NewFromData [7] [1, 1])).bind (fun p => p.1.Backward (New [1, 0])) = none :=
  ⟨by decide, rfl⟩

end nn

namespace tensor

/-! ## `GELU`, `GELUWithCache`, `GELUBackward` -/

theorem loop_set {α : Type} (n : Nat) (body : Nat → List α → Option (List α)) (w : Nat → α)
    (d0 : List α)
    (hbody : ∀ i d, i < n → i < d.length → body i d = some (d.set i (w i)))
    (hn : n ≤ d0.length) :
    ∃ d, forRange body n d0 = some d ∧ d.length = d0.length ∧
      (∀ i, i < n → d[i]? = some (w i)) ∧ (∀ i, n ≤ i → d[i]? = d0[i]?) := by
  obtain ⟨d, h1, hl, hin, hout⟩ := forRange_inv body
    (fun k d => d.length = d0.length ∧ (∀ i, i < k → d[i]? = some (w i)) ∧
      (∀ i, k ≤ i → d[i]? = d0[i]?))
    n d0 ⟨rfl, fun i hi => absurd hi (Nat.not_lt_zero _), fun _ _ => rfl⟩
    (by
      intro k d hk ⟨hl, hin, hout⟩
      have hlt : k < d.length := by omega
      refine ⟨d.set k (w k), hbody k d hk hlt, by simpa using hl, ?_, ?_⟩
      · intro i hi
        by_cases he : i = k
        · subst he
          simp [List.getElem?_set_self hlt]
        · rw [List.getElem?_set_ne (by omega)]
          exact hin i (by omega)
      · intro i hi
        rw [List.getElem?_set_ne (by omega)]
        exact hout i (by omega))
  exact ⟨d, h1, hl, hin, hout⟩

theorem eq_map_of_getElem? {α : Type} (d l : List α) (f : α → α) (hl : d.length = l.length)
    (h : ∀ i, i < l.length → d[i]? = (l[i]?).map f) : d = l.map f := by
  apply List.ext_getElem?
  intro i
  by_cases hi : i < l.length
  · rw [h i hi]
    simp
  · rw [List.getElem?_eq_none (by omega), List.getElem?_eq_none (by simp; omega)]

theorem New_data_length {α : Type} [Zero α] (t : NDArray α) (ht : t.WF) :
    (New t.Shape : NDArray α).Data.length = t.Data.length := by
  rw [(New_facts t.Shape).2.2.2, List.length_replicate, ht.2.1, ht.1]

theorem New_shape_eq {α : Type} [Zero α] (t : NDArray α) (ht : t.WF) (d : List α) :
    ({ (New t.Shape : NDArray α) with Data := d } : NDArray α) = ⟨d, t.Shape, t.Strides, t.Size⟩ := by
  have h := New_facts (α := α) t.Shape
  apply NDArray.ext_of
  · rfl
  · exact h.1
  · rw [ht.2.2, computeStrides_eq]; exact h.2.2.1
  · rw [ht.1]; exact h.2.1

theorem GELU_ok {α : Type} [Field α] (sqrt th : α → α) (pi : α) (t : NDArray α) (ht : t.WF) :
    GELU sqrt th pi t
      = some ⟨t.Data.map (geluValue sqrt th pi), t.Shape, t.Strides, t.Size⟩ := by
  obtain ⟨d, h1, hl, hin, -⟩ := loop_set t.Data.length
    (fun i d => do
      let x ← t.Data[i]?
      setIdx d i (geluValue sqrt th pi x))
    (fun i => geluValue sqrt th pi ((t.Data[i]?).getD 0))
    (New t.Shape : NDArray α).Data
    (by
      intro i d hi hd
      simp [List.getElem?_eq_getElem hi, setIdx_eq_some _ _ _ hd])
    (le_of_eq (New_data_length t ht).symm)
  have hd : d = t.Data.map (geluValue sqrt th pi) := by
    apply eq_map_of_getElem? _ _ _ (by rw [hl, New_data_length t ht])
    intro i hi
    rw [hin i hi]
    simp [List.getElem?_eq_getElem hi]
  unfold GELU
  rw [h1, Option.map_some', New_shape_eq t ht, hd]

theorem GELUWithCache_ok {α : Type} [Field α] (sqrt th : α → α) (pi : α) (t : NDArray α)
    (ht : t.WF) :
    GELUWithCache sqrt th pi t
      = some (⟨t.Data.map (geluValue sqrt th pi), t.Shape, t.Strides, t.Size⟩,
          ⟨t.Data, t.Shape, t.Strides, t.Size⟩) := by
  obtain ⟨p, h1, hl1, hl2, hin, -⟩ := forRange_inv
    (fun i (p : List α × List α) => do
      let x ← t.Data[i]?
      let c ← setIdx p.2 i x
      let o ← setIdx p.1 i (geluValue sqrt th pi x)
      some (o, c))
    (fun k p => p.1.length = t.Data.length ∧ p.2.length = t.Data.length ∧
      (∀ i, i < k → p.1[i]? = (t.Data[i]?).map (geluValue sqrt th pi) ∧ p.2[i]? = t.Data[i]?) ∧
      True)
    t.Data.length ((New t.Shape : NDArray α).Data, (New t.Shape : NDArray α).Data)
    ⟨New_data_length t ht, New_data_length t ht, fun i hi => absurd hi (Nat.not_lt_zero _),
      trivial⟩
    (by
      intro k p hk ⟨hl1, hl2, hin, _⟩
      have h1 : k < p.1.length := by omega
      have h2 : k < p.2.length := by omega
      refine ⟨(p.1.set k (geluValue sqrt th pi t.Data[k]), p.2.set k t.Data[k]),
        by simp [List.getElem?_eq_getElem hk, setIdx_eq_some _ _ _ h1, setIdx_eq_some _ _ _ h2],
        by simpa using hl1, by simpa using hl2, ?_, trivial⟩
      intro i hi
      by_cases he : i = k
      · subst he
        simp [List.getElem?_set_self h1, List.getElem?_set_self h2, List.getElem?_eq_getElem hk]
      · show (p.1.set _ _)[i]? = _ ∧ (p.2.set _ _)[i]? = _
        rw [List.getElem?_set_ne (by omega), List.getElem?_set_ne (by omega)]
        exact hin i (by omega))
  have hd1 : p.1 = t.Data.map (geluValue sqrt th pi) :=
    eq_map_of_getElem? _ _ _ hl1 (fun i hi => (hin i hi).1)
  have hd2 : p.2 = t.Data := by
    apply List.ext_getElem?
    intro i
    by_cases hi : i < t.Data.length
    · exact (hin i hi).2
    · rw [List.getElem?_eq_none (by omega), List.getElem?_eq_none (by omega)]
  unfold GELUWithCache
  rw [h1, Option.map_some', New_shape_eq t ht, New_shape_eq t ht, hd1, hd2]

theorem GELUBackward_ok {α : Type} [Field α] (sqrt th : α → α) (pi : α) (g cache : NDArray α)
    (hc : cache.WF) (hg : cache.Data.length ≤ g.Data.length) :
    ∃ gi, GELUBackward sqrt th pi g cache = some gi ∧ gi.Shape = cache.Shape ∧ gi.WF ∧
      ∀ i, i < cache.Data.length → gi.Data[i]? = some
        ((g.Data[i]?).getD 0 * geluSlope sqrt th pi ((cache.Data[i]?).getD 0)) := by
  obtain ⟨d, h1, hl, hin, -⟩ := loop_set cache.Data.length
    (fun i d => do
      let x ← cache.Data[i]?
      let gv ← g.Data[i]?
      setIdx d i (gv * geluSlope sqrt th pi x))
    (fun i => (g.Data[i]?).getD 0 * geluSlope sqrt th pi ((cache.Data[i]?).getD 0))
    (New cache.Shape : NDArray α).Data
    (by
      intro i d hi hd
      have hgi : i < g.Data.length := by omega
      simp [List.getElem?_eq_getElem hi, List.getElem?_eq_getElem hgi, setIdx_eq_some _ _ _ hd])
    (le_of_eq (New_data_length cache hc).symm)
  refine ⟨⟨d, cache.Shape, cache.Strides, cache.Size⟩, ?_, rfl,
    ⟨hc.1, by rw [hl, New_data_length cache hc]; exact hc.2.1, hc.2.2⟩, hin⟩
  unfold GELUBackward
  rw [h1, Option.map_some', New_shape_eq cache hc]

end tensor
namespace tensor

theorem hasDerivAt_tanh (z : ℝ) :
    HasDerivAt Real.tanh (1 - Real.tanh z * Real.tanh z) z := by
  have hne : Real.cosh z ≠ 0 := ne_of_gt (Real.cosh_pos z)
  have h := (Real.hasDerivAt_sinh z).div (Real.hasDerivAt_cosh z) hne
  have e : Real.tanh = fun x => Real.sinh x / Real.cosh x := funext Real.tanh_eq_sinh_div_cosh
  have hv : 1 - Real.tanh z * Real.tanh z
      = (Real.cosh z * Real.cosh z - Real.sinh z * Real.sinh z) / Real.cosh z ^ 2 := by
    rw [Real.tanh_eq_sinh_div_cosh, div_mul_div_comm, sq, sub_div,
      div_self (mul_ne_zero hne hne)]
  rw [hv, e]
  exact h

theorem geluValue_hasDerivAt (x : ℝ) :
    HasDerivAt (geluValue Real.sqrt Real.tanh Real.pi)
      (geluSlope Real.sqrt Real.tanh Real.pi x) x := by
  have hcube : HasDerivAt (fun y : ℝ => y * y * y) (3 * x * x) x := by
    have h := ((hasDerivAt_id x).mul (hasDerivAt_id x)).mul (hasDerivAt_id x)
    simp only [id] at h
    convert h using 1
    ring
  have hin : HasDerivAt
      (fun y : ℝ => Real.sqrt (2 / Real.pi) * (y + 44715 / 1000000 * (y * y * y)))
      (Real.sqrt (2 / Real.pi) * (1 + 44715 / 1000000 * (3 * x * x))) x :=
    ((hasDerivAt_id x).add (hcube.const_mul _)).const_mul _
  have hth := ((hasDerivAt_tanh _).comp x hin).const_add 1
  have hhalf : HasDerivAt (fun y : ℝ => 1 / 2 * y) (1 / 2) x := by
    simpa using (hasDerivAt_id x).const_mul (1 / 2 : ℝ)
  have h := hhalf.mul hth
  unfold geluValue
  convert h using 1
  unfold geluSlope
  simp only [Function.comp]
  ring

theorem one_add_tanh_nonneg (z : ℝ) : 0 ≤ 1 + Real.tanh z := by
  rw [Real.tanh_eq_sinh_div_cosh]
  have hc := Real.cosh_pos z
  have he : Real.sinh z + Real.cosh z = Real.exp z := Real.sinh_add_cosh z
  have hpos : 0 < Real.exp z := Real.exp_pos z
  have : 1 + Real.sinh z / Real.cosh z = Real.exp z / Real.cosh z := by
    rw [one_add_div (ne_of_gt hc), add_comm, he]
  rw [this]
  positivity

theorem tanh_le_tanh {x y : ℝ} (h : x ≤ y) : Real.tanh x ≤ Real.tanh y := by
  rw [Real.tanh_eq_sinh_div_cosh, Real.tanh_eq_sinh_div_cosh,
    div_le_div_iff₀ (Real.cosh_pos x) (Real.cosh_pos y)]
  have h1 : Real.sinh (x - y) ≤ 0 := Real.sinh_nonpos_iff.mpr (by linarith)
  rw [Real.sinh_sub] at h1
  linarith

theorem one_add_tanh_eq (z : ℝ) :
    1 + Real.tanh z = 2 * Real.exp (2 * z) / (Real.exp (2 * z) + 1) := by
  rw [Real.tanh_eq_sinh_div_cosh, Real.sinh_eq, Real.cosh_eq]
  have e2 : Real.exp (2 * z) = Real.exp z * Real.exp z := by
    rw [← Real.exp_add]; ring_nf
  have en : Real.exp (-z) = (Real.exp z)⁻¹ := Real.exp_neg z
  have hp : 0 < Real.exp z := Real.exp_pos z
  rw [e2, en]
  field_simp
  ring

theorem sqrt_two_div_pi_bounds : 1 / 2 ≤ Real.sqrt (2 / Real.pi) ∧ Real.sqrt (2 / Real.pi) ≤ 1 := by
  have hpi3 := Real.pi_gt_three
  have hpi4 := Real.pi_le_four
  have hpos : 0 < Real.pi := by linarith
  constructor
  · apply Real.le_sqrt_of_sq_le
    rw [le_div_iff₀ hpos]
    nlinarith
  · rw [Real.sqrt_le_left (by norm_num), div_le_iff₀ hpos]
    nlinarith

end tensor
namespace tensor

theorem wf_single {α : Type} [Zero α] (x : α) : (NewFromData [x] [1] : NDArray α).WF :=
  ⟨rfl, rfl, rfl⟩

theorem GELU_single {α : Type} [Field α] (sqrt th : α → α) (pi x : α) :
    GELU sqrt th pi (NewFromData [x] [1]) = some (NewFromData [geluValue sqrt th pi x] [1]) := by
  rw [GELU_ok sqrt th pi _ (wf_single x)]
  rfl

/-- C18: `GELU` preserves the shape of its input and stores
`0.5*x*(1 + tanh(sqrt(2/pi)*(x + 0.044715*x^3)))` for every element `x`
(`0.044715` is written `44715/1000000`); it maps `0` to exactly `0`. -/
theorem GELU_spec {α : Type} [Field α] (sqrt th : α → α) (pi : α) (t : NDArray α) (ht : t.WF) :
    (∃ out, GELU sqrt th pi t = some out ∧ out.Shape = t.Shape ∧ out.WF ∧
      out.Data = t.Data.map
        (fun x => 1 / 2 * x * (1 + th (sqrt (2 / pi) * (x + 44715 / 1000000 * x ^ 3))))) ∧
    GELU sqrt th pi (NewFromData [0] [1]) = some (NewFromData [0] [1]) := by
  constructor
  · refine ⟨_, GELU_ok sqrt th pi t ht, rfl, ⟨ht.1, by simpa using ht.2.1, ht.2.2⟩, ?_⟩
    apply List.map_congr_left
    intro x _
    unfold geluValue
    ring_nf
  · rw [GELU_single]
    simp [geluValue]

theorem GELU_spec_witness :
    ∃ out, GELU (fun x : ℚ => x) (fun x => x) 1 (NewFromData [0, 1] [2]) = some out ∧
      out.Shape = (NewFromData [0, 1] [2] : NDArray ℚ).Shape ∧ out.WF ∧
      out.Data = (NewFromData [0, 1] [2] : NDArray ℚ).Data.map
        (fun x => 1 / 2 * x * (1 + (2 / 1 * (x + 44715 / 1000000 * x ^ 3)))) :=
  (GELU_spec (fun x : ℚ => x) (fun x => x) 1 (NewFromData [0, 1] [2]) ⟨rfl, rfl, rfl⟩).1

/-- C16: `GELUWithCache` stores the input as its cache and returns the output
of `GELU`; `GELUBackward(g, cache)[i]` is `g[i]` times
`0.5*(1 + tanh z) + 0.5*x*(1 - tanh^2 z)*sqrt(2/pi)*(1 + 3*0.044715*x^2)` with
`x = cache[i]` and `z = sqrt(2/pi)*(x + 0.044715*x^3)` (`0.044715` is written
`44715/1000000`), which over the reals is the derivative at `x` of
`0.5*x*(1 + tanh(sqrt(2/pi)*(x + 0.044715*x^3)))`. -/
theorem GELUBackward_spec {α : Type} [Field α] (sqrt th : α → α) (pi : α) (t g : NDArray α)
    (ht : t.WF) (hg : t.Data.length ≤ g.Data.length) :
    (∃ out cache gi, GELUWithCache sqrt th pi t = some (out, cache) ∧
      cache.Data = t.Data ∧ cache.Shape = t.Shape ∧ GELU sqrt th pi t = some out ∧
      GELUBackward sqrt th pi g cache = some gi ∧ gi.Shape = t.Shape ∧
      ∀ (i : Nat) (x gv : α), cache.Data[i]? = some x → g.Data[i]? = some gv → gi.Data[i]? = some
        (gv * (1 / 2 * (1 + th (sqrt (2 / pi) * (x + 44715 / 1000000 * x ^ 3)))
          + 1 / 2 * x * (1 - th (sqrt (2 / pi) * (x + 44715 / 1000000 * x ^ 3)) ^ 2)
            * sqrt (2 / pi) * (1 + 3 * (44715 / 1000000) * x ^ 2)))) ∧
    (∀ x : ℝ, HasDerivAt
      (fun x : ℝ => 1 / 2 * x
        * (1 + Real.tanh (Real.sqrt (2 / Real.pi) * (x + 44715 / 1000000 * x ^ 3))))
      (1 / 2 * (1 + Real.tanh (Real.sqrt (2 / Real.pi) * (x + 44715 / 1000000 * x ^ 3)))
        + 1 / 2 * x
          * (1 - Real.tanh (Real.sqrt (2 / Real.pi) * (x + 44715 / 1000000 * x ^ 3)) ^ 2)
          * Real.sqrt (2 / Real.pi) * (1 + 3 * (44715 / 1000000) * x ^ 2)) x) := by
  constructor
  · have hcwf : (⟨t.Data, t.Shape, t.Strides, t.Size⟩ : NDArray α).WF := ht
    obtain ⟨gi, h1, h2, -, h4⟩ := GELUBackward_ok sqrt th pi g
      (⟨t.Data, t.Shape, t.Strides, t.Size⟩ : NDArray α) hcwf hg
    refine ⟨_, _, gi, GELUWithCache_ok sqrt th pi t ht, rfl, rfl, GELU_ok sqrt th pi t ht, h1, h2,
      ?_⟩
    intro i x gv hx hgv
    have hi : i < t.Data.length := by
      by_contra hcon
      rw [List.getElem?_eq_none (by simpa using hcon)] at hx
      cases hx
    have h := h4 i hi
    simp only at hx
    rw [h, hx, hgv]
    simp only [Option.getD_some, geluSlope]
    congr 2
    ring_nf
  · intro x
    have h := geluValue_hasDerivAt x
    have e1 : (fun x : ℝ => 1 / 2 * x
        * (1 + Real.tanh (Real.sqrt (2 / Real.pi) * (x + 44715 / 1000000 * x ^ 3))))
        = geluValue Real.sqrt Real.tanh Real.pi := by
      funext y
      unfold geluValue
      ring_nf
    rw [e1]
    convert h using 1
    unfold geluSlope
    ring_nf

theorem GELUBackward_spec_witness :
    ∃ out cache gi,
      GELUWithCache (fun x : ℚ => x) (fun x => x) 1 (NewFromData [0, 1] [2]) = some (out, cache) ∧
      cache.Data = (NewFromData [0, 1] [2] : NDArray ℚ).Data ∧
      cache.Shape = (NewFromData [0, 1] [2] : NDArray ℚ).Shape ∧
      GELU (fun x : ℚ => x) (fun x => x) 1 (NewFromData [0, 1] [2]) = some out ∧
      GELUBackward (fun x : ℚ => x) (fun x => x) 1 (NewFromData [5, 7] [2]) cache = some gi ∧
      gi.Shape = (NewFromData [0, 1] [2] : NDArray ℚ).Shape ∧
      ∀ (i : Nat) (x gv : ℚ), cache.Data[i]? = some x → (NewFromData [5, 7] [2] : NDArray ℚ).Data[i]? = some gv →
        gi.Data[i]? = some
          (gv * (1 / 2 * (1 + (2 / 1 * (x + 44715 / 1000000 * x ^ 3)))
            + 1 / 2 * x * (1 - (2 / 1 * (x + 44715 / 1000000 * x ^ 3)) ^ 2)
              * (2 / 1) * (1 + 3 * (44715 / 1000000) * x ^ 2))) :=
  (GELUBackward_spec (fun x : ℚ => x) (fun x => x) 1 (NewFromData [0, 1] [2])
    (NewFromData [5, 7] [2]) ⟨rfl, rfl, rfl⟩ (by decide)).1

theorem one_add_tanh_le (z L : ℝ) (hz : z ≤ -L) (hL : 0 ≤ L) :
    1 + Real.tanh z ≤ 2 / (2 * L + 1) := by
  rw [one_add_tanh_eq]
  have hE : 0 < Real.exp (2 * z) := Real.exp_pos _
  have h1 : 2 * L + 1 ≤ Real.exp (-(2 * z)) := by
    have := Real.add_one_le_exp (-(2 * z))
    linarith
  have h2 : Real.exp (-(2 * z)) = (Real.exp (2 * z))⁻¹ := Real.exp_neg _
  have h3 : Real.exp (2 * z) * (2 * L + 1) ≤ 1 := by
    have := mul_le_mul_of_nonneg_left h1 (le_of_lt hE)
    rw [h2, mul_inv_cancel₀ (ne_of_gt hE)] at this
    exact this
  rw [div_le_div_iff₀ (by linarith) (by linarith)]
  nlinarith

theorem one_add_tanh_ge (z : ℝ) (hz : -(3 / 2) ≤ z) : 1 / 14 ≤ 1 + Real.tanh z := by
  have hmono := tanh_le_tanh hz
  have h3 : Real.exp 3 = Real.exp 1 * Real.exp 1 * Real.exp 1 := by
    rw [← Real.exp_add, ← Real.exp_add]; norm_num
  have he1 := Real.exp_one_lt_d9
  have he0 : 0 < Real.exp 1 := Real.exp_pos 1
  have h27 : Real.exp 3 < 27 := by
    rw [h3]
    nlinarith [mul_pos he0 he0]
  have hE : 0 < Real.exp (2 * -(3 / 2)) := Real.exp_pos _
  have hEv : Real.exp (2 * -(3 / 2)) = (Real.exp 3)⁻¹ := by
    rw [← Real.exp_neg]; norm_num
  have hE27 : 1 / 27 < Real.exp (2 * -(3 / 2)) := by
    rw [hEv, one_div]
    exact inv_strictAnti₀ (Real.exp_pos 3) h27
  have hb : 1 / 14 ≤ 1 + Real.tanh (-(3 / 2)) := by
    rw [one_add_tanh_eq, div_le_div_iff₀ (by norm_num) (by linarith)]
    nlinarith
  linarith

theorem geluValue_not_monotone :
    geluValue Real.sqrt Real.tanh Real.pi (-1) < geluValue Real.sqrt Real.tanh Real.pi (-100) := by
  obtain ⟨hc1, hc2⟩ := sqrt_two_div_pi_bounds
  have ha := one_add_tanh_le
    (Real.sqrt (2 / Real.pi) * (-100 + 44715 / 1000000 * (-100 * -100 * -100))) 22407
    (by nlinarith) (by norm_num)
  have hb := one_add_tanh_ge
    (Real.sqrt (2 / Real.pi) * (-1 + 44715 / 1000000 * (-1 * -1 * -1))) (by nlinarith)
  unfold geluValue
  norm_num at ha hb ⊢
  nlinarith

/-- C17, as stated, fails: `-100 ≤ -1`, yet the value `GELU` computes for `-100`
is greater than the value it computes for `-1`. -/
theorem GELU_not_monotone :
    ∃ a b : ℝ,
      GELU Real.sqrt Real.tanh Real.pi (NewFromData [-100] [1]) = some (NewFromData [a] [1]) ∧
      GELU Real.sqrt Real.tanh Real.pi (NewFromData [-1] [1]) = some (NewFromData [b] [1]) ∧
      (-100 : ℝ) ≤ -1 ∧ b < a :=
  ⟨_, _, GELU_single _ _ _ _, GELU_single _ _ _ _, by norm_num, geluValue_not_monotone⟩

/-- C17, on the non-negative reals: for all real `0 ≤ x ≤ y` the value `GELU`
computes for `x` is at most the value it computes for `y`. -/
theorem GELU_monotone_nonneg (x y : ℝ) (hx : 0 ≤ x) (hxy : x ≤ y) :
    ∃ a b : ℝ,
      GELU Real.sqrt Real.tanh Real.pi (NewFromData [x] [1]) = some (NewFromData [a] [1]) ∧
      GELU Real.sqrt Real.tanh Real.pi (NewFromData [y] [1]) = some (NewFromData [b] [1]) ∧
      a ≤ b := by
  refine ⟨_, _, GELU_single _ _ _ _, GELU_single _ _ _ _, ?_⟩
  have hy : 0 ≤ y := le_trans hx hxy
  have hcube : x * x * x ≤ y * y * y :=
    mul_le_mul (mul_le_mul hxy hxy hx hy) hxy hx (mul_nonneg hy hy)
  have hz : Real.sqrt (2 / Real.pi) * (x + 44715 / 1000000 * (x * x * x))
      ≤ Real.sqrt (2 / Real.pi) * (y + 44715 / 1000000 * (y * y * y)) := by
    apply mul_le_mul_of_nonneg_left _ (Real.sqrt_nonneg _)
    linarith
  have hA := tanh_le_tanh hz
  unfold geluValue
  exact mul_le_mul (by linarith) (by linarith) (one_add_tanh_nonneg _) (by linarith)

theorem GELU_monotone_nonneg_witness :
    ∃ a b : ℝ,
      GELU Real.sqrt Real.tanh Real.pi (NewFromData [1] [1]) = some (NewFromData [a] [1]) ∧
      GELU Real.sqrt Real.tanh Real.pi (NewFromData [2] [1]) = some (NewFromData [b] [1]) ∧
      a ≤ b :=
  GELU_monotone_nonneg 1 2 (by norm_num) (by norm_num)

end tensor
namespace nn
open tensor

/-! ## The `Dropout` layer -/

/-- C19: with drop probability `p = 1/2`, input `[2, 3]` and random draws
`3/4` (kept) and `1/4` (dropped), `Forward` returns `[4, 0]`, which is
`x[i] * mask[i] / (1 - p)` for the mask `[1, 0]`, but `Backward` on the
gradient `[1, 1]` returns `[1, 0]`, which is `g[i] * mask[i]` without the
factor `1 / (1 - p)`: the analytic gradient at the kept element is `2`. -/
theorem Dropout_Backward_unscaled :
    Dropout.Forward (fun i => if i = 0 then (3 / 4 : ℚ) else 1 / 4) ⟨1 / 2, none⟩
        (NewFromData [2, 3] [2])
      = some (⟨1 / 2, some ⟨[1, 0], [2], [1], 2⟩⟩, ⟨[4, 0], [2], [1], 2⟩) ∧
    Dropout.Backward (⟨1 / 2, some ⟨[1, 0], [2], [1], 2⟩⟩ : Dropout ℚ) (NewFromData [1, 1] [2])
      = some ⟨[1, 0], [2], [1], 2⟩ ∧
    (1 : ℚ) * 1 / (1 - 1 / 2) = 2 := by
  refine ⟨?_, ?_, by norm_num⟩
  · simp [Dropout.Forward, tensor.Dropout, forRange, setIdx, New, NewFromData, shapeSize,
      makeCopy, computeStrides, stridesLoop]
    norm_num
  · simp [Dropout.Backward, tensor.Mul, forRange, setIdx, New, NewFromData, shapeSize,
      makeCopy, computeStrides, stridesLoop]

end nn

namespace tensor

theorem segment_set {α : Type} (n offset : Nat) (body : Nat → List α → Option (List α))
    (w : Nat → α) (d0 : List α)
    (hbody : ∀ i d, i < n → offset + i < d.length → body i d = some (d.set (offset + i) (w i)))
    (hn : offset + n ≤ d0.length) :
    ∃ d, forRange body n d0 = some d ∧ d.length = d0.length ∧
      (∀ i, i < n → d[offset + i]? = some (w i)) ∧
      (∀ p, (p < offset ∨ offset + n ≤ p) → d[p]? = d0[p]?) := by
  obtain ⟨d, h1, hl, hin, hout⟩ := forRange_inv body
    (fun k d => d.length = d0.length ∧ (∀ i, i < k → d[offset + i]? = some (w i)) ∧
      (∀ p, (p < offset ∨ offset + k ≤ p) → d[p]? = d0[p]?))
    n d0 ⟨rfl, fun i hi => absurd hi (Nat.not_lt_zero _), fun _ _ => rfl⟩
    (by
      intro k d hk ⟨hl, hin, hout⟩
      have hlt : offset + k < d.length := by omega
      refine ⟨d.set (offset + k) (w k), hbody k d hk hlt, by simpa using hl, ?_, ?_⟩
      · intro i hi
        by_cases he : i = k
        · subst he
          simp [List.getElem?_set_self hlt]
        · rw [List.getElem?_set_ne (by omega)]
          exact hin i (by omega)
      · intro p hp
        rw [List.getElem?_set_ne (by omega)]
        exact hout p (by omega))
  exact ⟨d, h1, hl, hin, fun p hp => hout p (by omega)⟩

theorem row_le {R D b : Nat} (hb : b < R) : b * D + D ≤ R * D := by
  calc b * D + D = (b + 1) * D := by ring
    _ ≤ R * D := Nat.mul_le_mul_right D hb

end tensor

namespace nn
open tensor

/-! ## `LayerNorm.Forward` -/

theorem sumSqLoop_eq {α : Type} [Field α] (xData : List α) (offset dim : Nat) (mean : α)
    (h : offset + dim ≤ xData.length) :
    sumSqLoop xData offset dim mean = some (∑ i in Finset.range dim,
      ((xData[offset + i]?).getD 0 - mean) * ((xData[offset + i]?).getD 0 - mean)) := by
  obtain ⟨s, h1, h2⟩ := forRange_inv
    (fun i sumSq => do
      let x ← xData[offset + i]?
      some (sumSq + (x - mean) * (x - mean)))
    (fun k s => s = ∑ i in Finset.range k,
      ((xData[offset + i]?).getD 0 - mean) * ((xData[offset + i]?).getD 0 - mean)) dim 0
    (by simp)
    (by
      intro k s hk hs
      have hlt : offset + k < xData.length := by omega
      refine ⟨s + ((xData[offset + k]?).getD 0 - mean) * ((xData[offset + k]?).getD 0 - mean),
        by simp [List.getElem?_eq_getElem hlt], ?_⟩
      show _ = _
      rw [Finset.sum_range_succ, hs])
  unfold sumSqLoop
  rw [h1, h2]

theorem normLoop_spec {α : Type} [Field α] (xData gamma beta : List α) (offset dim : Nat)
    (mean rstd : α) (d : List α) (hx : offset + dim ≤ xData.length) (hg : dim ≤ gamma.length)
    (hb : dim ≤ beta.length) (hd : offset + dim ≤ d.length) :
    ∃ d', normLoop xData gamma beta offset dim mean rstd d = some d' ∧ d'.length = d.length ∧
      (∀ i, i < dim → d'[offset + i]? = some
        (((xData[offset + i]?).getD 0 - mean) * rstd * (gamma[i]?).getD 0 + (beta[i]?).getD 0)) ∧
      (∀ p, (p < offset ∨ offset + dim ≤ p) → d'[p]? = d[p]?) :=
  segment_set dim offset _ _ d
    (by
      intro i s hi hs
      have h1 : offset + i < xData.length := by omega
      have h2 : i < gamma.length := by omega
      have h3 : i < beta.length := by omega
      simp [List.getElem?_eq_getElem h1, List.getElem?_eq_getElem h2,
        List.getElem?_eq_getElem h3, setIdx_eq_some _ _ _ hs])
    hd

theorem lnForwardRow_spec {α : Type} [Field α] (sqrt : α → α) (xData gamma beta : List α)
    (eps : α) (D R b : Nat) (st : List α × List α × List α) (hb : b < R)
    (hx : xData.length = R * D) (hg : D ≤ gamma.length) (hbt : D ≤ beta.length)
    (ho : st.1.length = R * D) (hm : st.2.1.length = R) (hr : st.2.2.length = R) :
    ∃ o, lnForwardRow sqrt xData gamma beta eps D b st
        = some (o, st.2.1.set b (rowMean xData D b),
            st.2.2.set b (1 / sqrt (rowVar xData D b + eps))) ∧
      o.length = R * D ∧
      (∀ i, i < D → o[b * D + i]? = some
        (((xData[b * D + i]?).getD 0 - rowMean xData D b)
          * (1 / sqrt (rowVar xData D b + eps)) * (gamma[i]?).getD 0 + (beta[i]?).getD 0)) ∧
      (∀ p, (p < b * D ∨ b * D + D ≤ p) → o[p]? = st.1[p]?) := by
  have hrow : b * D + D ≤ xData.length := hx ▸ row_le hb
  obtain ⟨o, h1, h2, h3, h4⟩ := normLoop_spec xData gamma beta (b * D) D (rowMean xData D b)
    (1 / sqrt (rowVar xData D b + eps)) st.1 hrow hg hbt (ho ▸ row_le hb)
  refine ⟨o, ?_, by rw [h2, ho], h3, h4⟩
  unfold lnForwardRow
  rw [rowSumLoop_eq xData (b * D) D hrow]
  simp only [Option.bind_eq_bind, Option.some_bind]
  rw [setIdx_eq_some _ _ _ (by omega), sumSqLoop_eq xData (b * D) D _ hrow]
  simp only [Option.some_bind]
  rw [setIdx_eq_some _ _ _ (by omega)]
  simp only [Option.some_bind]
  have e : normLoop xData gamma beta (b * D) D
      ((∑ j in Finset.range D, (xData[b * D + j]?).getD 0) / (D : α))
      (1 / sqrt ((∑ i in Finset.range D,
        ((xData[b * D + i]?).getD 0 - (∑ j in Finset.range D, (xData[b * D + j]?).getD 0) / (D : α))
          * ((xData[b * D + i]?).getD 0
            - (∑ j in Finset.range D, (xData[b * D + j]?).getD 0) / (D : α))) / (D : α) + eps))
      st.1 = some o := h1
  rw [e]
  rfl

theorem LayerNorm_Forward_ok {α : Type} [Field α] (sqrt : α → α) (ln : LayerNorm α)
    (x : NDArray α) (dims : List Nat) (D : Nat) (hxwf : x.WF) (hx : x.Shape = dims ++ [D])
    (hD : 0 < D) (hg : D ≤ ln.Gamma.Data.Data.length) (hb : D ≤ ln.Beta.Data.Data.length) :
    ∃ out ms rs, ln.Forward sqrt x
        = some ({ ln with input := some x, mean := ms, rstd := rs }, out) ∧
      out.Shape = x.Shape ∧ out.WF ∧ ms.length = dims.prod ∧ rs.length = dims.prod ∧
      ∀ b, b < dims.prod →
        ms[b]? = some (rowMean x.Data D b) ∧
        rs[b]? = some (1 / sqrt (rowVar x.Data D b + ln.Eps)) ∧
        ∀ i, i < D → out.Data[b * D + i]? = some
          (((x.Data[b * D + i]?).getD 0 - rowMean x.Data D b)
            * (1 / sqrt (rowVar x.Data D b + ln.Eps)) * (ln.Gamma.Data.Data[i]?).getD 0
            + (ln.Beta.Data.Data[i]?).getD 0) := by
  have hxsize : x.Size = dims.prod * D := by rw [hxwf.1, hx]; simp
  have hxlen : x.Data.length = dims.prod * D := by rw [hxwf.2.1, hxsize]
  have hdiv : x.Size / D = dims.prod := by rw [hxsize, Nat.mul_div_cancel _ hD]
  obtain ⟨st, h1, ho, hm, hr, hin⟩ := forRange_inv
    (lnForwardRow sqrt x.Data ln.Gamma.Data.Data ln.Beta.Data.Data ln.Eps D)
    (fun k st => st.1.length = dims.prod * D ∧ st.2.1.length = dims.prod ∧
      st.2.2.length = dims.prod ∧
      ∀ b, b < k →
        st.2.1[b]? = some (rowMean x.Data D b) ∧
        st.2.2[b]? = some (1 / sqrt (rowVar x.Data D b + ln.Eps)) ∧
        ∀ i, i < D → st.1[b * D + i]? = some
          (((x.Data[b * D + i]?).getD 0 - rowMean x.Data D b)
            * (1 / sqrt (rowVar x.Data D b + ln.Eps)) * (ln.Gamma.Data.Data[i]?).getD 0
            + (ln.Beta.Data.Data[i]?).getD 0))
    dims.prod
    ((New x.Shape : NDArray α).Data, List.replicate dims.prod 0, List.replicate dims.prod 0)
    ⟨by rw [New_data_length x hxwf, hxlen], by simp, by simp,
      fun b hb => absurd hb (Nat.not_lt_zero _)⟩
    (by
      intro k st hk ⟨ho, hm, hr, hin⟩
      obtain ⟨o, h1, h2, h3, h4⟩ := lnForwardRow_spec sqrt x.Data ln.Gamma.Data.Data
        ln.Beta.Data.Data ln.Eps D dims.prod k st hk hxlen hg hb ho hm hr
      refine ⟨_, h1, h2, by simpa using hm, by simpa using hr, ?_⟩
      intro b hbk
      by_cases he : b = k
      · subst he
        exact ⟨by simp [List.getElem?_set_self (show b < st.2.1.length by omega)],
          by simp [List.getElem?_set_self (show b < st.2.2.length by omega)], h3⟩
      · have hlt : b < k := by omega
        obtain ⟨i1, i2, i3⟩ := hin b hlt
        refine ⟨by simp only [List.getElem?_set_ne (Ne.symm he)]; exact i1,
          by simp only [List.getElem?_set_ne (Ne.symm he)]; exact i2, ?_⟩
        intro i hi
        show o[b * D + i]? = _
        rw [h4 _ (Or.inl (lt_of_lt_of_le (by omega : b * D + i < b * D + D)
          (by
            calc b * D + D = (b + 1) * D := by ring
              _ ≤ k * D := Nat.mul_le_mul_right D hlt)))]
        exact i3 i hi)
  refine ⟨⟨st.1, x.Shape, x.Strides, x.Size⟩, st.2.1, st.2.2, ?_, rfl,
    ⟨hxwf.1, by rw [ho, hxsize], hxwf.2.2⟩, hm, hr, hin⟩
  unfold LayerNorm.Forward
  rw [hx, two_last]
  simp only [Option.bind_eq_bind, Option.some_bind, if_neg (Nat.pos_iff_ne_zero.mp hD)]
  rw [← hx, hdiv, h1]
  simp only [Option.some_bind, New_shape_eq x hxwf]

end nn
namespace nn
open tensor

theorem NewLayerNorm_gamma {α : Type} [Field α] (D : Nat) :
    (NewLayerNorm D : LayerNorm α).Gamma.Data.Data = List.replicate D 1 := by
  simp [NewLayerNorm, NewFull, New, shapeSize]

theorem NewLayerNorm_beta {α : Type} [Field α] (D : Nat) :
    (NewLayerNorm D : LayerNorm α).Beta.Data.Data = List.replicate D 0 := by
  simp [NewLayerNorm, NewFull, New, shapeSize]

theorem getElem?_replicate_getD {α : Type} [Zero α] (D i : Nat) (a : α) (hi : i < D) :
    ((List.replicate D a)[i]?).getD 0 = a := by
  simp [List.getElem?_replicate, hi]

/-- C12: for an input `x` with last dimension `D ≥ 1`, `LayerNorm.Forward`
computes for each row `b` the mean `m` and the biased variance `v` over the
`D` entries, caches `m` and `rstd = 1/sqrt(v + Eps)` once per row, and outputs
`(x[i] - m) * rstd * gamma[i] + beta[i]`; `NewLayerNorm` sets `Eps = 1e-5`,
and for the row `[1,2,3,4]` with `gamma = 1`, `beta = 0` the first output is
`(1 - 2.5) / sqrt(1.25 + 1e-5)`. -/
theorem LayerNorm_Forward_spec {α : Type} [Field α] (sqrt : α → α) (ln : LayerNorm α)
    (x : NDArray α) (dims : List Nat) (D : Nat) (hxwf : x.WF) (hx : x.Shape = dims ++ [D])
    (hD : 1 ≤ D) (hg : ln.Gamma.Data.Data.length = D) (hb : ln.Beta.Data.Data.length = D) :
    (∃ out ln', ln.Forward sqrt x = some (ln', out) ∧ out.Shape = x.Shape ∧
      ln'.input = some x ∧ ln'.mean.length = dims.prod ∧ ln'.rstd.length = dims.prod ∧
      ∀ b, b < dims.prod →
        ln'.mean[b]? = some (rowMean x.Data D b) ∧
        ln'.rstd[b]? = some (1 / sqrt (rowVar x.Data D b + ln.Eps)) ∧
        ∀ i, i < D → out.Data[b * D + i]? = some
          (((x.Data[b * D + i]?).getD 0 - rowMean x.Data D b)
            * (1 / sqrt (rowVar x.Data D b + ln.Eps)) * (ln.Gamma.Data.Data[i]?).getD 0
            + (ln.Beta.Data.Data[i]?).getD 0)) ∧
    (NewLayerNorm D : LayerNorm α).Eps = 1 / 100000 ∧
    (∃ out ln', (NewLayerNorm 4 : LayerNorm ℝ).Forward Real.sqrt (NewFromData [1, 2, 3, 4] [1, 4])
        = some (ln', out) ∧
      out.Data[0]? = some ((1 - 5 / 2) / Real.sqrt (5 / 4 + 1 / 100000))) := by
  refine ⟨?_, rfl, ?_⟩
  · obtain ⟨out, ms, rs, h1, h2, -, h4, h5, h6⟩ := LayerNorm_Forward_ok sqrt ln x dims D hxwf hx
      hD (le_of_eq hg.symm) (le_of_eq hb.symm)
    exact ⟨out, _, h1, h2, rfl, h4, h5, h6⟩
  · obtain ⟨out, ms, rs, h1, -, -, -, -, h6⟩ := LayerNorm_Forward_ok Real.sqrt
      (NewLayerNorm 4 : LayerNorm ℝ) (NewFromData [1, 2, 3, 4] [1, 4]) [1] 4 ⟨rfl, rfl, rfl⟩ rfl
      (by norm_num) (by rw [NewLayerNorm_gamma]; simp) (by rw [NewLayerNorm_beta]; simp)
    refine ⟨out, _, h1, ?_⟩
    have h := (h6 0 (by norm_num)).2.2 0 (by norm_num)
    have hd : (NewFromData [1, 2, 3, 4] [1, 4] : NDArray ℝ).Data = [1, 2, 3, 4] := rfl
    have hm : rowMean ([1, 2, 3, 4] : List ℝ) 4 0 = 5 / 2 := by
      simp [rowMean, Finset.sum_range_succ]
      norm_num
    have hv : rowVar ([1, 2, 3, 4] : List ℝ) 4 0 = 5 / 4 := by
      simp [rowVar, hm, Finset.sum_range_succ]
      norm_num
    rw [hd, hm, hv, NewLayerNorm_gamma, NewLayerNorm_beta] at h
    simp only [Nat.zero_mul, Nat.zero_add] at h
    rw [h]
    simp [NewLayerNorm]
    ring

theorem LayerNorm_Forward_spec_witness :
    ∃ out ln', (NewLayerNorm 2 : LayerNorm ℚ).Forward (fun y => y) (NewFromData [1, 2, 3, 5] [2, 2])
        = some (ln', out) ∧
      out.Shape = (NewFromData [1, 2, 3, 5] [2, 2] : NDArray ℚ).Shape ∧
      ln'.input = some (NewFromData [1, 2, 3, 5] [2, 2]) ∧ ln'.mean.length = [2].prod ∧
      ln'.rstd.length = [2].prod ∧
      ∀ b, b < [2].prod →
        ln'.mean[b]? = some (rowMean (NewFromData [1, 2, 3, 5] [2, 2] : NDArray ℚ).Data 2 b) ∧
        ln'.rstd[b]? = some (1 / (rowVar (NewFromData [1, 2, 3, 5] [2, 2] : NDArray ℚ).Data 2 b
          + (NewLayerNorm 2 : LayerNorm ℚ).Eps)) ∧
        ∀ i, i < 2 → out.Data[b * 2 + i]? = some
          ((((NewFromData [1, 2, 3, 5] [2, 2] : NDArray ℚ).Data[b * 2 + i]?).getD 0
              - rowMean (NewFromData [1, 2, 3, 5] [2, 2] : NDArray ℚ).Data 2 b)
            * (1 / (rowVar (NewFromData [1, 2, 3, 5] [2, 2] : NDArray ℚ).Data 2 b
              + (NewLayerNorm 2 : LayerNorm ℚ).Eps))
            * ((NewLayerNorm 2 : LayerNorm ℚ).Gamma.Data.Data[i]?).getD 0
            + ((NewLayerNorm 2 : LayerNorm ℚ).Beta.Data.Data[i]?).getD 0) :=
  (LayerNorm_Forward_spec (fun y => y) (NewLayerNorm 2 : LayerNorm ℚ)
    (NewFromData [1, 2, 3, 5] [2, 2]) [2] 2 ⟨rfl, rfl, rfl⟩ rfl (by decide) rfl rfl).1

/-- C13: in exact arithmetic (`sqrt y * sqrt y = y` for `y ≥ 0`, `Eps > 0`), with
`gamma = 1` and `beta = 0` every row of the output of `LayerNorm.Forward` has
mean exactly `0` and population variance `v / (v + Eps)`, where `v` is the
population variance of the input row. -/
theorem LayerNorm_normalized {α : Type} [LinearOrderedField α] (sqrt : α → α)
    (hsqrt : ∀ y, 0 ≤ y → sqrt y * sqrt y = y) (ln : LayerNorm α) (x : NDArray α)
    (dims : List Nat) (D : Nat) (hxwf : x.WF) (hx : x.Shape = dims ++ [D]) (hD : 0 < D)
    (hg : ln.Gamma.Data.Data = List.replicate D 1) (hb : ln.Beta.Data.Data = List.replicate D 0)
    (heps : 0 < ln.Eps) :
    ∃ out ln', ln.Forward sqrt x = some (ln', out) ∧
      ∀ b, b < dims.prod →
        rowMean out.Data D b = 0 ∧
        rowVar out.Data D b = rowVar x.Data D b / (rowVar x.Data D b + ln.Eps) := by
  obtain ⟨out, ms, rs, h1, -, -, -, -, h6⟩ := LayerNorm_Forward_ok sqrt ln x dims D hxwf hx hD
    (by rw [hg]; simp) (by rw [hb]; simp)
  refine ⟨out, _, h1, ?_⟩
  intro b hbR
  have hDne : (D : α) ≠ 0 := Nat.cast_ne_zero.mpr (by omega)
  have hy : ∀ i, i < D → (out.Data[b * D + i]?).getD 0
      = ((x.Data[b * D + i]?).getD 0 - rowMean x.Data D b)
        * (1 / sqrt (rowVar x.Data D b + ln.Eps)) := by
    intro i hi
    rw [(h6 b hbR).2.2 i hi, hg, hb, getElem?_replicate_getD D i 1 hi,
      getElem?_replicate_getD D i 0 hi]
    simp
  have hv0 : 0 ≤ rowVar x.Data D b := by
    unfold rowVar
    apply div_nonneg
    · exact Finset.sum_nonneg (fun i _ => mul_self_nonneg _)
    · exact Nat.cast_nonneg D
  have hpos : 0 < rowVar x.Data D b + ln.Eps := by linarith
  have hs := hsqrt _ (le_of_lt hpos)
  have hsne : sqrt (rowVar x.Data D b + ln.Eps) ≠ 0 := by
    intro h0
    rw [h0, mul_zero] at hs
    exact absurd hs.symm (ne_of_gt hpos)
  have hsum0 : ∑ i in Finset.range D, ((x.Data[b * D + i]?).getD 0 - rowMean x.Data D b) = 0 := by
    rw [Finset.sum_sub_distrib, Finset.sum_const, Finset.card_range, nsmul_eq_mul]
    unfold rowMean
    field_simp
  have hmean : rowMean out.Data D b = 0 := by
    unfold rowMean
    rw [Finset.sum_congr rfl (fun i hi => hy i (Finset.mem_range.mp hi)), ← Finset.sum_mul,
      hsum0, zero_mul, zero_div]
  refine ⟨hmean, ?_⟩
  unfold rowVar
  rw [hmean]
  have e : ∑ i in Finset.range D, ((out.Data[b * D + i]?).getD 0 - 0)
        * ((out.Data[b * D + i]?).getD 0 - 0)
      = (∑ i in Finset.range D, ((x.Data[b * D + i]?).getD 0 - rowMean x.Data D b)
          * ((x.Data[b * D + i]?).getD 0 - rowMean x.Data D b))
        * (1 / (rowVar x.Data D b + ln.Eps)) := by
    rw [Finset.sum_mul]
    apply Finset.sum_congr rfl
    intro i hi
    rw [hy i (Finset.mem_range.mp hi)]
    have key : ∀ (s V : α), s * s = V → s ≠ 0 → ∀ u : α,
        (u * (1 / s) - 0) * (u * (1 / s) - 0) = u * u * (1 / V) := by
      intro s V h hs0 u
      subst h
      field_simp
    exact key _ _ hs hsne _
  rw [e]
  have hv : (∑ i in Finset.range D, ((x.Data[b * D + i]?).getD 0 - rowMean x.Data D b)
      * ((x.Data[b * D + i]?).getD 0 - rowMean x.Data D b)) = rowVar x.Data D b * D := by
    unfold rowVar
    field_simp
  rw [hv]
  have hposne : rowVar x.Data D b + ln.Eps ≠ 0 := ne_of_gt hpos
  field_simp
  ring

theorem LayerNorm_normalized_witness :
    ∃ out ln', (NewLayerNorm 4 : LayerNorm ℝ).Forward Real.sqrt (NewFromData [1, 2, 3, 4] [1, 4])
        = some (ln', out) ∧
      ∀ b, b < [1].prod →
        rowMean out.Data 4 b = 0 ∧
        rowVar out.Data 4 b
          = rowVar (NewFromData [1, 2, 3, 4] [1, 4] : NDArray ℝ).Data 4 b
            / (rowVar (NewFromData [1, 2, 3, 4] [1, 4] : NDArray ℝ).Data 4 b
              + (NewLayerNorm 4 : LayerNorm ℝ).Eps) :=
  LayerNorm_normalized Real.sqrt (fun _ hy => Real.mul_self_sqrt hy) (NewLayerNorm 4)
    (NewFromData [1, 2, 3, 4] [1, 4]) [1] 4 ⟨rfl, rfl, rfl⟩ rfl (by norm_num)
    (NewLayerNorm_gamma 4) (NewLayerNorm_beta 4) (by simp [NewLayerNorm])

end nn
namespace nn
open tensor

/-! ## `LayerNorm.Backward` -/

theorem lnGradLoop_spec {α : Type} [Field α] (gData xData gamma : List α) (offset dim : Nat)
    (mean rstd : α) (gg bg : List α) (hgd : offset + dim ≤ gData.length)
    (hxd : offset + dim ≤ xData.length) (hgm : dim ≤ gamma.length) (hgg : dim ≤ gg.length)
    (hbg : dim ≤ bg.length) :
    ∃ a, lnGradLoop gData xData gamma offset dim mean rstd gg bg = some a ∧
      a.gammaGrad.length = gg.length ∧ a.betaGrad.length = bg.length ∧
      (∀ i, i < dim →
        a.gammaGrad[i]? = some ((gg[i]?).getD 0
          + (gData[offset + i]?).getD 0 * (((xData[offset + i]?).getD 0 - mean) * rstd)) ∧
        a.betaGrad[i]? = some ((bg[i]?).getD 0 + (gData[offset + i]?).getD 0) ∧
        a.dxHat[i]? = some ((gData[offset + i]?).getD 0 * (gamma[i]?).getD 0) ∧
        a.xHat[i]? = some (((xData[offset + i]?).getD 0 - mean) * rstd)) ∧
      (∀ i, dim ≤ i → a.gammaGrad[i]? = gg[i]? ∧ a.betaGrad[i]? = bg[i]?) ∧
      a.sumDxHat = ∑ i in Finset.range dim, (gData[offset + i]?).getD 0 * (gamma[i]?).getD 0 ∧
      a.sumDxHatXHat = ∑ i in Finset.range dim,
        (gData[offset + i]?).getD 0 * (gamma[i]?).getD 0
          * (((xData[offset + i]?).getD 0 - mean) * rstd) := by
  obtain ⟨a, h1, hl1, hl2, -, -, hin, hout, hs1, hs2⟩ := forRange_inv
    (fun i (a : LnAcc α) => do
      let dy ← gData[offset + i]?
      let x ← xData[offset + i]?
      let xh ← setIdx a.xHat i ((x - mean) * rstd)
      let g0 ← a.gammaGrad[i]?
      let gg ← setIdx a.gammaGrad i (g0 + dy * ((x - mean) * rstd))
      let b0 ← a.betaGrad[i]?
      let bg ← setIdx a.betaGrad i (b0 + dy)
      let gm ← gamma[i]?
      let dxh ← setIdx a.dxHat i (dy * gm)
      some { gammaGrad := gg, betaGrad := bg, dxHat := dxh, xHat := xh,
             sumDxHat := a.sumDxHat + dy * gm,
             sumDxHatXHat := a.sumDxHatXHat + dy * gm * ((x - mean) * rstd) })
    (fun k a => a.gammaGrad.length = gg.length ∧ a.betaGrad.length = bg.length ∧
      a.dxHat.length = dim ∧ a.xHat.length = dim ∧
      (∀ i, i < k →
        a.gammaGrad[i]? = some ((gg[i]?).getD 0
          + (gData[offset + i]?).getD 0 * (((xData[offset + i]?).getD 0 - mean) * rstd)) ∧
        a.betaGrad[i]? = some ((bg[i]?).getD 0 + (gData[offset + i]?).getD 0) ∧
        a.dxHat[i]? = some ((gData[offset + i]?).getD 0 * (gamma[i]?).getD 0) ∧
        a.xHat[i]? = some (((xData[offset + i]?).getD 0 - mean) * rstd)) ∧
      (∀ i, k ≤ i → a.gammaGrad[i]? = gg[i]? ∧ a.betaGrad[i]? = bg[i]?) ∧
      a.sumDxHat = ∑ i in Finset.range k, (gData[offset + i]?).getD 0 * (gamma[i]?).getD 0 ∧
      a.sumDxHatXHat = ∑ i in Finset.range k,
        (gData[offset + i]?).getD 0 * (gamma[i]?).getD 0
          * (((xData[offset + i]?).getD 0 - mean) * rstd))
    dim
    { gammaGrad := gg, betaGrad := bg, dxHat := List.replicate dim 0,
      xHat := List.replicate dim 0, sumDxHat := 0, sumDxHatXHat := 0 }
    ⟨rfl, rfl, by simp, by simp, fun i hi => absurd hi (Nat.not_lt_zero _),
      fun _ _ => ⟨rfl, rfl⟩, by simp, by simp⟩
    (by
      intro k a hk ⟨hl1, hl2, hl3, hl4, hin, hout, hs1, hs2⟩
      have b1 : offset + k < gData.length := by omega
      have b2 : offset + k < xData.length := by omega
      have b3 : k < gamma.length := by omega
      have b4 : k < a.gammaGrad.length := by omega
      have b5 : k < a.betaGrad.length := by omega
      have b6 : k < a.dxHat.length := by omega
      have b7 : k < a.xHat.length := by omega
      have b8 : k < gg.length := by omega
      have b9 : k < bg.length := by omega
      have e1 : a.gammaGrad[k]? = some gg[k] := by
        rw [(hout k (le_refl k)).1, List.getElem?_eq_getElem b8]
      have e2 : a.betaGrad[k]? = some bg[k] := by
        rw [(hout k (le_refl k)).2, List.getElem?_eq_getElem b9]
      refine ⟨{ gammaGrad := a.gammaGrad.set k (gg[k] + gData[offset + k]
                  * ((xData[offset + k] - mean) * rstd)),
                betaGrad := a.betaGrad.set k (bg[k] + gData[offset + k]),
                dxHat := a.dxHat.set k (gData[offset + k] * gamma[k]),
                xHat := a.xHat.set k ((xData[offset + k] - mean) * rstd),
                sumDxHat := a.sumDxHat + gData[offset + k] * gamma[k],
                sumDxHatXHat := a.sumDxHatXHat
                  + gData[offset + k] * gamma[k] * ((xData[offset + k] - mean) * rstd) },
        by simp [List.getElem?_eq_getElem b1, List.getElem?_eq_getElem b2,
          List.getElem?_eq_getElem b3, e1, e2, setIdx_eq_some _ _ _ b4, setIdx_eq_some _ _ _ b5,
          setIdx_eq_some _ _ _ b6, setIdx_eq_some _ _ _ b7],
        by simpa using hl1, by simpa using hl2, by simpa using hl3, by simpa using hl4,
        ?_, ?_, ?_, ?_⟩
      · intro i hi
        by_cases he : i = k
        · subst he
          simp [List.getElem?_set_self b4, List.getElem?_set_self b5, List.getElem?_set_self b6,
            List.getElem?_set_self b7, List.getElem?_eq_getElem b1, List.getElem?_eq_getElem b2,
            List.getElem?_eq_getElem b3, List.getElem?_eq_getElem b8,
            List.getElem?_eq_getElem b9]
        · simp only [List.getElem?_set_ne (Ne.symm he)]
          exact hin i (by omega)
      · intro i hi
        have hne : k ≠ i := by omega
        simp only [List.getElem?_set_ne hne]
        exact hout i (by omega)
      · show _ = _
        rw [Finset.sum_range_succ, ← hs1]
        simp [List.getElem?_eq_getElem b1, List.getElem?_eq_getElem b3]
      · show _ = _
        rw [Finset.sum_range_succ, ← hs2]
        simp [List.getElem?_eq_getElem b1, List.getElem?_eq_getElem b2,
          List.getElem?_eq_getElem b3])
  exact ⟨a, h1, hl1, hl2, hin, hout, hs1, hs2⟩

theorem lnInputGradLoop_spec {α : Type} [Field α] (dxHat xHat : List α) (offset dim : Nat)
    (scale term2 term3 : α) (d : List α) (dxh xh : Nat → α)
    (h1 : ∀ i, i < dim → dxHat[i]? = some (dxh i)) (h2 : ∀ i, i < dim → xHat[i]? = some (xh i))
    (hd : offset + dim ≤ d.length) :
    ∃ d', lnInputGradLoop dxHat xHat offset dim scale term2 term3 d = some d' ∧
      d'.length = d.length ∧
      (∀ i, i < dim → d'[offset + i]? = some
        (scale * ((dim : α) * dxh i - term2 - xh i * term3))) ∧
      (∀ p, (p < offset ∨ offset + dim ≤ p) → d'[p]? = d[p]?) :=
  segment_set dim offset _ _ d
    (by
      intro i s hi hs
      simp [h1 i hi, h2 i hi, setIdx_eq_some _ _ _ hs])
    hd

end nn
namespace nn
open tensor

theorem lnBackwardRow_spec {α : Type} [Field α] (gData xData gamma means rstds : List α)
    (D R b : Nat) (st : List α × List α × List α) (hb : b < R) (hgd : gData.length = R * D)
    (hxd : xData.length = R * D) (hgm : D ≤ gamma.length) (hm : R ≤ means.length)
    (hr : R ≤ rstds.length) (hd : st.1.length = R * D) (hgg : D ≤ st.2.1.length)
    (hbg : D ≤ st.2.2.length) :
    ∃ st', lnBackwardRow gData xData gamma means rstds D b st = some st' ∧
      st'.1.length = R * D ∧ st'.2.1.length = st.2.1.length ∧ st'.2.2.length = st.2.2.length ∧
      (∀ i, i < D →
        st'.2.1[i]? = some ((st.2.1[i]?).getD 0 + (gData[b * D + i]?).getD 0
          * (((xData[b * D + i]?).getD 0 - (means[b]?).getD 0) * (rstds[b]?).getD 0)) ∧
        st'.2.2[i]? = some ((st.2.2[i]?).getD 0 + (gData[b * D + i]?).getD 0) ∧
        st'.1[b * D + i]? = some ((rstds[b]?).getD 0 / (D : α)
          * ((D : α) * ((gData[b * D + i]?).getD 0 * (gamma[i]?).getD 0)
            - (∑ j in Finset.range D, (gData[b * D + j]?).getD 0 * (gamma[j]?).getD 0)
            - (((xData[b * D + i]?).getD 0 - (means[b]?).getD 0) * (rstds[b]?).getD 0)
              * ∑ j in Finset.range D, (gData[b * D + j]?).getD 0 * (gamma[j]?).getD 0
                * (((xData[b * D + j]?).getD 0 - (means[b]?).getD 0) * (rstds[b]?).getD 0)))) ∧
      (∀ p, (p < b * D ∨ b * D + D ≤ p) → st'.1[p]? = st.1[p]?) := by
  have hbm : b < means.length := by omega
  have hbr : b < rstds.length := by omega
  have hrow : b * D + D ≤ R * D := row_le hb
  obtain ⟨a, a1, a2, a3, a4, -, a6, a7⟩ := lnGradLoop_spec gData xData gamma (b * D) D
    means[b] rstds[b] st.2.1 st.2.2 (by omega) (by omega) hgm hgg hbg
  obtain ⟨d', d1, d2, d3, d4⟩ := lnInputGradLoop_spec a.dxHat a.xHat (b * D) D
    (rstds[b] / (D : α)) a.sumDxHat a.sumDxHatXHat st.1 _ _
    (fun i hi => (a4 i hi).2.2.1) (fun i hi => (a4 i hi).2.2.2) (by omega)
  refine ⟨(d', a.gammaGrad, a.betaGrad), ?_, by rw [d2, hd], a2, a3, ?_, d4⟩
  · unfold lnBackwardRow
    simp [List.getElem?_eq_getElem hbm, List.getElem?_eq_getElem hbr, a1, d1]
  · intro i hi
    simp only [List.getElem?_eq_getElem hbm, List.getElem?_eq_getElem hbr, Option.getD_some]
    refine ⟨(a4 i hi).1, (a4 i hi).2.1, ?_⟩
    rw [d3 i hi, a6, a7]

theorem LayerNorm_Backward_ok {α : Type} [Field α] (ln : LayerNorm α) (x g : NDArray α)
    (dims : List Nat) (D : Nat) (hinp : ln.input = some x) (hxwf : x.WF)
    (hx : x.Shape = dims ++ [D]) (hD : 0 < D) (hg : g.Data.length = dims.prod * D)
    (hgm : D ≤ ln.Gamma.Data.Data.length) (hm : dims.prod ≤ ln.mean.length)
    (hr : dims.prod ≤ ln.rstd.length) (hgg : D ≤ ln.Gamma.Grad.Data.length)
    (hbg : D ≤ ln.Beta.Grad.Data.length) :
    ∃ dx gg bg, ln.Backward g = some
        ({ ln with
            Gamma := { ln.Gamma with Grad := { ln.Gamma.Grad with Data := gg } }
            Beta := { ln.Beta with Grad := { ln.Beta.Grad with Data := bg } } }, dx) ∧
      dx.Shape = x.Shape ∧ dx.WF ∧
      (∀ i, i < D →
        gg[i]? = some ((ln.Gamma.Grad.Data[i]?).getD 0 + ∑ b in Finset.range dims.prod,
          (g.Data[b * D + i]?).getD 0
            * (((x.Data[b * D + i]?).getD 0 - (ln.mean[b]?).getD 0) * (ln.rstd[b]?).getD 0)) ∧
        bg[i]? = some ((ln.Beta.Grad.Data[i]?).getD 0 + ∑ b in Finset.range dims.prod,
          (g.Data[b * D + i]?).getD 0)) ∧
      ∀ b i, b < dims.prod → i < D → dx.Data[b * D + i]? = some
        ((ln.rstd[b]?).getD 0 / (D : α)
          * ((D : α) * ((g.Data[b * D + i]?).getD 0 * (ln.Gamma.Data.Data[i]?).getD 0)
            - (∑ j in Finset.range D,
                (g.Data[b * D + j]?).getD 0 * (ln.Gamma.Data.Data[j]?).getD 0)
            - (((x.Data[b * D + i]?).getD 0 - (ln.mean[b]?).getD 0) * (ln.rstd[b]?).getD 0)
              * ∑ j in Finset.range D,
                  (g.Data[b * D + j]?).getD 0 * (ln.Gamma.Data.Data[j]?).getD 0
                    * (((x.Data[b * D + j]?).getD 0 - (ln.mean[b]?).getD 0)
                      * (ln.rstd[b]?).getD 0))) := by
  have hxsize : x.Size = dims.prod * D := by rw [hxwf.1, hx]; simp
  have hxlen : x.Data.length = dims.prod * D := by rw [hxwf.2.1, hxsize]
  have hdiv : x.Size / D = dims.prod := by rw [hxsize, Nat.mul_div_cancel _ hD]
  obtain ⟨st, h1, hl1, hl2, hl3, hpar, hdx⟩ := forRange_inv
    (lnBackwardRow g.Data x.Data ln.Gamma.Data.Data ln.mean ln.rstd D)
    (fun k st => st.1.length = dims.prod * D ∧
      st.2.1.length = ln.Gamma.Grad.Data.length ∧ st.2.2.length = ln.Beta.Grad.Data.length ∧
      (∀ i, i < D →
        st.2.1[i]? = some ((ln.Gamma.Grad.Data[i]?).getD 0 + ∑ b in Finset.range k,
          (g.Data[b * D + i]?).getD 0
            * (((x.Data[b * D + i]?).getD 0 - (ln.mean[b]?).getD 0) * (ln.rstd[b]?).getD 0)) ∧
        st.2.2[i]? = some ((ln.Beta.Grad.Data[i]?).getD 0 + ∑ b in Finset.range k,
          (g.Data[b * D + i]?).getD 0)) ∧
      ∀ b i, b < k → i < D → st.1[b * D + i]? = some
        ((ln.rstd[b]?).getD 0 / (D : α)
          * ((D : α) * ((g.Data[b * D + i]?).getD 0 * (ln.Gamma.Data.Data[i]?).getD 0)
            - (∑ j in Finset.range D,
                (g.Data[b * D + j]?).getD 0 * (ln.Gamma.Data.Data[j]?).getD 0)
            - (((x.Data[b * D + i]?).getD 0 - (ln.mean[b]?).getD 0) * (ln.rstd[b]?).getD 0)
              * ∑ j in Finset.range D,
                  (g.Data[b * D + j]?).getD 0 * (ln.Gamma.Data.Data[j]?).getD 0
                    * (((x.Data[b * D + j]?).getD 0 - (ln.mean[b]?).getD 0)
                      * (ln.rstd[b]?).getD 0))))
    dims.prod ((New x.Shape : NDArray α).Data, ln.Gamma.Grad.Data, ln.Beta.Grad.Data)
    ⟨by rw [New_data_length x hxwf, hxlen], rfl, rfl,
      fun i hi => by
        have h1 : i < ln.Gamma.Grad.Data.length := by omega
        have h2 : i < ln.Beta.Grad.Data.length := by omega
        simp [List.getElem?_eq_getElem h1, List.getElem?_eq_getElem h2],
      fun b i hb => absurd hb (Nat.not_lt_zero _)⟩
    (by
      intro k st hk ⟨hl1, hl2, hl3, hpar, hdx⟩
      obtain ⟨st', s1, s2, s3, s4, s5, s6⟩ := lnBackwardRow_spec g.Data x.Data
        ln.Gamma.Data.Data ln.mean ln.rstd D dims.prod k st hk hg hxlen hgm hm hr hl1
        (by omega) (by omega)
      refine ⟨st', s1, s2, by omega, by omega, ?_, ?_⟩
      · intro i hi
        obtain ⟨p1, p2⟩ := hpar i hi
        obtain ⟨q1, q2, -⟩ := s5 i hi
        rw [q1, q2, p1, p2, Finset.sum_range_succ, Finset.sum_range_succ]
        simp [add_assoc]
      · intro b i hb hi
        by_cases he : b = k
        · subst he
          exact (s5 i hi).2.2
        · have hlt : b < k := by omega
          rw [s6 _ (Or.inl (lt_of_lt_of_le (by omega : b * D + i < b * D + D) (row_le hlt)))]
          exact hdx b i hlt hi)
  refine ⟨⟨st.1, x.Shape, x.Strides, x.Size⟩, st.2.1, st.2.2, ?_, rfl,
    ⟨hxwf.1, by rw [hl1, hxsize], hxwf.2.2⟩, hpar, hdx⟩
  unfold LayerNorm.Backward
  rw [hinp]
  simp only [Option.bind_eq_bind, Option.some_bind]
  rw [hx, two_last]
  simp only [Option.some_bind, if_neg (Nat.pos_iff_ne_zero.mp hD)]
  rw [← hx, hdiv, h1]
  simp only [Option.some_bind, New_shape_eq x hxwf]

end nn
namespace nn
open tensor

theorem LayerNorm_Forward_zero {α : Type} [Field α] (sqrt : α → α) (ln : LayerNorm α)
    (x : NDArray α) (dims : List Nat) (hx : x.Shape = dims ++ [0]) :
    ln.Forward sqrt x = none := by
  unfold LayerNorm.Forward
  rw [hx, two_last]
  simp

/-- C14: for a `LayerNorm` after `Forward(x)`, `Backward(dy)` computes per row `b`,
with `xhat[i] = (x[i] - mean) * rstd` and `dxhat[i] = dy[i] * gamma[i]`:
`Gamma.Grad[i]` increases by the sum over the rows of `dy[i] * xhat[i]` and
`Beta.Grad[i]` by the sum over the rows of `dy[i]`, and the returned input
gradient is
`dx[i] = (rstd / D) * (D * dxhat[i] - sum_j dxhat[j] - xhat[i] * sum_j (dxhat[j] * xhat[j]))`. -/
theorem LayerNorm_Backward_spec {α : Type} [Field α] (sqrt : α → α) (ln ln1 : LayerNorm α)
    (x out g : NDArray α) (dims : List Nat) (D : Nat) (hxwf : x.WF)
    (hx : x.Shape = dims ++ [D]) (hgam : ln.Gamma.Data.Data.length = D)
    (hbeta : ln.Beta.Data.Data.length = D) (hgg : ln.Gamma.Grad.Data.length = D)
    (hbg : ln.Beta.Grad.Data.length = D) (hF : ln.Forward sqrt x = some (ln1, out))
    (hgwf : g.WF) (hg : g.Shape = x.Shape) :
    ∃ ln2 dx, ln1.Backward g = some (ln2, dx) ∧ dx.Shape = x.Shape ∧
      (∀ i, i < D →
        ln2.Gamma.Grad.Data[i]? = some ((ln.Gamma.Grad.Data[i]?).getD 0
          + ∑ b in Finset.range dims.prod,
              (g.Data[b * D + i]?).getD 0 * xHatAt sqrt ln.Eps x.Data D b i) ∧
        ln2.Beta.Grad.Data[i]? = some ((ln.Beta.Grad.Data[i]?).getD 0
          + ∑ b in Finset.range dims.prod, (g.Data[b * D + i]?).getD 0)) ∧
      ∀ b i, b < dims.prod → i < D → dx.Data[b * D + i]? = some
        (rowRstd sqrt ln.Eps x.Data D b / (D : α)
          * ((D : α) * ((g.Data[b * D + i]?).getD 0 * (ln.Gamma.Data.Data[i]?).getD 0)
            - (∑ j in Finset.range D,
                (g.Data[b * D + j]?).getD 0 * (ln.Gamma.Data.Data[j]?).getD 0)
            - xHatAt sqrt ln.Eps x.Data D b i
              * ∑ j in Finset.range D,
                  (g.Data[b * D + j]?).getD 0 * (ln.Gamma.Data.Data[j]?).getD 0
                    * xHatAt sqrt ln.Eps x.Data D b j)) := by
  have hD : 0 < D := by
    rcases Nat.eq_zero_or_pos D with h0 | h0
    · subst h0
      rw [LayerNorm_Forward_zero sqrt ln x dims hx] at hF
      cases hF
    · exact h0
  obtain ⟨out', ms, rs, f1, -, -, f4, f5, f6⟩ := LayerNorm_Forward_ok sqrt ln x dims D hxwf hx hD
    (le_of_eq hgam.symm) (le_of_eq hbeta.symm)
  have hl1 : ln1 = { ln with input := some x, mean := ms, rstd := rs } := by
    rw [hF] at f1
    exact (Prod.mk.inj (Option.some.inj f1)).1
  subst hl1
  have hglen : g.Data.length = dims.prod * D := by
    rw [hgwf.2.1, hgwf.1, hg, hx]; simp
  obtain ⟨dx, gg, bg, b1, b2, -, b4, b5⟩ := LayerNorm_Backward_ok
    ({ ln with input := some x, mean := ms, rstd := rs } : LayerNorm α) x g dims D rfl hxwf hx hD
    hglen (le_of_eq hgam.symm) (le_of_eq f4.symm) (le_of_eq f5.symm) (le_of_eq hgg.symm)
    (le_of_eq hbg.symm)
  have hm : ∀ b, b < dims.prod → (ms[b]?).getD 0 = rowMean x.Data D b := by
    intro b hb
    rw [(f6 b hb).1]; rfl
  have hr : ∀ b, b < dims.prod → (rs[b]?).getD 0 = rowRstd sqrt ln.Eps x.Data D b := by
    intro b hb
    rw [(f6 b hb).2.1]; rfl
  refine ⟨_, dx, b1, b2, ?_, ?_⟩
  · intro i hi
    obtain ⟨p1, p2⟩ := b4 i hi
    refine ⟨?_, p2⟩
    rw [p1]
    congr 2
    apply Finset.sum_congr rfl
    intro b hb
    simp only [hm b (Finset.mem_range.mp hb), hr b (Finset.mem_range.mp hb)]
    rfl
  · intro b i hb hi
    rw [b5 b i hb hi]
    simp only [hm b hb, hr b hb]
    rfl

theorem LayerNorm_Backward_spec_witness :
    ∃ ln2 dx,
      LayerNorm.Backward
        ({ (NewLayerNorm 2 : LayerNorm ℚ) with
            input := some (NewFromData [1, 2, 3, 5] [2, 2])
            mean := [3 / 2, 4]
            rstd := [1 / (1 / 4 + 1 / 100000), 1 / (1 + 1 / 100000)] } : LayerNorm ℚ)
        (NewFromData [1, 0, 2, 1] [2, 2]) = some (ln2, dx) ∧
      dx.Shape = (NewFromData [1, 2, 3, 5] [2, 2] : NDArray ℚ).Shape ∧
      (∀ i, i < 2 →
        ln2.Gamma.Grad.Data[i]? = some (((NewLayerNorm 2 : LayerNorm ℚ).Gamma.Grad.Data[i]?).getD 0
          + ∑ b in Finset.range [2].prod,
              ((NewFromData [1, 0, 2, 1] [2, 2] : NDArray ℚ).Data[b * 2 + i]?).getD 0
                * xHatAt (fun y => y) (NewLayerNorm 2 : LayerNorm ℚ).Eps
                    (NewFromData [1, 2, 3, 5] [2, 2] : NDArray ℚ).Data 2 b i) ∧
        ln2.Beta.Grad.Data[i]? = some (((NewLayerNorm 2 : LayerNorm ℚ).Beta.Grad.Data[i]?).getD 0
          + ∑ b in Finset.range [2].prod,
              ((NewFromData [1, 0, 2, 1] [2, 2] : NDArray ℚ).Data[b * 2 + i]?).getD 0)) ∧
      ∀ b i, b < [2].prod → i < 2 → dx.Data[b * 2 + i]? = some
        (rowRstd (fun y => y) (NewLayerNorm 2 : LayerNorm ℚ).Eps
            (NewFromData [1, 2, 3, 5] [2, 2] : NDArray ℚ).Data 2 b / ((2 : Nat) : ℚ)
          * (((2 : Nat) : ℚ)
              * (((NewFromData [1, 0, 2, 1] [2, 2] : NDArray ℚ).Data[b * 2 + i]?).getD 0
                * ((NewLayerNorm 2 : LayerNorm ℚ).Gamma.Data.Data[i]?).getD 0)
            - (∑ j in Finset.range 2,
                ((NewFromData [1, 0, 2, 1] [2, 2] : NDArray ℚ).Data[b * 2 + j]?).getD 0
                  * ((NewLayerNorm 2 : LayerNorm ℚ).Gamma.Data.Data[j]?).getD 0)
            - xHatAt (fun y => y) (NewLayerNorm 2 : LayerNorm ℚ).Eps
                (NewFromData [1, 2, 3, 5] [2, 2] : NDArray ℚ).Data 2 b i
              * ∑ j in Finset.range 2,
                  ((NewFromData [1, 0, 2, 1] [2, 2] : NDArray ℚ).Data[b * 2 + j]?).getD 0
                    * ((NewLayerNorm 2 : LayerNorm ℚ).Gamma.Data.Data[j]?).getD 0
                    * xHatAt (fun y => y) (NewLayerNorm 2 : LayerNorm ℚ).Eps
                        (NewFromData [1, 2, 3, 5] [2, 2] : NDArray ℚ).Data 2 b j)) :=
  LayerNorm_Backward_spec (fun y => y) (NewLayerNorm 2 : LayerNorm ℚ)
    ({ (NewLayerNorm 2 : LayerNorm ℚ) with
        input := some (NewFromData [1, 2, 3, 5] [2, 2])
        mean := [3 / 2, 4]
        rstd := [1 / (1 / 4 + 1 / 100000), 1 / (1 + 1 / 100000)] } : LayerNorm ℚ)
    (NewFromData [1, 2, 3, 5] [2, 2])
    ⟨[(1 - 3 / 2) * (1 / (1 / 4 + 1 / 100000)) * 1 + 0,
      (2 - 3 / 2) * (1 / (1 / 4 + 1 / 100000)) * 1 + 0,
      (3 - 4) * (1 / (1 + 1 / 100000)) * 1 + 0, (5 - 4) * (1 / (1 + 1 / 100000)) * 1 + 0],
      [2, 2], [2, 1], 4⟩
    (NewFromData [1, 0, 2, 1] [2, 2]) [2] 2 ⟨rfl, rfl, rfl⟩ rfl rfl rfl rfl rfl
    (by
      simp [LayerNorm.Forward, lnForwardRow, rowSumLoop, sumSqLoop, normLoop, forRange, setIdx,
        New, NewFromData, NewLayerNorm, NewFull, shapeSize, makeCopy, computeStrides, stridesLoop]
      norm_num)
    ⟨rfl, rfl, rfl⟩ rfl

end nn

namespace nn
open tensor

/-! ## `Embedding` -/

theorem Embedding_Forward_ok {α : Type} [Zero α] (e : Embedding α) (indices : List Nat)
    (B T V E : Nat) (hW : e.Weight.Data.Shape = [V, E]) (hWl : e.Weight.Data.Data.length = V * E)
    (hidx : ∀ i, i < indices.length → (indices[i]?).getD 0 < V)
    (hlen : indices.length ≤ B * T) :
    ∃ out, e.ForwardIndices indices B T = some ({ e with inputIndices := indices }, out) ∧
      out.Shape = [B, T, E] ∧ out.Data.length = B * T * E ∧
      ∀ i j, i < indices.length → j < E →
        out.Data[i * E + j]? = e.Weight.Data.Data[(indices[i]?).getD 0 * E + j]? := by
  have hnew : (New [B, T, E] : NDArray α).Data.length = B * T * E := by
    rw [(New_facts [B, T, E]).2.2.2, List.length_replicate]
    simp [Nat.mul_assoc]
  obtain ⟨d, h1, hl, hin⟩ := forRange_inv
    (fun i d => do
      let idx ← indices[i]?
      forRange (fun j d => do
        let v ← e.Weight.Data.Data[idx * E + j]?
        setIdx d (i * E + j) v) E d)
    (fun k d => d.length = B * T * E ∧ ∀ i j, i < k → j < E →
      d[i * E + j]? = e.Weight.Data.Data[(indices[i]?).getD 0 * E + j]?)
    indices.length (New [B, T, E] : NDArray α).Data
    ⟨hnew, fun i j hi => absurd hi (Nat.not_lt_zero _)⟩
    (by
      intro k d hk ⟨hl, hin⟩
      have hv := hidx k hk
      rw [List.getElem?_eq_getElem hk, Option.getD_some] at hv
      have hrowd : k * E + E ≤ d.length := by
        rw [hl]
        exact le_trans (row_le hk) (Nat.mul_le_mul_right E hlen)
      have hrow : indices[k] * E + E ≤ e.Weight.Data.Data.length := hWl ▸ row_le hv
      obtain ⟨d', s1, s2, s3, s4⟩ := segment_set E (k * E)
        (fun j d => do
          let v ← e.Weight.Data.Data[indices[k] * E + j]?
          setIdx d (k * E + j) v)
        (fun j => (e.Weight.Data.Data[indices[k] * E + j]?).getD 0)
        d
        (by
          intro j s hj hs
          have hr : indices[k] * E + j < e.Weight.Data.Data.length := by omega
          simp [List.getElem?_eq_getElem hr, setIdx_eq_some _ _ _ hs])
        hrowd
      refine ⟨d', by simpa [List.getElem?_eq_getElem hk] using s1, by rw [s2, hl], ?_⟩
      intro i j hi hj
      by_cases he : i = k
      · subst he
        have hr : indices[i] * E + j < e.Weight.Data.Data.length := by omega
        rw [s3 j hj, List.getElem?_eq_getElem hk]
        simp [List.getElem?_eq_getElem hr]
      · have hlt : i < k := by omega
        rw [s4 _ (Or.inl (lt_of_lt_of_le (by omega : i * E + j < i * E + E) (row_le hlt)))]
        exact hin i j hlt hj)
  refine ⟨⟨d, [B, T, E], rowMajor [B, T, E], [B, T, E].prod⟩, ?_, rfl, hl, hin⟩
  unfold Embedding.ForwardIndices
  rw [hW]
  simp only [List.getElem?_cons_succ, List.getElem?_cons_zero, Option.bind_eq_bind,
    Option.some_bind]
  have h1' := h1
  simp only [Option.bind_eq_bind] at h1'
  rw [h1']
  simp [New, makeCopy_eq, computeStrides_eq, shapeSize_eq_prod]

end nn
namespace nn
open tensor

theorem scatterRow_spec {α : Type} [Semiring α] (gData : List α) (E i idx : Nat) (wg : List α)
    (hg : i * E + E ≤ gData.length) (hw : idx * E + E ≤ wg.length) :
    ∃ wg', scatterRow gData E i idx wg = some wg' ∧ wg'.length = wg.length ∧
      (∀ j, j < E → wg'[idx * E + j]? = some
        ((wg[idx * E + j]?).getD 0 + (gData[i * E + j]?).getD 0)) ∧
      (∀ p, (p < idx * E ∨ idx * E + E ≤ p) → wg'[p]? = wg[p]?) := by
  obtain ⟨wg', h1, hl, hin, hout⟩ := loop_effect E wg.length
    (fun j wg => do
      let g ← gData[i * E + j]?
      let y ← wg[idx * E + j]?
      setIdx wg (idx * E + j) (y + g))
    (fun j p => p = idx * E + j)
    (fun j _ y => y + (gData[i * E + j]?).getD 0)
    wg
    (by
      intro j s hj hs
      have hgj : i * E + j < gData.length := by omega
      have hp : idx * E + j < s.length := by omega
      refine ⟨s.set (idx * E + j) (s[idx * E + j] + gData[i * E + j]),
        by simp [List.getElem?_eq_getElem hgj, List.getElem?_eq_getElem hp,
          setIdx_eq_some _ _ _ hp], by simpa using hs, ?_, ?_⟩
      · intro p hpe
        subst hpe
        simp [List.getElem?_set_self hp, List.getElem?_eq_getElem hp,
          List.getElem?_eq_getElem hgj]
      · intro p hpe
        rw [List.getElem?_set_ne (fun h => hpe h.symm)])
    (by intro j j' p _ _ h1 h2; omega)
    rfl
  refine ⟨wg', h1, hl, ?_, ?_⟩
  · intro j hj
    rw [hin j _ hj rfl]
    have hp : idx * E + j < wg.length := by omega
    simp [List.getElem?_eq_getElem hp]
  · intro p hp
    apply hout
    intro j hj hpe
    omega

theorem Embedding_Backward_ok {α : Type} [Semiring α] (e : Embedding α) (g : NDArray α)
    (V E : Nat) (hW : e.Weight.Data.Shape = [V, E]) (hWg : e.Weight.Grad.Data.length = V * E)
    (hidx : ∀ i, i < e.inputIndices.length → (e.inputIndices[i]?).getD 0 < V)
    (hg : e.inputIndices.length * E ≤ g.Data.length) :
    ∃ wg, e.Backward g
        = some { e with Weight := { e.Weight with Grad := { e.Weight.Grad with Data := wg } } } ∧
      wg.length = V * E ∧
      ∀ v j, v < V → j < E → wg[v * E + j]? = some
        ((e.Weight.Grad.Data[v * E + j]?).getD 0
          + ∑ i in Finset.range e.inputIndices.length,
              if (e.inputIndices[i]?).getD 0 = v then (g.Data[i * E + j]?).getD 0 else 0) := by
  obtain ⟨wg, h1, hl, hin⟩ := forRange_inv
    (fun i wg => do
      let idx ← e.inputIndices[i]?
      scatterRow g.Data E i idx wg)
    (fun k wg => wg.length = V * E ∧ ∀ v j, v < V → j < E → wg[v * E + j]? = some
      ((e.Weight.Grad.Data[v * E + j]?).getD 0
        + ∑ i in Finset.range k,
            if (e.inputIndices[i]?).getD 0 = v then (g.Data[i * E + j]?).getD 0 else 0))
    e.inputIndices.length e.Weight.Grad.Data
    ⟨hWg, fun v j hv hj => by
      have hp : v * E + j < e.Weight.Grad.Data.length := by rw [hWg]; exact idx2_lt hv hj
      simp [List.getElem?_eq_getElem hp]⟩
    (by
      intro k wg hk ⟨hl, hin⟩
      have hv := hidx k hk
      rw [List.getElem?_eq_getElem hk, Option.getD_some] at hv
      have hgk : k * E + E ≤ g.Data.length := le_trans (row_le hk) hg
      obtain ⟨wg', s1, s2, s3, s4⟩ := scatterRow_spec g.Data E k e.inputIndices[k] wg hgk
        (hl ▸ row_le hv)
      refine ⟨wg', by simpa [List.getElem?_eq_getElem hk] using s1, by rw [s2, hl], ?_⟩
      intro v j hvV hj
      rw [Finset.sum_range_succ, List.getElem?_eq_getElem hk, Option.getD_some]
      by_cases he : e.inputIndices[k] = v
      · subst he
        rw [s3 j hj, hin _ j hvV hj, if_pos rfl]
        simp [add_assoc]
      · rw [if_neg he, add_zero]
        have hout : v * E + j < e.inputIndices[k] * E ∨ e.inputIndices[k] * E + E ≤ v * E + j := by
          rcases Nat.lt_or_gt_of_ne he with h | h
          · right
            calc e.inputIndices[k] * E + E = (e.inputIndices[k] + 1) * E := by ring
              _ ≤ v * E := Nat.mul_le_mul_right E h
              _ ≤ v * E + j := Nat.le_add_right _ _
          · left
            exact lt_of_lt_of_le (by omega : v * E + j < v * E + E) (row_le h)
        rw [s4 _ hout]
        exact hin v j hvV hj)
  refine ⟨wg, ?_, hl, hin⟩
  unfold Embedding.Backward
  rw [hW]
  simp only [List.getElem?_cons_succ, List.getElem?_cons_zero, Option.bind_eq_bind,
    Option.some_bind]
  have h1' := h1
  simp only [Option.bind_eq_bind] at h1'
  rw [h1']
  rfl

/-- C15: `Embedding.Backward` is a scatter-add in which repeated indices
accumulate: after `ForwardIndices(indices, B, T)` with every index below the
vocabulary size, `Backward(g)` leaves `Weight.Grad[v,j]` equal to its previous
value plus the sum of `g[i,j]` over the positions `i` with `indices[i] = v`;
rows whose index does not occur in `indices` are unchanged, and `Weight.Data`
is unchanged. -/
theorem Embedding_Backward_spec {α : Type} [Semiring α] (e : Embedding α) (indices : List Nat)
    (g : NDArray α) (B T V E : Nat) (hWwf : e.Weight.Data.WF) (hW : e.Weight.Data.Shape = [V, E])
    (hWg : e.Weight.Grad.Data.length = V * E)
    (hidx : ∀ i, i < indices.length → (indices[i]?).getD 0 < V)
    (hlen : indices.length ≤ B * T) (hgwf : g.WF) (hg : g.Shape = [B, T, E]) :
    ∃ e1 out e2, e.ForwardIndices indices B T = some (e1, out) ∧ e1.Backward g = some e2 ∧
      e2.Weight.Data = e.Weight.Data ∧
      (∀ v j, v < V → j < E → e2.Weight.Grad.Data[v * E + j]? = some
        ((e.Weight.Grad.Data[v * E + j]?).getD 0
          + ∑ i in Finset.range indices.length,
              if (indices[i]?).getD 0 = v then (g.Data[i * E + j]?).getD 0 else 0)) ∧
      (∀ v j, v < V → j < E → (∀ i, i < indices.length → (indices[i]?).getD 0 ≠ v) →
        e2.Weight.Grad.Data[v * E + j]? = e.Weight.Grad.Data[v * E + j]?) := by
  have hWl : e.Weight.Data.Data.length = V * E := by
    rw [hWwf.2.1, hWwf.1, hW]; simp
  have hgl : g.Data.length = B * T * E := by
    rw [hgwf.2.1, hgwf.1, hg]; simp [Nat.mul_assoc]
  obtain ⟨out, f1, -, -, -⟩ := Embedding_Forward_ok e indices B T V E hW hWl hidx hlen
  obtain ⟨wg, b1, b2, b3⟩ := Embedding_Backward_ok
    ({ e with inputIndices := indices } : Embedding α) g V E hW hWg hidx
    (by rw [hgl]; exact Nat.mul_le_mul_right E hlen)
  refine ⟨_, out, _, f1, b1, rfl, b3, ?_⟩
  intro v j hv hj hno
  have hp : v * E + j < e.Weight.Grad.Data.length := by rw [hWg]; exact idx2_lt hv hj
  have h := b3 v j hv hj
  simp only at h ⊢
  rw [h, Finset.sum_eq_zero (fun i hi => if_neg (hno i (Finset.mem_range.mp hi))), add_zero,
    List.getElem?_eq_getElem hp]
  simp

theorem Embedding_Backward_spec_witness :
    ∃ e1 out e2,
      Embedding.ForwardIndices
        (⟨⟨NewFromData [1, 2, 3, 4, 5, 6] [3, 2], New [3, 2], "embedding"⟩, []⟩ : Embedding ℤ)
        [2, 0, 2] 1 3 = some (e1, out) ∧
      e1.Backward (NewFromData [1, 10, 100, 1000, 5, 50] [1, 3, 2]) = some e2 ∧
      e2.Weight.Data = NewFromData [1, 2, 3, 4, 5, 6] [3, 2] ∧
      (∀ v j, v < 3 → j < 2 → e2.Weight.Grad.Data[v * 2 + j]? = some
        (((New [3, 2] : NDArray ℤ).Data[v * 2 + j]?).getD 0
          + ∑ i in Finset.range [2, 0, 2].length,
              if (([2, 0, 2] : List Nat)[i]?).getD 0 = v then
                ((NewFromData [1, 10, 100, 1000, 5, 50] [1, 3, 2] : NDArray ℤ).Data[i * 2 + j]?).getD 0
              else 0)) ∧
      (∀ v j, v < 3 → j < 2 →
        (∀ i, i < [2, 0, 2].length → (([2, 0, 2] : List Nat)[i]?).getD 0 ≠ v) →
        e2.Weight.Grad.Data[v * 2 + j]? = (New [3, 2] : NDArray ℤ).Data[v * 2 + j]?) :=
  Embedding_Backward_spec
    (⟨⟨NewFromData [1, 2, 3, 4, 5, 6] [3, 2], New [3, 2], "embedding"⟩, []⟩ : Embedding ℤ)
    [2, 0, 2] (NewFromData [1, 10, 100, 1000, 5, 50] [1, 3, 2]) 1 3 3 2 ⟨rfl, rfl, rfl⟩ rfl rfl
    (by decide) (by decide) ⟨rfl, rfl, rfl⟩ rfl

end nn

namespace tensor

/-! ## Loops over several buffers, and four nested loops -/

theorem forRange_prod3 {α β γ : Type} (body : Nat → α × β × γ → Option (α × β × γ))
    (f1 : Nat → α → Option α) (f2 : Nat → β → Option β) (f3 : Nat → γ → Option γ)
    (hbody : ∀ i s, body i s = (f1 i s.1).bind (fun a => (f2 i s.2.1).bind (fun b =>
      (f3 i s.2.2).bind (fun c => some (a, b, c)))))
    (n : Nat) (s : α × β × γ) :
    forRange body n s = (forRange f1 n s.1).bind (fun a => (forRange f2 n s.2.1).bind (fun b =>
      (forRange f3 n s.2.2).bind (fun c => some (a, b, c)))) := by
  induction n with
  | zero => simp [forRange]
  | succ n ih =>
    simp only [forRange, ih]
    cases h1 : forRange f1 n s.1 with
    | none => simp
    | some a =>
      cases h2 : forRange f2 n s.2.1 with
      | none =>
        simp only [Option.some_bind, Option.none_bind]
        cases f1 n a <;> simp
      | some b =>
        cases h3 : forRange f3 n s.2.2 with
        | none =>
          simp only [Option.some_bind, Option.none_bind]
          cases f1 n a <;> cases f2 n b <;> simp
        | some c =>
          simp only [Option.some_bind, hbody]

theorem bind3_reassoc {X A B C : Type} (xq xk xv : Option X) (w1 : X → Option A)
    (w2 : X → Option B) (w3 : X → Option C) :
    (xq.bind fun x => (w1 x).bind fun a => xk.bind fun y => (w2 y).bind fun b =>
        xv.bind fun z => (w3 z).bind fun c => some (a, b, c))
      = (xq.bind w1).bind fun a => (xk.bind w2).bind fun b => (xv.bind w3).bind fun c =>
          some (a, b, c) := by
  cases xq with
  | none => simp
  | some x =>
    cases h1 : w1 x with
    | none => simp [h1]
    | some a =>
      cases xk with
      | none => simp [h1]
      | some y =>
        cases h2 : w2 y with
        | none => simp [h1, h2]
        | some b =>
          cases xv with
          | none => simp [h1, h2]
          | some z => simp [h1, h2]

theorem loop_rel {α : Type} (m L : Nat) (body : Nat → List α → Option (List α))
    (Wr : Nat → Nat → α → Prop) (d0 : List α)
    (hcons : ∀ r r' p v v', r < m → r' < m → Wr r p v → Wr r' p v' → v = v')
    (hbody : ∀ r d, r < m → d.length = L → ∃ d', body r d = some d' ∧ d'.length = L ∧
      (∀ p v, Wr r p v → d'[p]? = some v) ∧ (∀ p, (∀ v, ¬ Wr r p v) → d'[p]? = d[p]?))
    (hlen : d0.length = L) :
    ∃ d', forRange body m d0 = some d' ∧ d'.length = L ∧
      (∀ r p v, r < m → Wr r p v → d'[p]? = some v) ∧
      (∀ p, (∀ r v, r < m → ¬ Wr r p v) → d'[p]? = d0[p]?) := by
  obtain ⟨d', h1, hl, hin, hout⟩ := forRange_inv body
    (fun i d => d.length = L ∧
      (∀ r p v, r < i → r < m → Wr r p v → d[p]? = some v) ∧
      (∀ p, (∀ r v, r < i → ¬ Wr r p v) → d[p]? = d0[p]?))
    m d0 ⟨hlen, fun r p v hr => absurd hr (Nat.not_lt_zero _), fun _ _ => rfl⟩
    (by
      intro i d hi ⟨hl, hin, hout⟩
      obtain ⟨d', h1, hl', ht, hn⟩ := hbody i d hi hl
      refine ⟨d', h1, hl', ?_, ?_⟩
      · intro r p v hr hrm hw
        by_cases he : r = i
        · subst he
          exact ht p v hw
        · by_cases hex : ∃ v', Wr i p v'
          · obtain ⟨v', hw'⟩ := hex
            rw [ht p v' hw', hcons r i p v v' hrm hi hw hw']
          · rw [hn p (fun v' hv' => hex ⟨v', hv'⟩)]
            exact hin r p v (by omega) hrm hw
      · intro p hp
        rw [hn p (fun v hv => hp i v (Nat.lt_succ_self i) hv)]
        exact hout p (fun r v hr => hp r v (Nat.lt_succ_of_lt hr)))
  exact ⟨d', h1, hl, fun r p v hr hw => hin r p v hr hr hw, hout⟩

theorem nest4_write {α : Type} (n1 n2 n3 n4 L : Nat) (pos : Nat → Nat → Nat → Nat → Nat)
    (val : Nat → Nat → Nat → Nat → Option α) (w : Nat → Nat → Nat → Nat → α) (d0 : List α)
    (hval : ∀ a b c d, a < n1 → b < n2 → c < n3 → d < n4 → val a b c d = some (w a b c d))
    (hpos : ∀ a b c d, a < n1 → b < n2 → c < n3 → d < n4 → pos a b c d < L)
    (hinj : ∀ a b c d a' b' c' d', a < n1 → b < n2 → c < n3 → d < n4 → a' < n1 → b' < n2 →
      c' < n3 → d' < n4 → pos a b c d = pos a' b' c' d' → w a b c d = w a' b' c' d')
    (hlen : d0.length = L) :
    ∃ d', forRange (fun a s => forRange (fun b s => forRange (fun c s => forRange (fun d s =>
            (val a b c d).bind (fun v => setIdx s (pos a b c d) v)) n4 s) n3 s) n2 s) n1 d0
          = some d' ∧
      d'.length = L ∧
      (∀ a b c d, a < n1 → b < n2 → c < n3 → d < n4 → d'[pos a b c d]? = some (w a b c d)) ∧
      (∀ p, (∀ a b c d, a < n1 → b < n2 → c < n3 → d < n4 → pos a b c d ≠ p) →
        d'[p]? = d0[p]?) := by
  obtain ⟨d', h1, hl, hin, hout⟩ := loop_rel n1 L _
    (fun a p v => ∃ b c d, b < n2 ∧ c < n3 ∧ d < n4 ∧ p = pos a b c d ∧ v = w a b c d) d0
    (by
      rintro a a' p v v' ha ha' ⟨b, c, d, hb, hc, hd, rfl, rfl⟩ ⟨b', c', d', hb', hc', hd', e, rfl⟩
      exact hinj a b c d a' b' c' d' ha hb hc hd ha' hb' hc' hd' e)
    (by
      intro a s ha hs
      obtain ⟨s', g1, gl, gin, gout⟩ := loop_rel n2 L _
        (fun b p v => ∃ c d, c < n3 ∧ d < n4 ∧ p = pos a b c d ∧ v = w a b c d) s
        (by
          rintro b b' p v v' hb hb' ⟨c, d, hc, hd, rfl, rfl⟩ ⟨c', d', hc', hd', e, rfl⟩
          exact hinj a b c d a b' c' d' ha hb hc hd ha hb' hc' hd' e)
        (by
          intro b s hb hs
          obtain ⟨s', g1, gl, gin, gout⟩ := loop_rel n3 L _
            (fun c p v => ∃ d, d < n4 ∧ p = pos a b c d ∧ v = w a b c d) s
            (by
              rintro c c' p v v' hc hc' ⟨d, hd, rfl, rfl⟩ ⟨d', hd', e, rfl⟩
              exact hinj a b c d a b c' d' ha hb hc hd ha hb hc' hd' e)
            (by
              intro c s hc hs
              obtain ⟨s', g1, gl, gin, gout⟩ := loop_rel n4 L
                (fun d s => (val a b c d).bind (fun v => setIdx s (pos a b c d) v))
                (fun d p v => p = pos a b c d ∧ v = w a b c d) s
                (by
                  rintro d d' p v v' hd hd' ⟨rfl, rfl⟩ ⟨e, rfl⟩
                  exact hinj a b c d a b c d' ha hb hc hd ha hb hc hd' e)
                (by
                  intro d s hd hs
                  have hp := hpos a b c d ha hb hc hd
                  refine ⟨s.set (pos a b c d) (w a b c d), ?_, by simpa using hs, ?_, ?_⟩
                  · show (val a b c d).bind (fun v => setIdx s (pos a b c d) v) = _
                    rw [hval a b c d ha hb hc hd]
                    exact setIdx_eq_some _ _ _ (by omega)
                  · rintro p v ⟨rfl, rfl⟩
                    rw [List.getElem?_set_self (by omega)]
                  · intro p hp'
                    have hne : pos a b c d ≠ p := fun e => hp' (w a b c d) ⟨e.symm, rfl⟩
                    rw [List.getElem?_set_ne hne])
                hs
              refine ⟨s', g1, gl, ?_, ?_⟩
              · rintro p v ⟨d, hd, rfl, rfl⟩
                exact gin d _ _ hd ⟨rfl, rfl⟩
              · intro p hp'
                exact gout p (fun d v hd hw => hp' v ⟨d, hd, hw⟩))
            hs
          refine ⟨s', g1, gl, ?_, ?_⟩
          · rintro p v ⟨c, d, hc, hd, rfl, rfl⟩
            exact gin c _ _ hc ⟨d, hd, rfl, rfl⟩
          · intro p hp'
            exact gout p (fun c v hc ⟨d, hd, hw⟩ => hp' v ⟨c, d, hc, hd, hw⟩))
        hs
      refine ⟨s', g1, gl, ?_, ?_⟩
      · rintro p v ⟨b, c, d, hb, hc, hd, rfl, rfl⟩
        exact gin b _ _ hb ⟨c, d, hc, hd, rfl, rfl⟩
      · intro p hp'
        exact gout p (fun b v hb ⟨c, d, hc, hd, hw⟩ => hp' v ⟨b, c, d, hb, hc, hd, hw⟩))
    hlen
  refine ⟨d', h1, hl, ?_, ?_⟩
  · intro a b c d ha hb hc hd
    exact hin a _ _ ha ⟨b, c, d, hb, hc, hd, rfl, rfl⟩
  · intro p hp
    apply hout
    rintro a v ha ⟨b, c, d, hb, hc, hd, e, -⟩
    exact hp a b c d ha hb hc hd e.symm

theorem rowMaxLoop_congr {α : Type} [LinearOrderedField α] (d d' : List α) (offset stride : Nat)
    (h : ∀ i, i < stride → d[offset + i]? = d'[offset + i]?) :
    rowMaxLoop d offset stride = rowMaxLoop d' offset stride := by
  unfold rowMaxLoop
  induction stride with
  | zero => rfl
  | succ n ih =>
    simp only [forRange]
    rw [ih (fun i hi => h i (Nat.lt_succ_of_lt hi)), h n (Nat.lt_succ_self n)]

end tensor
namespace transformer

open tensor nn

/-! ## Index arithmetic of the head layout -/

theorem idx4_lt {B H T D b h t d : Nat} (hb : b < B) (hh : h < H) (ht : t < T) (hd : d < D) :
    ((b * H + h) * T + t) * D + d < B * (H * (T * D)) := by
  have h1 := idx2_lt hb hh
  have h2 := idx2_lt h1 ht
  have h3 := idx2_lt h2 hd
  calc ((b * H + h) * T + t) * D + d < B * H * T * D := h3
    _ = B * (H * (T * D)) := by ring

theorem idx4_inj {H T D b h t d b' h' t' d' : Nat} (hh : h < H) (ht : t < T) (hd : d < D)
    (hh' : h' < H) (ht' : t' < T) (hd' : d' < D)
    (e : ((b * H + h) * T + t) * D + d = ((b' * H + h') * T + t') * D + d') :
    b = b' ∧ h = h' ∧ t = t' ∧ d = d' := by
  obtain ⟨e1, e2⟩ := idx2_inj hd hd' e
  obtain ⟨e3, e4⟩ := idx2_inj ht ht' e1
  obtain ⟨e5, e6⟩ := idx2_inj hh hh' e3
  exact ⟨e5, e6, e4, e2⟩

theorem flat_inj {T C H D b t h d b' t' h' d' : Nat} (hHD : H * D ≤ C)
    (ht : t < T) (hh : h < H) (hd : d < D) (ht' : t' < T) (hh' : h' < H) (hd' : d' < D)
    (e : (b * T + t) * C + h * D + d = (b' * T + t') * C + h' * D + d') :
    b = b' ∧ t = t' ∧ h = h' ∧ d = d' := by
  have c1 : h * D + d < C := lt_of_lt_of_le (idx2_lt hh hd) hHD
  have c2 : h' * D + d' < C := lt_of_lt_of_le (idx2_lt hh' hd') hHD
  obtain ⟨e1, e2⟩ := idx2_inj c1 c2 (by omega : (b * T + t) * C + (h * D + d)
    = (b' * T + t') * C + (h' * D + d'))
  obtain ⟨e3, e4⟩ := idx2_inj ht ht' e1
  obtain ⟨e5, e6⟩ := idx2_inj hd hd' e2
  exact ⟨e3, e4, e5, e6⟩

/-! ## The loops of `CausalSelfAttention.Forward` -/

theorem splitLoop_eq {α : Type} (qkvData : List α) (B T C H D : Nat)
    (s : List α × List α × List α) :
    splitLoop qkvData B T C H D s =
      (forRange (fun b s => forRange (fun t s => forRange (fun h s => forRange (fun d s =>
          (qkvData[(b * T + t) * (3 * C) + h * D + d]?).bind
            (fun v => setIdx s (((b * H + h) * T + t) * D + d) v)) D s) H s) T s) B s.1).bind
      (fun a => (forRange (fun b s => forRange (fun t s => forRange (fun h s => forRange (fun d s =>
          (qkvData[(b * T + t) * (3 * C) + C + h * D + d]?).bind
            (fun v => setIdx s (((b * H + h) * T + t) * D + d) v)) D s) H s) T s) B s.2.1).bind
      (fun b' => (forRange (fun b s => forRange (fun t s => forRange (fun h s => forRange (fun d s =>
          (qkvData[(b * T + t) * (3 * C) + 2 * C + h * D + d]?).bind
            (fun v => setIdx s (((b * H + h) * T + t) * D + d) v)) D s) H s) T s) B s.2.2).bind
      (fun c => some (a, b', c)))) := by
  unfold splitLoop
  exact forRange_prod3 _ _ _ _ (fun b s => forRange_prod3 _ _ _ _ (fun t s =>
    forRange_prod3 _ _ _ _ (fun h s => forRange_prod3 _ _ _ _ (fun d s =>
      bind3_reassoc _ _ _ _ _ _) D s) H s) T s) B s

theorem splitPart_spec {α : Type} [Zero α] (qkvData : List α) (B T C H D off : Nat) (hHD : H * D ≤ C)
    (hoff : off + C ≤ 3 * C) (hlen : qkvData.length = B * T * (3 * C)) (d0 : List α)
    (hd0 : d0.length = B * (H * (T * D))) :
    ∃ d', forRange (fun b s => forRange (fun t s => forRange (fun h s => forRange (fun d s =>
          (qkvData[(b * T + t) * (3 * C) + off + h * D + d]?).bind
            (fun v => setIdx s (((b * H + h) * T + t) * D + d) v)) D s) H s) T s) B d0 = some d' ∧
      d'.length = B * (H * (T * D)) ∧
      ∀ b t h d, b < B → t < T → h < H → d < D →
        d'[((b * H + h) * T + t) * D + d]? = qkvData[(b * T + t) * (3 * C) + off + h * D + d]? := by
  have hsrc : ∀ b t h d, b < B → t < T → h < H → d < D →
      (b * T + t) * (3 * C) + off + h * D + d < qkvData.length := by
    intro b t h d hb ht hh hd
    have c1 : h * D + d < C := lt_of_lt_of_le (idx2_lt hh hd) hHD
    have c2 := idx2_lt (idx2_lt hb ht) (by omega : off + (h * D + d) < 3 * C)
    rw [hlen]
    omega
  obtain ⟨d', h1, hl, hin, -⟩ := nest4_write B T H D (B * (H * (T * D)))
    (fun b t h d => ((b * H + h) * T + t) * D + d)
    (fun b t h d => qkvData[(b * T + t) * (3 * C) + off + h * D + d]?)
    (fun b t h d => (qkvData[(b * T + t) * (3 * C) + off + h * D + d]?).getD 0) d0
    (fun b t h d hb ht hh hd => getElem?_eq_some_getD _ _ (hsrc b t h d hb ht hh hd))
    (fun b t h d hb ht hh hd => idx4_lt hb hh ht hd)
    (by
      intro b t h d b' t' h' d' hb ht hh hd hb' ht' hh' hd' e
      obtain ⟨e1, e2, e3, e4⟩ := idx4_inj hh ht hd hh' ht' hd' e
      subst e1 e2 e3 e4
      rfl)
    hd0
  refine ⟨d', h1, hl, ?_⟩
  intro b t h d hb ht hh hd
  rw [hin b t h d hb ht hh hd]
  exact (getElem?_eq_some_getD _ _ (hsrc b t h d hb ht hh hd)).symm

theorem splitLoop_spec {α : Type} [Zero α] (qkvData : List α) (B T C H D : Nat) (hHD : H * D ≤ C)
    (hlen : qkvData.length = B * T * (3 * C)) (s : List α × List α × List α)
    (h1 : s.1.length = B * (H * (T * D))) (h2 : s.2.1.length = B * (H * (T * D)))
    (h3 : s.2.2.length = B * (H * (T * D))) :
    ∃ dq dk dv, splitLoop qkvData B T C H D s = some (dq, dk, dv) ∧
      dq.length = B * (H * (T * D)) ∧ dk.length = B * (H * (T * D)) ∧
      dv.length = B * (H * (T * D)) ∧
      ∀ b t h d, b < B → t < T → h < H → d < D →
        dq[((b * H + h) * T + t) * D + d]? = qkvData[(b * T + t) * (3 * C) + h * D + d]? ∧
        dk[((b * H + h) * T + t) * D + d]? = qkvData[(b * T + t) * (3 * C) + C + h * D + d]? ∧
        dv[((b * H + h) * T + t) * D + d]?
          = qkvData[(b * T + t) * (3 * C) + 2 * C + h * D + d]? := by
  obtain ⟨dq, q1, q2, q3⟩ := splitPart_spec qkvData B T C H D 0 hHD (by omega) hlen s.1 h1
  obtain ⟨dk, k1, k2, k3⟩ := splitPart_spec qkvData B T C H D C hHD (by omega) hlen s.2.1 h2
  obtain ⟨dv, v1, v2, v3⟩ := splitPart_spec qkvData B T C H D (2 * C) hHD (by omega) hlen s.2.2 h3
  simp only [Nat.add_zero] at q1 q3
  refine ⟨dq, dk, dv, ?_, q2, k2, v2, ?_⟩
  · rw [splitLoop_eq, q1, k1, v1]
    rfl
  · intro b t h d hb ht hh hd
    exact ⟨q3 b t h d hb ht hh hd, k3 b t h d hb ht hh hd, v3 b t h d hb ht hh hd⟩

theorem scaleLoop_spec {α : Type} [Semiring α] (scale : α) (d : List α) :
    ∃ d', scaleLoop scale d = some d' ∧ d'.length = d.length ∧
      ∀ p, p < d.length → d'[p]? = (d[p]?).map (fun y => y * scale) := by
  obtain ⟨d', h1, hl, hin, -⟩ := loop_effect d.length d.length
    (fun i d => do
      let y ← d[i]?
      setIdx d i (y * scale))
    (fun r p => p = r) (fun _ _ y => y * scale) d
    (by
      intro r s hr hs
      have hlt : r < s.length := by omega
      refine ⟨s.set r (s[r] * scale), ?_, by simpa using hs, ?_, ?_⟩
      · simp [List.getElem?_eq_getElem hlt, setIdx_eq_some _ _ _ hlt]
      · rintro p rfl
        rw [List.getElem?_set_self hlt, List.getElem?_eq_getElem hlt]
        rfl
      · intro p hp
        rw [List.getElem?_set_ne (fun e => hp e.symm)])
    (by
      rintro r r' p _ _ rfl e
      exact e)
    rfl
  exact ⟨d', h1, hl, fun p hp => hin p p hp rfl⟩

theorem maskLoop_spec {α : Type} [Ring α] (B T H : Nat) (d : List α)
    (hd : d.length = B * H * (T * T)) :
    ∃ d', maskLoop B T H d = some d' ∧ d'.length = d.length ∧
      ∀ β t1 t2, β < B * H → t1 < T → t2 < T →
        d'[(β * T + t1) * T + t2]? = if t1 < t2 then some (-1000000000) else d[(β * T + t1) * T + t2]? := by
  have hpos : ∀ β t1 t2, β < B * H → t1 < T → t2 < T → (β * T + t1) * T + t2 < d.length := by
    intro β t1 t2 hβ h1 h2
    have := idx2_lt (idx2_lt hβ h1) h2
    rw [hd]
    calc (β * T + t1) * T + t2 < B * H * T * T := this
      _ = B * H * (T * T) := by ring
  obtain ⟨d', g1, gl, gin, gout⟩ := loop_rel T d.length
    (fun t1 d => forRange (fun t2 d =>
      if t2 > t1 then
        forRange (fun b d => setIdx d ((b * T + t1) * T + t2) (-1000000000 : α)) (B * H) d
      else some d) T d)
    (fun t1 p v => ∃ t2 β, t2 < T ∧ t1 < t2 ∧ β < B * H ∧ p = (β * T + t1) * T + t2
      ∧ v = (-1000000000 : α)) d
    (by
      rintro r r' p v v' - - ⟨_, _, _, _, _, _, rfl⟩ ⟨_, _, _, _, _, _, rfl⟩
      rfl)
    (by
      intro t1 s ht1 hs
      obtain ⟨s', g1, gl, gin, gout⟩ := loop_rel T d.length
        (fun t2 d =>
          if t2 > t1 then
            forRange (fun b d => setIdx d ((b * T + t1) * T + t2) (-1000000000 : α)) (B * H) d
          else some d)
        (fun t2 p v => ∃ β, t1 < t2 ∧ β < B * H ∧ p = (β * T + t1) * T + t2
          ∧ v = (-1000000000 : α)) s
        (by
          rintro r r' p v v' - - ⟨_, _, _, _, rfl⟩ ⟨_, _, _, _, rfl⟩
          rfl)
        (by
          intro t2 s ht2 hs
          by_cases hlt : t1 < t2
          · obtain ⟨s', g1, gl, gin, gout⟩ := loop_rel (B * H) d.length
              (fun b d => setIdx d ((b * T + t1) * T + t2) (-1000000000 : α))
              (fun β p v => p = (β * T + t1) * T + t2 ∧ v = (-1000000000 : α)) s
              (by
                rintro r r' p v v' - - ⟨_, rfl⟩ ⟨_, rfl⟩
                rfl)
              (by
                intro β s hβ hs
                have hp := hpos β t1 t2 hβ ht1 ht2
                refine ⟨s.set ((β * T + t1) * T + t2) (-1000000000), ?_, by simpa using hs, ?_, ?_⟩
                · exact setIdx_eq_some _ _ _ (by omega)
                · rintro p v ⟨rfl, rfl⟩
                  rw [List.getElem?_set_self (by omega)]
                · intro p hp'
                  have hne : (β * T + t1) * T + t2 ≠ p := fun e => hp' _ ⟨e.symm, rfl⟩
                  rw [List.getElem?_set_ne hne])
              hs
            refine ⟨s', ?_, gl, ?_, ?_⟩
            · show (if t2 > t1 then _ else _) = _
              rw [if_pos hlt]
              exact g1
            · rintro p v ⟨β, -, hβ, rfl, rfl⟩
              exact gin β _ _ hβ ⟨rfl, rfl⟩
            · intro p hp'
              exact gout p (fun β v hβ ⟨e1, e2⟩ => hp' v ⟨β, hlt, hβ, e1, e2⟩)
          · refine ⟨s, ?_, hs, ?_, fun _ _ => rfl⟩
            · show (if t2 > t1 then _ else _) = _
              rw [if_neg hlt]
            · rintro p v ⟨β, h, -⟩
              exact absurd h hlt)
        hs
      refine ⟨s', g1, gl, ?_, ?_⟩
      · rintro p v ⟨t2, β, ht2, hlt, hβ, rfl, rfl⟩
        exact gin t2 _ _ ht2 ⟨β, hlt, hβ, rfl, rfl⟩
      · intro p hp'
        exact gout p (fun t2 v ht2 ⟨β, hlt, hβ, e1, e2⟩ => hp' v ⟨t2, β, ht2, hlt, hβ, e1, e2⟩))
    rfl
  refine ⟨d', g1, gl, ?_⟩
  intro β t1 t2 hβ ht1 ht2
  by_cases hlt : t1 < t2
  · rw [if_pos hlt]
    exact gin t1 _ _ ht1 ⟨t2, β, ht2, hlt, hβ, rfl, rfl⟩
  · rw [if_neg hlt]
    apply gout
    rintro r v hr ⟨t2', β', ht2', hlt', hβ', e, -⟩
    obtain ⟨e1, e2⟩ := idx2_inj ht2 ht2' e
    obtain ⟨e3, e4⟩ := idx2_inj ht1 hr e1
    omega

theorem reassembleLoop_spec {α : Type} [Zero α] (yData : List α) (B T C H D : Nat) (hHD : H * D ≤ C)
    (hy : yData.length = B * (H * (T * D))) (d0 : List α) (hd0 : d0.length = B * T * C) :
    ∃ d', reassembleLoop yData B T C H D d0 = some d' ∧ d'.length = B * T * C ∧
      (∀ b t h d, b < B → t < T → h < H → d < D →
        d'[(b * T + t) * C + h * D + d]? = yData[((b * H + h) * T + t) * D + d]?) ∧
      (∀ b t c, b < B → t < T → H * D ≤ c → c < C →
        d'[(b * T + t) * C + c]? = d0[(b * T + t) * C + c]?) := by
  have hsrc : ∀ b t h d, b < B → t < T → h < H → d < D →
      ((b * H + h) * T + t) * D + d < yData.length := by
    intro b t h d hb ht hh hd
    rw [hy]
    exact idx4_lt hb hh ht hd
  obtain ⟨d', h1, hl, hin, hout⟩ := nest4_write B T H D (B * T * C)
    (fun b t h d => (b * T + t) * C + h * D + d)
    (fun b t h d => yData[((b * H + h) * T + t) * D + d]?)
    (fun b t h d => (yData[((b * H + h) * T + t) * D + d]?).getD 0) d0
    (fun b t h d hb ht hh hd => getElem?_eq_some_getD _ _ (hsrc b t h d hb ht hh hd))
    (by
      intro b t h d hb ht hh hd
      have c1 : h * D + d < C := lt_of_lt_of_le (idx2_lt hh hd) hHD
      have := idx2_lt (idx2_lt hb ht) c1
      show (b * T + t) * C + h * D + d < B * T * C
      omega)
    (by
      intro b t h d b' t' h' d' hb ht hh hd hb' ht' hh' hd' e
      obtain ⟨e1, e2, e3, e4⟩ := flat_inj hHD ht hh hd ht' hh' hd' e
      subst e1 e2 e3 e4
      rfl)
    hd0
  refine ⟨d', ?_, hl, ?_, ?_⟩
  · unfold reassembleLoop
    simpa using h1
  · intro b t h d hb ht hh hd
    rw [hin b t h d hb ht hh hd]
    exact (getElem?_eq_some_getD _ _ (hsrc b t h d hb ht hh hd)).symm
  · intro b t c hb ht hc hcC
    apply hout
    intro b' t' h' d' hb' ht' hh' hd' e
    have c1 : h' * D + d' < C := lt_of_lt_of_le (idx2_lt hh' hd') hHD
    have c2 : h' * D + d' < H * D := idx2_lt hh' hd'
    obtain ⟨-, e2⟩ := idx2_inj c1 hcC (by omega : (b' * T + t') * C + (h' * D + d')
      = (b * T + t) * C + c)
    omega

end transformer
namespace transformer

open tensor nn

/-! ## `CausalSelfAttention.Forward`: the masked scores -/

theorem New_with_facts {α : Type} [Zero α] (shape : List Nat) (d : List α)
    (hd : d.length = shape.prod) :
    ({ (New shape : NDArray α) with Data := d } : NDArray α).Shape = shape ∧
      ({ (New shape : NDArray α) with Data := d } : NDArray α).WF ∧
      ({ (New shape : NDArray α) with Data := d } : NDArray α).Data = d := by
  obtain ⟨h1, h2, h3, -⟩ := New_facts (α := α) shape
  exact ⟨h1, ⟨by rw [h2, h1], by rw [h2]; exact hd, by rw [h3, h1, computeStrides_eq]⟩, rfl⟩

theorem Attention_maskedScores_ok {α : Type} [LinearOrderedField α] (sqrt : α → α)
    (csa : CausalSelfAttention α) (x : NDArray α) (B T C H D : Nat)
    (hWwf : csa.CAttn.W.Data.WF) (hW : csa.CAttn.W.Data.Shape = [3 * C, C])
    (hBwf : csa.CAttn.B.Data.WF) (hB : csa.CAttn.B.Data.Shape = [3 * C])
    (hxwf : x.WF) (hx : x.Shape = [B, T, C]) (hC : 0 < C) (hH : csa.NHead = H) (hHpos : 0 < H)
    (hD : C / H = D) :
    ∃ q k v att,
      csa.maskedScores sqrt x = some ({ csa.CAttn with input := some x }, q, k, v, att) ∧
      (q.Shape = [B, H, T, D] ∧ q.WF) ∧ (k.Shape = [B, H, T, D] ∧ k.WF) ∧
      (v.Shape = [B, H, T, D] ∧ v.WF) ∧ (att.Shape = [B, H, T, T] ∧ att.WF) ∧
      (∀ b t h d, b < B → t < T → h < H → d < D →
        q.Data[((b * H + h) * T + t) * D + d]? = some
          ((∑ c in Finset.range C, (x.Data[(b * T + t) * C + c]?).getD 0
              * (csa.CAttn.W.Data.Data[(h * D + d) * C + c]?).getD 0)
            + (csa.CAttn.B.Data.Data[h * D + d]?).getD 0) ∧
        k.Data[((b * H + h) * T + t) * D + d]? = some
          ((∑ c in Finset.range C, (x.Data[(b * T + t) * C + c]?).getD 0
              * (csa.CAttn.W.Data.Data[(C + h * D + d) * C + c]?).getD 0)
            + (csa.CAttn.B.Data.Data[C + h * D + d]?).getD 0) ∧
        v.Data[((b * H + h) * T + t) * D + d]? = some
          ((∑ c in Finset.range C, (x.Data[(b * T + t) * C + c]?).getD 0
              * (csa.CAttn.W.Data.Data[(2 * C + h * D + d) * C + c]?).getD 0)
            + (csa.CAttn.B.Data.Data[2 * C + h * D + d]?).getD 0)) ∧
      (∀ β t1 t2, β < B * H → t1 < T → t2 < T →
        att.Data[(β * T + t1) * T + t2]? = some
          (if t1 < t2 then -1000000000
           else (∑ l in Finset.range D, (q.Data[(β * T + t1) * D + l]?).getD 0
                  * (k.Data[(β * T + t2) * D + l]?).getD 0) * (1 / sqrt (D : α)))) := by
  have hHD : H * D ≤ C := by rw [← hD]; exact Nat.mul_div_le C H
  -- the projection
  obtain ⟨qkv, f1, f2, f3, f4⟩ := Linear_Forward_ok csa.CAttn x [B, T] (3 * C) C hWwf hW hBwf hB
    hxwf (by simpa using hx) hC
  have hqlen : qkv.Data.length = B * T * (3 * C) := by
    rw [f3.2.1, f3.1, f2]; simp [Nat.mul_assoc]
  have hBT : ([B, T] : List Nat).prod = B * T := by simp
  rw [hBT] at f4
  -- the split into heads
  have hL : ([B, H, T, D] : List Nat).prod = B * (H * (T * D)) := by simp
  have hnew : (New [B, H, T, D] : NDArray α).Data.length = B * (H * (T * D)) := by
    rw [(New_facts _).2.2.2, List.length_replicate, hL]
  obtain ⟨dq, dk, dv, s1, lq, lk, lv, s2⟩ := splitLoop_spec qkv.Data B T C H D hHD hqlen
    ((New [B, H, T, D] : NDArray α).Data, (New [B, H, T, D] : NDArray α).Data,
      (New [B, H, T, D] : NDArray α).Data) hnew hnew hnew
  obtain ⟨qs, qwf, qd⟩ := New_with_facts [B, H, T, D] dq (by rw [lq, hL])
  obtain ⟨ks, kwf, kd⟩ := New_with_facts [B, H, T, D] dk (by rw [lk, hL])
  obtain ⟨vs, vwf, vd⟩ := New_with_facts [B, H, T, D] dv (by rw [lv, hL])
  have hBH : ([B, H] : List Nat).prod = B * H := by simp
  -- the transposed keys and the product
  obtain ⟨kt, t1, t2, t3, t4, t5, t6⟩ := Transpose_flat
    ({ (New [B, H, T, D] : NDArray α) with Data := dk } : NDArray α) [B, H] T D
    (by simpa using ks) (by rw [kd, lk, hBH]; ring)
  obtain ⟨att0, m1, m2, m3, m4, m5, m6⟩ := PureGoMatMul_flat
    ({ (New [B, H, T, D] : NDArray α) with Data := dq } : NDArray α) kt [B, H] [B, H] T D T
    (by simpa using qs) t2 rfl (by rw [qd, lq, hBH]; ring) (le_of_eq t5.symm)
  rw [hBH] at t5 t6 m3 m5 m6
  -- the scale and the mask
  obtain ⟨d1, c1, c2, c3⟩ := scaleLoop_spec (1 / sqrt (D : α)) att0.Data
  obtain ⟨d2, k1, k2, k3⟩ := maskLoop_spec B T H d1 (by rw [c2, m5])
  have awf : ({ att0 with Data := d2 } : NDArray α).WF :=
    ⟨by show att0.Size = att0.Shape.prod; rw [m3, m2]; simp [Nat.mul_assoc],
      by show d2.length = att0.Size; rw [k2, c2, m5, m3],
      by show att0.Strides = _; rw [m4, m2, computeStrides_eq]⟩
  refine ⟨_, _, _, { att0 with Data := d2 }, ?_, ⟨qs, qwf⟩, ⟨ks, kwf⟩, ⟨vs, vwf⟩,
    ⟨by simpa using m2, awf⟩, ?_, ?_⟩
  · unfold CausalSelfAttention.maskedScores
    rw [hx]
    simp only [List.getElem?_cons_zero, List.getElem?_cons_succ, Option.bind_eq_bind,
      Option.some_bind, hH, if_neg (Nat.pos_iff_ne_zero.mp hHpos), f1, hD, s1, t1, MatMul, m1,
      c1, k1]
  · intro b t h d hb ht hh hd
    obtain ⟨e1, e2, e3⟩ := s2 b t h d hb ht hh hd
    have hn := idx2_lt hb ht
    have hr : h * D + d < C := lt_of_lt_of_le (idx2_lt hh hd) hHD
    refine ⟨?_, ?_, ?_⟩
    · rw [qd, e1, Nat.add_assoc]
      exact f4 (b * T + t) (h * D + d) hn (by omega)
    · rw [kd, e2, Nat.add_assoc, Nat.add_assoc, ← Nat.add_assoc C]
      exact f4 (b * T + t) (C + h * D + d) hn (by omega)
    · rw [vd, e3, Nat.add_assoc, Nat.add_assoc, ← Nat.add_assoc (2 * C)]
      exact f4 (b * T + t) (2 * C + h * D + d) hn (by omega)
  · intro β t1 t2 hβ ht1 ht2
    show d2[(β * T + t1) * T + t2]? = _
    rw [k3 β t1 t2 hβ ht1 ht2]
    by_cases hlt : t1 < t2
    · rw [if_pos hlt, if_pos hlt]
    · rw [if_neg hlt, if_neg hlt]
      have hp : (β * T + t1) * T + t2 = β * (T * T) + t1 * T + t2 := by ring
      have hplt : β * (T * T) + t1 * T + t2 < att0.Data.length := by
        rw [m5]; exact idx3_lt hβ ht1 ht2
      rw [hp, c3 _ hplt, m6 β t1 t2 hβ ht1 ht2]
      simp only [Option.map_some']
      congr 2
      apply Finset.sum_congr rfl
      intro l hl
      have hl' := Finset.mem_range.mp hl
      rw [t6 β t2 l hβ ht2 hl']
      have a1 : β * (T * D) + t1 * D + l = (β * T + t1) * D + l := by ring
      have a2 : β * (T * D) + t2 * D + l = (β * T + t2) * D + l := by ring
      show (dq[β * (T * D) + t1 * D + l]?).getD 0 * (dk[β * (T * D) + t2 * D + l]?).getD 0 = _
      rw [a1, a2]

end transformer
namespace transformer

open tensor nn

/-! ## `CausalSelfAttention.Forward` -/

theorem Attention_Forward_ok {α : Type} [LinearOrderedField α] (ex sqrt : α → α)
    (csa : CausalSelfAttention α) (x : NDArray α) (B T C H D O : Nat)
    (hWwf : csa.CAttn.W.Data.WF) (hW : csa.CAttn.W.Data.Shape = [3 * C, C])
    (hBwf : csa.CAttn.B.Data.WF) (hB : csa.CAttn.B.Data.Shape = [3 * C])
    (hPWwf : csa.CProj.W.Data.WF) (hPW : csa.CProj.W.Data.Shape = [O, C])
    (hPBwf : csa.CProj.B.Data.WF) (hPB : csa.CProj.B.Data.Shape = [O])
    (hxwf : x.WF) (hx : x.Shape = [B, T, C]) (hC : 0 < C) (hT : 0 < T)
    (hH : csa.NHead = H) (hHpos : 0 < H) (hD : C / H = D) :
    ∃ q k v att probs pre out,
      csa.maskedScores sqrt x = some ({ csa.CAttn with input := some x }, q, k, v, att) ∧
      Softmax ex att = some probs ∧
      csa.Forward ex sqrt x = some
        ({ csa with
            CAttn := { csa.CAttn with input := some x },
            CProj := { csa.CProj with input := some pre },
            input := some x, q := some q, k := some k, v := some v, att := some probs }, out) ∧
      (probs.Shape = [B, H, T, T] ∧ probs.WF) ∧
      (∀ β t1 t2, β < B * H → t1 < T → t2 < T →
        probs.Data[(β * T + t1) * T + t2]? = some
          (ex ((att.Data[(β * T + t1) * T + t2]?).getD 0
                - (rowMaxLoop att.Data ((β * T + t1) * T) T).getD 0)
            / ∑ j in Finset.range T,
                ex ((att.Data[(β * T + t1) * T + j]?).getD 0
                  - (rowMaxLoop att.Data ((β * T + t1) * T) T).getD 0))) ∧
      (pre.Shape = [B, T, C] ∧ pre.WF) ∧
      (∀ b t h d, b < B → t < T → h < H → d < D →
        pre.Data[(b * T + t) * C + h * D + d]? = some
          (∑ l in Finset.range T, (probs.Data[((b * H + h) * T + t) * T + l]?).getD 0
            * (v.Data[((b * H + h) * T + l) * D + d]?).getD 0)) ∧
      (∀ b t c, b < B → t < T → H * D ≤ c → c < C → pre.Data[(b * T + t) * C + c]? = some 0) ∧
      (out.Shape = [B, T, O] ∧ out.WF) ∧
      (∀ b t r, b < B → t < T → r < O →
        out.Data[(b * T + t) * O + r]? = some
          ((∑ c in Finset.range C, (pre.Data[(b * T + t) * C + c]?).getD 0
              * (csa.CProj.W.Data.Data[r * C + c]?).getD 0)
            + (csa.CProj.B.Data.Data[r]?).getD 0)) ∧
      (∀ b t h d, b < B → t < T → h < H → d < D →
        q.Data[((b * H + h) * T + t) * D + d]? = some
          ((∑ c in Finset.range C, (x.Data[(b * T + t) * C + c]?).getD 0
              * (csa.CAttn.W.Data.Data[(h * D + d) * C + c]?).getD 0)
            + (csa.CAttn.B.Data.Data[h * D + d]?).getD 0) ∧
        k.Data[((b * H + h) * T + t) * D + d]? = some
          ((∑ c in Finset.range C, (x.Data[(b * T + t) * C + c]?).getD 0
              * (csa.CAttn.W.Data.Data[(C + h * D + d) * C + c]?).getD 0)
            + (csa.CAttn.B.Data.Data[C + h * D + d]?).getD 0) ∧
        v.Data[((b * H + h) * T + t) * D + d]? = some
          ((∑ c in Finset.range C, (x.Data[(b * T + t) * C + c]?).getD 0
              * (csa.CAttn.W.Data.Data[(2 * C + h * D + d) * C + c]?).getD 0)
            + (csa.CAttn.B.Data.Data[2 * C + h * D + d]?).getD 0)) ∧
      (∀ β t1 t2, β < B * H → t1 < T → t2 < T →
        att.Data[(β * T + t1) * T + t2]? = some
          (if t1 < t2 then -1000000000
           else (∑ l in Finset.range D, (q.Data[(β * T + t1) * D + l]?).getD 0
                  * (k.Data[(β * T + t2) * D + l]?).getD 0) * (1 / sqrt (D : α)))) := by
  have hHD : H * D ≤ C := by rw [← hD]; exact Nat.mul_div_le C H
  obtain ⟨q, k, v, att, g1, ⟨qs, qwf⟩, ⟨ks, kwf⟩, ⟨vs, vwf⟩, ⟨as, awf⟩, hqkv, hatt⟩ :=
    Attention_maskedScores_ok sqrt csa x B T C H D hWwf hW hBwf hB hxwf hx hC hH hHpos hD
  have hBH : ([B, H] : List Nat).prod = B * H := by simp
  have hBHT : ([B, H, T] : List Nat).prod = B * H * T := by simp [Nat.mul_assoc]
  -- the attention weights
  obtain ⟨probs, p1, p2, p3, p4, p5, p6⟩ := Softmax_rows ex att [B, H, T] T awf
    (by simpa using as) hT
  rw [hBHT] at p5 p6
  have pwf : probs.WF := ⟨by rw [p4, p2]; exact awf.1, by rw [p5, p4, awf.1, as]; simp [Nat.mul_assoc],
    by rw [p3, p2]; exact awf.2.2⟩
  -- the weighted values
  obtain ⟨y, m1, m2, m3, m4, m5, m6⟩ := PureGoMatMul_flat probs v [B, H] [B, H] T T D
    (by rw [p2, as]; rfl) (by simpa using vs) rfl (by rw [p5, hBH]; ring)
    (by rw [vwf.2.1, vwf.1, vs, hBH]; simp [Nat.mul_assoc])
  rw [hBH] at m3 m5 m6
  -- the reassembled heads
  have hnew : (New [B, T, C] : NDArray α).Data.length = B * T * C := by
    rw [(New_facts _).2.2.2, List.length_replicate]; simp [Nat.mul_assoc]
  obtain ⟨d3, r1, r2, r3, r4⟩ := reassembleLoop_spec y.Data B T C H D hHD
    (by rw [m5]; ring) (New [B, T, C] : NDArray α).Data hnew
  obtain ⟨es, ewf, ed⟩ := New_with_facts [B, T, C] d3 (by rw [r2]; simp [Nat.mul_assoc])
  -- the output projection
  obtain ⟨out, o1, o2, o3, o4⟩ := Linear_Forward_ok csa.CProj
    ({ (New [B, T, C] : NDArray α) with Data := d3 } : NDArray α) [B, T] O C hPWwf hPW hPBwf hPB
    ewf (by simpa using es) hC
  have hBT : ([B, T] : List Nat).prod = B * T := by simp
  rw [hBT] at o4
  refine ⟨q, k, v, att, probs, _, out, g1, p1, ?_, ⟨by rw [p2, as], pwf⟩, ?_, ⟨es, ewf⟩, ?_, ?_,
    ⟨by simpa using o2, o3⟩, ?_, hqkv, hatt⟩
  · unfold CausalSelfAttention.Forward
    rw [hx]
    simp only [List.getElem?_cons_zero, List.getElem?_cons_succ, Option.bind_eq_bind,
      Option.some_bind, g1, p1, MatMul, m1, hH, hD, r1, o1]
  · intro β t1 t2 hβ ht1 ht2
    exact p6 (β * T + t1) t2 (idx2_lt hβ ht1) ht2
  · intro b t h d hb ht hh hd
    rw [ed, r3 b t h d hb ht hh hd]
    have e1 : ((b * H + h) * T + t) * D + d = (b * H + h) * (T * D) + t * D + d := by ring
    rw [e1, m6 (b * H + h) t d (idx2_lt hb hh) ht hd]
    congr 1
    apply Finset.sum_congr rfl
    intro l _
    have a1 : (b * H + h) * (T * T) + t * T + l = ((b * H + h) * T + t) * T + l := by ring
    have a2 : (b * H + h) * (T * D) + l * D + d = ((b * H + h) * T + l) * D + d := by ring
    rw [a1, a2]
  · intro b t c hb ht hc hcC
    rw [ed, r4 b t c hb ht hc hcC, (New_facts _).2.2.2]
    have hlt : (b * T + t) * C + c < ([B, T, C] : List Nat).prod := by
      have := idx2_lt (idx2_lt hb ht) hcC
      simpa [Nat.mul_assoc] using this
    rw [List.getElem?_replicate, if_pos hlt]
  · intro b t r hb ht hr
    exact o4 (b * T + t) r (idx2_lt hb ht) hr

end transformer
namespace transformer

open tensor nn

/-! ## The causal mask: what the sentinel does and does not guarantee -/

theorem rowMaxLoop_pair {α : Type} [LinearOrderedField α] (d : List α) (off : Nat) (a b : α)
    (h0 : d[off]? = some a) (h1 : d[off + 1]? = some b) :
    rowMaxLoop d off 2 = some
      (if b > (if a > -maxFloat32 then a else -maxFloat32) then b
       else (if a > -maxFloat32 then a else -maxFloat32)) := by
  unfold rowMaxLoop
  simp [forRange, h0, h1]

/-- C20, as stated, fails. One head, `B = 1`, `T = 2`, `C = 1`; the projection has
weight `[0, 0, 1]` and bias `[100000, -100000, 0]`, so that every query is
`100000`, every key is `-100000` and the value at a position is its input; the
output projection is the identity. The inputs `[0, 0]` and `[0, 1]` agree at
position `0`. The unmasked score of row `0` is `-1e10`, below the sentinel
`-1e9` that the mask writes at the later position, so the later position gets
the weight `1 / (exp(-9e9) + 1)` (which rounds to `1` in float32): the output
at position `0` is `0` for the first input and `1 / (exp(-9e9) + 1)` for the
second. -/
theorem Attention_Forward_attends_later :
    ∃ c1 o1 c2 o2,
      CausalSelfAttention.Forward Real.exp Real.sqrt
          (⟨⟨⟨NewFromData [0, 0, 1] [3, 1], New [3, 1], "weight"⟩,
              ⟨NewFromData [100000, -100000, 0] [3], New [3], "bias"⟩, none⟩,
            ⟨⟨NewFromData [1] [1, 1], New [1, 1], "weight"⟩,
              ⟨NewFromData [0] [1], New [1], "bias"⟩, none⟩,
            1, 1, none, none, none, none, none⟩ : CausalSelfAttention ℝ)
          (NewFromData [0, 0] [1, 2, 1]) = some (c1, o1) ∧
      CausalSelfAttention.Forward Real.exp Real.sqrt
          (⟨⟨⟨NewFromData [0, 0, 1] [3, 1], New [3, 1], "weight"⟩,
              ⟨NewFromData [100000, -100000, 0] [3], New [3], "bias"⟩, none⟩,
            ⟨⟨NewFromData [1] [1, 1], New [1, 1], "weight"⟩,
              ⟨NewFromData [0] [1], New [1], "bias"⟩, none⟩,
            1, 1, none, none, none, none, none⟩ : CausalSelfAttention ℝ)
          (NewFromData [0, 1] [1, 2, 1]) = some (c2, o2) ∧
      (NewFromData [0, 0] [1, 2, 1] : NDArray ℝ).Data[0]?
        = (NewFromData [0, 1] [1, 2, 1] : NDArray ℝ).Data[0]? ∧
      o1.Data[0]? = some 0 ∧
      o2.Data[0]? = some (1 / (Real.exp (-9000000000) + 1)) ∧
      o1.Data[0]? ≠ o2.Data[0]? := by
  obtain ⟨q, k, v, att, probs, pre, out, -, -, F, -, hp, -, hpre, -, -, hout, hqkv, hatt⟩ :=
    Attention_Forward_ok Real.exp Real.sqrt
      (⟨⟨⟨NewFromData [0, 0, 1] [3, 1], New [3, 1], "weight"⟩,
          ⟨NewFromData [100000, -100000, 0] [3], New [3], "bias"⟩, none⟩,
        ⟨⟨NewFromData [1] [1, 1], New [1, 1], "weight"⟩,
          ⟨NewFromData [0] [1], New [1], "bias"⟩, none⟩,
        1, 1, none, none, none, none, none⟩ : CausalSelfAttention ℝ)
      (NewFromData [0, 0] [1, 2, 1]) 1 2 1 1 1 1 ⟨rfl, rfl, rfl⟩ rfl ⟨rfl, rfl, rfl⟩ rfl
      ⟨rfl, rfl, rfl⟩ rfl ⟨rfl, rfl, rfl⟩ rfl ⟨rfl, rfl, rfl⟩ rfl (by norm_num) (by norm_num) rfl
      (by norm_num) (by norm_num)
  obtain ⟨q', k', v', att', probs', pre', out', -, -, F', -, hp', -, hpre', -, -, hout', hqkv',
      hatt'⟩ :=
    Attention_Forward_ok Real.exp Real.sqrt
      (⟨⟨⟨NewFromData [0, 0, 1] [3, 1], New [3, 1], "weight"⟩,
          ⟨NewFromData [100000, -100000, 0] [3], New [3], "bias"⟩, none⟩,
        ⟨⟨NewFromData [1] [1, 1], New [1, 1], "weight"⟩,
          ⟨NewFromData [0] [1], New [1], "bias"⟩, none⟩,
        1, 1, none, none, none, none, none⟩ : CausalSelfAttention ℝ)
      (NewFromData [0, 1] [1, 2, 1]) 1 2 1 1 1 1 ⟨rfl, rfl, rfl⟩ rfl ⟨rfl, rfl, rfl⟩ rfl
      ⟨rfl, rfl, rfl⟩ rfl ⟨rfl, rfl, rfl⟩ rfl ⟨rfl, rfl, rfl⟩ rfl (by norm_num) (by norm_num) rfl
      (by norm_num) (by norm_num)
  have n0 : (0 : Nat) < 1 := Nat.zero_lt_one
  have n2 : (0 : Nat) < 2 := Nat.zero_lt_two
  have n12 : (1 : Nat) < 2 := Nat.one_lt_two
  -- the run on `[0, 0]`
  have o1 := hout 0 0 0 n0 n2 n0
  have e1 := hpre 0 0 0 0 n0 n2 n0 n0
  have v10 := (hqkv 0 0 0 0 n0 n2 n0 n0).2.2
  have v11 := (hqkv 0 1 0 0 n0 n12 n0 n0).2.2
  simp [NewFromData, New, shapeSize] at v10 v11
  simp [Finset.sum_range_succ, v10, v11] at e1
  simp [NewFromData, New, shapeSize, e1] at o1
  -- the run on `[0, 1]`
  have o2 := hout' 0 0 0 n0 n2 n0
  have e2 := hpre' 0 0 0 0 n0 n2 n0 n0
  have w0 := (hqkv' 0 0 0 0 n0 n2 n0 n0).2.2
  have w1 := (hqkv' 0 1 0 0 n0 n12 n0 n0).2.2
  have q0 := (hqkv' 0 0 0 0 n0 n2 n0 n0).1
  have k0 := (hqkv' 0 0 0 0 n0 n2 n0 n0).2.1
  have a0 := hatt' 0 0 0 (by norm_num) n2 n2
  have a1 := hatt' 0 0 1 (by norm_num) n2 n12
  have p1 := hp' 0 0 1 (by norm_num) n2 n12
  simp [NewFromData, New, shapeSize] at w0 w1 q0 k0
  simp [Finset.sum_range_succ, q0, k0] at a0 a1
  have M := rowMaxLoop_pair att'.Data 0 _ _ a0 a1
  have M' : rowMaxLoop att'.Data 0 2 = some (-1000000000) := by
    rw [M]
    norm_num [maxFloat32]
  simp [Finset.sum_range_succ, a0, a1, M'] at p1
  norm_num at p1
  simp [Finset.sum_range_succ, w0, w1, p1] at e2
  simp [NewFromData, New, shapeSize, e2] at o2
  refine ⟨_, out, _, out', F, F', rfl, o1, by rw [o2, one_div], ?_⟩
  rw [o1, o2]
  intro h
  have h0 := Option.some.inj h
  have hpos : 0 < (Real.exp (-9000000000) + 1)⁻¹ := by
    have := Real.exp_pos (-9000000000)
    positivity
  linarith

end transformer

namespace tensor

theorem rowMaxLoop_bounds {α : Type} [LinearOrderedField α] (d : List α) (off n : Nat)
    (h : off + n ≤ d.length) :
    ∃ M, rowMaxLoop d off n = some M ∧ -maxFloat32 ≤ M ∧
      (∀ i y, i < n → d[off + i]? = some y → y ≤ M) ∧
      (M = -maxFloat32 ∨ ∃ i, i < n ∧ d[off + i]? = some M) := by
  obtain ⟨M, h1, h2, h3, h4⟩ := forRange_inv
    (fun i maxVal => do
      let x ← d[off + i]?
      some (if x > maxVal then x else maxVal))
    (fun k m => -maxFloat32 ≤ m ∧ (∀ i y, i < k → d[off + i]? = some y → y ≤ m) ∧
      (m = -maxFloat32 ∨ ∃ i, i < k ∧ d[off + i]? = some m))
    n (-maxFloat32) ⟨le_refl _, fun i y hi => absurd hi (Nat.not_lt_zero _), Or.inl rfl⟩
    (by
      intro k m hk ⟨a1, a2, a3⟩
      have hlt : off + k < d.length := by omega
      refine ⟨if d[off + k] > m then d[off + k] else m,
        by simp [List.getElem?_eq_getElem hlt], ?_, ?_, ?_⟩
      · split_ifs with hgt
        · exact le_trans a1 (le_of_lt hgt)
        · exact a1
      · intro i y hi hy
        by_cases he : i = k
        · subst he
          rw [List.getElem?_eq_getElem hlt] at hy
          have hy' := Option.some.inj hy
          subst hy'
          split_ifs with hgt
          · exact le_refl _
          · exact not_lt.mp hgt
        · have hle := a2 i y (by omega) hy
          split_ifs with hgt
          · exact le_trans hle (le_of_lt hgt)
          · exact hle
      · split_ifs with hgt
        · exact Or.inr ⟨k, Nat.lt_succ_self k, List.getElem?_eq_getElem hlt⟩
        · rcases a3 with a3 | ⟨i, hi, hy⟩
          · exact Or.inl a3
          · exact Or.inr ⟨i, Nat.lt_succ_of_lt hi, hy⟩)
  exact ⟨M, h1, h2, h3, h4⟩

theorem softmax_masked_le {α : Type} [LinearOrderedField α] (ex : α → α)
    (hmono : ∀ a b, a ≤ b → ex a ≤ ex b) (hnn : ∀ a, 0 ≤ ex a) (h0 : ex 0 = 1)
    (d : List α) (off n j i : Nat) (h : off + n ≤ d.length) (hj : j < n) (hi : i < n)
    (hmask : d[off + j]? = some (-1000000000)) :
    0 ≤ ex ((d[off + j]?).getD 0 - (rowMaxLoop d off n).getD 0)
          / ∑ l in Finset.range n, ex ((d[off + l]?).getD 0 - (rowMaxLoop d off n).getD 0) ∧
    ex ((d[off + j]?).getD 0 - (rowMaxLoop d off n).getD 0)
          / ∑ l in Finset.range n, ex ((d[off + l]?).getD 0 - (rowMaxLoop d off n).getD 0)
      ≤ ex (-1000000000 - (d[off + i]?).getD 0) := by
  obtain ⟨M, hM, -, hle, hatt⟩ := rowMaxLoop_bounds d off n h
  rw [hM]
  simp only [Option.getD_some]
  have hMj : (-1000000000 : α) ≤ M := hle j _ hj hmask
  have hlow : (-maxFloat32 : α) < -1000000000 := by
    unfold maxFloat32
    norm_num
  obtain ⟨i0, hi0, hi0M⟩ : ∃ i0, i0 < n ∧ d[off + i0]? = some M := by
    rcases hatt with hatt | hatt
    · rw [hatt] at hMj
      exact absurd hMj (not_le.mpr hlow)
    · exact hatt
  have hsum : (1 : α) ≤ ∑ l in Finset.range n, ex ((d[off + l]?).getD 0 - M) := by
    have hs := Finset.single_le_sum (f := fun l => ex ((d[off + l]?).getD 0 - M))
      (fun l _ => hnn _) (Finset.mem_range.mpr hi0)
    simp only [hi0M, Option.getD_some, sub_self, h0] at hs
    exact hs
  have hilt : off + i < d.length := by omega
  have hiM : (d[off + i]?).getD 0 ≤ M := by
    rw [List.getElem?_eq_getElem hilt]
    exact hle i _ hi (List.getElem?_eq_getElem hilt)
  refine ⟨div_nonneg (hnn _) (le_trans zero_le_one hsum), ?_⟩
  rw [hmask]
  simp only [Option.getD_some]
  exact le_trans (div_le_self (hnn _) hsum) (hmono _ _ (by linarith))

end tensor

namespace transformer

open tensor nn

/-- C20, as amended. `ex` is monotone and non-negative with `ex 0 = 1` (as the
exponential is). Take a `CausalSelfAttention` layer with at least one head,
projection weights of shapes `[3C, C]` and `[O, C]` with biases `[3C]` and
`[O]`, and two inputs `x`, `x'` of shape `[B, T, C]` (`C ≥ 1`, `T ≥ 1`) that
agree at all time positions `≤ t`. Both calls of `Forward` return a tensor of
shape `[B, T, O]`, and the attention weights of every query position `≤ t`
agree between the two runs. In the scores `a1` that `Softmax` is applied to,
every key position `j` later than the query position `s` holds the sentinel
`-1e9`, and its attention weight lies between `0` and `ex(-1e9 - a)` for every
unmasked score `a` of that row. Hence, when every row of a query position
`≤ t` has an unmasked score `≥ m`: the two outputs at the positions `≤ t`
differ by at most `C * W * (T * V * ex(-1e9 - m))`, where `V` bounds the
difference of the two value tensors at the positions `> t` and `W` the
weights of the output projection; and if `ex(-1e9 - m) = 0` the weights of
the later keys are exactly `0` and the two outputs agree at all positions
`≤ t`. -/
theorem Attention_Forward_causal {α : Type} [LinearOrderedField α] (ex sqrt : α → α)
    (hmono : ∀ a b, a ≤ b → ex a ≤ ex b) (hnn : ∀ a, 0 ≤ ex a) (h0 : ex 0 = 1)
    (csa : CausalSelfAttention α) (x x' : NDArray α) (B T C O t : Nat)
    (hWwf : csa.CAttn.W.Data.WF) (hW : csa.CAttn.W.Data.Shape = [3 * C, C])
    (hBwf : csa.CAttn.B.Data.WF) (hB : csa.CAttn.B.Data.Shape = [3 * C])
    (hPWwf : csa.CProj.W.Data.WF) (hPW : csa.CProj.W.Data.Shape = [O, C])
    (hPBwf : csa.CProj.B.Data.WF) (hPB : csa.CProj.B.Data.Shape = [O])
    (hxwf : x.WF) (hx : x.Shape = [B, T, C]) (hxwf' : x'.WF) (hx' : x'.Shape = [B, T, C])
    (hC : 0 < C) (hT : 0 < T) (hH : 0 < csa.NHead)
    (hagree : ∀ b s c, b < B → s ≤ t → s < T → c < C →
      x.Data[(b * T + s) * C + c]? = x'.Data[(b * T + s) * C + c]?) :
    ∃ c1 o1 p1 c2 o2 p2 l1 q1 k1 v1 a1 l2 q2 k2 v2 a2,
      csa.Forward ex sqrt x = some (c1, o1) ∧ c1.att = some p1 ∧
      csa.Forward ex sqrt x' = some (c2, o2) ∧ c2.att = some p2 ∧
      csa.maskedScores sqrt x = some (l1, q1, k1, v1, a1) ∧ Softmax ex a1 = some p1 ∧
      csa.maskedScores sqrt x' = some (l2, q2, k2, v2, a2) ∧ Softmax ex a2 = some p2 ∧
      o1.Shape = [B, T, O] ∧ o2.Shape = [B, T, O] ∧
      (∀ β s j, β < B * csa.NHead → s ≤ t → s < T → j < T →
        p1.Data[(β * T + s) * T + j]? = p2.Data[(β * T + s) * T + j]?) ∧
      (∀ β s i j, β < B * csa.NHead → i ≤ s → s < j → j < T →
        a1.Data[(β * T + s) * T + j]? = some (-1000000000) ∧
        0 ≤ (p1.Data[(β * T + s) * T + j]?).getD 0 ∧
        (p1.Data[(β * T + s) * T + j]?).getD 0
          ≤ ex (-1000000000 - (a1.Data[(β * T + s) * T + i]?).getD 0)) ∧
      (∀ m V W : α, 0 ≤ V → 0 ≤ W →
        (∀ β s, β < B * csa.NHead → s ≤ t → s < T →
          ∃ i, i ≤ s ∧ m ≤ (a1.Data[(β * T + s) * T + i]?).getD 0) →
        (∀ b j h d, b < B → t < j → j < T → h < csa.NHead → d < C / csa.NHead →
          |(v1.Data[((b * csa.NHead + h) * T + j) * (C / csa.NHead) + d]?).getD 0
            - (v2.Data[((b * csa.NHead + h) * T + j) * (C / csa.NHead) + d]?).getD 0| ≤ V) →
        (∀ r c, r < O → c < C → |(csa.CProj.W.Data.Data[r * C + c]?).getD 0| ≤ W) →
        ∀ b s r, b < B → s ≤ t → s < T → r < O →
          |(o1.Data[(b * T + s) * O + r]?).getD 0 - (o2.Data[(b * T + s) * O + r]?).getD 0|
            ≤ (C : α) * W * ((T : α) * V * ex (-1000000000 - m))) ∧
      (∀ m : α, ex (-1000000000 - m) = 0 →
        (∀ β s, β < B * csa.NHead → s ≤ t → s < T →
          ∃ i, i ≤ s ∧ m ≤ (a1.Data[(β * T + s) * T + i]?).getD 0) →
        (∀ β s j, β < B * csa.NHead → s ≤ t → s < j → j < T →
          p1.Data[(β * T + s) * T + j]? = some 0) ∧
        ∀ b s r, b < B → s ≤ t → s < T → r < O →
          o1.Data[(b * T + s) * O + r]? = o2.Data[(b * T + s) * O + r]?) := by
  obtain ⟨H, hHe⟩ : ∃ H, H = csa.NHead := ⟨_, rfl⟩
  obtain ⟨D, hDe⟩ : ∃ D, D = C / H := ⟨_, rfl⟩
  rw [← hHe] at hH ⊢
  rw [← hDe]
  have hHpos : 0 < H := hH
  have hH : csa.NHead = H := hHe.symm
  have hD : C / H = D := hDe.symm
  obtain ⟨q, k, v, att, probs, pre, out, hms, hsm, F, -, hp, -, hpre, hpre0, ⟨os, -⟩, hout, hqkv,
      hatt⟩ :=
    Attention_Forward_ok ex sqrt csa x B T C H D O hWwf hW hBwf hB hPWwf hPW hPBwf hPB hxwf hx hC hT
      hH hHpos hD
  obtain ⟨q', k', v', att', probs', pre', out', hms', hsm', F', -, hp', -, hpre', hpre0', ⟨os', -⟩,
      hout', hqkv', hatt'⟩ :=
    Attention_Forward_ok ex sqrt csa x' B T C H D O hWwf hW hBwf hB hPWwf hPW hPBwf hPB hxwf' hx' hC
      hT hH hHpos hD
  -- the projections of the agreeing positions agree
  have hsum : ∀ b s r, b < B → s ≤ t → s < T →
      (∑ c in Finset.range C, (x.Data[(b * T + s) * C + c]?).getD 0
          * (csa.CAttn.W.Data.Data[r * C + c]?).getD 0)
        = ∑ c in Finset.range C, (x'.Data[(b * T + s) * C + c]?).getD 0
          * (csa.CAttn.W.Data.Data[r * C + c]?).getD 0 := by
    intro b s r hb hs hsT
    apply Finset.sum_congr rfl
    intro c hc
    rw [hagree b s c hb hs hsT (Finset.mem_range.mp hc)]
  have hq : ∀ b s h d, b < B → s ≤ t → s < T → h < H → d < D →
      q.Data[((b * H + h) * T + s) * D + d]? = q'.Data[((b * H + h) * T + s) * D + d]? ∧
      k.Data[((b * H + h) * T + s) * D + d]? = k'.Data[((b * H + h) * T + s) * D + d]? ∧
      v.Data[((b * H + h) * T + s) * D + d]? = v'.Data[((b * H + h) * T + s) * D + d]? := by
    intro b s h d hb hs hsT hh hd
    obtain ⟨a1, a2, a3⟩ := hqkv b s h d hb hsT hh hd
    obtain ⟨b1, b2, b3⟩ := hqkv' b s h d hb hsT hh hd
    rw [a1, a2, a3, b1, b2, b3, hsum b s _ hb hs hsT, hsum b s _ hb hs hsT, hsum b s _ hb hs hsT]
    exact ⟨rfl, rfl, rfl⟩
  -- the masked scores of the agreeing query positions agree
  have hs : ∀ β s j, β < B * H → s ≤ t → s < T → j < T →
      att.Data[(β * T + s) * T + j]? = att'.Data[(β * T + s) * T + j]? := by
    intro β s j hβ hs hsT hj
    rw [hatt β s j hβ hsT hj, hatt' β s j hβ hsT hj]
    by_cases hlt : s < j
    · rw [if_pos hlt, if_pos hlt]
    · rw [if_neg hlt, if_neg hlt]
      obtain ⟨b, h, hb, hh, rfl⟩ := idx2_decomp hβ
      congr 2
      apply Finset.sum_congr rfl
      intro l hl
      have hl' := Finset.mem_range.mp hl
      rw [(hq b s h l hb hs hsT hh hl').1, (hq b j h l hb (by omega) hj hh hl').2.1]
  -- so do the attention weights
  have hpp : ∀ β s j, β < B * H → s ≤ t → s < T → j < T →
      probs.Data[(β * T + s) * T + j]? = probs'.Data[(β * T + s) * T + j]? := by
    intro β s j hβ hs' hsT hj
    rw [hp β s j hβ hsT hj, hp' β s j hβ hsT hj,
      rowMaxLoop_congr att.Data att'.Data _ T (fun i hi => hs β s i hβ hs' hsT hi),
      hs β s j hβ hs' hsT hj]
    congr 2
    apply Finset.sum_congr rfl
    intro i hi
    rw [hs β s i hβ hs' hsT (Finset.mem_range.mp hi)]
  -- the sentinel and the weight of a later key
  have hrow : ∀ β s, β < B * H → s < T → (β * T + s) * T + T ≤ att.Data.length := by
    intro β s hβ hsT
    have hlast := hatt β s (T - 1) hβ hsT (by omega)
    by_contra hcon
    rw [List.getElem?_eq_none (by omega)] at hlast
    cases hlast
  have hlater : ∀ β s i j, β < B * H → i ≤ s → s < j → j < T →
      att.Data[(β * T + s) * T + j]? = some (-1000000000) ∧
      0 ≤ (probs.Data[(β * T + s) * T + j]?).getD 0 ∧
      (probs.Data[(β * T + s) * T + j]?).getD 0
        ≤ ex (-1000000000 - (att.Data[(β * T + s) * T + i]?).getD 0) := by
    intro β s i j hβ his hsj hj
    have hsT : s < T := by omega
    have hm : att.Data[(β * T + s) * T + j]? = some (-1000000000) := by
      rw [hatt β s j hβ hsT hj, if_pos hsj]
    obtain ⟨w1, w2⟩ := softmax_masked_le ex hmono hnn h0 att.Data ((β * T + s) * T) T j i
      (hrow β s hβ hsT) hj (by omega) hm
    rw [hp β s j hβ hsT hj]
    exact ⟨hm, w1, w2⟩
  have hzero_of : ∀ m : α, ex (-1000000000 - m) = 0 →
      (∀ β s, β < B * H → s ≤ t → s < T →
        ∃ i, i ≤ s ∧ m ≤ (att.Data[(β * T + s) * T + i]?).getD 0) →
      ∀ β s j, β < B * H → s ≤ t → s < j → j < T →
        probs.Data[(β * T + s) * T + j]? = some 0 := by
    intro m hm hrowm β s j hβ hst hsj hj
    have hsT : s < T := by omega
    obtain ⟨i, his, hmi⟩ := hrowm β s hβ hst hsT
    obtain ⟨-, w1, w2⟩ := hlater β s i j hβ his hsj hj
    have w3 : ex (-1000000000 - (att.Data[(β * T + s) * T + i]?).getD 0) ≤ 0 :=
      le_of_le_of_eq (hmono _ _ (by linarith)) hm
    have w4 : (probs.Data[(β * T + s) * T + j]?).getD 0 = 0 := le_antisymm (le_trans w2 w3) w1
    rw [hp β s j hβ hsT hj] at w4 ⊢
    rw [Option.getD_some] at w4
    rw [w4]
  -- exact agreement of the outputs when the later weights vanish
  have hexact : (∀ β s j, β < B * H → s ≤ t → t < j → j < T →
        probs.Data[(β * T + s) * T + j]? = some 0) →
      ∀ b s r, b < B → s ≤ t → s < T → r < O →
        out.Data[(b * T + s) * O + r]? = out'.Data[(b * T + s) * O + r]? := by
    intro hzero b s r hb hs' hsT hr
    have hprow : ∀ c, c < C →
        pre.Data[(b * T + s) * C + c]? = pre'.Data[(b * T + s) * C + c]? := by
      intro c hc
      by_cases hlt : c < H * D
      · obtain ⟨h, d, hh, hd, rfl⟩ := idx2_decomp hlt
        rw [← Nat.add_assoc, hpre b s h d hb hsT hh hd, hpre' b s h d hb hsT hh hd]
        congr 1
        apply Finset.sum_congr rfl
        intro l hl
        have hl' := Finset.mem_range.mp hl
        have hβ : b * H + h < B * H := idx2_lt hb hh
        by_cases hlt' : l ≤ t
        · rw [hpp (b * H + h) s l hβ hs' hsT hl', (hq b l h d hb hlt' hl' hh hd).2.2]
        · have z1 := hzero (b * H + h) s l hβ hs' (by omega) hl'
          have z2 := hpp (b * H + h) s l hβ hs' hsT hl'
          rw [z1] at z2
          rw [z1, ← z2]
          simp
      · rw [hpre0 b s c hb hsT (by omega) hc, hpre0' b s c hb hsT (by omega) hc]
    rw [hout b s r hb hsT hr, hout' b s r hb hsT hr]
    congr 2
    apply Finset.sum_congr rfl
    intro c hc
    rw [hprow c (Finset.mem_range.mp hc)]
  refine ⟨_, out, probs, _, out', probs', _, q, k, v, att, _, q', k', v', att', F, rfl, F', rfl,
    hms, hsm, hms', hsm', os, os', hpp, hlater, ?_, ?_⟩
  · -- the bound on the difference of the outputs
    intro m V W hV hW hrowm hVb hWb b s r hb hs' hsT hr
    have hε : 0 ≤ ex (-1000000000 - m) := hnn _
    have hpre_le : ∀ c, c < C →
        |(pre.Data[(b * T + s) * C + c]?).getD 0 - (pre'.Data[(b * T + s) * C + c]?).getD 0|
          ≤ (T : α) * V * ex (-1000000000 - m) := by
      intro c hc
      have hTV : 0 ≤ (T : α) * V * ex (-1000000000 - m) :=
        mul_nonneg (mul_nonneg (Nat.cast_nonneg T) hV) hε
      by_cases hlt : c < H * D
      · obtain ⟨h, d, hh, hd, rfl⟩ := idx2_decomp hlt
        have hβ : b * H + h < B * H := idx2_lt hb hh
        rw [← Nat.add_assoc, hpre b s h d hb hsT hh hd, hpre' b s h d hb hsT hh hd]
        simp only [Option.getD_some]
        rw [← Finset.sum_sub_distrib]
        have hterm : ∀ l, l ∈ Finset.range T →
            |(probs.Data[((b * H + h) * T + s) * T + l]?).getD 0
                * (v.Data[((b * H + h) * T + l) * D + d]?).getD 0
              - (probs'.Data[((b * H + h) * T + s) * T + l]?).getD 0
                * (v'.Data[((b * H + h) * T + l) * D + d]?).getD 0|
              ≤ V * ex (-1000000000 - m) := by
          intro l hl
          have hl' := Finset.mem_range.mp hl
          rw [← hpp (b * H + h) s l hβ hs' hsT hl', ← mul_sub, abs_mul]
          by_cases hlt' : l ≤ t
          · rw [(hq b l h d hb hlt' hl' hh hd).2.2, sub_self, abs_zero, mul_zero]
            exact mul_nonneg hV hε
          · obtain ⟨i, his, hmi⟩ := hrowm (b * H + h) s hβ hs' hsT
            obtain ⟨-, w1, w2⟩ := hlater (b * H + h) s i l hβ his (by omega) hl'
            have w3 : (probs.Data[((b * H + h) * T + s) * T + l]?).getD 0
                ≤ ex (-1000000000 - m) := le_trans w2 (hmono _ _ (by linarith))
            rw [abs_of_nonneg w1, mul_comm V]
            exact mul_le_mul w3 (hVb b l h d hb (by omega) hl' hh hd) (abs_nonneg _) hε
        calc |∑ l in Finset.range T,
                ((probs.Data[((b * H + h) * T + s) * T + l]?).getD 0
                    * (v.Data[((b * H + h) * T + l) * D + d]?).getD 0
                  - (probs'.Data[((b * H + h) * T + s) * T + l]?).getD 0
                    * (v'.Data[((b * H + h) * T + l) * D + d]?).getD 0)|
            ≤ ∑ l in Finset.range T,
                |(probs.Data[((b * H + h) * T + s) * T + l]?).getD 0
                    * (v.Data[((b * H + h) * T + l) * D + d]?).getD 0
                  - (probs'.Data[((b * H + h) * T + s) * T + l]?).getD 0
                    * (v'.Data[((b * H + h) * T + l) * D + d]?).getD 0| :=
              Finset.abs_sum_le_sum_abs _ _
          _ ≤ ∑ _l in Finset.range T, V * ex (-1000000000 - m) := Finset.sum_le_sum hterm
          _ = (T : α) * V * ex (-1000000000 - m) := by
              rw [Finset.sum_const, Finset.card_range, nsmul_eq_mul]
              ring
      · rw [hpre0 b s c hb hsT (by omega) hc, hpre0' b s c hb hsT (by omega) hc]
        simp only [Option.getD_some, sub_self, abs_zero]
        exact hTV
    rw [hout b s r hb hsT hr, hout' b s r hb hsT hr]
    simp only [Option.getD_some]
    rw [add_sub_add_right_eq_sub, ← Finset.sum_sub_distrib]
    have hterm : ∀ c, c ∈ Finset.range C →
        |(pre.Data[(b * T + s) * C + c]?).getD 0 * (csa.CProj.W.Data.Data[r * C + c]?).getD 0
          - (pre'.Data[(b * T + s) * C + c]?).getD 0
            * (csa.CProj.W.Data.Data[r * C + c]?).getD 0|
          ≤ W * ((T : α) * V * ex (-1000000000 - m)) := by
      intro c hc
      rw [← sub_mul, abs_mul, mul_comm W]
      exact mul_le_mul (hpre_le c (Finset.mem_range.mp hc))
        (hWb r c hr (Finset.mem_range.mp hc)) (abs_nonneg _)
        (mul_nonneg (mul_nonneg (Nat.cast_nonneg T) hV) hε)
    calc |∑ c in Finset.range C,
            ((pre.Data[(b * T + s) * C + c]?).getD 0 * (csa.CProj.W.Data.Data[r * C + c]?).getD 0
              - (pre'.Data[(b * T + s) * C + c]?).getD 0
                * (csa.CProj.W.Data.Data[r * C + c]?).getD 0)|
        ≤ ∑ c in Finset.range C,
            |(pre.Data[(b * T + s) * C + c]?).getD 0 * (csa.CProj.W.Data.Data[r * C + c]?).getD 0
              - (pre'.Data[(b * T + s) * C + c]?).getD 0
                * (csa.CProj.W.Data.Data[r * C + c]?).getD 0| :=
          Finset.abs_sum_le_sum_abs _ _
      _ ≤ ∑ _c in Finset.range C, W * ((T : α) * V * ex (-1000000000 - m)) :=
          Finset.sum_le_sum hterm
      _ = (C : α) * W * ((T : α) * V * ex (-1000000000 - m)) := by
          rw [Finset.sum_const, Finset.card_range, nsmul_eq_mul]
          ring
  · intro m hm hrowm
    have hz := hzero_of m hm hrowm
    exact ⟨hz, hexact (fun β s j hβ hst htj hj => hz β s j hβ hst (by omega) hj)⟩

/-- One head of width one whose query, key and value are the input and whose
output projection is the identity, on the input `[1, y]`: the score of
position `0` with itself is `1`, and the values are `1` and `y`. -/
theorem identity_head_scores (y : ℝ) (l : Linear ℝ) (q k v a : NDArray ℝ)
    (h : CausalSelfAttention.maskedScores Real.sqrt
        (⟨⟨⟨NewFromData [1, 1, 1] [3, 1], New [3, 1], "weight"⟩,
            ⟨NewFromData [0, 0, 0] [3], New [3], "bias"⟩, none⟩,
          ⟨⟨NewFromData [1] [1, 1], New [1, 1], "weight"⟩,
            ⟨NewFromData [0] [1], New [1], "bias"⟩, none⟩,
          1, 1, none, none, none, none, none⟩ : CausalSelfAttention ℝ)
        (NewFromData [1, y] [1, 2, 1]) = some (l, q, k, v, a)) :
    a.Data[0]? = some 1 ∧ v.Data[0]? = some 1 ∧ v.Data[1]? = some y := by
  obtain ⟨q', k', v', a', hms, -, -, -, -, hqkv, hatt⟩ :=
    Attention_maskedScores_ok Real.sqrt
      (⟨⟨⟨NewFromData [1, 1, 1] [3, 1], New [3, 1], "weight"⟩,
          ⟨NewFromData [0, 0, 0] [3], New [3], "bias"⟩, none⟩,
        ⟨⟨NewFromData [1] [1, 1], New [1, 1], "weight"⟩,
          ⟨NewFromData [0] [1], New [1], "bias"⟩, none⟩,
        1, 1, none, none, none, none, none⟩ : CausalSelfAttention ℝ)
      (NewFromData [1, y] [1, 2, 1]) 1 2 1 1 1 ⟨rfl, rfl, rfl⟩ rfl ⟨rfl, rfl, rfl⟩ rfl
      ⟨rfl, rfl, rfl⟩ rfl (by norm_num) rfl (by norm_num) (by norm_num)
  rw [hms] at h
  obtain ⟨-, h2⟩ := Prod.mk.inj (Option.some.inj h)
  obtain ⟨hq, h3⟩ := Prod.mk.inj h2
  obtain ⟨hk, h4⟩ := Prod.mk.inj h3
  obtain ⟨hv, ha⟩ := Prod.mk.inj h4
  subst hq hk hv ha
  have n0 : (0 : Nat) < 1 := Nat.zero_lt_one
  have n2 : (0 : Nat) < 2 := Nat.zero_lt_two
  have n12 : (1 : Nat) < 2 := Nat.one_lt_two
  have q0 := (hqkv 0 0 0 0 n0 n2 n0 n0).1
  have k0 := (hqkv 0 0 0 0 n0 n2 n0 n0).2.1
  have v0 := (hqkv 0 0 0 0 n0 n2 n0 n0).2.2
  have v1 := (hqkv 0 1 0 0 n0 n12 n0 n0).2.2
  have a0 := hatt 0 0 0 (by norm_num) n2 n2
  simp [NewFromData, New, shapeSize] at q0 k0 v0 v1
  simp [Finset.sum_range_succ, q0, k0] at a0
  exact ⟨a0, v0, v1⟩

/-- Two instances of `Attention_Forward_causal` on one head of width one whose
query, key and value are the input, with the inputs `[1, 2]` and `[1, 5]`,
which agree at position `0`. With the real exponential, the weight that
position `0` gives to position `1` is at most `exp(-1000000001)` and the two
outputs at position `0` differ by at most `6 * exp(-1000000001)`. With the
real exponential cut off to `0` at and below `-104` (where the float32
exponential has underflowed), that weight is `0` and the two outputs at
position `0` are equal. -/
theorem Attention_Forward_causal_witness :
    (∃ (c1 : CausalSelfAttention ℝ) (o1 p1 : NDArray ℝ) (c2 : CausalSelfAttention ℝ)
        (o2 : NDArray ℝ),
      CausalSelfAttention.Forward Real.exp Real.sqrt
          (⟨⟨⟨NewFromData [1, 1, 1] [3, 1], New [3, 1], "weight"⟩,
              ⟨NewFromData [0, 0, 0] [3], New [3], "bias"⟩, none⟩,
            ⟨⟨NewFromData [1] [1, 1], New [1, 1], "weight"⟩,
              ⟨NewFromData [0] [1], New [1], "bias"⟩, none⟩,
            1, 1, none, none, none, none, none⟩ : CausalSelfAttention ℝ)
          (NewFromData [1, 2] [1, 2, 1]) = some (c1, o1) ∧
      c1.att = some p1 ∧
      CausalSelfAttention.Forward Real.exp Real.sqrt
          (⟨⟨⟨NewFromData [1, 1, 1] [3, 1], New [3, 1], "weight"⟩,
              ⟨NewFromData [0, 0, 0] [3], New [3], "bias"⟩, none⟩,
            ⟨⟨NewFromData [1] [1, 1], New [1, 1], "weight"⟩,
              ⟨NewFromData [0] [1], New [1], "bias"⟩, none⟩,
            1, 1, none, none, none, none, none⟩ : CausalSelfAttention ℝ)
          (NewFromData [1, 5] [1, 2, 1]) = some (c2, o2) ∧
      (0 : ℝ) ≤ (p1.Data[1]?).getD 0 ∧ (p1.Data[1]?).getD 0 ≤ Real.exp (-1000000001) ∧
      |(o1.Data[0]?).getD 0 - (o2.Data[0]?).getD 0| ≤ 6 * Real.exp (-1000000001)) ∧
    (∃ (c1 : CausalSelfAttention ℝ) (o1 p1 : NDArray ℝ) (c2 : CausalSelfAttention ℝ)
        (o2 : NDArray ℝ),
      CausalSelfAttention.Forward (fun z : ℝ => if z ≤ -104 then 0 else Real.exp z) Real.sqrt
          (⟨⟨⟨NewFromData [1, 1, 1] [3, 1], New [3, 1], "weight"⟩,
              ⟨NewFromData [0, 0, 0] [3], New [3], "bias"⟩, none⟩,
            ⟨⟨NewFromData [1] [1, 1], New [1, 1], "weight"⟩,
              ⟨NewFromData [0] [1], New [1], "bias"⟩, none⟩,
            1, 1, none, none, none, none, none⟩ : CausalSelfAttention ℝ)
          (NewFromData [1, 2] [1, 2, 1]) = some (c1, o1) ∧
      c1.att = some p1 ∧
      CausalSelfAttention.Forward (fun z : ℝ => if z ≤ -104 then 0 else Real.exp z) Real.sqrt
          (⟨⟨⟨NewFromData [1, 1, 1] [3, 1], New [3, 1], "weight"⟩,
              ⟨NewFromData [0, 0, 0] [3], New [3], "bias"⟩, none⟩,
            ⟨⟨NewFromData [1] [1, 1], New [1, 1], "weight"⟩,
              ⟨NewFromData [0] [1], New [1], "bias"⟩, none⟩,
            1, 1, none, none, none, none, none⟩ : CausalSelfAttention ℝ)
          (NewFromData [1, 5] [1, 2, 1]) = some (c2, o2) ∧
      p1.Data[1]? = some 0 ∧ o1.Data[0]? = o2.Data[0]?) := by
  have hagree : ∀ b s c, b < 1 → s ≤ 0 → s < 2 → c < 1 →
      (NewFromData [1, 2] [1, 2, 1] : NDArray ℝ).Data[(b * 2 + s) * 1 + c]?
        = (NewFromData [1, 5] [1, 2, 1] : NDArray ℝ).Data[(b * 2 + s) * 1 + c]? := by
    intro b s c hb hs _ hc
    have hb0 : b = 0 := by omega
    have hs0 : s = 0 := by omega
    have hc0 : c = 0 := by omega
    subst hb0 hs0 hc0
    rfl
  constructor
  · obtain ⟨c1, o1, p1, c2, o2, p2, l1, q1, k1, v1, a1, l2, q2, k2, v2, a2, F1, A1, F2, -, M1, -,
        M2, -, -, -, -, hlater, hbound, -⟩ :=
      Attention_Forward_causal Real.exp Real.sqrt (fun a b h => Real.exp_le_exp.mpr h)
        (fun a => (Real.exp_pos a).le) Real.exp_zero
        (⟨⟨⟨NewFromData [1, 1, 1] [3, 1], New [3, 1], "weight"⟩,
            ⟨NewFromData [0, 0, 0] [3], New [3], "bias"⟩, none⟩,
          ⟨⟨NewFromData [1] [1, 1], New [1, 1], "weight"⟩,
            ⟨NewFromData [0] [1], New [1], "bias"⟩, none⟩,
          1, 1, none, none, none, none, none⟩ : CausalSelfAttention ℝ)
        (NewFromData [1, 2] [1, 2, 1]) (NewFromData [1, 5] [1, 2, 1]) 1 2 1 1 0
        ⟨rfl, rfl, rfl⟩ rfl ⟨rfl, rfl, rfl⟩ rfl ⟨rfl, rfl, rfl⟩ rfl ⟨rfl, rfl, rfl⟩ rfl
        ⟨rfl, rfl, rfl⟩ rfl ⟨rfl, rfl, rfl⟩ rfl (by norm_num) (by norm_num) (by norm_num) hagree
    obtain ⟨e1, -, e3⟩ := identity_head_scores 2 l1 q1 k1 v1 a1 M1
    obtain ⟨-, -, e3'⟩ := identity_head_scores 5 l2 q2 k2 v2 a2 M2
    obtain ⟨-, w1, w2⟩ := hlater 0 0 0 1 (by norm_num) (le_refl 0) (by norm_num) (by norm_num)
    have hb := hbound 1 3 1 (by norm_num) (by norm_num)
      (by
        intro β s hβ hs _
        have hβ1 : β < 1 * 1 := hβ
        have hs0 : s = 0 := by omega
        have hβ0 : β = 0 := by omega
        subst hs0 hβ0
        exact ⟨0, le_refl 0, by simp [e1]⟩)
      (by
        intro b j h d hb hj hj2 hh hd
        have hh1 : h < 1 := hh
        have hd1 : d < 1 / 1 := hd
        have hb0 : b = 0 := by omega
        have hj1 : j = 1 := by omega
        have hh0 : h = 0 := by omega
        have hd0 : d = 0 := by omega
        subst hb0 hj1 hh0 hd0
        simp [e3, e3']
        norm_num)
      (by
        intro r c hr hc
        have hr0 : r = 0 := by omega
        have hc0 : c = 0 := by omega
        subst hr0 hc0
        simp [NewFromData, New, shapeSize])
      0 0 0 (by norm_num) (le_refl 0) (by norm_num) (by norm_num)
    simp [e1] at w1 w2 hb
    norm_num at w2 hb
    exact ⟨c1, o1, p1, c2, o2, F1, A1, F2, w1, w2, by linarith⟩
  · have hmono : ∀ a b : ℝ, a ≤ b →
        (fun z : ℝ => if z ≤ -104 then 0 else Real.exp z) a
          ≤ (fun z : ℝ => if z ≤ -104 then 0 else Real.exp z) b := by
      intro a b hab
      show (if a ≤ -104 then 0 else Real.exp a) ≤ (if b ≤ -104 then 0 else Real.exp b)
      by_cases hb : b ≤ -104
      · rw [if_pos hb, if_pos (le_trans hab hb)]
      · rw [if_neg hb]
        by_cases ha : a ≤ -104
        · rw [if_pos ha]
          exact (Real.exp_pos b).le
        · rw [if_neg ha]
          exact Real.exp_le_exp.mpr hab
    have hnn : ∀ a : ℝ, 0 ≤ (fun z : ℝ => if z ≤ -104 then 0 else Real.exp z) a := by
      intro a
      show 0 ≤ (if a ≤ -104 then 0 else Real.exp a)
      split_ifs
      · exact le_refl 0
      · exact (Real.exp_pos a).le
    have h0 : (fun z : ℝ => if z ≤ -104 then 0 else Real.exp z) 0 = 1 := by
      show (if (0 : ℝ) ≤ -104 then 0 else Real.exp 0) = 1
      rw [if_neg (by norm_num), Real.exp_zero]
    obtain ⟨c1, o1, p1, c2, o2, p2, l1, q1, k1, v1, a1, l2, q2, k2, v2, a2, F1, A1, F2, -, M1, -,
        -, -, -, -, -, -, -, hexact⟩ :=
      Attention_Forward_causal (fun z : ℝ => if z ≤ -104 then 0 else Real.exp z) Real.sqrt
        hmono hnn h0
        (⟨⟨⟨NewFromData [1, 1, 1] [3, 1], New [3, 1], "weight"⟩,
            ⟨NewFromData [0, 0, 0] [3], New [3], "bias"⟩, none⟩,
          ⟨⟨NewFromData [1] [1, 1], New [1, 1], "weight"⟩,
            ⟨NewFromData [0] [1], New [1], "bias"⟩, none⟩,
          1, 1, none, none, none, none, none⟩ : CausalSelfAttention ℝ)
        (NewFromData [1, 2] [1, 2, 1]) (NewFromData [1, 5] [1, 2, 1]) 1 2 1 1 0
        ⟨rfl, rfl, rfl⟩ rfl ⟨rfl, rfl, rfl⟩ rfl ⟨rfl, rfl, rfl⟩ rfl ⟨rfl, rfl, rfl⟩ rfl
        ⟨rfl, rfl, rfl⟩ rfl ⟨rfl, rfl, rfl⟩ rfl (by norm_num) (by norm_num) (by norm_num) hagree
    obtain ⟨e1, -, -⟩ := identity_head_scores 2 l1 q1 k1 v1 a1 M1
    obtain ⟨z1, z2⟩ := hexact 1
      (by
        show (if (-1000000000 - 1 : ℝ) ≤ -104 then 0 else Real.exp (-1000000000 - 1)) = 0
        rw [if_pos (by norm_num)])
      (by
        intro β s hβ hs _
        have hβ1 : β < 1 * 1 := hβ
        have hs0 : s = 0 := by omega
        have hβ0 : β = 0 := by omega
        subst hs0 hβ0
        exact ⟨0, le_refl 0, by simp [e1]⟩)
    have y1 := z1 0 0 1 (by norm_num) (le_refl 0) (by norm_num) (by norm_num)
    have y2 := z2 0 0 0 (by norm_num) (le_refl 0) (by norm_num) (by norm_num)
    exact ⟨c1, o1, p1, c2, o2, F1, A1, F2, by simpa using y1, by simpa using y2⟩

end transformer

namespace tensor

theorem timesLoop_spec {α : Type} [Semiring α] (scale : α) (d : List α) :
    ∃ d', forRange (fun i d => do
        let y ← d[i]?
        setIdx d i (y * scale)) d.length d = some d' ∧ d'.length = d.length ∧
      ∀ p, p < d.length → d'[p]? = (d[p]?).map (fun y => y * scale) := by
  obtain ⟨d', h1, hl, hin, -⟩ := loop_effect d.length d.length
    (fun i d => do
      let y ← d[i]?
      setIdx d i (y * scale))
    (fun r p => p = r) (fun _ _ y => y * scale) d
    (by
      intro r s hr hs
      have hlt : r < s.length := by omega
      refine ⟨s.set r (s[r] * scale), ?_, by simpa using hs, ?_, ?_⟩
      · simp [List.getElem?_eq_getElem hlt, setIdx_eq_some _ _ _ hlt]
      · rintro p rfl
        rw [List.getElem?_set_self hlt, List.getElem?_eq_getElem hlt]
        rfl
      · intro p hp
        rw [List.getElem?_set_ne (fun e => hp e.symm)])
    (by
      rintro r r' p _ _ rfl e
      exact e)
    rfl
  exact ⟨d', h1, hl, fun p hp => hin p p hp rfl⟩

end tensor

namespace nn

open tensor

/-! ## `CrossEntropyLoss.Backward` -/

theorem targetLoop_spec {α : Type} [Ring α] (targets : List Nat) (N C : Nat) (d : List α)
    (hd : d.length = N * C) (hlen : N ≤ targets.length)
    (ht : ∀ i, i < N → (targets[i]?).getD 0 < C) :
    ∃ d', targetLoop targets N C d = some d' ∧ d'.length = N * C ∧
      ∀ i j, i < N → j < C →
        d'[i * C + j]? = (d[i * C + j]?).map
          (fun y => y - if j = (targets[i]?).getD 0 then 1 else 0) := by
  obtain ⟨d', h1, hl, hin, hout⟩ := loop_effect N (N * C)
    (fun i d => do
      let target ← targets[i]?
      let y ← d[i * C + target]?
      setIdx d (i * C + target) (y - 1))
    (fun i p => p = i * C + (targets[i]?).getD 0) (fun _ _ y => y - 1) d
    (by
      intro i s hi hs
      have hti : i < targets.length := by omega
      have htg : targets[i]? = some targets[i] := List.getElem?_eq_getElem hti
      have hc : targets[i] < C := by
        have := ht i hi
        rwa [htg] at this
      have hlt : i * C + targets[i] < s.length := by rw [hs]; exact idx2_lt hi hc
      refine ⟨s.set (i * C + targets[i]) (s[i * C + targets[i]] - 1), ?_, by simpa using hs, ?_, ?_⟩
      · simp [htg, List.getElem?_eq_getElem hlt, setIdx_eq_some _ _ _ hlt]
      · intro p hp
        have hp' : p = i * C + (targets[i]?).getD 0 := hp
        rw [htg] at hp'
        simp only [Option.getD_some] at hp'
        subst hp'
        rw [List.getElem?_set_self hlt, List.getElem?_eq_getElem hlt]
        rfl
      · intro p hp
        have hp' : ¬ p = i * C + (targets[i]?).getD 0 := hp
        rw [htg] at hp'
        simp only [Option.getD_some] at hp'
        rw [List.getElem?_set_ne (fun e => hp' e.symm)])
    (by
      intro r r' p hr hr' e1 e2
      rw [e1] at e2
      exact (idx2_inj (ht r hr) (ht r' hr') e2).1)
    hd
  refine ⟨d', h1, hl, ?_⟩
  intro i j hi hj
  by_cases he : j = (targets[i]?).getD 0
  · rw [if_pos he, he]
    exact hin i _ hi rfl
  · rw [if_neg he, hout]
    · have hlt : i * C + j < d.length := by rw [hd]; exact idx2_lt hi hj
      rw [List.getElem?_eq_getElem hlt]
      simp
    · intro r hr e
      obtain ⟨e1, e2⟩ := idx2_inj hj (ht r hr) e
      subst e1
      exact he e2

theorem CrossEntropyLoss_Backward_ok {α : Type} [LinearOrderedField α] (l : CrossEntropyLoss)
    (ex : α → α) (logits : NDArray α) (targets : List Nat) (N C : Nat)
    (hwf : logits.WF) (hs : logits.Shape = [N, C]) (hC : 0 < C) (hlen : N ≤ targets.length)
    (ht : ∀ i, i < N → (targets[i]?).getD 0 < C) :
    ∃ probs out, Softmax ex logits = some probs ∧
      l.Backward ex logits targets = some out ∧ out.Shape = [N, C] ∧ out.WF ∧
      ∀ i j, i < N → j < C →
        out.Data[i * C + j]? = some
          (((probs.Data[i * C + j]?).getD 0 - if j = (targets[i]?).getD 0 then 1 else 0)
            * (1 / (N : α))) := by
  obtain ⟨probs, p1, p2, p3, p4, p5, p6⟩ := Softmax_rows ex logits [N] C hwf (by simpa using hs) hC
  have hN : ([N] : List Nat).prod = N := by simp
  rw [hN] at p5 p6
  have hnew : (New logits.Shape : NDArray α).Data.length = N * C := by
    rw [(New_facts _).2.2.2, List.length_replicate, hs]; simp
  have hd0 : probs.Data.take (New logits.Shape : NDArray α).Data.length
      ++ (New logits.Shape : NDArray α).Data.drop probs.Data.length = probs.Data := by
    rw [hnew, p5, ← p5, List.take_length, List.drop_of_length_le (by rw [hnew, p5]),
      List.append_nil]
  obtain ⟨d1, t1, t2, t3⟩ := targetLoop_spec targets N C probs.Data p5 hlen ht
  obtain ⟨d2, c1, c2, c3⟩ := timesLoop_spec (1 / (N : α)) d1
  obtain ⟨es, ewf, ed⟩ := transformer.New_with_facts logits.Shape d2 (by rw [c2, t2, hs]; simp)
  refine ⟨probs, _, p1, ?_, by rw [es, hs], ewf, ?_⟩
  · have c1' := c1
    simp only [Option.bind_eq_bind] at c1'
    unfold CrossEntropyLoss.Backward
    simp only [p1, Option.bind_eq_bind, Option.some_bind, hd0]
    rw [hs]
    simp only [List.getElem?_cons_zero, List.getElem?_cons_succ, Option.some_bind, t1, c1']
  · intro i j hi hj
    have hlt : i * C + j < probs.Data.length := by rw [p5]; exact idx2_lt hi hj
    rw [ed, c3 _ (by rw [t2]; exact idx2_lt hi hj), t3 i j hi hj, List.getElem?_eq_getElem hlt]
    rfl

end nn
namespace nn

open tensor

/-- C25: for logits of shape `[N, C]` with `N ≥ 1` and targets with
`targets[i] < C` for every row `i < N`, `CrossEntropyLoss.Backward` returns a
tensor of the shape of the logits whose entry `[i, j]` is
`(Softmax(logits)[i, j] - (1 if j = targets[i] else 0)) / N`. (The logits are
an argument that the function only reads: the result is a fresh tensor.) -/
theorem CrossEntropyLoss_Backward_spec {α : Type} [LinearOrderedField α] (l : CrossEntropyLoss)
    (ex : α → α) (logits : NDArray α) (targets : List Nat) (N C : Nat)
    (hwf : logits.WF) (hs : logits.Shape = [N, C]) (hN : 1 ≤ N)
    (ht : ∀ i, i < N → ∃ t, targets[i]? = some t ∧ t < C) :
    ∃ probs out, Softmax ex logits = some probs ∧
      l.Backward ex logits targets = some out ∧ out.Shape = logits.Shape ∧ out.WF ∧
      ∀ i j t, i < N → j < C → targets[i]? = some t →
        out.Data[i * C + j]? = some
          (((probs.Data[i * C + j]?).getD 0 - if j = t then 1 else 0) / (N : α)) := by
  have hC : 0 < C := by
    obtain ⟨t, -, h⟩ := ht 0 hN
    omega
  have hlen : N ≤ targets.length := by
    by_contra hcon
    obtain ⟨t, h, -⟩ := ht targets.length (by omega)
    rw [List.getElem?_eq_none (Nat.le_refl _)] at h
    exact Option.noConfusion h
  have ht' : ∀ i, i < N → (targets[i]?).getD 0 < C := by
    intro i hi
    obtain ⟨t, h1, h2⟩ := ht i hi
    rw [h1]
    exact h2
  obtain ⟨probs, out, h1, h2, h3, h4, h5⟩ :=
    CrossEntropyLoss_Backward_ok l ex logits targets N C hwf hs hC hlen ht'
  refine ⟨probs, out, h1, h2, by rw [h3, hs], h4, ?_⟩
  intro i j t hi hj hti
  rw [h5 i j hi hj, hti, Option.getD_some, mul_one_div]

theorem CrossEntropyLoss_Backward_spec_witness :
    ∃ probs out, Softmax Real.exp (NewFromData [0, 0, 1, 3] [2, 2] : NDArray ℝ) = some probs ∧
      CrossEntropyLoss.Backward ⟨⟩ Real.exp (NewFromData [0, 0, 1, 3] [2, 2] : NDArray ℝ) [1, 0]
        = some out ∧
      out.Shape = (NewFromData [0, 0, 1, 3] [2, 2] : NDArray ℝ).Shape ∧ out.WF ∧
      ∀ i j t, i < 2 → j < 2 → ([1, 0] : List Nat)[i]? = some t →
        out.Data[i * 2 + j]? = some
          (((probs.Data[i * 2 + j]?).getD 0 - if j = t then 1 else 0) / ((2 : Nat) : ℝ)) :=
  CrossEntropyLoss_Backward_spec ⟨⟩ Real.exp (NewFromData [0, 0, 1, 3] [2, 2]) [1, 0] 2 2
    ⟨rfl, rfl, rfl⟩ rfl (by decide) (by decide)

end nn
namespace optim

/-! ## The learning-rate schedule -/

/-- C28: for a schedule with `WarmupSteps < MaxSteps`, in particular one with
`0 < WarmupSteps < MaxSteps` (`cos 0 = 1` and `cos pi = -1`, as for the
cosine), `GetLR` is a function of the step alone:
below `WarmupSteps` it is `LRMax * step / WarmupSteps`, at `WarmupSteps` it is
the peak `LRMax`, from `WarmupSteps` to `MaxSteps` it is
`LRMin + (LRMax - LRMin) * 0.5 * (1 + cos(pi * (step - WarmupSteps) / (MaxSteps - WarmupSteps)))`,
at `MaxSteps` it is `LRMin`, and above `MaxSteps` it stays at `LRMin`. -/
theorem GetLR_spec {α : Type} [LinearOrderedField α] (cos : α → α) (pi : α)
    (s : CosineScheduleWithWarmup α) (hcos0 : cos 0 = 1) (hcospi : cos pi = -1)
    (hM : s.WarmupSteps < s.MaxSteps) :
    (∀ step, step < s.WarmupSteps →
      s.GetLR cos pi step = s.LRMax * (step : α) / (s.WarmupSteps : α)) ∧
    s.GetLR cos pi s.WarmupSteps = s.LRMax ∧
    (∀ step, s.WarmupSteps ≤ step → step ≤ s.MaxSteps →
      s.GetLR cos pi step = s.LRMin + (s.LRMax - s.LRMin) * (1 / 2)
        * (1 + cos (pi * (((step : α) - (s.WarmupSteps : α))
            / ((s.MaxSteps : α) - (s.WarmupSteps : α)))))) ∧
    s.GetLR cos pi s.MaxSteps = s.LRMin ∧
    (∀ step, s.MaxSteps < step → s.GetLR cos pi step = s.LRMin) := by
  have hne : ((s.MaxSteps - s.WarmupSteps : Nat) : α) ≠ 0 := by
    have : 0 < s.MaxSteps - s.WarmupSteps := by omega
    exact_mod_cast (Nat.pos_iff_ne_zero.mp this)
  refine ⟨?_, ?_, ?_, ?_, ?_⟩
  · intro step h
    unfold CosineScheduleWithWarmup.GetLR
    rw [if_pos h]
  · unfold CosineScheduleWithWarmup.GetLR
    rw [if_neg (Nat.lt_irrefl _), if_neg (by omega)]
    simp only [Nat.sub_self, Nat.cast_zero, zero_div, mul_zero, hcos0]
    ring
  · intro step h1 h2
    unfold CosineScheduleWithWarmup.GetLR
    rw [if_neg (by omega), if_neg (by omega), Nat.cast_sub h1, Nat.cast_sub (le_of_lt hM)]
    ring
  · unfold CosineScheduleWithWarmup.GetLR
    rw [if_neg (by omega), if_neg (Nat.lt_irrefl _), div_self hne, mul_one, hcospi]
    ring
  · intro step h
    unfold CosineScheduleWithWarmup.GetLR
    rw [if_neg (by omega), if_pos h]

theorem GetLR_spec_witness :
    (∀ step, step < 2 →
      (⟨2, 6, 1, 1 / 10⟩ : CosineScheduleWithWarmup ℝ).GetLR Real.cos Real.pi step
        = 1 * (step : ℝ) / ((2 : Nat) : ℝ)) ∧
    (⟨2, 6, 1, 1 / 10⟩ : CosineScheduleWithWarmup ℝ).GetLR Real.cos Real.pi 2 = 1 ∧
    (∀ step, 2 ≤ step → step ≤ 6 →
      (⟨2, 6, 1, 1 / 10⟩ : CosineScheduleWithWarmup ℝ).GetLR Real.cos Real.pi step
        = 1 / 10 + (1 - 1 / 10) * (1 / 2)
          * (1 + Real.cos (Real.pi * (((step : ℝ) - ((2 : Nat) : ℝ))
              / (((6 : Nat) : ℝ) - ((2 : Nat) : ℝ)))))) ∧
    (⟨2, 6, 1, 1 / 10⟩ : CosineScheduleWithWarmup ℝ).GetLR Real.cos Real.pi 6 = 1 / 10 ∧
    (∀ step, 6 < step →
      (⟨2, 6, 1, 1 / 10⟩ : CosineScheduleWithWarmup ℝ).GetLR Real.cos Real.pi step = 1 / 10) :=
  GetLR_spec Real.cos Real.pi ⟨2, 6, 1, 1 / 10⟩ Real.cos_zero Real.cos_pi (by decide)

end optim

namespace optim

open tensor nn

/-! ## `AdamW.Step` -/

theorem stepParam_spec {α : Type} [Field α] (sqrt : α → α) (opt : AdamW α) (bc1 bc2 : α)
    (gData : List α) (size offset L : Nat) (d0 m0 v0 : List α)
    (hg : size ≤ gData.length) (hd : d0.length = size) (hm : m0.length = L)
    (hv : v0.length = L) (hoff : offset + size ≤ L) :
    ∃ d m v, stepParam sqrt opt bc1 bc2 gData size offset (d0, m0, v0) = some (d, m, v) ∧
      d.length = size ∧ m.length = L ∧ v.length = L ∧
      (∀ i, i < size →
        m[offset + i]? = some
          (opt.Beta1 * (m0[offset + i]?).getD 0 + (1 - opt.Beta1) * (gData[i]?).getD 0) ∧
        v[offset + i]? = some
          (opt.Beta2 * (v0[offset + i]?).getD 0
            + (1 - opt.Beta2) * (gData[i]?).getD 0 * (gData[i]?).getD 0) ∧
        d[i]? = some
          (((d0[i]?).getD 0 - opt.LR * opt.WeightDecay * (d0[i]?).getD 0)
            - opt.LR / bc1
              * ((opt.Beta1 * (m0[offset + i]?).getD 0 + (1 - opt.Beta1) * (gData[i]?).getD 0)
                / (sqrt (opt.Beta2 * (v0[offset + i]?).getD 0
                      + (1 - opt.Beta2) * (gData[i]?).getD 0 * (gData[i]?).getD 0)
                    / sqrt bc2 + opt.Eps)))) ∧
      (∀ q, (q < offset ∨ offset + size ≤ q) → m[q]? = m0[q]? ∧ v[q]? = v0[q]?) := by
  obtain ⟨⟨d, m, v⟩, h1, hl1, hl2, hl3, hin, hd', hout⟩ := forRange_inv
    (fun i (s : List α × List α × List α) => do
      let grad ← gData[i]?
      let data ← s.1[i]?
      let data1 := data - opt.LR * opt.WeightDecay * data
      let m0 ← s.2.1[offset + i]?
      let v0 ← s.2.2[offset + i]?
      let m1 := opt.Beta1 * m0 + (1 - opt.Beta1) * grad
      let v1 := opt.Beta2 * v0 + (1 - opt.Beta2) * grad * grad
      let ms ← setIdx s.2.1 (offset + i) m1
      let vs ← setIdx s.2.2 (offset + i) v1
      let denom := sqrt v1 / sqrt bc2 + opt.Eps
      let stepSize := opt.LR / bc1
      let ds ← setIdx s.1 i (data1 - stepSize * (m1 / denom))
      some (ds, ms, vs))
    (fun k s => s.1.length = size ∧ s.2.1.length = L ∧ s.2.2.length = L ∧
      (∀ i, i < k →
        s.2.1[offset + i]? = some
          (opt.Beta1 * (m0[offset + i]?).getD 0 + (1 - opt.Beta1) * (gData[i]?).getD 0) ∧
        s.2.2[offset + i]? = some
          (opt.Beta2 * (v0[offset + i]?).getD 0
            + (1 - opt.Beta2) * (gData[i]?).getD 0 * (gData[i]?).getD 0) ∧
        s.1[i]? = some
          (((d0[i]?).getD 0 - opt.LR * opt.WeightDecay * (d0[i]?).getD 0)
            - opt.LR / bc1
              * ((opt.Beta1 * (m0[offset + i]?).getD 0 + (1 - opt.Beta1) * (gData[i]?).getD 0)
                / (sqrt (opt.Beta2 * (v0[offset + i]?).getD 0
                      + (1 - opt.Beta2) * (gData[i]?).getD 0 * (gData[i]?).getD 0)
                    / sqrt bc2 + opt.Eps)))) ∧
      (∀ i, k ≤ i → s.1[i]? = d0[i]?) ∧
      (∀ q, (q < offset ∨ offset + k ≤ q) → s.2.1[q]? = m0[q]? ∧ s.2.2[q]? = v0[q]?))
    size (d0, m0, v0)
    ⟨hd, hm, hv, fun i hi => absurd hi (Nat.not_lt_zero _), fun _ _ => rfl,
      fun _ _ => ⟨rfl, rfl⟩⟩
    (by
      rintro k ⟨d, m, v⟩ hk ⟨hl1, hl2, hl3, hin, hd', hout⟩
      simp only at hl1 hl2 hl3 hin hd' hout
      have g1 : k < gData.length := by omega
      have g2 : k < d.length := by omega
      have g3 : offset + k < m.length := by omega
      have g4 : offset + k < v.length := by omega
      have e1 : gData[k]? = some gData[k] := List.getElem?_eq_getElem g1
      have e2 : d[k]? = some d[k] := List.getElem?_eq_getElem g2
      have e3 : m[offset + k]? = some m[offset + k] := List.getElem?_eq_getElem g3
      have e4 : v[offset + k]? = some v[offset + k] := List.getElem?_eq_getElem g4
      have f2 : d0[k]? = some d[k] := by rw [← hd' k (Nat.le_refl k), e2]
      have f3 : m0[offset + k]? = some m[offset + k] := by
        rw [← (hout (offset + k) (Or.inr (Nat.le_refl _))).1, e3]
      have f4 : v0[offset + k]? = some v[offset + k] := by
        rw [← (hout (offset + k) (Or.inr (Nat.le_refl _))).2, e4]
      refine ⟨(d.set k ((d[k] - opt.LR * opt.WeightDecay * d[k])
            - opt.LR / bc1 * ((opt.Beta1 * m[offset + k] + (1 - opt.Beta1) * gData[k])
              / (sqrt (opt.Beta2 * v[offset + k] + (1 - opt.Beta2) * gData[k] * gData[k])
                  / sqrt bc2 + opt.Eps))),
          m.set (offset + k) (opt.Beta1 * m[offset + k] + (1 - opt.Beta1) * gData[k]),
          v.set (offset + k) (opt.Beta2 * v[offset + k] + (1 - opt.Beta2) * gData[k] * gData[k])),
        ?_, ?_⟩
      · simp only [e1, e2, e3, e4, Option.bind_eq_bind, Option.some_bind,
          setIdx_eq_some _ _ _ g2, setIdx_eq_some _ _ _ g3, setIdx_eq_some _ _ _ g4]
      · refine ⟨by simpa using hl1, by simpa using hl2, by simpa using hl3, ?_, ?_, ?_⟩
        · intro i hi
          by_cases he : i = k
          · subst he
            simp only [List.getElem?_set_self g2, List.getElem?_set_self g3,
              List.getElem?_set_self g4, e1, f2, f3, f4, Option.getD_some, and_self]
          · have hik : i < k := by omega
            obtain ⟨a1, a2, a3⟩ := hin i hik
            refine ⟨?_, ?_, ?_⟩
            · rw [List.getElem?_set_ne (by omega)]; exact a1
            · rw [List.getElem?_set_ne (by omega)]; exact a2
            · rw [List.getElem?_set_ne (by omega)]; exact a3
        · intro i hi
          simp only
          rw [List.getElem?_set_ne (by omega)]
          exact hd' i (by omega)
        · intro q hq
          simp only
          rw [List.getElem?_set_ne (by omega), List.getElem?_set_ne (by omega)]
          exact hout q (by omega))
  exact ⟨d, m, v, h1, hl1, hl2, hl3, hin, hout⟩

end optim
namespace optim

open tensor nn

theorem stepParam_vals {α : Type} [Field α] (sqrt : α → α) (opt : AdamW α) (bc1 bc2 : α)
    (gData : List α) (size offset L : Nat) (d0 m0 v0 : List α)
    (hg : size ≤ gData.length) (hd : d0.length = size) (hm : m0.length = L)
    (hv : v0.length = L) (hoff : offset + size ≤ L) :
    ∃ d m v, stepParam sqrt opt bc1 bc2 gData size offset (d0, m0, v0) = some (d, m, v) ∧
      d.length = size ∧ m.length = L ∧ v.length = L ∧
      (∀ i, i < size →
        m[offset + i]? = some (adamM opt ((m0[offset + i]?).getD 0) ((gData[i]?).getD 0)) ∧
        v[offset + i]? = some (adamV opt ((v0[offset + i]?).getD 0) ((gData[i]?).getD 0)) ∧
        d[i]? = some (adamW sqrt opt bc1 bc2 ((d0[i]?).getD 0)
          (adamM opt ((m0[offset + i]?).getD 0) ((gData[i]?).getD 0))
          (adamV opt ((v0[offset + i]?).getD 0) ((gData[i]?).getD 0)))) ∧
      (∀ q, (q < offset ∨ offset + size ≤ q) → m[q]? = m0[q]? ∧ v[q]? = v0[q]?) :=
  stepParam_spec sqrt opt bc1 bc2 gData size offset L d0 m0 v0 hg hd hm hv hoff

theorem flatOffset_zero {α : Type} (ps : List (Parameter α)) : flatOffset ps 0 = 0 := by
  simp [flatOffset]

theorem flatOffset_succ {α : Type} (p : Parameter α) (ps : List (Parameter α)) (j : Nat) :
    flatOffset (p :: ps) (j + 1) = p.Data.Size + flatOffset ps j := by
  simp [flatOffset]

theorem flatOffset_add_le {α : Type} (ps : List (Parameter α)) (j : Nat) (p : Parameter α)
    (h : ps[j]? = some p) :
    flatOffset ps j + p.Data.Size ≤ (ps.map (fun p => p.Data.Size)).sum := by
  induction ps generalizing j with
  | nil => simp at h
  | cons q qs ih =>
    cases j with
    | zero =>
      simp only [List.getElem?_cons_zero, Option.some.injEq] at h
      subst h
      simp [flatOffset]
    | succ j =>
      simp only [List.getElem?_cons_succ] at h
      have := ih j h
      rw [flatOffset_succ]
      simp only [List.map_cons, List.sum_cons]
      omega

theorem stepLoop_spec {α : Type} [Field α] (sqrt : α → α) (opt : AdamW α) (bc1 bc2 : α)
    (L : Nat) (ps : List (Parameter α)) :
    ∀ (offset : Nat) (m0 v0 : List α),
      (∀ p, p ∈ ps → p.Data.Data.length = p.Data.Size ∧ p.Data.Size ≤ p.Grad.Data.length) →
      m0.length = L → v0.length = L → offset + (ps.map (fun p => p.Data.Size)).sum ≤ L →
      ∃ ps' m v, stepLoop sqrt opt bc1 bc2 ps offset m0 v0 = some (ps', m, v) ∧
        ps'.length = ps.length ∧ m.length = L ∧ v.length = L ∧
        (∀ q, (q < offset ∨ offset + (ps.map (fun p => p.Data.Size)).sum ≤ q) →
          m[q]? = m0[q]? ∧ v[q]? = v0[q]?) ∧
        ∀ j p, ps[j]? = some p → ∃ d, ps'[j]? = some { p with Data := { p.Data with Data := d } } ∧
          d.length = p.Data.Size ∧
          ∀ i, i < p.Data.Size →
            m[offset + flatOffset ps j + i]? = some
              (adamM opt ((m0[offset + flatOffset ps j + i]?).getD 0) ((p.Grad.Data[i]?).getD 0)) ∧
            v[offset + flatOffset ps j + i]? = some
              (adamV opt ((v0[offset + flatOffset ps j + i]?).getD 0) ((p.Grad.Data[i]?).getD 0)) ∧
            d[i]? = some (adamW sqrt opt bc1 bc2 ((p.Data.Data[i]?).getD 0)
              (adamM opt ((m0[offset + flatOffset ps j + i]?).getD 0) ((p.Grad.Data[i]?).getD 0))
              (adamV opt ((v0[offset + flatOffset ps j + i]?).getD 0)
                ((p.Grad.Data[i]?).getD 0))) := by
  induction ps with
  | nil =>
    intro offset m0 v0 _ hm hv _
    exact ⟨[], m0, v0, rfl, rfl, hm, hv, fun _ _ => ⟨rfl, rfl⟩, fun j p h => by simp at h⟩
  | cons p ps ih =>
    intro offset m0 v0 hwf hm hv hoff
    simp only [List.map_cons, List.sum_cons] at hoff
    obtain ⟨hp1, hp2⟩ := hwf p (List.mem_cons_self _ _)
    obtain ⟨d, m1, v1, s1, sl1, sl2, sl3, sin, sout⟩ := stepParam_vals sqrt opt bc1 bc2
      p.Grad.Data p.Data.Size offset L p.Data.Data m0 v0 hp2 hp1 hm hv (by omega)
    obtain ⟨ps', m, v, r1, rl1, rl2, rl3, rout, rin⟩ := ih (offset + p.Data.Size) m1 v1
      (fun q hq => hwf q (List.mem_cons_of_mem _ hq)) sl2 sl3 (by omega)
    refine ⟨{ p with Data := { p.Data with Data := d } } :: ps', m, v, ?_, by simp [rl1], rl2,
      rl3, ?_, ?_⟩
    · simp only [stepLoop, s1, r1, Option.some_bind]
    · intro q hq
      simp only [List.map_cons, List.sum_cons] at hq
      obtain ⟨a1, a2⟩ := rout q (by omega)
      obtain ⟨b1, b2⟩ := sout q (by omega)
      exact ⟨a1.trans b1, a2.trans b2⟩
    · intro j q hj
      cases j with
      | zero =>
        simp only [List.getElem?_cons_zero, Option.some.injEq] at hj
        subst hj
        refine ⟨d, by simp, sl1, ?_⟩
        intro i hi
        rw [flatOffset_zero, Nat.add_zero]
        obtain ⟨a1, a2⟩ := rout (offset + i) (by omega)
        obtain ⟨c1, c2, c3⟩ := sin i hi
        exact ⟨a1.trans c1, a2.trans c2, c3⟩
      | succ j =>
        simp only [List.getElem?_cons_succ] at hj
        obtain ⟨d', e1, e2, e3⟩ := rin j q hj
        refine ⟨d', by simpa using e1, e2, ?_⟩
        intro i hi
        have hle := flatOffset_add_le ps j q hj
        have hpos : offset + flatOffset (p :: ps) (j + 1) + i
            = offset + p.Data.Size + flatOffset ps j + i := by
          rw [flatOffset_succ]; omega
        obtain ⟨b1, b2⟩ := sout (offset + p.Data.Size + flatOffset ps j + i) (by omega)
        obtain ⟨c1, c2, c3⟩ := e3 i hi
        rw [hpos, ← b1, ← b2]
        exact ⟨c1, c2, c3⟩

end optim
namespace optim

open tensor nn

/-- C26: one `AdamW.Step` (on parameters whose value and gradient buffers hold
`Size` elements, with moment buffers of the total size) sets the step counter
to `t = step + 1` and, for every parameter `j` and element `i` with value `w`,
gradient `g` and moments `m`, `v` stored at the flattened offset
`flatOffset j + i`, stores `m' = beta1*m + (1-beta1)*g` and
`v' = beta2*v + (1-beta2)*g^2` in those slots and the value
`(w - lr*wd*w) - (lr/(1-beta1^t)) * m' / (sqrt(v')/sqrt(1-beta2^t) + eps)`;
gradients, names, shapes, hyperparameters and buffer lengths are unchanged. -/
theorem AdamW_Step_spec {α : Type} [Field α] (sqrt : α → α) (opt : AdamW α)
    (hwf : ∀ p, p ∈ opt.Params →
      p.Data.Data.length = p.Data.Size ∧ p.Grad.Data.length = p.Data.Size)
    (hm : opt.m.length = (opt.Params.map (fun p => p.Data.Size)).sum)
    (hv : opt.v.length = (opt.Params.map (fun p => p.Data.Size)).sum) :
    ∃ opt', opt.Step sqrt = some opt' ∧ opt'.step = opt.step + 1 ∧
      (opt'.LR = opt.LR ∧ opt'.Beta1 = opt.Beta1 ∧ opt'.Beta2 = opt.Beta2 ∧
        opt'.Eps = opt.Eps ∧ opt'.WeightDecay = opt.WeightDecay) ∧
      opt'.Params.length = opt.Params.length ∧ opt'.m.length = opt.m.length ∧
      opt'.v.length = opt.v.length ∧
      ∀ j p, opt.Params[j]? = some p →
        ∃ p', opt'.Params[j]? = some p' ∧ p'.Grad = p.Grad ∧ p'.Name = p.Name ∧
          p'.Data.Shape = p.Data.Shape ∧ p'.Data.Size = p.Data.Size ∧
          p'.Data.Data.length = p.Data.Data.length ∧
          ∀ i w g m v, p.Data.Data[i]? = some w → p.Grad.Data[i]? = some g →
            opt.m[flatOffset opt.Params j + i]? = some m →
            opt.v[flatOffset opt.Params j + i]? = some v →
            opt'.m[flatOffset opt.Params j + i]? = some (opt.Beta1 * m + (1 - opt.Beta1) * g) ∧
            opt'.v[flatOffset opt.Params j + i]? = some (opt.Beta2 * v + (1 - opt.Beta2) * g ^ 2) ∧
            p'.Data.Data[i]? = some
              ((w - opt.LR * opt.WeightDecay * w)
                - (opt.LR / (1 - opt.Beta1 ^ (opt.step + 1)))
                  * (opt.Beta1 * m + (1 - opt.Beta1) * g)
                  / (sqrt (opt.Beta2 * v + (1 - opt.Beta2) * g ^ 2)
                      / sqrt (1 - opt.Beta2 ^ (opt.step + 1)) + opt.Eps)) := by
  obtain ⟨ps', m, v, r1, rl1, rl2, rl3, -, rin⟩ := stepLoop_spec sqrt opt
    (1 - opt.Beta1 ^ (opt.step + 1)) (1 - opt.Beta2 ^ (opt.step + 1)) opt.m.length opt.Params
    0 opt.m opt.v (fun p hp => ⟨(hwf p hp).1, le_of_eq (hwf p hp).2.symm⟩) rfl (by rw [hv, hm])
    (by rw [hm]; omega)
  refine ⟨{ opt with Params := ps', step := opt.step + 1, m := m, v := v },
    by rw [AdamW.Step, r1]; rfl, rfl, ⟨rfl, rfl, rfl, rfl, rfl⟩, rl1, rl2,
    by show v.length = _; rw [rl3, hv, hm], ?_⟩
  intro j p hj
  obtain ⟨d, e1, e2, e3⟩ := rin j p hj
  have hmem : p ∈ opt.Params := List.getElem?_mem hj
  refine ⟨_, e1, rfl, rfl, rfl, rfl, by rw [(hwf p hmem).1]; exact e2, ?_⟩
  intro i w g m₀ v₀ hw hg hm₀ hv₀
  have hi : i < p.Data.Size := by
    rw [← (hwf p hmem).1]
    by_contra hcon
    rw [List.getElem?_eq_none (by omega)] at hw
    exact Option.noConfusion hw
  obtain ⟨c1, c2, c3⟩ := e3 i hi
  simp only [Nat.zero_add] at c1 c2 c3
  rw [hw, hg, hm₀, hv₀] at c3
  rw [hg, hm₀] at c1
  rw [hg, hv₀] at c2
  simp only [Option.getD_some, adamM, adamV, adamW] at c1 c2 c3
  have hsq : (1 - opt.Beta2) * g * g = (1 - opt.Beta2) * g ^ 2 := by ring
  rw [hsq] at c2 c3
  refine ⟨c1, c2, ?_⟩
  show d[i]? = _
  rw [c3, mul_div_assoc]

theorem AdamW_Step_spec_witness :
    ∃ opt', (NewAdamW [⟨NewFromData [1, 2] [2], NewFromData [1, -1] [2], "weight"⟩,
          ⟨NewFromData [3] [1], NewFromData [2] [1], "bias"⟩] (1 / 10) : AdamW ℚ).Step
        (fun z => z) = some opt' ∧
      opt'.step = 1 ∧ opt'.Params.length = 2 ∧
      opt'.m[0 + 1]? = some ((9 / 10 * 0 + (1 - 9 / 10) * (-1) : ℚ)) ∧
      opt'.m[2 + 0]? = some ((9 / 10 * 0 + (1 - 9 / 10) * 2 : ℚ)) := by
  obtain ⟨opt', h1, h2, -, h3, -, -, h4⟩ := AdamW_Step_spec (fun z : ℚ => z)
    (NewAdamW [⟨NewFromData [1, 2] [2], NewFromData [1, -1] [2], "weight"⟩,
      ⟨NewFromData [3] [1], NewFromData [2] [1], "bias"⟩] (1 / 10))
    (by
      intro p hp
      simp only [NewAdamW, List.mem_cons, List.mem_singleton, List.not_mem_nil, or_false] at hp
      rcases hp with rfl | rfl <;> exact ⟨rfl, rfl⟩)
    rfl rfl
  obtain ⟨p0, -, -, -, -, -, -, a0⟩ := h4 0 _ rfl
  obtain ⟨p1, -, -, -, -, -, -, a1⟩ := h4 1 _ rfl
  exact ⟨opt', h1, h2, h3, (a0 1 2 (-1) 0 0 rfl rfl rfl rfl).1, (a1 0 3 2 0 0 rfl rfl rfl rfl).1⟩

end optim
namespace optim

open tensor nn

/-! ## `AdamW.ClipGradNorm` -/

theorem gradSqLoop_spec {α : Type} [Semiring α] (p : Parameter α) (t : α)
    (h : p.Grad.Data.length = p.Data.Size) :
    gradSqLoop p t = some (t + (p.Grad.Data.map (fun g => g * g)).sum) := by
  have key : ∀ n, n ≤ p.Grad.Data.length →
      forRange (fun i totalNorm =>
        (p.Grad.Data[i]?).bind (fun grad => some (totalNorm + grad * grad))) n t
        = some (t + ((p.Grad.Data.map (fun g => g * g)).take n).sum) := by
    intro n
    induction n with
    | zero => intro _; simp [forRange]
    | succ n ih =>
      intro hn
      have hlt : n < p.Grad.Data.length := by omega
      rw [forRange, ih (by omega), Option.some_bind, List.getElem?_eq_getElem hlt,
        Option.some_bind, List.take_succ, List.getElem?_map, List.getElem?_eq_getElem hlt]
      simp [add_assoc]
  have e := key _ (Nat.le_refl _)
  rw [List.take_of_length_le (by simp), h] at e
  exact e

theorem totalNormLoop_spec {α : Type} [Semiring α] (ps : List (Parameter α)) :
    ∀ t : α, (∀ p, p ∈ ps → p.Grad.Data.length = p.Data.Size) →
      totalNormLoop ps t = some (t + gradSqSum ps) := by
  induction ps with
  | nil => intro t _; simp [totalNormLoop, gradSqSum]
  | cons p ps ih =>
    intro t h
    simp only [totalNormLoop, gradSqLoop_spec p t (h p (List.mem_cons_self _ _)),
      Option.some_bind]
    rw [ih _ (fun q hq => h q (List.mem_cons_of_mem _ hq))]
    simp [gradSqSum, add_assoc]

theorem clipParam_spec {α : Type} [Semiring α] (c : α) (p : Parameter α)
    (h : p.Grad.Data.length = p.Data.Size) :
    clipParam c p
      = some { p with Grad := { p.Grad with Data := p.Grad.Data.map (fun g => g * c) } } := by
  obtain ⟨d, h1, h2, h3⟩ := timesLoop_spec c p.Grad.Data
  have hd : d = p.Grad.Data.map (fun g => g * c) := by
    apply List.ext_getElem?
    intro i
    by_cases hi : i < p.Grad.Data.length
    · rw [h3 i hi, List.getElem?_map]
    · rw [List.getElem?_eq_none (by omega), List.getElem?_eq_none (by simp; omega)]
  unfold clipParam
  rw [← h, h1, hd]
  rfl

theorem clipLoop_spec {α : Type} [Semiring α] (c : α) (ps : List (Parameter α))
    (h : ∀ p, p ∈ ps → p.Grad.Data.length = p.Data.Size) :
    clipLoop c ps = some (ps.map (fun p =>
      { p with Grad := { p.Grad with Data := p.Grad.Data.map (fun g => g * c) } })) := by
  induction ps with
  | nil => rfl
  | cons p ps ih =>
    simp only [clipLoop, clipParam_spec c p (h p (List.mem_cons_self _ _)), Option.some_bind,
      ih (fun q hq => h q (List.mem_cons_of_mem _ hq)), List.map_cons]

/-- C27: on parameters whose gradient buffers hold `Size` elements,
`ClipGradNorm(maxNorm)` returns; with `norm` the square root of the sum of the
squares of all gradient elements of all parameters, the optimizer is left as
it is if `maxNorm ≤ 0` or `norm ≤ maxNorm`, and otherwise every gradient
element of every parameter is multiplied by `maxNorm / (norm + 1e-6)` and
nothing else changes (values, names, shapes, moments). -/
theorem ClipGradNorm_spec {α : Type} [LinearOrderedField α] (sqrt : α → α) (opt : AdamW α)
    (maxNorm : α) (hwf : ∀ p, p ∈ opt.Params → p.Grad.Data.length = p.Data.Size) :
    ((maxNorm ≤ 0 ∨ sqrt (gradSqSum opt.Params) ≤ maxNorm) →
      opt.ClipGradNorm sqrt maxNorm = some opt) ∧
    ((0 < maxNorm ∧ maxNorm < sqrt (gradSqSum opt.Params)) →
      opt.ClipGradNorm sqrt maxNorm = some
        { opt with
          Params := opt.Params.map (fun p =>
            { p with
              Grad := { p.Grad with
                Data := p.Grad.Data.map (fun g =>
                  g * (maxNorm / (sqrt (gradSqSum opt.Params) + 1 / 1000000))) } }) }) := by
  have ht := totalNormLoop_spec opt.Params (0 : α) hwf
  rw [zero_add] at ht
  constructor
  · intro h
    unfold AdamW.ClipGradNorm
    by_cases h0 : maxNorm ≤ 0
    · rw [if_pos h0]
    · rw [if_neg h0, ht, Option.some_bind]
      rcases h with h | h
      · exact absurd h h0
      · rw [if_neg (not_lt.mpr h)]
  · rintro ⟨h0, h1⟩
    unfold AdamW.ClipGradNorm
    rw [if_neg (not_le.mpr h0), ht, Option.some_bind, if_pos h1, clipLoop_spec _ _ hwf]
    rfl

theorem ClipGradNorm_spec_witness :
    (NewAdamW [⟨NewFromData [1, 2] [2], NewFromData [1, -1] [2], "weight"⟩,
        ⟨NewFromData [3] [1], NewFromData [2] [1], "bias"⟩] (1 / 10) : AdamW ℚ).ClipGradNorm
        (fun z => z) 1
      = some
        { (NewAdamW [⟨NewFromData [1, 2] [2], NewFromData [1, -1] [2], "weight"⟩,
            ⟨NewFromData [3] [1], NewFromData [2] [1], "bias"⟩] (1 / 10) : AdamW ℚ) with
          Params := (NewAdamW [⟨NewFromData [1, 2] [2], NewFromData [1, -1] [2], "weight"⟩,
              ⟨NewFromData [3] [1], NewFromData [2] [1], "bias"⟩] (1 / 10) :
                AdamW ℚ).Params.map (fun p =>
            { p with
              Grad := { p.Grad with
                Data := p.Grad.Data.map (fun g =>
                  g * (1 / ((fun z : ℚ => z) (gradSqSum
                    (NewAdamW [⟨NewFromData [1, 2] [2], NewFromData [1, -1] [2], "weight"⟩,
                      ⟨NewFromData [3] [1], NewFromData [2] [1], "bias"⟩] (1 / 10) :
                        AdamW ℚ).Params) + 1 / 1000000))) } }) } :=
  (ClipGradNorm_spec (fun z : ℚ => z)
    (NewAdamW [⟨NewFromData [1, 2] [2], NewFromData [1, -1] [2], "weight"⟩,
      ⟨NewFromData [3] [1], NewFromData [2] [1], "bias"⟩] (1 / 10)) 1
    (by
      intro p hp
      simp only [NewAdamW, List.mem_cons, List.mem_singleton, List.not_mem_nil, or_false] at hp
      rcases hp with rfl | rfl <;> rfl)).2
    ⟨by norm_num, by
      simp [gradSqSum, NewAdamW, NewFromData, New, shapeSize]
      norm_num⟩

end optim

namespace tensor

/-! ## Sampling: `TopK`, `TopP`, `SampleMultinomial` -/

theorem enum_getElem? {α : Type} (l : List α) (i : Nat) :
    l.enum[i]? = (l[i]?).map (fun x => (i, x)) := by
  rw [List.enum, List.getElem?_enumFrom]
  simp

theorem mem_enum_iff {α : Type} (l : List α) (pr : Nat × α) :
    pr ∈ l.enum ↔ l[pr.1]? = some pr.2 := by
  obtain ⟨i, x⟩ := pr
  exact List.mk_mem_enum_iff_getElem?

theorem keepLoop_spec {α : Type} (pairs : List (Nat × α)) (logitsData : List α) (count : Nat)
    (d0 : List α) (hc : count ≤ pairs.length) (hd : d0.length = logitsData.length)
    (hp : ∀ pr, pr ∈ pairs → pr.1 < logitsData.length) :
    ∃ d, keepLoop pairs logitsData count d0 = some d ∧ d.length = d0.length ∧
      ∀ j, d[j]? = if j ∈ (pairs.take count).map (fun pr => pr.1) then logitsData[j]?
        else d0[j]? := by
  obtain ⟨d, h1, hl, hin, hout⟩ := loop_rel count logitsData.length
    (fun i d => do
      let pr ← pairs[i]?
      let x ← logitsData[pr.1]?
      setIdx d pr.1 x)
    (fun i p v => ∃ pr, pairs[i]? = some pr ∧ p = pr.1 ∧ logitsData[p]? = some v) d0
    (by
      rintro r r' p v v' - - ⟨_, _, _, e1⟩ ⟨_, _, _, e2⟩
      rw [e1] at e2
      exact Option.some.inj e2)
    (by
      intro i s hi hs
      have hlt : i < pairs.length := by omega
      have e1 : pairs[i]? = some pairs[i] := List.getElem?_eq_getElem hlt
      have hidx : pairs[i].1 < logitsData.length := hp _ (List.getElem_mem hlt)
      have e2 : logitsData[pairs[i].1]? = some logitsData[pairs[i].1] :=
        List.getElem?_eq_getElem hidx
      refine ⟨s.set pairs[i].1 logitsData[pairs[i].1], ?_, by simpa using hs, ?_, ?_⟩
      · simp [e1, e2, setIdx_eq_some _ _ _ (by omega : pairs[i].1 < s.length)]
      · rintro p v ⟨pr, a1, a2, a3⟩
        rw [e1] at a1
        obtain rfl := Option.some.inj a1
        subst a2
        rw [e2] at a3
        obtain rfl := Option.some.inj a3
        rw [List.getElem?_set_self (by omega)]
      · intro p hp'
        rw [List.getElem?_set_ne]
        intro e
        exact hp' _ ⟨pairs[i], e1, e.symm, by rw [← e]; exact e2⟩)
    hd
  refine ⟨d, h1, by rw [hl, hd], ?_⟩
  intro j
  by_cases hj : j ∈ (pairs.take count).map (fun pr => pr.1)
  · rw [if_pos hj]
    obtain ⟨pr, hpr, rfl⟩ := List.mem_map.mp hj
    obtain ⟨i, hi, e⟩ := List.getElem_of_mem hpr
    have hi' : i < count := by
      rw [List.length_take] at hi
      omega
    have e' : pairs[i]? = some pr := by
      rw [← e, List.getElem_take, List.getElem?_eq_getElem]
    have hidx : pr.1 < logitsData.length := hp pr (List.mem_of_mem_take hpr)
    rw [hin i pr.1 logitsData[pr.1] hi' ⟨pr, e', rfl, List.getElem?_eq_getElem hidx⟩,
      List.getElem?_eq_getElem hidx]
  · rw [if_neg hj]
    apply hout
    rintro i v hi ⟨pr, a1, a2, -⟩
    apply hj
    rw [List.mem_map]
    refine ⟨pr, ?_, a2.symm⟩
    rw [List.mem_iff_getElem?]
    exact ⟨i, by rw [List.getElem?_take_of_lt hi]; exact a1⟩

end tensor
namespace tensor

theorem rowMaxLoop_eq_max {α : Type} [LinearOrderedField α] (d : List α) (n i0 : Nat) (x : α)
    (hn : n ≤ d.length) (hi : i0 < n) (hx : d[i0]? = some x) (hlow : -maxFloat32 ≤ x)
    (hle : ∀ j y, j < n → d[j]? = some y → y ≤ x) :
    rowMaxLoop d 0 n = some x := by
  obtain ⟨mv, h1, h2, h3⟩ := forRange_inv
    (fun i maxVal => do
      let y ← d[0 + i]?
      some (if y > maxVal then y else maxVal))
    (fun k mv => mv ≤ x ∧ (i0 < k → mv = x)) n (-maxFloat32)
    ⟨hlow, fun h => absurd h (Nat.not_lt_zero _)⟩
    (by
      intro k mv hk ⟨a1, a2⟩
      have hlt : k < d.length := by omega
      have hy : d[k] ≤ x := hle k _ hk (List.getElem?_eq_getElem hlt)
      refine ⟨if d[k] > mv then d[k] else mv, by simp [List.getElem?_eq_getElem hlt], ?_, ?_⟩
      · split
        · exact hy
        · exact a1
      · intro hik
        by_cases he : i0 = k
        · subst he
          rw [List.getElem?_eq_getElem hlt] at hx
          obtain rfl := Option.some.inj hx
          split
          · rfl
          · rename_i hng
            exact le_antisymm a1 (not_lt.mp hng)
        · have hmv := a2 (by omega)
          rw [hmv, if_neg (not_lt.mpr hy)])
  unfold rowMaxLoop
  rw [h1, h3 hi]

theorem sampleLoop_zeros {α : Type} [LinearOrderedField α] (r : α) (hr : 0 ≤ r) (k : Nat)
    (rest : List α) (i : Nat) :
    sampleLoop r (List.replicate k 0 ++ rest) i 0 = sampleLoop r rest (i + k) 0 := by
  induction k generalizing i with
  | zero => simp
  | succ k ih =>
    rw [List.replicate_succ, List.cons_append, sampleLoop, add_zero, if_neg (not_lt.mpr hr), ih]
    congr 1
    omega

theorem onehot_eq {α : Type} [Zero α] [One α] (l : List α) (n i : Nat) (hl : l.length = n)
    (hi : i < n) (h : ∀ j, j < n → l[j]? = some (if j = i then 1 else 0)) :
    l = List.replicate i 0 ++ 1 :: List.replicate (n - i - 1) 0 := by
  apply List.ext_getElem?
  intro j
  by_cases hj : j < n
  · rw [h j hj]
    by_cases h1 : j < i
    · rw [if_neg (by omega), List.getElem?_append_left (by simpa using h1),
        List.getElem?_replicate, if_pos h1]
    · rw [List.getElem?_append_right (by simpa using h1)]
      simp only [List.length_replicate]
      by_cases h2 : j = i
      · subst h2
        simp
      · obtain ⟨m, hm⟩ : ∃ m, j - i = m + 1 := ⟨j - i - 1, by omega⟩
        rw [if_neg h2, hm, List.getElem?_cons_succ, List.getElem?_replicate, if_pos (by omega)]
  · rw [List.getElem?_eq_none (by omega), List.getElem?_eq_none (by simp; omega)]

theorem SampleMultinomial_onehot {α : Type} [LinearOrderedField α] (r : α) (probs : NDArray α)
    (n i : Nat) (hl : probs.Data.length = n) (hi : i < n)
    (h : ∀ j, j < n → probs.Data[j]? = some (if j = i then 1 else 0))
    (hr0 : 0 ≤ r) (hr1 : r < 1) :
    SampleMultinomial r probs = (i : Int) := by
  unfold SampleMultinomial
  rw [onehot_eq probs.Data n i hl hi h, sampleLoop_zeros r hr0, sampleLoop, zero_add, if_pos hr1,
    Nat.zero_add]

theorem Softmax_onehot {α : Type} [LinearOrderedField α] (ex : α → α) (negInf : α)
    (t : NDArray α) (n i0 : Nat) (x : α) (ht : t.WF) (hs : t.Shape = [n]) (hi : i0 < n)
    (hx : t.Data[i0]? = some x) (hother : ∀ j, j < n → j ≠ i0 → t.Data[j]? = some negInf)
    (hlow : -maxFloat32 ≤ x) (hneg : negInf ≤ x) (hex0 : ex 0 = 1)
    (hexInf : ex (negInf - x) = 0) :
    ∃ probs, Softmax ex t = some probs ∧ probs.Data.length = n ∧
      ∀ j, j < n → probs.Data[j]? = some (if j = i0 then 1 else 0) := by
  obtain ⟨probs, p1, -, -, -, p5, p6⟩ := Softmax_rows ex t [] n ht (by simpa using hs)
    (by omega)
  simp only [List.prod_nil, Nat.one_mul] at p5 p6
  have hlen : t.Data.length = n := by rw [ht.2.1, ht.1, hs]; simp
  have hmax : rowMaxLoop t.Data 0 n = some x := by
    apply rowMaxLoop_eq_max t.Data n i0 x (le_of_eq hlen.symm) hi hx hlow
    intro j y hj hy
    by_cases he : j = i0
    · subst he
      rw [hx] at hy
      exact le_of_eq (Option.some.inj hy).symm
    · rw [hother j hj he] at hy
      rw [← Option.some.inj hy]
      exact hneg
  have hval : ∀ j, j < n →
      ex ((t.Data[j]?).getD 0 - x) = if j = i0 then 1 else 0 := by
    intro j hj
    by_cases he : j = i0
    · subst he
      rw [hx, Option.getD_some, sub_self, hex0, if_pos rfl]
    · rw [hother j hj he, Option.getD_some, hexInf, if_neg he]
  have hsum : (∑ j in Finset.range n, ex ((t.Data[j]?).getD 0 - x)) = 1 := by
    have e : (∑ j in Finset.range n, ex ((t.Data[j]?).getD 0 - x))
        = ∑ j in Finset.range n, if j = i0 then (1 : α) else 0 :=
      Finset.sum_congr rfl (fun j hj => hval j (Finset.mem_range.mp hj))
    rw [e, Finset.sum_ite_eq', if_pos (Finset.mem_range.mpr hi)]
  refine ⟨probs, p1, p5, ?_⟩
  intro j hj
  have h := p6 0 j Nat.zero_lt_one hj
  rw [Nat.zero_mul] at h
  simp only [hmax, Option.getD_some, Nat.zero_add] at h
  rw [h, hsum, div_one, hval j hj]

end tensor
namespace tensor

theorem sorted_head_max {α : Type} [LinearOrderedField α] (sortSlice : List (Nat × α) → List (Nat × α))
    (hsort : ∀ l, (sortSlice l).Perm l ∧ (sortSlice l).Pairwise (fun a b => b.2 ≤ a.2))
    (data : List α) (pr0 : Nat × α) (rest : List (Nat × α))
    (hp : sortSlice data.enum = pr0 :: rest) :
    data[pr0.1]? = some pr0.2 ∧ ∀ y, y ∈ data → y ≤ pr0.2 := by
  obtain ⟨h1, h2⟩ := hsort data.enum
  rw [hp] at h1 h2
  refine ⟨(mem_enum_iff data pr0).mp (h1.subset (List.mem_cons_self _ _)), ?_⟩
  intro y hy
  obtain ⟨j, hj⟩ := List.mem_iff_getElem?.mp hy
  have hmem : (j, y) ∈ pr0 :: rest := h1.symm.subset ((mem_enum_iff data (j, y)).mpr hj)
  rcases List.mem_cons.mp hmem with e | e
  · rw [← e]
  · exact (List.pairwise_cons.mp h2).1 _ e

/-- C29: for a non-empty vector of logits that are finite (not below
`-MaxFloat32`), with `sort.Slice` returning a permutation in descending order,
`negInf` below every finite value, `exp(0) = 1` and `exp(negInf - y) = 0`:
`Softmax(TopK(logits, 1))` gives probability `1` to an index `i` that holds the
maximum logit and `0` to every other index, and `SampleMultinomial` returns
`i` for every draw `r` with `0 ≤ r < 1`. -/
theorem TopK_one_argmax {α : Type} [LinearOrderedField α]
    (sortSlice : List (Nat × α) → List (Nat × α)) (negInf : α) (ex : α → α)
    (logits : NDArray α) (n : Nat) (ht : logits.WF) (hs : logits.Shape = [n]) (hn : 1 ≤ n)
    (hsort : ∀ l, (sortSlice l).Perm l ∧ (sortSlice l).Pairwise (fun a b => b.2 ≤ a.2))
    (hfin : ∀ y, y ∈ logits.Data → -maxFloat32 ≤ y) (hneg : negInf < -maxFloat32)
    (hex0 : ex 0 = 1) (hexInf : ∀ y, -maxFloat32 ≤ y → ex (negInf - y) = 0) :
    ∃ i x filtered probs, i < n ∧ logits.Data[i]? = some x ∧ (∀ y, y ∈ logits.Data → y ≤ x) ∧
      TopK sortSlice negInf logits 1 = some filtered ∧ Softmax ex filtered = some probs ∧
      (∀ j, j < n → probs.Data[j]? = some (if j = i then 1 else 0)) ∧
      ∀ r, 0 ≤ r → r < 1 → SampleMultinomial r probs = (i : Int) := by
  have hlen : logits.Data.length = n := by rw [ht.2.1, ht.1, hs]; simp
  by_cases h1 : n = 1
  · -- a single logit: `TopK` returns the logits themselves
    subst h1
    have hx : logits.Data[0]? = some logits.Data[0] := List.getElem?_eq_getElem (by omega)
    have hmemx : logits.Data[0] ∈ logits.Data := List.getElem_mem _
    obtain ⟨probs, p1, p2, p3⟩ := Softmax_onehot ex negInf logits 1 0 logits.Data[0] ht hs
      Nat.zero_lt_one hx (fun j hj hne => absurd (by omega) hne) (hfin _ hmemx)
      (le_of_lt (lt_of_lt_of_le hneg (hfin _ hmemx))) hex0 (hexInf _ (hfin _ hmemx))
    refine ⟨0, logits.Data[0], logits, probs, Nat.zero_lt_one, hx, ?_, ?_, p1, p3, ?_⟩
    · intro y hy
      obtain ⟨j, hj⟩ := List.mem_iff_getElem?.mp hy
      have hj0 : j = 0 := by
        by_contra hne
        rw [List.getElem?_eq_none (by omega)] at hj
        exact Option.noConfusion hj
      subst hj0
      rw [hx] at hj
      exact le_of_eq (Option.some.inj hj).symm
    · unfold TopK
      rw [if_pos (Or.inr (by omega))]
    · intro r hr0 hr1
      exact SampleMultinomial_onehot r probs 1 0 p2 Nat.zero_lt_one p3 hr0 hr1
  · -- at least two logits: the first pair of the sorted list is kept
    obtain ⟨hperm, -⟩ := hsort logits.Data.enum
    have hplen : (sortSlice logits.Data.enum).length = n := by
      rw [hperm.length_eq, List.enum_length, hlen]
    obtain ⟨pr0, rest, hp⟩ : ∃ pr0 rest, sortSlice logits.Data.enum = pr0 :: rest := by
      cases hc : sortSlice logits.Data.enum with
      | nil => rw [hc] at hplen; simp at hplen; omega
      | cons a b => exact ⟨a, b, rfl⟩
    obtain ⟨hx, hmax⟩ := sorted_head_max sortSlice hsort logits.Data pr0 rest hp
    have hi : pr0.1 < n := by
      rw [← hlen]
      by_contra hcon
      rw [List.getElem?_eq_none (by omega)] at hx
      exact Option.noConfusion hx
    have hlow : -maxFloat32 ≤ pr0.2 := hfin _ (List.getElem?_mem hx)
    have hd0 : ((New logits.Shape : NDArray α).Data.map (fun _ => negInf)).length
        = logits.Data.length := by
      rw [List.length_map, (New_facts _).2.2.2, List.length_replicate, hs, hlen]; simp
    obtain ⟨d, k1, k2, k3⟩ := keepLoop_spec (sortSlice logits.Data.enum) logits.Data 1
      ((New logits.Shape : NDArray α).Data.map (fun _ => negInf)) (by omega) hd0
      (by
        intro pr hpr
        have h := (mem_enum_iff logits.Data pr).mp (hperm.subset hpr)
        by_contra hcon
        rw [List.getElem?_eq_none (by omega)] at h
        exact Option.noConfusion h)
    have hdj : ∀ j, j < n → d[j]? = if j = pr0.1 then some pr0.2 else some negInf := by
      intro j hj
      rw [k3 j, hp]
      simp only [List.take_succ_cons, List.take_zero, List.map_cons, List.map_nil,
        List.mem_singleton]
      by_cases he : j = pr0.1
      · rw [if_pos he, if_pos he, he, hx]
      · rw [if_neg he, if_neg he, List.getElem?_map, (New_facts _).2.2.2,
          List.getElem?_replicate, if_pos (by rw [hs]; simpa using hj)]
        rfl
    obtain ⟨fs, fwf, fd⟩ := transformer.New_with_facts logits.Shape d
      (by rw [k2, hd0, hlen, hs]; simp)
    obtain ⟨probs, p1, p2, p3⟩ := Softmax_onehot ex negInf
      ({ (New logits.Shape : NDArray α) with Data := d } : NDArray α) n pr0.1 pr0.2 fwf
      (by rw [fs, hs]) hi (by rw [fd, hdj _ hi, if_pos rfl])
      (fun j hj hne => by rw [fd, hdj j hj, if_neg hne]) hlow
      (le_of_lt (lt_of_lt_of_le hneg hlow)) hex0 (hexInf _ hlow)
    refine ⟨pr0.1, pr0.2, _, probs, hi, hx, hmax, ?_, p1, p3, ?_⟩
    · unfold TopK
      rw [if_neg (by rw [hlen]; omega), k1]
      rfl
    · intro r hr0 hr1
      exact SampleMultinomial_onehot r probs n pr0.1 p2 hi p3 hr0 hr1

end tensor
namespace tensor

theorem insertionSort_contract (l : List (Nat × ℚ)) :
    (l.insertionSort (fun a b => b.2 ≤ a.2)).Perm l ∧
      (l.insertionSort (fun a b => b.2 ≤ a.2)).Pairwise (fun a b => b.2 ≤ a.2) := by
  haveI : IsTotal (Nat × ℚ) (fun a b => b.2 ≤ a.2) := ⟨fun a b => le_total b.2 a.2⟩
  haveI : IsTrans (Nat × ℚ) (fun a b => b.2 ≤ a.2) := ⟨fun a b c h1 h2 => le_trans h2 h1⟩
  exact ⟨List.perm_insertionSort _ l, List.sorted_insertionSort _ l⟩

/-- An instance of `TopK_one_argmax` over the rationals: the logits `[1, 5, 3]`,
insertion sort for `sort.Slice`, `-10^39` for negative infinity and an
exponential that rounds to zero below `-100`. -/
theorem TopK_one_argmax_witness :
    ∃ (i : Nat) (x : ℚ) (filtered probs : NDArray ℚ), i < 3 ∧ (NewFromData [1, 5, 3] [3] : NDArray ℚ).Data[i]? = some x ∧
      (∀ y, y ∈ (NewFromData [1, 5, 3] [3] : NDArray ℚ).Data → y ≤ x) ∧
      TopK (fun l => l.insertionSort (fun a b => b.2 ≤ a.2))
        (-1000000000000000000000000000000000000000) (NewFromData [1, 5, 3] [3]) 1
        = some filtered ∧
      Softmax (fun z : ℚ => if z < -100 then 0 else 1) filtered = some probs ∧
      (∀ j, j < 3 → probs.Data[j]? = some (if j = i then 1 else 0)) ∧
      ∀ r, 0 ≤ r → r < 1 → SampleMultinomial r probs = (i : Int) :=
  TopK_one_argmax (fun l => l.insertionSort (fun a b => b.2 ≤ a.2))
    (-1000000000000000000000000000000000000000) (fun z : ℚ => if z < -100 then 0 else 1)
    (NewFromData [1, 5, 3] [3]) 3 ⟨rfl, rfl, rfl⟩ rfl (by decide) insertionSort_contract
    (by
      intro y hy
      have hd : (NewFromData [1, 5, 3] [3] : NDArray ℚ).Data = [1, 5, 3] := rfl
      rw [hd] at hy
      simp only [List.mem_cons, List.mem_singleton, List.not_mem_nil, or_false] at hy
      rcases hy with rfl | rfl | rfl <;> norm_num [maxFloat32])
    (by norm_num [maxFloat32]) (by norm_num)
    (by
      intro y hy
      have hy' : -340282346638528859811704183484516925440 ≤ y := by
        simpa [maxFloat32] using hy
      show (if (-1000000000000000000000000000000000000000 : ℚ) - y < -100 then (0 : ℚ) else 1) = 0
      rw [if_pos (by linarith)])

end tensor
namespace tensor

theorem cutoffLoop_spec {α : Type} [LinearOrderedField α] (p : α) (l : List (Nat × α)) :
    ∀ (i : Nat) (c0 : α),
      (∀ k, cutoffLoop p l i c0 = some k →
        ∃ m, m < l.length ∧ k = i + m + 1 ∧
          p ≤ c0 + ((l.take (m + 1)).map (fun pr => pr.2)).sum ∧
          ∀ m', m' < m → c0 + ((l.take (m' + 1)).map (fun pr => pr.2)).sum < p) ∧
      (cutoffLoop p l i c0 = none →
        ∀ m', m' < l.length → c0 + ((l.take (m' + 1)).map (fun pr => pr.2)).sum < p) := by
  induction l with
  | nil =>
    intro i c0
    exact ⟨fun k h => by simp [cutoffLoop] at h, fun _ m' h => absurd h (Nat.not_lt_zero _)⟩
  | cons pr rest ih =>
    intro i c0
    by_cases hc : c0 + pr.2 ≥ p
    · refine ⟨?_, ?_⟩
      · intro k hk
        rw [cutoffLoop, if_pos hc] at hk
        refine ⟨0, by simp, (Option.some.inj hk).symm, by simpa using hc,
          fun m' h => absurd h (Nat.not_lt_zero _)⟩
      · intro h
        rw [cutoffLoop, if_pos hc] at h
        exact Option.noConfusion h
    · obtain ⟨ih1, ih2⟩ := ih (i + 1) (c0 + pr.2)
      have hstep : ∀ m, c0 + (((pr :: rest).take (m + 1)).map (fun pr => pr.2)).sum
          = if m = 0 then c0 + pr.2
            else c0 + pr.2 + ((rest.take m).map (fun pr => pr.2)).sum := by
        intro m
        cases m with
        | zero => simp
        | succ m => simp [add_assoc]
      refine ⟨?_, ?_⟩
      · intro k hk
        rw [cutoffLoop, if_neg hc] at hk
        obtain ⟨m, a1, a2, a3, a4⟩ := ih1 k hk
        refine ⟨m + 1, by simpa using a1, by omega, ?_, ?_⟩
        · rw [hstep, if_neg (by omega)]
          exact a3
        · intro m' hm'
          rw [hstep]
          cases m' with
          | zero => rw [if_pos rfl]; exact not_le.mp hc
          | succ m' =>
            rw [if_neg (by omega)]
            exact a4 m' (by omega)
      · intro h m' hm'
        rw [cutoffLoop, if_neg hc] at h
        rw [hstep]
        cases m' with
        | zero => rw [if_pos rfl]; exact not_le.mp hc
        | succ m' =>
          rw [if_neg (by omega)]
          exact ih2 h m' (by simpa using hm')

theorem cutoff_spec {α : Type} [LinearOrderedField α] (p : α) (l : List (Nat × α))
    (hl : 1 ≤ l.length) :
    1 ≤ (cutoffLoop p l 0 0).getD l.length ∧ (cutoffLoop p l 0 0).getD l.length ≤ l.length ∧
    (p ≤ ((l.take ((cutoffLoop p l 0 0).getD l.length)).map (fun pr => pr.2)).sum ∨
      (cutoffLoop p l 0 0).getD l.length = l.length) ∧
    ∀ c, 1 ≤ c → c < (cutoffLoop p l 0 0).getD l.length →
      ((l.take c).map (fun pr => pr.2)).sum < p := by
  obtain ⟨h1, h2⟩ := cutoffLoop_spec p l 0 0
  cases hc : cutoffLoop p l 0 0 with
  | none =>
    refine ⟨hl, Nat.le_refl _, Or.inr rfl, ?_⟩
    intro c hc1 hc2
    obtain ⟨m, rfl⟩ : ∃ m, c = m + 1 := ⟨c - 1, by omega⟩
    have hc2' : m + 1 < l.length := by simpa [hc] using hc2
    have := h2 hc m (by omega)
    rwa [zero_add] at this
  | some k =>
    obtain ⟨m, a1, a2, a3, a4⟩ := h1 k hc
    simp only [Option.getD_some]
    subst a2
    refine ⟨by omega, by omega, Or.inl ?_, ?_⟩
    · rw [zero_add] at a3
      simpa using a3
    · intro c hc1 hc2
      obtain ⟨m', rfl⟩ : ∃ m', c = m' + 1 := ⟨c - 1, by omega⟩
      have := a4 m' (by omega)
      rwa [zero_add] at this

/-- C30: for a non-empty vector of logits (with `sort.Slice` returning a
permutation in descending order), `TopP` returns the logits unchanged for
`p ≥ 1`; for `p < 1`, with `order` the index-probability pairs of
`Softmax(logits)` in the descending order of the sort, it keeps the first `c`
pairs, where `c ≥ 1` is the least count whose cumulative probability reaches
`p` (all `n` if none does): the output has the shape of the logits, holds the
original logit at the kept indices and `negInf` everywhere else. -/
theorem TopP_spec {α : Type} [LinearOrderedField α]
    (sortSlice : List (Nat × α) → List (Nat × α)) (negInf : α) (ex : α → α)
    (logits : NDArray α) (n : Nat) (p : α) (ht : logits.WF) (hs : logits.Shape = [n])
    (hn : 1 ≤ n)
    (hsort : ∀ l, (sortSlice l).Perm l ∧ (sortSlice l).Pairwise (fun a b => b.2 ≤ a.2)) :
    (1 ≤ p → TopP sortSlice negInf ex logits p = some logits) ∧
    (p < 1 → ∃ probs order c out, Softmax ex logits = some probs ∧
      order = sortSlice probs.Data.enum ∧ order.Perm probs.Data.enum ∧
      order.Pairwise (fun a b => b.2 ≤ a.2) ∧
      1 ≤ c ∧ c ≤ n ∧
      (p ≤ ((order.take c).map (fun pr => pr.2)).sum ∨ c = n) ∧
      (∀ c', 1 ≤ c' → c' < c → ((order.take c').map (fun pr => pr.2)).sum < p) ∧
      TopP sortSlice negInf ex logits p = some out ∧ out.Shape = logits.Shape ∧
      ∀ j, j < n → out.Data[j]? =
        if j ∈ (order.take c).map (fun pr => pr.1) then logits.Data[j]? else some negInf) := by
  constructor
  · intro hp
    unfold TopP
    rw [if_pos hp]
  · intro hp
    have hlen : logits.Data.length = n := by rw [ht.2.1, ht.1, hs]; simp
    obtain ⟨probs, p1, -, -, -, p5, -⟩ := Softmax_rows ex logits [] n ht (by simpa using hs)
      (by omega)
    simp only [List.prod_nil, Nat.one_mul] at p5
    obtain ⟨hperm, hpair⟩ := hsort probs.Data.enum
    have hplen : (sortSlice probs.Data.enum).length = n := by
      rw [hperm.length_eq, List.enum_length, p5]
    obtain ⟨c1, c2, c3, c4⟩ := cutoff_spec p (sortSlice probs.Data.enum) (by omega)
    have hd0 : ((New logits.Shape : NDArray α).Data.map (fun _ => negInf)).length
        = logits.Data.length := by
      rw [List.length_map, (New_facts _).2.2.2, List.length_replicate, hs, hlen]; simp
    obtain ⟨d, k1, k2, k3⟩ := keepLoop_spec (sortSlice probs.Data.enum) logits.Data
      ((cutoffLoop p (sortSlice probs.Data.enum) 0 0).getD (sortSlice probs.Data.enum).length)
      ((New logits.Shape : NDArray α).Data.map (fun _ => negInf)) c2 hd0
      (by
        intro pr hpr
        have h := (mem_enum_iff probs.Data pr).mp (hperm.subset hpr)
        rw [hlen, ← p5]
        by_contra hcon
        rw [List.getElem?_eq_none (by omega)] at h
        exact Option.noConfusion h)
    refine ⟨probs, _, _, { (New logits.Shape : NDArray α) with Data := d }, p1, rfl, hperm,
      hpair, c1, by rw [← hplen]; exact c2, ?_, c4, ?_, (New_facts (α := α) _).1, ?_⟩
    · rcases c3 with h | h
      · exact Or.inl h
      · exact Or.inr (by rw [h, hplen])
    · unfold TopP
      rw [if_neg (not_le.mpr hp), p1, Option.some_bind, k1]
      rfl
    · intro j hj
      show d[j]? = _
      rw [k3 j]
      split
      · rfl
      · rw [List.getElem?_map, (New_facts _).2.2.2, List.getElem?_replicate,
          if_pos (by rw [hs]; simpa using hj)]
        rfl

end tensor
namespace tensor

/-- An instance of `TopP_spec` over the rationals: the logits `[1, 5, 3]` with
`p = 1/2`, insertion sort for `sort.Slice`, `-10^39` for negative infinity and
an exponential that rounds to zero below `-100`. -/
theorem TopP_spec_witness :
    ∃ (probs : NDArray ℚ) (order : List (Nat × ℚ)) (c : Nat) (out : NDArray ℚ),
      Softmax (fun z : ℚ => if z < -100 then 0 else 1) (NewFromData [1, 5, 3] [3]) = some probs ∧
      order = (probs.Data.enum).insertionSort (fun a b => b.2 ≤ a.2) ∧
      order.Perm probs.Data.enum ∧ order.Pairwise (fun a b => b.2 ≤ a.2) ∧
      1 ≤ c ∧ c ≤ 3 ∧
      ((1 / 2 : ℚ) ≤ ((order.take c).map (fun pr => pr.2)).sum ∨ c = 3) ∧
      (∀ c', 1 ≤ c' → c' < c → ((order.take c').map (fun pr => pr.2)).sum < 1 / 2) ∧
      TopP (fun l => l.insertionSort (fun a b => b.2 ≤ a.2))
        (-1000000000000000000000000000000000000000)
        (fun z : ℚ => if z < -100 then 0 else 1) (NewFromData [1, 5, 3] [3]) (1 / 2) = some out ∧
      out.Shape = (NewFromData [1, 5, 3] [3] : NDArray ℚ).Shape ∧
      ∀ j, j < 3 → out.Data[j]? =
        if j ∈ (order.take c).map (fun pr => pr.1)
        then (NewFromData [1, 5, 3] [3] : NDArray ℚ).Data[j]?
        else some (-1000000000000000000000000000000000000000) :=
  (TopP_spec (fun l => l.insertionSort (fun a b => b.2 ≤ a.2))
    (-1000000000000000000000000000000000000000) (fun z : ℚ => if z < -100 then 0 else 1)
    (NewFromData [1, 5, 3] [3]) 3 (1 / 2) ⟨rfl, rfl, rfl⟩ rfl (by decide)
    insertionSort_contract).2 (by norm_num)

end tensor

namespace nn

open tensor

/-! ## The constructors give the parameters their shapes -/

theorem NewRandom_facts {α : Type} [Zero α] (rnd : Nat → α) (k : Nat) (shape : List Nat) :
    (NewRandom rnd k shape).1.WF ∧ (NewRandom rnd k shape).1.Shape = shape := by
  obtain ⟨h1, h2, h3, h4⟩ := New_facts (α := α) shape
  refine ⟨⟨?_, ?_, ?_⟩, h1⟩
  · show (New shape : NDArray α).Size = (New shape : NDArray α).Shape.prod
    rw [h2, h1]
  · show ((List.range (New shape : NDArray α).Data.length).map (fun i => rnd (k + i))).length
      = (New shape : NDArray α).Size
    rw [List.length_map, List.length_range, h4, List.length_replicate, h2]
  · show (New shape : NDArray α).Strides = computeStrides (New shape : NDArray α).Shape
    rw [h3, h1, computeStrides_eq]

theorem New_WF {α : Type} [Zero α] (shape : List Nat) :
    (New shape : NDArray α).WF ∧ (New shape : NDArray α).Shape = shape := by
  obtain ⟨h1, h2, h3, h4⟩ := New_facts (α := α) shape
  exact ⟨⟨by rw [h2, h1], by rw [h4, List.length_replicate, h2],
    by rw [h3, h1, computeStrides_eq]⟩, h1⟩

theorem NewFull_WF {α : Type} [Zero α] (val : α) (shape : List Nat) :
    (NewFull val shape : NDArray α).WF ∧ (NewFull val shape : NDArray α).Shape = shape := by
  obtain ⟨h1, h2, h3, h4⟩ := New_facts (α := α) shape
  refine ⟨⟨?_, ?_, ?_⟩, h1⟩
  · show (New shape : NDArray α).Size = (New shape : NDArray α).Shape.prod
    rw [h2, h1]
  · show ((New shape : NDArray α).Data.map (fun _ => val)).length = (New shape : NDArray α).Size
    rw [List.length_map, h4, List.length_replicate, h2]
  · show (New shape : NDArray α).Strides = computeStrides (New shape : NDArray α).Shape
    rw [h3, h1, computeStrides_eq]

theorem NewLinear_shaped {α : Type} [Field α] (rnd : Nat → α) (k inF outF : Nat) :
    (NewLinear rnd k inF outF).1.Shaped inF outF := by
  obtain ⟨⟨w1, w2, w3⟩, ws⟩ := NewRandom_facts rnd k [outF, inF]
  obtain ⟨bwf, bs⟩ := New_WF (α := α) [outF]
  refine ⟨⟨w1, ?_, w3⟩, ws, bwf, bs⟩
  show ((NewRandom rnd k [outF, inF]).1.Data.map _).length = (NewRandom rnd k [outF, inF]).1.Size
  rw [List.length_map]
  exact w2

theorem NewEmbedding_shaped {α : Type} [Zero α] (rnd : Nat → α) (k V E : Nat) :
    (NewEmbedding rnd k V E).1.Shaped V E :=
  NewRandom_facts rnd k [V, E]

theorem NewLayerNorm_shaped {α : Type} [Field α] (dim : Nat) :
    (NewLayerNorm dim : LayerNorm α).Shaped dim :=
  ⟨(NewFull_WF 1 [dim]).1, (NewFull_WF 1 [dim]).2, (NewFull_WF 0 [dim]).1, (NewFull_WF 0 [dim]).2⟩

end nn

namespace transformer

open tensor nn

theorem NewBlock_shaped {α : Type} [Field α] (rnd : Nat → α) (k : Nat) (cfg : Config α) :
    (NewBlock rnd k cfg).1.Shaped cfg :=
  ⟨NewLayerNorm_shaped _, NewLinear_shaped _ _ _ _, NewLinear_shaped _ _ _ _, rfl,
    NewLayerNorm_shaped _, NewLinear_shaped _ _ _ _, NewLinear_shaped _ _ _ _⟩

theorem newBlocks_shaped {α : Type} [Field α] (rnd : Nat → α) (cfg : Config α) (n : Nat) :
    ∀ k b, b ∈ (newBlocks rnd cfg n k).1 → b.Shaped cfg := by
  induction n with
  | zero => intro k b hb; simp [newBlocks] at hb
  | succ n ih =>
    intro k b hb
    simp only [newBlocks, List.mem_cons] at hb
    rcases hb with rfl | hb
    · exact NewBlock_shaped rnd k cfg
    · exact ih _ b hb

theorem NewGPT_shaped {α : Type} [Field α] (rnd : Nat → α) (k : Nat) (cfg : Config α) :
    (NewGPT rnd k cfg).1.Shaped ∧ (NewGPT rnd k cfg).1.Config = cfg :=
  ⟨⟨NewEmbedding_shaped _ _ _ _, NewEmbedding_shaped _ _ _ _,
    fun b hb => newBlocks_shaped rnd cfg _ _ b hb, NewLayerNorm_shaped _,
    NewLinear_shaped _ _ _ _⟩, rfl⟩

/-! ## No check that the head count divides the embedding width -/

/-- C21: the configuration `NEmb = 3`, `NHead = 2`, whose head count does not
divide the embedding width. `NewCausalSelfAttention` builds the layer (it is a
total function that makes no check), and `Forward` on an input of shape
`[1, 2, 3]` returns an output of shape `[1, 2, 3]` rather than failing: it runs
with the truncated head dimension `3 / 2 = 1`, so the two heads fill only the
first two of the three columns passed to the output projection and the third
column stays zero. -/
theorem Attention_no_divisibility_check (rnd : Nat → ℚ) (ex sqrt : ℚ → ℚ) (k : Nat) :
    ∃ c out pre,
      (NewCausalSelfAttention rnd k (⟨5, 4, 1, 2, 3, 0⟩ : Config ℚ)).1.Forward ex sqrt
          (NewFromData [1, 2, 3, 4, 5, 6] [1, 2, 3]) = some (c, out) ∧
      out.Shape = [1, 2, 3] ∧ ¬ (2 ∣ 3) ∧
      c.CProj.input = some pre ∧ pre.Shape = [1, 2, 3] ∧
      pre.Data[2]? = some 0 ∧ pre.Data[5]? = some 0 := by
  obtain ⟨a1, a2, a3, a4⟩ := NewLinear_shaped rnd k 3 (3 * 3)
  obtain ⟨b1, b2, b3, b4⟩ := NewLinear_shaped rnd (NewLinear rnd k 3 (3 * 3)).2 3 3
  obtain ⟨q, kk, v, att, probs, pre, out, -, -, F, -, -, ⟨ps, -⟩, -, hz, ⟨os, -⟩, -, -, -⟩ :=
    Attention_Forward_ok ex sqrt (NewCausalSelfAttention rnd k (⟨5, 4, 1, 2, 3, 0⟩ : Config ℚ)).1
      (NewFromData [1, 2, 3, 4, 5, 6] [1, 2, 3]) 1 2 3 2 1 3 a1 a2 a3 a4 b1 b2 b3 b4
      ⟨rfl, rfl, rfl⟩ rfl (by decide) (by decide) rfl (by decide) (by decide)
  refine ⟨_, out, pre, F, os, by decide, rfl, ps, ?_, ?_⟩
  · exact hz 0 0 2 (by decide) (by decide) (by decide) (by decide)
  · exact hz 0 1 2 (by decide) (by decide) (by decide) (by decide)

end transformer

namespace transformer

open tensor nn

/-! ## `GPT.Parameters` -/

theorem foldl_append_params {α : Type} (bs : List (Block α)) (acc : List (Parameter α)) :
    bs.foldl (fun params b => params ++ b.Parameters) acc
      = acc ++ (bs.map (fun b => b.Parameters)).flatten := by
  induction bs generalizing acc with
  | nil => simp
  | cons b bs ih => simp [ih, List.append_assoc]

theorem newBlocks_length {α : Type} [Field α] (rnd : Nat → α) (cfg : Config α) (n : Nat) :
    ∀ k, (newBlocks rnd cfg n k).1.length = n := by
  induction n with
  | zero => intro k; rfl
  | succ n ih => intro k; simp [newBlocks, ih]

/-- C23: `GPT.Parameters` returns the parameters in the order token embedding,
position embedding, then for each block in index order (LN1 gamma, LN1 beta,
CAttn W, CAttn B, CProj W, CProj B, LN2 gamma, LN2 beta, FC1 W, FC1 B, FC2 W,
FC2 B), then final LayerNorm gamma, beta, then LMHead W, B; these are
`12 * len(Blocks) + 6` parameters, and a model built by `NewGPT(cfg)` has
`cfg.NLayer` blocks. (`Parameters` is a function of the model and leaves it
unchanged, so repeated calls return the same list.) -/
theorem GPT_Parameters_spec {α : Type} [Field α] :
    (∀ gpt : GPT α, gpt.Parameters = specParameters gpt ∧
      gpt.Parameters.length = 12 * gpt.Blocks.length + 6) ∧
    (∀ (rnd : Nat → α) (k : Nat) (cfg : Config α),
      (NewGPT rnd k cfg).1.Blocks.length = cfg.NLayer ∧
      (NewGPT rnd k cfg).1.Parameters.length = 12 * cfg.NLayer + 6) := by
  have h1 : ∀ gpt : GPT α, gpt.Parameters = specParameters gpt := by
    intro gpt
    unfold GPT.Parameters specParameters
    rw [foldl_append_params]
    simp [Block.Parameters, LayerNorm.Parameters, CausalSelfAttention.Parameters,
      Linear.Parameters, MLP.Parameters, Embedding.Parameters]
  have h2 : ∀ gpt : GPT α, gpt.Parameters.length = 12 * gpt.Blocks.length + 6 := by
    intro gpt
    rw [h1, specParameters]
    have e : ∀ bs : List (Block α), ((bs.map (fun b =>
        [b.LN1.Gamma, b.LN1.Beta, b.Attn.CAttn.W, b.Attn.CAttn.B, b.Attn.CProj.W,
          b.Attn.CProj.B, b.LN2.Gamma, b.LN2.Beta, b.MLP.FC1.W, b.MLP.FC1.B, b.MLP.FC2.W,
          b.MLP.FC2.B])).flatten).length = 12 * bs.length := by
      intro bs
      induction bs with
      | nil => rfl
      | cons b bs ih =>
        simp only [List.map_cons, List.flatten_cons, List.length_append, ih, List.length_cons,
          List.length_nil]
        omega
    simp only [List.length_append, e, List.length_cons, List.length_nil]
    omega
  refine ⟨fun gpt => ⟨h1 gpt, h2 gpt⟩, ?_⟩
  intro rnd k cfg
  have hb : (NewGPT rnd k cfg).1.Blocks.length = cfg.NLayer := by
    simp [NewGPT, newBlocks_length]
  exact ⟨hb, by rw [h2, hb]⟩

end transformer

namespace checkpoint

open tensor nn transformer

/-! ## Checkpoint restoration -/

/-- C24: a source and a target model of the configuration `VocabSize = 2`,
`BlockSize = 3`, `NLayer = 0`, `NEmb = 1`. The records that `SaveCheckpoint`
writes for the source are restored into the target by name; both embedding
tables carry the name `"embedding"`, so `paramMap` addresses the position
embedding for both records: the record of the token embedding is skipped (its
length `2` differs from `3`) and the token embedding of the target keeps its
data `[0, 0]` instead of the source's `[1, 2]`. -/
theorem LoadCheckpoint_misses_embedding :
    (LoadCheckpoint
        (SaveCheckpoint
          (⟨⟨2, 3, 0, 1, 1, 0⟩,
            ⟨⟨NewFromData [1, 2] [2, 1], New [2, 1], "embedding"⟩, []⟩,
            ⟨⟨NewFromData [3, 4, 5] [3, 1], New [3, 1], "embedding"⟩, []⟩,
            ⟨0, none⟩, [],
            ⟨⟨NewFromData [6] [1], New [1], "ln_gamma"⟩, ⟨NewFromData [7] [1], New [1], "ln_beta"⟩,
              0, none, [], []⟩,
            ⟨⟨NewFromData [8, 9] [2, 1], New [2, 1], "weight"⟩,
              ⟨NewFromData [10, 11] [2], New [2], "bias"⟩, none⟩⟩ : GPT ℤ))
        (⟨⟨2, 3, 0, 1, 1, 0⟩,
          ⟨⟨New [2, 1], New [2, 1], "embedding"⟩, []⟩,
          ⟨⟨New [3, 1], New [3, 1], "embedding"⟩, []⟩,
          ⟨0, none⟩, [],
          ⟨⟨New [1], New [1], "ln_gamma"⟩, ⟨New [1], New [1], "ln_beta"⟩, 0, none, [], []⟩,
          ⟨⟨New [2, 1], New [2, 1], "weight"⟩, ⟨New [2], New [2], "bias"⟩, none⟩⟩ : GPT ℤ)).map
      (fun p => (p.Name, p.Data.Data))
      = [("embedding", [0, 0]), ("embedding", [3, 4, 5]), ("ln_gamma", [6]), ("ln_beta", [7]),
          ("weight", [8, 9]), ("bias", [10, 11])] := by
  decide

end checkpoint

namespace tensor

/-! ## Shapes through `Add` and `Dropout` -/

theorem Add_ok {α : Type} [Semiring α] (a b : NDArray α) (ha : a.WF) (hb : b.WF)
    (hs : b.Shape = a.Shape) :
    ∃ out, Add a b = some out ∧ out.Shape = a.Shape ∧ out.WF := by
  have hla : a.Data.length = a.Shape.prod := by rw [ha.2.1, ha.1]
  have hlb : b.Data.length = a.Shape.prod := by rw [hb.2.1, hb.1, hs]
  have hn : (New a.Shape : NDArray α).Data.length = a.Shape.prod := by
    rw [(New_facts _).2.2.2, List.length_replicate]
  obtain ⟨d, h1, hl, -, -⟩ := loop_set (New a.Shape : NDArray α).Data.length
    (fun i d => do
      let x ← a.Data[i]?
      let y ← b.Data[i]?
      setIdx d i (x + y))
    (fun i => (a.Data[i]?).getD 0 + (b.Data[i]?).getD 0) (New a.Shape : NDArray α).Data
    (by
      intro i d hi hid
      have h1 : i < a.Data.length := by omega
      have h2 : i < b.Data.length := by omega
      simp [List.getElem?_eq_getElem h1, List.getElem?_eq_getElem h2, setIdx_eq_some _ _ _ hid])
    (Nat.le_refl _)
  obtain ⟨es, ewf, -⟩ := transformer.New_with_facts a.Shape d (by rw [hl, hn])
  refine ⟨_, ?_, es, ewf⟩
  unfold Add
  rw [h1]
  rfl

theorem Dropout_ok {α : Type} [LinearOrderedField α] (rnd : Nat → α) (t : NDArray α) (p : α)
    (ht : t.WF) :
    ∃ out mask, Dropout rnd t p = some (out, mask) ∧ out.Shape = t.Shape ∧ out.WF := by
  have hn : (New t.Shape : NDArray α).Data.length = t.Data.length := New_data_length t ht
  obtain ⟨⟨o, m⟩, h1, hl1, hl2⟩ := forRange_inv
    (fun i (q : List α × List α) =>
      if rnd i > p then do
        let m ← setIdx q.2 i 1
        let x ← t.Data[i]?
        let o ← setIdx q.1 i (x * (1 / (1 - p)))
        some (o, m)
      else do
        let m ← setIdx q.2 i 0
        let o ← setIdx q.1 i 0
        some (o, m))
    (fun _ q => q.1.length = t.Data.length ∧ q.2.length = t.Data.length) t.Data.length
    ((New t.Shape : NDArray α).Data, (New t.Shape : NDArray α).Data) ⟨hn, hn⟩
    (by
      rintro i ⟨o, m⟩ hi ⟨h1, h2⟩
      simp only at h1 h2
      have ho : i < o.length := by omega
      have hm : i < m.length := by omega
      by_cases hr : rnd i > p
      · refine ⟨(o.set i (t.Data[i] * (1 / (1 - p))), m.set i 1), ?_, by simpa using h1,
          by simpa using h2⟩
        simp [hr, List.getElem?_eq_getElem hi, setIdx_eq_some _ _ _ ho, setIdx_eq_some _ _ _ hm]
      · refine ⟨(o.set i 0, m.set i 0), ?_, by simpa using h1, by simpa using h2⟩
        simp [hr, setIdx_eq_some _ _ _ ho, setIdx_eq_some _ _ _ hm])
  obtain ⟨es, ewf, -⟩ := transformer.New_with_facts t.Shape o (by rw [hl1, ht.2.1, ht.1])
  refine ⟨{ (New t.Shape : NDArray α) with Data := o }, { (New t.Shape : NDArray α) with Data := m },
    ?_, es, ewf⟩
  unfold Dropout
  rw [h1]
  rfl

end tensor

namespace nn

open tensor

theorem Dropout_ForwardAt_ok {α : Type} [LinearOrderedField α] (rnd : Nat → α) (k : Nat)
    (d : Dropout α) (x : NDArray α) (hx : x.WF) :
    ∃ d' out k', d.ForwardAt rnd k x = some (d', out, k') ∧ out.Shape = x.Shape ∧ out.WF := by
  unfold Dropout.ForwardAt Dropout.Forward
  by_cases h0 : d.P = 0
  · simp only [if_pos h0, Option.map_some']
    exact ⟨d, x, k, rfl, rfl, hx⟩
  · obtain ⟨out, mask, h1, h2, h3⟩ := Dropout_ok (fun i => rnd (k + i)) x d.P hx
    simp only [if_neg h0, h1, Option.bind_eq_bind, Option.some_bind, Option.map_some']
    exact ⟨_, out, _, rfl, h2, h3⟩

theorem ForwardIndices_wf {α : Type} [Zero α] (e : Embedding α) (indices : List Nat)
    (B T V E : Nat) (hW : e.Weight.Data.Shape = [V, E]) (hWl : e.Weight.Data.Data.length = V * E)
    (hidx : ∀ i, i < indices.length → (indices[i]?).getD 0 < V)
    (hlen : indices.length ≤ B * T) :
    ∃ e' out, e.ForwardIndices indices B T = some (e', out) ∧ out.Shape = [B, T, E] ∧ out.WF := by
  obtain ⟨out, h1, h2, h3, -⟩ := Embedding_Forward_ok e indices B T V E hW hWl hidx hlen
  refine ⟨_, out, h1, h2, ?_⟩
  have h := h1
  unfold Embedding.ForwardIndices at h
  rw [hW] at h
  simp only [List.getElem?_cons_succ, List.getElem?_cons_zero, Option.bind_eq_bind,
    Option.some_bind] at h
  cases hf : forRange (fun i d => (indices[i]?).bind (fun idx =>
      forRange (fun j d => (e.Weight.Data.Data[idx * E + j]?).bind (fun v =>
        setIdx d (i * E + j) v)) E d)) indices.length (New [B, T, E] : NDArray α).Data with
  | none =>
    rw [hf] at h
    exact Option.noConfusion h
  | some d =>
    rw [hf] at h
    simp only [Option.some_bind, Option.some.injEq, Prod.mk.injEq] at h
    obtain ⟨-, h⟩ := h
    have hd : d.length = ([B, T, E] : List Nat).prod := by
      have : out.Data = d := by rw [← h]
      rw [← this, h3]
      simp [Nat.mul_assoc]
    obtain ⟨-, ewf, -⟩ := transformer.New_with_facts [B, T, E] d hd
    rw [← h]
    exact ewf

end nn

namespace nn

open tensor

/-! ## `MLP.Forward` -/

theorem MLP_Forward_ok {α : Type} [LinearOrderedField α] (sqrt th : α → α) (pi : α)
    (rnd : Nat → α) (k : Nat) (m : MLP α) (x : NDArray α) (dims : List Nat) (E : Nat)
    (h1 : m.FC1.Shaped E (4 * E)) (h2 : m.FC2.Shaped (4 * E) E) (hx : x.WF)
    (hs : x.Shape = dims ++ [E]) (hE : 0 < E) :
    ∃ m' out k', m.Forward sqrt th pi rnd k x = some (m', out, k') ∧
      out.Shape = dims ++ [E] ∧ out.WF := by
  obtain ⟨a1, a2, a3, a4⟩ := h1
  obtain ⟨b1, b2, b3, b4⟩ := h2
  obtain ⟨o1, f1, s1, w1, -⟩ := Linear_Forward_ok m.FC1 x dims (4 * E) E a1 a2 a3 a4 hx hs hE
  have hg := GELUWithCache_ok sqrt th pi o1 w1
  have gwf : (⟨o1.Data.map (geluValue sqrt th pi), o1.Shape, o1.Strides, o1.Size⟩ : NDArray α).WF :=
    ⟨w1.1, by simp [w1.2.1], w1.2.2⟩
  obtain ⟨o2, f2, s2, w2, -⟩ := Linear_Forward_ok m.FC2
    (⟨o1.Data.map (geluValue sqrt th pi), o1.Shape, o1.Strides, o1.Size⟩ : NDArray α) dims E
    (4 * E) b1 b2 b3 b4 gwf s1 (by omega)
  obtain ⟨d', o3, k', f3, s3, w3⟩ := Dropout_ForwardAt_ok rnd k m.Drop o2 w2
  unfold MLP.Forward
  simp only [f1, hg, f2, f3, Option.bind_eq_bind, Option.some_bind]
  exact ⟨_, _, _, rfl, by rw [s3, s2], w3⟩

end nn

namespace transformer

open tensor nn

/-! ## `Block.Forward` and `GPT.Forward` return -/

theorem Block_Forward_ok {α : Type} [LinearOrderedField α] (ex sqrt th : α → α) (pi : α)
    (rnd : Nat → α) (k : Nat) (b : Block α) (cfg : Config α) (x : NDArray α) (B T : Nat)
    (hb : b.Shaped cfg) (hx : x.WF) (hs : x.Shape = [B, T, cfg.NEmb]) (hT : 0 < T)
    (hE : 0 < cfg.NEmb) (hH : 0 < cfg.NHead) :
    ∃ b' out k', b.Forward ex sqrt th pi rnd k x = some (b', out, k') ∧
      out.Shape = [B, T, cfg.NEmb] ∧ out.WF := by
  obtain ⟨⟨l1, l2, l3, l4⟩, ⟨c1, c2, c3, c4⟩, ⟨p1, p2, p3, p4⟩, hN, ⟨m1, m2, m3, m4⟩, hf1, hf2⟩ := hb
  have hlen : ∀ (t : NDArray α), t.WF → t.Shape = [cfg.NEmb] → cfg.NEmb ≤ t.Data.length := by
    intro t ht hts
    rw [ht.2.1, ht.1, hts]
    simp
  obtain ⟨n1, ms1, rs1, f1, s1, w1, -⟩ := LayerNorm_Forward_ok sqrt b.LN1 x [B, T] cfg.NEmb hx
    (by simpa using hs) hE (hlen _ l1 l2) (hlen _ l3 l4)
  obtain ⟨q, kk, v, att, probs, pre, a, -, -, f2, -, -, -, -, -, ⟨s2, w2⟩, -, -, -⟩ :=
    Attention_Forward_ok ex sqrt b.Attn n1 B T cfg.NEmb cfg.NHead (cfg.NEmb / cfg.NHead) cfg.NEmb
      c1 c2 c3 c4 p1 p2 p3 p4 w1 (by rw [s1, hs]) hE hT hN hH rfl
  obtain ⟨d1, o1, k1, f3, s3, w3⟩ := Dropout_ForwardAt_ok rnd k b.Drop1 a w2
  obtain ⟨x1, f4, s4, w4⟩ := Add_ok x o1 hx w3 (by rw [s3, s2, hs])
  obtain ⟨n2, ms2, rs2, f5, s5, w5, -⟩ := LayerNorm_Forward_ok sqrt b.LN2 x1 [B, T] cfg.NEmb w4
    (by rw [s4, hs]; rfl) hE (hlen _ m1 m2) (hlen _ m3 m4)
  obtain ⟨m', o2, k2, f6, s6, w6⟩ := MLP_Forward_ok sqrt th pi rnd k1 b.MLP n2 [B, T] cfg.NEmb
    hf1 hf2 w5 (by rw [s5, s4, hs]; rfl) hE
  obtain ⟨d2, o3, k3, f7, s7, w7⟩ := Dropout_ForwardAt_ok rnd k2 b.Drop2 o2 w6
  obtain ⟨x2, f8, s8, w8⟩ := Add_ok x1 o3 w4 w7 (by rw [s7, s6, s4, hs]; rfl)
  unfold Block.Forward
  simp only [f1, f2, f3, f4, f5, f6, f7, f8, Option.bind_eq_bind, Option.some_bind]
  exact ⟨_, _, _, rfl, by rw [s8, s4, hs], w8⟩

theorem blocksForward_ok {α : Type} [LinearOrderedField α] (ex sqrt th : α → α) (pi : α)
    (rnd : Nat → α) (cfg : Config α) (B T : Nat) (hT : 0 < T) (hE : 0 < cfg.NEmb)
    (hH : 0 < cfg.NHead) (bs : List (Block α)) :
    ∀ (k : Nat) (x : NDArray α), (∀ b, b ∈ bs → b.Shaped cfg) → x.WF →
      x.Shape = [B, T, cfg.NEmb] →
      ∃ bs' out k', blocksForward ex sqrt th pi rnd bs k x = some (bs', out, k') ∧
        out.Shape = [B, T, cfg.NEmb] ∧ out.WF := by
  induction bs with
  | nil =>
    intro k x _ hx hs
    exact ⟨[], x, k, rfl, hs, hx⟩
  | cons b bs ih =>
    intro k x hb hx hs
    obtain ⟨b', o, k1, f1, s1, w1⟩ := Block_Forward_ok ex sqrt th pi rnd k b cfg x B T
      (hb b (List.mem_cons_self _ _)) hx hs hT hE hH
    obtain ⟨bs', o2, k2, f2, s2, w2⟩ := ih k1 o (fun c hc => hb c (List.mem_cons_of_mem _ hc)) w1 s1
    refine ⟨b' :: bs', o2, k2, ?_, s2, w2⟩
    simp only [blocksForward, f1, f2, Option.some_bind]

theorem flatIdxLoop_ok {α : Type} (toInt : α → Int) (idxData : List α) (n V : Nat)
    (h : ∀ i, i < n → ∃ v, idxData[i]? = some v ∧ 0 ≤ toInt v ∧ toInt v < (V : Int)) :
    ∃ l, flatIdxLoop toInt idxData n = some l ∧ l.length = n ∧
      ∀ i, i < l.length → (l[i]?).getD 0 < V := by
  obtain ⟨l, h1, hl, hin, -⟩ := loop_set n
    (fun i flatIdx => do
      let v ← idxData[i]?
      if toInt v < 0 then none else setIdx flatIdx i (toInt v).toNat)
    (fun i => ((idxData[i]?).map (fun v => (toInt v).toNat)).getD 0) (List.replicate n 0)
    (by
      intro i d hi hid
      obtain ⟨v, e1, e2, -⟩ := h i hi
      simp [e1, not_lt.mpr e2, setIdx_eq_some _ _ _ hid])
    (by simp)
  refine ⟨l, h1, by simpa using hl, ?_⟩
  intro i hi
  have hi' : i < n := by rw [hl] at hi; simpa using hi
  obtain ⟨v, e1, e2, e3⟩ := h i hi'
  rw [hin i hi', e1]
  simp only [Option.map_some', Option.getD_some]
  omega

theorem flatPosLoop_ok (B T : Nat) (hT : 0 < T) :
    ∃ l, flatPosLoop B T = some l ∧ l.length = B * T ∧
      ∀ i, i < l.length → (l[i]?).getD 0 < T := by
  obtain ⟨l, h1, hl, hv⟩ := forRange_inv
    (fun b flatPos => forRange (fun t flatPos => setIdx flatPos (b * T + t) t) T flatPos)
    (fun _ l => l.length = B * T ∧ ∀ i, i < l.length → (l[i]?).getD 0 < T) B
    (List.replicate (B * T) 0)
    ⟨by simp, by
      intro i hi
      rw [List.getElem?_replicate, if_pos (by simpa using hi)]
      exact hT⟩
    (by
      intro b l hb ⟨hl, hv⟩
      obtain ⟨l', g1, gl, gv⟩ := forRange_inv
        (fun t flatPos => setIdx flatPos (b * T + t) t)
        (fun _ l => l.length = B * T ∧ ∀ i, i < l.length → (l[i]?).getD 0 < T) T l ⟨hl, hv⟩
        (by
          intro t l ht ⟨hl, hv⟩
          have hlt : b * T + t < l.length := by rw [hl]; exact idx2_lt hb ht
          refine ⟨l.set (b * T + t) t, setIdx_eq_some _ _ _ hlt, by simpa using hl, ?_⟩
          intro i hi
          have hi' : i < l.length := by simpa using hi
          by_cases he : b * T + t = i
          · rw [he, List.getElem?_set_self hi']
            exact ht
          · rw [List.getElem?_set_ne he]
            exact hv i hi')
      exact ⟨l', g1, gl, gv⟩)
  exact ⟨l, h1, hl, hv⟩

/-- The first part of `GPT.Forward`, up to and including the dropout on the sum
of the token and position embeddings. -/
theorem GPT_embed_ok {α : Type} [LinearOrderedField α] (toInt : α → Int) (rnd : Nat → α)
    (k : Nat) (gpt : GPT α) (idx : NDArray α) (B T : Nat)
    (hte : gpt.WTE.Shaped gpt.Config.VocabSize gpt.Config.NEmb)
    (hpe : gpt.WPE.Shaped gpt.Config.BlockSize gpt.Config.NEmb)
    (hT : 0 < T) (hTB : T ≤ gpt.Config.BlockSize)
    (hid : ∀ i, i < B * T → ∃ v, idx.Data[i]? = some v ∧ 0 ≤ toInt v ∧
      toInt v < (gpt.Config.VocabSize : Int)) :
    ∃ fi te tok fp pe pos x d' x1 k1,
      flatIdxLoop toInt idx.Data (B * T) = some fi ∧
      gpt.WTE.ForwardIndices fi B T = some (te, tok) ∧
      flatPosLoop B T = some fp ∧
      gpt.WPE.ForwardIndices fp B T = some (pe, pos) ∧
      tensor.Add tok pos = some x ∧
      gpt.Drop.ForwardAt rnd k x = some (d', x1, k1) ∧
      x1.Shape = [B, T, gpt.Config.NEmb] ∧ x1.WF := by
  obtain ⟨e1, e2⟩ := hte
  obtain ⟨e3, e4⟩ := hpe
  have hlen2 : ∀ (t : NDArray α) (a b : Nat), t.WF → t.Shape = [a, b] → t.Data.length = a * b := by
    intro t a b ht hts
    rw [ht.2.1, ht.1, hts]
    simp
  obtain ⟨fi, i1, i2, i3⟩ := flatIdxLoop_ok toInt idx.Data (B * T) gpt.Config.VocabSize hid
  obtain ⟨te, tok, t1, t2, t3⟩ := ForwardIndices_wf gpt.WTE fi B T gpt.Config.VocabSize
    gpt.Config.NEmb e2 (hlen2 _ _ _ e1 e2) i3 (le_of_eq i2)
  obtain ⟨fp, q1, q2, q3⟩ := flatPosLoop_ok B T hT
  obtain ⟨pe, pos, r1, r2, r3⟩ := ForwardIndices_wf gpt.WPE fp B T gpt.Config.BlockSize
    gpt.Config.NEmb e4 (hlen2 _ _ _ e3 e4) (fun i hi => lt_of_lt_of_le (q3 i hi) hTB)
    (le_of_eq q2)
  obtain ⟨x, a1, a2, a3⟩ := Add_ok tok pos t3 r3 (by rw [r2, t2])
  obtain ⟨d', x1, k1, d1, d2, d3⟩ := Dropout_ForwardAt_ok rnd k gpt.Drop x a3
  exact ⟨fi, te, tok, fp, pe, pos, x, d', x1, k1, i1, t1, q1, r1, a1, d1,
    by rw [d2, a2, t2], d3⟩

/-! ## A layer of width zero -/

theorem Block_Forward_zero {α : Type} [LinearOrderedField α] (ex sqrt th : α → α) (pi : α)
    (rnd : Nat → α) (k : Nat) (b : Block α) (x : NDArray α) (B T : Nat)
    (hs : x.Shape = [B, T, 0]) : b.Forward ex sqrt th pi rnd k x = none := by
  unfold Block.Forward
  rw [LayerNorm_Forward_zero sqrt b.LN1 x [B, T] hs]
  rfl

theorem GPT_Forward_zero {α : Type} [LinearOrderedField α] (ex sqrt th : α → α) (pi : α)
    (toInt : α → Int) (rnd : Nat → α) (k : Nat) (gpt : GPT α) (idx : NDArray α) (B T : Nat)
    (hg : gpt.Shaped) (hE : gpt.Config.NEmb = 0)
    (hs : idx.Shape = [B, T]) (hT : 0 < T) (hTB : T ≤ gpt.Config.BlockSize)
    (hid : ∀ i, i < B * T → ∃ v, idx.Data[i]? = some v ∧ 0 ≤ toInt v ∧
      toInt v < (gpt.Config.VocabSize : Int)) :
    gpt.Forward ex sqrt th pi toInt rnd k idx = none := by
  obtain ⟨fi, te, tok, fp, pe, pos, x, d', x1, k1, i1, t1, q1, r1, a1, d1, d2, d3⟩ :=
    GPT_embed_ok toInt rnd k gpt idx B T hg.1 hg.2.1 hT hTB hid
  rw [hE] at d2
  unfold GPT.Forward GPT.embed
  rw [hs]
  simp only [List.getElem?_cons_zero, List.getElem?_cons_succ, Option.bind_eq_bind,
    Option.some_bind, i1, t1, q1, r1, a1, d1]
  cases hb : gpt.Blocks with
  | nil =>
    simp only [blocksForward, Option.some_bind]
    rw [LayerNorm_Forward_zero sqrt gpt.LNF x1 [B, T] d2]
    rfl
  | cons b bs =>
    simp only [blocksForward, Block_Forward_zero ex sqrt th pi rnd k1 b x1 B T d2,
      Option.none_bind]

/-! ## `GPT.Forward` returns logits of shape `[B, T, VocabSize]` -/

/-- C22 (amended). For every model whose parameters have the shapes `NewGPT(cfg)`
gives them (`NewGPT_shaped`), with `NEmb ≥ 1` and `NHead ≥ 1` dividing `NEmb`,
and every token tensor of shape `[B, T]` with `1 ≤ T ≤ BlockSize` whose `B*T`
ids are in `[0, VocabSize)`, `GPT.Forward` returns, and the logits are a
well-formed tensor of shape exactly `[B, T, VocabSize]`; the `NHead` heads of
width `NEmb / NHead` make up the whole width `NEmb`. -/
theorem GPT_Forward_spec {α : Type} [LinearOrderedField α] (ex sqrt th : α → α) (pi : α)
    (toInt : α → Int) (rnd : Nat → α) (k : Nat) (gpt : GPT α) (idx : NDArray α) (B T : Nat)
    (hg : gpt.Shaped) (hE : 1 ≤ gpt.Config.NEmb) (hH : 1 ≤ gpt.Config.NHead)
    (hdiv : gpt.Config.NHead ∣ gpt.Config.NEmb)
    (hs : idx.Shape = [B, T]) (hT : 1 ≤ T) (hTB : T ≤ gpt.Config.BlockSize)
    (hid : ∀ i, i < B * T → ∃ v, idx.Data[i]? = some v ∧ 0 ≤ toInt v ∧
      toInt v < (gpt.Config.VocabSize : Int)) :
    ∃ gpt' logits k', gpt.Forward ex sqrt th pi toInt rnd k idx = some (gpt', logits, k') ∧
      logits.Shape = [B, T, gpt.Config.VocabSize] ∧ logits.WF ∧
      gpt.Config.NHead * (gpt.Config.NEmb / gpt.Config.NHead) = gpt.Config.NEmb := by
  obtain ⟨fi, te, tok, fp, pe, pos, x, d', x1, k1, i1, t1, q1, r1, a1, d1, d2, d3⟩ :=
    GPT_embed_ok toInt rnd k gpt idx B T hg.1 hg.2.1 hT hTB hid
  obtain ⟨-, -, hbs, ⟨n1, n2, n3, n4⟩, ⟨h1, h2, h3, h4⟩⟩ := hg
  have hlen1 : ∀ (t : NDArray α), t.WF → t.Shape = [gpt.Config.NEmb] →
      gpt.Config.NEmb ≤ t.Data.length := by
    intro t ht hts
    rw [ht.2.1, ht.1, hts]
    simp
  obtain ⟨bs', x2, k2, b1, b2, b3⟩ := blocksForward_ok ex sqrt th pi rnd gpt.Config B T hT hE hH
    gpt.Blocks k1 x1 hbs d3 d2
  obtain ⟨x3, ms, rs, l1, l2, l3, -⟩ := LayerNorm_Forward_ok sqrt gpt.LNF x2 [B, T]
    gpt.Config.NEmb b3 (by rw [b2]; rfl) hE (hlen1 _ n1 n2) (hlen1 _ n3 n4)
  obtain ⟨lo, m1, m2, m3, -⟩ := Linear_Forward_ok gpt.LMHead x3 [B, T] gpt.Config.VocabSize
    gpt.Config.NEmb h1 h2 h3 h4 l3 (by rw [l2, b2]; rfl) hE
  unfold GPT.Forward GPT.embed
  rw [hs]
  simp only [List.getElem?_cons_zero, List.getElem?_cons_succ, Option.bind_eq_bind,
    Option.some_bind, i1, t1, q1, r1, a1, d1, b1, l1, m1]
  exact ⟨_, _, _, rfl, by simpa using m2, m3, Nat.mul_div_cancel' hdiv⟩

/-- Witness for C22: the model `NewGPT` builds for vocabulary 3, block size 2,
one layer, one head and width 2, on the token tensor `[[0, 2]]`. -/
theorem GPT_Forward_spec_witness :
    ∃ gpt' logits k',
      (NewGPT (fun n => (1 : ℚ) / (n + 2)) 0 (⟨3, 2, 1, 1, 2, 0⟩ : Config ℚ)).1.Forward
          (fun z => 1 + z) (fun z => z) (fun z => z) 3 (fun z => Int.tdiv z.num z.den)
          (fun n => (1 : ℚ) / (n + 2)) 0 (NewFromData [0, 2] [1, 2])
        = some (gpt', logits, k') ∧
      logits.Shape = [1, 2, 3] ∧ logits.WF ∧ 1 * (2 / 1) = 2 :=
  GPT_Forward_spec (fun z => 1 + z) (fun z => z) (fun z => z) 3 (fun z => Int.tdiv z.num z.den)
    (fun n => (1 : ℚ) / (n + 2)) 0
    (NewGPT (fun n => (1 : ℚ) / (n + 2)) 0 (⟨3, 2, 1, 1, 2, 0⟩ : Config ℚ)).1
    (NewFromData [0, 2] [1, 2]) 1 2
    (NewGPT_shaped _ _ _).1 (by decide) (by decide) (by decide) rfl (by decide) (by decide)
    (by
      intro i hi
      have hi' : i = 0 ∨ i = 1 := by omega
      rcases hi' with rfl | rfl
      · exact ⟨0, rfl, by simp, by simp [NewGPT]⟩
      · exact ⟨2, rfl, by simp, by simp [NewGPT]⟩)

/-- C22, counterexample. The configuration with `NHead = 1` and `NEmb = 0` has
`NHead ≥ 1` dividing `NEmb`, the token tensor `[[0, 1]]` has shape `[1, 2]`
with `1 ≤ 2 ≤ BlockSize` and ids in `[0, VocabSize)`, and `GPT.Forward` does
not return: `LayerNorm.Forward` divides `x.Size` by the width `0`. -/
theorem GPT_Forward_zero_width :
    (1 ≤ 1 ∧ 1 ∣ 0) ∧
    (NewGPT (fun n => (1 : ℚ) / (n + 2)) 0 (⟨2, 2, 1, 1, 0, 0⟩ : Config ℚ)).1.Forward
        (fun z => 1 + z) (fun z => z) (fun z => z) 3 (fun z => Int.tdiv z.num z.den)
        (fun n => (1 : ℚ) / (n + 2)) 0 (NewFromData [0, 1] [1, 2]) = none :=
  ⟨⟨le_refl 1, dvd_zero 1⟩,
    GPT_Forward_zero (fun z => 1 + z) (fun z => z) (fun z => z) 3 (fun z => Int.tdiv z.num z.den)
      (fun n => (1 : ℚ) / (n + 2)) 0
      (NewGPT (fun n => (1 : ℚ) / (n + 2)) 0 (⟨2, 2, 1, 1, 0, 0⟩ : Config ℚ)).1
      (NewFromData [0, 1] [1, 2]) 1 2
      (NewGPT_shaped _ _ _).1 rfl rfl (by decide) (by decide)
      (by
        intro i hi
        have hi' : i = 0 ∨ i = 1 := by omega
        rcases hi' with rfl | rfl
        · exact ⟨0, rfl, by simp, by simp [NewGPT]⟩
        · exact ⟨1, rfl, by simp, by simp [NewGPT]⟩)⟩

end transformer

namespace transformer

open tensor nn

/-! ## The scores that the softmax of `CausalSelfAttention.Forward` is applied to -/

/-- C32: in `CausalSelfAttention.Forward` on an input of shape `[B, T, C]`, with
`headDim = C / NHead` (no divisibility is needed for this), the cached `q` and
`k` are the first and the second `C`-wide third of the projection
`qkv = CAttn.Forward(x)`, split per head, and the tensor `att` that `Softmax`
is applied to (its result is the cached `csa.att`) holds, for batch `b`, head
`h`, query position `t1` and key position `t2`, the sentinel `-1e9` when
`t2 > t1` and `(sum over d < headDim of q[b,h,t1,d] * k[b,h,t2,d]) / sqrt(headDim)`
when `t2 ≤ t1`. -/
theorem Attention_scores_spec {α : Type} [LinearOrderedField α] (ex sqrt : α → α)
    (csa : CausalSelfAttention α) (x : NDArray α) (B T C H D O : Nat)
    (hWwf : csa.CAttn.W.Data.WF) (hW : csa.CAttn.W.Data.Shape = [3 * C, C])
    (hBwf : csa.CAttn.B.Data.WF) (hB : csa.CAttn.B.Data.Shape = [3 * C])
    (hPWwf : csa.CProj.W.Data.WF) (hPW : csa.CProj.W.Data.Shape = [O, C])
    (hPBwf : csa.CProj.B.Data.WF) (hPB : csa.CProj.B.Data.Shape = [O])
    (hxwf : x.WF) (hx : x.Shape = [B, T, C]) (hC : 0 < C) (hT : 0 < T)
    (hH : csa.NHead = H) (hHpos : 0 < H) (hD : C / H = D) :
    ∃ c out l qkv q k att probs,
      csa.Forward ex sqrt x = some (c, out) ∧ c.q = some q ∧ c.k = some k ∧
      c.att = some probs ∧ Softmax ex att = some probs ∧
      csa.CAttn.Forward x = some (l, qkv) ∧
      (∀ b t h d, b < B → t < T → h < H → d < D →
        q.Data[((b * H + h) * T + t) * D + d]? = qkv.Data[(b * T + t) * (3 * C) + h * D + d]? ∧
        k.Data[((b * H + h) * T + t) * D + d]?
          = qkv.Data[(b * T + t) * (3 * C) + C + h * D + d]?) ∧
      ∀ b h t1 t2, b < B → h < H → t1 < T → t2 < T →
        att.Data[((b * H + h) * T + t1) * T + t2]? = some
          (if t2 > t1 then -1000000000
           else (∑ d in Finset.range D, (q.Data[((b * H + h) * T + t1) * D + d]?).getD 0
                  * (k.Data[((b * H + h) * T + t2) * D + d]?).getD 0) / sqrt (D : α)) := by
  have hHD : H * D ≤ C := by rw [← hD]; exact Nat.mul_div_le C H
  obtain ⟨q, k, v, att, probs, pre, out, -, hsm, hF, -, -, -, -, -, -, -, hqkv, hatt⟩ :=
    Attention_Forward_ok ex sqrt csa x B T C H D O hWwf hW hBwf hB hPWwf hPW hPBwf hPB hxwf hx
      hC hT hH hHpos hD
  obtain ⟨qkv, f1, -, -, f4⟩ := Linear_Forward_ok csa.CAttn x [B, T] (3 * C) C hWwf hW hBwf hB
    hxwf (by simpa using hx) hC
  have hBT : ([B, T] : List Nat).prod = B * T := by simp
  rw [hBT] at f4
  refine ⟨_, out, _, qkv, q, k, att, probs, hF, rfl, rfl, rfl, hsm, f1, ?_, ?_⟩
  · intro b t h d hb ht hh hd
    obtain ⟨e1, e2, -⟩ := hqkv b t h d hb ht hh hd
    have hn := idx2_lt hb ht
    have hr : h * D + d < C := lt_of_lt_of_le (idx2_lt hh hd) hHD
    refine ⟨?_, ?_⟩
    · have i1 : (b * T + t) * (3 * C) + h * D + d = (b * T + t) * (3 * C) + (h * D + d) := by
        omega
      rw [i1, e1]
      exact (f4 (b * T + t) (h * D + d) hn (by omega)).symm
    · have i2 : (b * T + t) * (3 * C) + C + h * D + d
          = (b * T + t) * (3 * C) + (C + h * D + d) := by omega
      rw [i2, e2]
      exact (f4 (b * T + t) (C + h * D + d) hn (by omega)).symm
  · intro b h t1 t2 hb hh ht1 ht2
    rw [hatt (b * H + h) t1 t2 (idx2_lt hb hh) ht1 ht2]
    by_cases hlt : t1 < t2
    · rw [if_pos hlt, if_pos hlt]
    · rw [if_neg hlt, if_neg hlt, mul_one_div]

/-- Witness for C32: one head of width one, query, key and value equal to the
input `[1, 2]`; the score of position `0` for the later position `1` is the
sentinel and the score of position `1` for position `0` is `2 * 1 / sqrt 1`. -/
theorem Attention_scores_spec_witness :
    ∃ c out l qkv q k att probs,
      CausalSelfAttention.Forward (fun z : ℚ => if z < -100 then 0 else 1) (fun z => z)
          (⟨⟨⟨NewFromData [1, 1, 1] [3, 1], New [3, 1], "weight"⟩,
              ⟨NewFromData [0, 0, 0] [3], New [3], "bias"⟩, none⟩,
            ⟨⟨NewFromData [1] [1, 1], New [1, 1], "weight"⟩,
              ⟨NewFromData [0] [1], New [1], "bias"⟩, none⟩,
            1, 1, none, none, none, none, none⟩ : CausalSelfAttention ℚ)
          (NewFromData [1, 2] [1, 2, 1]) = some (c, out) ∧ c.q = some q ∧ c.k = some k ∧
      c.att = some probs ∧ Softmax (fun z : ℚ => if z < -100 then 0 else 1) att = some probs ∧
      Linear.Forward (⟨⟨NewFromData [1, 1, 1] [3, 1], New [3, 1], "weight"⟩,
              ⟨NewFromData [0, 0, 0] [3], New [3], "bias"⟩, none⟩ : Linear ℚ)
          (NewFromData [1, 2] [1, 2, 1]) = some (l, qkv) ∧
      att.Data[1]? = some (-1000000000 : ℚ) ∧
      att.Data[2]? = some ((q.Data[1]?).getD 0 * (k.Data[0]?).getD 0 / 1) := by
  obtain ⟨c, out, l, qkv, q, k, att, probs, h1, h2, h3, h4, h5, h6, -, h8⟩ :=
    Attention_scores_spec (fun z : ℚ => if z < -100 then 0 else 1) (fun z => z)
      (⟨⟨⟨NewFromData [1, 1, 1] [3, 1], New [3, 1], "weight"⟩,
          ⟨NewFromData [0, 0, 0] [3], New [3], "bias"⟩, none⟩,
        ⟨⟨NewFromData [1] [1, 1], New [1, 1], "weight"⟩,
          ⟨NewFromData [0] [1], New [1], "bias"⟩, none⟩,
        1, 1, none, none, none, none, none⟩ : CausalSelfAttention ℚ)
      (NewFromData [1, 2] [1, 2, 1]) 1 2 1 1 1 1
      ⟨rfl, rfl, rfl⟩ rfl ⟨rfl, rfl, rfl⟩ rfl ⟨rfl, rfl, rfl⟩ rfl ⟨rfl, rfl, rfl⟩ rfl
      ⟨rfl, rfl, rfl⟩ rfl (by decide) (by decide) rfl (by decide) rfl
  have a1 := h8 0 0 0 1 (by decide) (by decide) (by decide) (by decide)
  have a2 := h8 0 0 1 0 (by decide) (by decide) (by decide) (by decide)
  simp at a1 a2
  exact ⟨c, out, l, qkv, q, k, att, probs, h1, h2, h3, h4, h5, h6, a1, by simpa using a2⟩

end transformer

namespace nn

open tensor

/-! ## The input gradient of `LayerNorm.Backward` sums to zero on every row -/

/-- C33: for a `LayerNorm` with `D ≥ 1` after `Forward(x)`, and every upstream
gradient `dy` of the shape of `x`, the normalized values `xhat` of every row
sum to zero and so do the entries of that row in the input gradient that
`Backward(dy)` returns (exact arithmetic: `α` is an ordered field). -/
theorem LayerNorm_Backward_row_sum {α : Type} [LinearOrderedField α] (sqrt : α → α)
    (ln ln1 : LayerNorm α) (x out g : NDArray α) (dims : List Nat) (D : Nat) (hD : 1 ≤ D)
    (hxwf : x.WF) (hx : x.Shape = dims ++ [D]) (hgam : ln.Gamma.Data.Data.length = D)
    (hbeta : ln.Beta.Data.Data.length = D) (hgg : ln.Gamma.Grad.Data.length = D)
    (hbg : ln.Beta.Grad.Data.length = D) (hF : ln.Forward sqrt x = some (ln1, out))
    (hgwf : g.WF) (hg : g.Shape = x.Shape) :
    ∃ ln2 dx, ln1.Backward g = some (ln2, dx) ∧ dx.Shape = x.Shape ∧
      ∀ b, b < dims.prod →
        (∑ i in Finset.range D, xHatAt sqrt ln.Eps x.Data D b i) = 0 ∧
        (∑ i in Finset.range D, (dx.Data[b * D + i]?).getD 0) = 0 := by
  obtain ⟨out', ms, rs, f1, -, -, f4, f5, f6⟩ := LayerNorm_Forward_ok sqrt ln x dims D hxwf hx hD
    (le_of_eq hgam.symm) (le_of_eq hbeta.symm)
  have hl1 : ln1 = { ln with input := some x, mean := ms, rstd := rs } := by
    rw [hF] at f1
    exact (Prod.mk.inj (Option.some.inj f1)).1
  subst hl1
  have hglen : g.Data.length = dims.prod * D := by
    rw [hgwf.2.1, hgwf.1, hg, hx]; simp
  obtain ⟨dx, gg, bg, b1, b2, -, -, b5⟩ := LayerNorm_Backward_ok
    ({ ln with input := some x, mean := ms, rstd := rs } : LayerNorm α) x g dims D rfl hxwf hx hD
    hglen (le_of_eq hgam.symm) (le_of_eq f4.symm) (le_of_eq f5.symm) (le_of_eq hgg.symm)
    (le_of_eq hbg.symm)
  refine ⟨_, dx, b1, b2, ?_⟩
  intro b hb
  have hm : (ms[b]?).getD 0 = rowMean x.Data D b := by
    rw [(f6 b hb).1]; rfl
  have hr : (rs[b]?).getD 0 = rowRstd sqrt ln.Eps x.Data D b := by
    rw [(f6 b hb).2.1]; rfl
  have hDne : (D : α) ≠ 0 := Nat.cast_ne_zero.mpr (by omega)
  have hcen : ∑ i in Finset.range D, ((x.Data[b * D + i]?).getD 0 - rowMean x.Data D b) = 0 := by
    rw [Finset.sum_sub_distrib, Finset.sum_const, Finset.card_range, nsmul_eq_mul]
    unfold rowMean
    field_simp
  have hxh : ∑ i in Finset.range D, xHatAt sqrt ln.Eps x.Data D b i = 0 := by
    unfold xHatAt
    rw [← Finset.sum_mul, hcen, zero_mul]
  refine ⟨hxh, ?_⟩
  have e : ∀ i, i ∈ Finset.range D → (dx.Data[b * D + i]?).getD 0
      = rowRstd sqrt ln.Eps x.Data D b / (D : α)
        * ((D : α) * ((g.Data[b * D + i]?).getD 0 * (ln.Gamma.Data.Data[i]?).getD 0)
          - (∑ j in Finset.range D,
              (g.Data[b * D + j]?).getD 0 * (ln.Gamma.Data.Data[j]?).getD 0)
          - xHatAt sqrt ln.Eps x.Data D b i
            * ∑ j in Finset.range D,
                (g.Data[b * D + j]?).getD 0 * (ln.Gamma.Data.Data[j]?).getD 0
                  * (((x.Data[b * D + j]?).getD 0 - rowMean x.Data D b)
                    * rowRstd sqrt ln.Eps x.Data D b)) := by
    intro i hi
    rw [b5 b i hb (Finset.mem_range.mp hi)]
    simp only [Option.getD_some, hm, hr]
    rfl
  rw [Finset.sum_congr rfl e, ← Finset.mul_sum, Finset.sum_sub_distrib, Finset.sum_sub_distrib,
    ← Finset.mul_sum, ← Finset.sum_mul, hxh, Finset.sum_const, Finset.card_range, nsmul_eq_mul]
  ring

/-- Witness for C33: the rows `[1, 2]` and `[3, 5]` with the upstream gradient
`[1, 0, 2, 1]`. -/
theorem LayerNorm_Backward_row_sum_witness :
    ∃ ln2 dx,
      LayerNorm.Backward
        ({ (NewLayerNorm 2 : LayerNorm ℚ) with
            input := some (NewFromData [1, 2, 3, 5] [2, 2])
            mean := [3 / 2, 4]
            rstd := [1 / (1 / 4 + 1 / 100000), 1 / (1 + 1 / 100000)] } : LayerNorm ℚ)
        (NewFromData [1, 0, 2, 1] [2, 2]) = some (ln2, dx) ∧
      dx.Shape = [2, 2] ∧
      (dx.Data[0]?).getD 0 + (dx.Data[1]?).getD 0 = 0 ∧
      (dx.Data[2]?).getD 0 + (dx.Data[3]?).getD 0 = 0 := by
  obtain ⟨ln2, dx, h1, h2, h3⟩ := LayerNorm_Backward_row_sum (fun y => y)
    (NewLayerNorm 2 : LayerNorm ℚ)
    ({ (NewLayerNorm 2 : LayerNorm ℚ) with
        input := some (NewFromData [1, 2, 3, 5] [2, 2])
        mean := [3 / 2, 4]
        rstd := [1 / (1 / 4 + 1 / 100000), 1 / (1 + 1 / 100000)] } : LayerNorm ℚ)
    (NewFromData [1, 2, 3, 5] [2, 2])
    ⟨[(1 - 3 / 2) * (1 / (1 / 4 + 1 / 100000)) * 1 + 0,
      (2 - 3 / 2) * (1 / (1 / 4 + 1 / 100000)) * 1 + 0,
      (3 - 4) * (1 / (1 + 1 / 100000)) * 1 + 0,
      (5 - 4) * (1 / (1 + 1 / 100000)) * 1 + 0], [2, 2], [2, 1], 4⟩
    (NewFromData [1, 0, 2, 1] [2, 2]) [2] 2 (by decide) ⟨rfl, rfl, rfl⟩ rfl rfl rfl rfl rfl
    (by
      simp [LayerNorm.Forward, lnForwardRow, rowSumLoop, sumSqLoop, normLoop, forRange, setIdx,
        New, NewFromData, NewLayerNorm, NewFull, shapeSize, makeCopy, computeStrides, stridesLoop]
      norm_num)
    ⟨rfl, rfl, rfl⟩ rfl
  have a0 := (h3 0 (by decide)).2
  have a1 := (h3 1 (by decide)).2
  simp [Finset.sum_range_succ] at a0 a1
  exact ⟨ln2, dx, h1, h2, a0, a1⟩

end nn

namespace nn

open tensor

/-! ## The rows of the gradient of the cross-entropy loss -/

/-- C34: for logits of shape `[N, C]` with `N ≥ 1`, `C ≥ 1` and targets with
`targets[i] < C` (and a positive `exp`), every row of the gradient that
`CrossEntropyLoss.Backward` returns sums to zero, its entry at the target
column is non-positive and every other entry is non-negative. -/
theorem CrossEntropyLoss_Backward_rows {α : Type} [LinearOrderedField α] (l : CrossEntropyLoss)
    (ex : α → α) (hpos : ∀ a, 0 < ex a) (logits : NDArray α) (targets : List Nat) (N C : Nat)
    (hwf : logits.WF) (hs : logits.Shape = [N, C]) (hN : 1 ≤ N) (hC : 1 ≤ C)
    (ht : ∀ i, i < N → ∃ t, targets[i]? = some t ∧ t < C) :
    ∃ out, l.Backward ex logits targets = some out ∧ out.Shape = logits.Shape ∧
      ∀ i t, i < N → targets[i]? = some t →
        (∑ j in Finset.range C, (out.Data[i * C + j]?).getD 0) = 0 ∧
        (∃ y, out.Data[i * C + t]? = some y ∧ y ≤ 0) ∧
        ∀ j, j < C → j ≠ t → ∃ y, out.Data[i * C + j]? = some y ∧ 0 ≤ y := by
  have hlen : N ≤ targets.length := by
    by_contra hcon
    obtain ⟨t, e, -⟩ := ht (N - 1) (by omega)
    rw [List.getElem?_eq_none (by omega)] at e
    exact Option.noConfusion e
  obtain ⟨probs, out, p1, o1, o2, -, o4⟩ := CrossEntropyLoss_Backward_ok l ex logits targets N C
    hwf hs hC hlen (by
      intro i hi
      obtain ⟨t, e, h⟩ := ht i hi
      rw [e]
      exact h)
  obtain ⟨probs', q1, -, -, -, -, q6⟩ := Softmax_rows ex logits [N] C hwf (by simpa using hs) hC
  have hpp : probs' = probs := Option.some.inj (q1.symm.trans p1)
  subst hpp
  have hNp : ([N] : List Nat).prod = N := by simp
  rw [hNp] at q6
  refine ⟨out, o1, by rw [o2, hs], ?_⟩
  intro i t hi hti
  obtain ⟨t', e', htC⟩ := ht i hi
  have htt : t' = t := Option.some.inj (e'.symm.trans hti)
  subst htt
  have hNpos : (0 : α) < (N : α) := Nat.cast_pos.mpr (by omega)
  have hS : 0 < ∑ j in Finset.range C,
      ex ((logits.Data[i * C + j]?).getD 0 - (rowMaxLoop logits.Data (i * C) C).getD 0) :=
    Finset.sum_pos (fun j _ => hpos _) ⟨0, Finset.mem_range.mpr (by omega)⟩
  have hp : ∀ j, j < C → (probs'.Data[i * C + j]?).getD 0
      = ex ((logits.Data[i * C + j]?).getD 0 - (rowMaxLoop logits.Data (i * C) C).getD 0)
        / ∑ j in Finset.range C,
            ex ((logits.Data[i * C + j]?).getD 0 - (rowMaxLoop logits.Data (i * C) C).getD 0) := by
    intro j hj
    rw [q6 i j hi hj]
    rfl
  have hp0 : ∀ j, j < C → 0 ≤ (probs'.Data[i * C + j]?).getD 0 := by
    intro j hj
    rw [hp j hj]
    exact div_nonneg (le_of_lt (hpos _)) (le_of_lt hS)
  have hp1 : ∀ j, j < C → (probs'.Data[i * C + j]?).getD 0 ≤ 1 := by
    intro j hj
    rw [hp j hj, div_le_one hS]
    exact Finset.single_le_sum (f := fun j => ex ((logits.Data[i * C + j]?).getD 0
      - (rowMaxLoop logits.Data (i * C) C).getD 0)) (fun k _ => le_of_lt (hpos _))
      (Finset.mem_range.mpr hj)
  have hsum : ∑ j in Finset.range C, (probs'.Data[i * C + j]?).getD 0 = 1 := by
    rw [Finset.sum_congr rfl (fun j hj => hp j (Finset.mem_range.mp hj)), ← Finset.sum_div]
    exact div_self (ne_of_gt hS)
  have ho : ∀ j, j < C → out.Data[i * C + j]? = some
      (((probs'.Data[i * C + j]?).getD 0 - if j = t' then 1 else 0) * (1 / (N : α))) := by
    intro j hj
    rw [o4 i j hi hj, hti]
    rfl
  refine ⟨?_, ⟨_, ho t' htC, ?_⟩, ?_⟩
  · have hd : ∀ j, j ∈ Finset.range C → (out.Data[i * C + j]?).getD 0
        = ((probs'.Data[i * C + j]?).getD 0 - if j = t' then 1 else 0) * (1 / (N : α)) := by
      intro j hj
      rw [ho j (Finset.mem_range.mp hj)]
      rfl
    rw [Finset.sum_congr rfl hd, ← Finset.sum_mul, Finset.sum_sub_distrib, hsum,
      Finset.sum_ite_eq' (Finset.range C) t' (fun _ => (1 : α)),
      if_pos (Finset.mem_range.mpr htC), sub_self, zero_mul]
  · rw [if_pos rfl]
    exact mul_nonpos_of_nonpos_of_nonneg (by linarith [hp1 t' htC])
      (div_nonneg zero_le_one (le_of_lt hNpos))
  · intro j hj hne
    refine ⟨_, ho j hj, ?_⟩
    rw [if_neg hne, sub_zero]
    exact mul_nonneg (hp0 j hj) (div_nonneg zero_le_one (le_of_lt hNpos))

/-- Witness for C34: two rows of two logits with targets `1` and `0`, over the
reals with the exponential. -/
theorem CrossEntropyLoss_Backward_rows_witness :
    ∃ out, CrossEntropyLoss.Backward ⟨⟩ Real.exp (NewFromData [0, 0, 1, 3] [2, 2] : NDArray ℝ)
        [1, 0] = some out ∧
      out.Shape = (NewFromData [0, 0, 1, 3] [2, 2] : NDArray ℝ).Shape ∧
      ∀ i t, i < 2 → ([1, 0] : List Nat)[i]? = some t →
        (∑ j in Finset.range 2, (out.Data[i * 2 + j]?).getD 0) = 0 ∧
        (∃ y, out.Data[i * 2 + t]? = some y ∧ y ≤ 0) ∧
        ∀ j, j < 2 → j ≠ t → ∃ y, out.Data[i * 2 + j]? = some y ∧ 0 ≤ y :=
  CrossEntropyLoss_Backward_rows ⟨⟩ Real.exp Real.exp_pos (NewFromData [0, 0, 1, 3] [2, 2])
    [1, 0] 2 2 ⟨rfl, rfl, rfl⟩ rfl (by decide) (by decide) (by decide)

end nn

namespace optim

open tensor nn

/-! ## The first step of a fresh `AdamW` -/

theorem replicate_zero_getD {α : Type} [Zero α] (n k : Nat) :
    ((List.replicate n (0 : α))[k]?).getD 0 = 0 := by
  by_cases h : k < n
  · rw [List.getElem?_replicate, if_pos h]
    rfl
  · rw [List.getElem?_eq_none (by simpa using h)]
    rfl

theorem AdamW_Step_fresh {α : Type} [Field α] (sqrt : α → α) (opt : AdamW α)
    (hwf : ∀ p, p ∈ opt.Params →
      p.Data.Data.length = p.Data.Size ∧ p.Grad.Data.length = p.Data.Size)
    (hstep : opt.step = 0)
    (hm : opt.m = List.replicate (opt.Params.map (fun p => p.Data.Size)).sum 0)
    (hv : opt.v = List.replicate (opt.Params.map (fun p => p.Data.Size)).sum 0) :
    ∃ opt', opt.Step sqrt = some opt' ∧ opt'.step = 1 ∧
      ∀ (j : Nat) (p : Parameter α), opt.Params[j]? = some p →
        ∃ p' : Parameter α, opt'.Params[j]? = some p' ∧ p'.Grad = p.Grad ∧
          ∀ (i : Nat) (w g : α), p.Data.Data[i]? = some w → p.Grad.Data[i]? = some g →
            p'.Data.Data[i]? = some
              ((w - opt.LR * opt.WeightDecay * w)
                - opt.LR / (1 - opt.Beta1)
                  * ((1 - opt.Beta1) * g
                    / (sqrt ((1 - opt.Beta2) * (g * g)) / sqrt (1 - opt.Beta2) + opt.Eps))) := by
  obtain ⟨ps', m, v, r1, -, -, -, -, rin⟩ := stepLoop_spec sqrt opt
    (1 - opt.Beta1 ^ (opt.step + 1)) (1 - opt.Beta2 ^ (opt.step + 1))
    (opt.Params.map (fun p => p.Data.Size)).sum opt.Params 0 opt.m opt.v
    (fun p hp => ⟨(hwf p hp).1, le_of_eq (hwf p hp).2.symm⟩) (by rw [hm]; simp)
    (by rw [hv]; simp) (by omega)
  refine ⟨{ opt with Params := ps', step := opt.step + 1, m := m, v := v },
    by rw [AdamW.Step, r1]; rfl, by show opt.step + 1 = 1; rw [hstep], ?_⟩
  intro j p hj
  obtain ⟨d, e1, -, e3⟩ := rin j p hj
  have hmem : p ∈ opt.Params := List.getElem?_mem hj
  refine ⟨_, e1, rfl, ?_⟩
  intro i w g hw hg
  have hi : i < p.Data.Size := by
    rw [← (hwf p hmem).1]
    by_contra hcon
    rw [List.getElem?_eq_none (by omega)] at hw
    exact Option.noConfusion hw
  obtain ⟨-, -, c3⟩ := e3 i hi
  rw [hw, hg, hm, hv] at c3
  simp only [replicate_zero_getD, hstep, Option.getD_some, adamM, adamV, adamW, mul_zero,
    zero_add, pow_one] at c3
  show d[i]? = _
  rw [c3, mul_assoc (1 - opt.Beta2) g g]

/-- C35 (amended): on the first `Step` of a fresh `AdamW` (step counter `0`,
zero moments) with `0 ≤ beta1 < 1`, `0 ≤ beta2 < 1`, `lr > 0` and `eps > 0`
(`sqrt` multiplicative on non-negative arguments, `sqrt(x*x) = |x|`, positive
on positive arguments), every element with value `w` and gradient `g` becomes
`w*(1 - lr*wd) - lr*g/(|g| + eps)`; the adaptive part `lr*g/(|g| + eps)` has
magnitude strictly less than `lr`, and an element with zero gradient becomes
`w*(1 - lr*wd)`. -/
theorem AdamW_first_Step {α : Type} [LinearOrderedField α] (sqrt : α → α)
    (hmul : ∀ x y, 0 ≤ x → sqrt (x * y) = sqrt x * sqrt y) (hsq : ∀ x, sqrt (x * x) = |x|)
    (hsp : ∀ x, 0 < x → 0 < sqrt x) (opt : AdamW α)
    (hwf : ∀ p, p ∈ opt.Params →
      p.Data.Data.length = p.Data.Size ∧ p.Grad.Data.length = p.Data.Size)
    (hstep : opt.step = 0)
    (hm : opt.m = List.replicate (opt.Params.map (fun p => p.Data.Size)).sum 0)
    (hv : opt.v = List.replicate (opt.Params.map (fun p => p.Data.Size)).sum 0)
    (hb1 : 0 ≤ opt.Beta1 ∧ opt.Beta1 < 1) (hb2 : 0 ≤ opt.Beta2 ∧ opt.Beta2 < 1)
    (hlr : 0 < opt.LR) (heps : 0 < opt.Eps) :
    ∃ opt', opt.Step sqrt = some opt' ∧ opt'.step = 1 ∧
      ∀ (j : Nat) (p : Parameter α), opt.Params[j]? = some p →
        ∃ p' : Parameter α, opt'.Params[j]? = some p' ∧ p'.Grad = p.Grad ∧
          ∀ (i : Nat) (w g : α), p.Data.Data[i]? = some w → p.Grad.Data[i]? = some g →
            p'.Data.Data[i]? = some
              (w * (1 - opt.LR * opt.WeightDecay) - opt.LR * g / (|g| + opt.Eps)) ∧
            |opt.LR * g / (|g| + opt.Eps)| < opt.LR ∧
            (g = 0 → p'.Data.Data[i]? = some (w * (1 - opt.LR * opt.WeightDecay))) := by
  obtain ⟨opt', h1, h2, h3⟩ := AdamW_Step_fresh sqrt opt hwf hstep hm hv
  refine ⟨opt', h1, h2, ?_⟩
  intro j p hj
  obtain ⟨p', e1, e2, e3⟩ := h3 j p hj
  refine ⟨p', e1, e2, ?_⟩
  intro i w g hw hg
  have hb1' : (1 - opt.Beta1) ≠ 0 := by linarith [hb1.2]
  have hb2' : 0 < 1 - opt.Beta2 := by linarith [hb2.2]
  have hs2 : sqrt (1 - opt.Beta2) ≠ 0 := ne_of_gt (hsp _ hb2')
  have hden : 0 < |g| + opt.Eps := by linarith [abs_nonneg g]
  have hroot : sqrt ((1 - opt.Beta2) * (g * g)) / sqrt (1 - opt.Beta2) = |g| := by
    rw [hmul _ _ (le_of_lt hb2'), hsq, mul_div_assoc, mul_comm, div_mul_cancel₀ _ hs2]
  have hval : p'.Data.Data[i]? = some
      (w * (1 - opt.LR * opt.WeightDecay) - opt.LR * g / (|g| + opt.Eps)) := by
    rw [e3 i w g hw hg, hroot]
    congr 1
    field_simp
    ring
  refine ⟨hval, ?_, ?_⟩
  · rw [abs_div, abs_mul, abs_of_pos hlr, abs_of_pos hden, div_lt_iff₀ hden]
    have : |g| < |g| + opt.Eps := by linarith
    nlinarith [abs_nonneg g]
  · intro hg0
    rw [hval, hg0]
    simp

/-- Witness for C35: `NewAdamW` with `lr = 1/10` over the reals with the square
root, one parameter with the values `[1, 2]` and the gradients `[3, 0]`. -/
theorem AdamW_first_Step_witness :
    ∃ opt', (NewAdamW [⟨NewFromData [1, 2] [2], NewFromData [3, 0] [2], "weight"⟩] (1 / 10)
        : AdamW ℝ).Step Real.sqrt = some opt' ∧ opt'.step = 1 ∧
      ∃ p', opt'.Params[0]? = some p' ∧
        p'.Data.Data[0]? = some
          (1 * (1 - 1 / 10 * (1 / 100)) - 1 / 10 * 3 / (|(3 : ℝ)| + 1 / 100000000)) ∧
        p'.Data.Data[1]? = some (2 * (1 - 1 / 10 * (1 / 100)) : ℝ) := by
  obtain ⟨opt', h1, h2, h3⟩ := AdamW_first_Step Real.sqrt
    (fun x y hx => Real.sqrt_mul hx y) Real.sqrt_mul_self_eq_abs (fun x hx => Real.sqrt_pos.mpr hx)
    (NewAdamW [⟨NewFromData [1, 2] [2], NewFromData [3, 0] [2], "weight"⟩] (1 / 10) : AdamW ℝ)
    (by
      intro p hp
      simp only [NewAdamW, List.mem_singleton] at hp
      subst hp
      exact ⟨rfl, rfl⟩)
    rfl rfl rfl
    (by simp only [NewAdamW]; norm_num) (by simp only [NewAdamW]; norm_num)
    (by simp only [NewAdamW]; norm_num) (by simp only [NewAdamW]; norm_num)
  obtain ⟨p', e1, -, e3⟩ := h3 0 _ rfl
  exact ⟨opt', h1, h2, p', e1, (e3 0 1 3 rfl rfl).1, (e3 1 2 0 rfl rfl).2.2 rfl⟩

/-- C35, counterexample. With the learning rate `0` (`NewAdamW(params, 0)`) the
first step leaves the value `1` of an element with gradient `3` as it is: the
adaptive part has magnitude `0`, which is not strictly less than `lr = 0`.
With `Eps` set to `0` and `lr = 1`, an element with value `0` and gradient `1`
becomes `-1`: the adaptive part has magnitude `1 = lr`. -/
theorem AdamW_first_Step_not_below_lr :
    (∃ opt' p', (NewAdamW [⟨NewFromData [1] [1], NewFromData [3] [1], "weight"⟩] 0
          : AdamW ℝ).Step Real.sqrt = some opt' ∧ opt'.Params[0]? = some p' ∧
        p'.Data.Data[0]? = some (1 : ℝ) ∧ ¬ (|1 * (1 - 0 * (1 / 100)) - (1 : ℝ)| < 0)) ∧
    (∃ opt' p', ({ (NewAdamW [⟨NewFromData [0] [1], NewFromData [1] [1], "weight"⟩] 1
          : AdamW ℝ) with Eps := 0 }).Step Real.sqrt = some opt' ∧ opt'.Params[0]? = some p' ∧
        p'.Data.Data[0]? = some (-1 : ℝ) ∧ ¬ (|0 * (1 - 1 * (1 / 100)) - (-1 : ℝ)| < 1)) := by
  constructor
  · obtain ⟨opt', h1, -, h3⟩ := AdamW_Step_fresh Real.sqrt
      (NewAdamW [⟨NewFromData [1] [1], NewFromData [3] [1], "weight"⟩] 0 : AdamW ℝ)
      (by
        intro p hp
        simp only [NewAdamW, List.mem_singleton] at hp
        subst hp
        exact ⟨rfl, rfl⟩)
      rfl rfl rfl
    obtain ⟨p', e1, -, e3⟩ := h3 0 _ rfl
    refine ⟨opt', p', h1, e1, ?_, by norm_num⟩
    rw [e3 0 1 3 rfl rfl]
    simp [NewAdamW]
  · obtain ⟨opt', h1, -, h3⟩ := AdamW_Step_fresh Real.sqrt
      ({ (NewAdamW [⟨NewFromData [0] [1], NewFromData [1] [1], "weight"⟩] 1 : AdamW ℝ)
          with Eps := 0 })
      (by
        intro p hp
        simp only [NewAdamW, List.mem_singleton] at hp
        subst hp
        exact ⟨rfl, rfl⟩)
      rfl rfl rfl
    obtain ⟨p', e1, -, e3⟩ := h3 0 _ rfl
    refine ⟨opt', p', h1, e1, ?_, by norm_num⟩
    rw [e3 0 0 1 rfl rfl]
    have hs : Real.sqrt (1 - 999 / 1000) ≠ 0 := ne_of_gt (Real.sqrt_pos.mpr (by norm_num))
    simp only [NewAdamW, mul_one]
    rw [div_self hs]
    norm_num

end optim

namespace optim

open tensor nn

/-! ## The gradient norm after `ClipGradNorm` -/

theorem gradSqSum_scaled {α : Type} [CommSemiring α] (c : α) (ps : List (Parameter α)) :
    gradSqSum (ps.map (fun p =>
      { p with Grad := { p.Grad with Data := p.Grad.Data.map (fun g => g * c) } }))
      = c * c * gradSqSum ps := by
  have inner : ∀ l : List α, ((l.map (fun g => g * c)).map (fun g => g * g)).sum
      = c * c * (l.map (fun g => g * g)).sum := by
    intro l
    induction l with
    | nil => simp
    | cons a l ih =>
      simp only [List.map_cons, List.sum_cons, ih]
      ring
  induction ps with
  | nil => simp [gradSqSum]
  | cons p ps ih =>
    simp only [gradSqSum, List.map_cons, List.sum_cons] at ih ⊢
    rw [ih, inner]
    ring

/-- C36: for `maxNorm > 0` (`sqrt` multiplicative on non-negative arguments and
`sqrt(x*x) = |x|`, exact arithmetic), on parameters whose gradient buffers hold
`Size` elements: after `ClipGradNorm(maxNorm)` the global L2 norm of all
gradients is at most `maxNorm`, the values are untouched, every gradient
element keeps its sign, and a second `ClipGradNorm(maxNorm)` changes nothing. -/
theorem ClipGradNorm_bound {α : Type} [LinearOrderedField α] (sqrt : α → α)
    (hmul : ∀ x y, 0 ≤ x → sqrt (x * y) = sqrt x * sqrt y) (hsq : ∀ x, sqrt (x * x) = |x|)
    (opt : AdamW α) (maxNorm : α) (h0 : 0 < maxNorm)
    (hwf : ∀ p, p ∈ opt.Params → p.Grad.Data.length = p.Data.Size) :
    ∃ opt', opt.ClipGradNorm sqrt maxNorm = some opt' ∧
      sqrt (gradSqSum opt'.Params) ≤ maxNorm ∧
      opt'.Params.length = opt.Params.length ∧
      (∀ (j : Nat) (p : Parameter α), opt.Params[j]? = some p →
        ∃ p' : Parameter α, opt'.Params[j]? = some p' ∧ p'.Data = p.Data ∧
          p'.Grad.Data.length = p.Grad.Data.length ∧
          ∀ (i : Nat) (g : α), p.Grad.Data[i]? = some g →
            ∃ g', p'.Grad.Data[i]? = some g' ∧
              (0 < g → 0 < g') ∧ (g < 0 → g' < 0) ∧ (g = 0 → g' = 0)) ∧
      opt'.ClipGradNorm sqrt maxNorm = some opt' := by
  have ht := totalNormLoop_spec opt.Params (0 : α) hwf
  rw [zero_add] at ht
  have hunf : ∀ (o : AdamW α), (∀ p, p ∈ o.Params → p.Grad.Data.length = p.Data.Size) →
      sqrt (gradSqSum o.Params) ≤ maxNorm → o.ClipGradNorm sqrt maxNorm = some o := by
    intro o ho hle
    have hto := totalNormLoop_spec o.Params (0 : α) ho
    rw [zero_add] at hto
    unfold AdamW.ClipGradNorm
    rw [if_neg (not_le.mpr h0), hto, Option.some_bind, if_neg (not_lt.mpr hle)]
  by_cases hle : sqrt (gradSqSum opt.Params) ≤ maxNorm
  · refine ⟨opt, hunf opt hwf hle, hle, rfl, ?_, hunf opt hwf hle⟩
    intro j p hj
    refine ⟨p, hj, rfl, rfl, ?_⟩
    intro i g hg
    exact ⟨g, hg, fun h => h, fun h => h, fun h => h⟩
  · have hgt : maxNorm < sqrt (gradSqSum opt.Params) := not_le.mp hle
    have hn : 0 < sqrt (gradSqSum opt.Params) := lt_trans h0 hgt
    have hden : 0 < sqrt (gradSqSum opt.Params) + 1 / 1000000 := by
      have : (0 : α) < 1 / 1000000 := by norm_num
      linarith
    have hc : 0 < maxNorm / (sqrt (gradSqSum opt.Params) + 1 / 1000000) := div_pos h0 hden
    have hnorm : sqrt (gradSqSum (opt.Params.map (fun p =>
        { p with Grad := { p.Grad with Data := p.Grad.Data.map (fun g =>
          g * (maxNorm / (sqrt (gradSqSum opt.Params) + 1 / 1000000))) } })))
        ≤ maxNorm := by
      rw [gradSqSum_scaled, hmul _ _ (mul_self_nonneg _), hsq, abs_of_pos hc, div_mul_eq_mul_div,
        div_le_iff₀ hden]
      have : (0 : α) < 1 / 1000000 := by norm_num
      nlinarith
    have hwf' : ∀ p, p ∈ opt.Params.map (fun p =>
        ({ p with Grad := { p.Grad with Data := p.Grad.Data.map (fun g =>
          g * (maxNorm / (sqrt (gradSqSum opt.Params) + 1 / 1000000))) } } : Parameter α)) →
        p.Grad.Data.length = p.Data.Size := by
      intro p hp
      obtain ⟨q, hq, rfl⟩ := List.mem_map.mp hp
      simpa using hwf q hq
    refine ⟨{ opt with Params := opt.Params.map (fun p =>
        { p with Grad := { p.Grad with Data := p.Grad.Data.map (fun g =>
          g * (maxNorm / (sqrt (gradSqSum opt.Params) + 1 / 1000000))) } }) }, ?_, hnorm,
      by simp, ?_, hunf _ hwf' hnorm⟩
    · unfold AdamW.ClipGradNorm
      rw [if_neg (not_le.mpr h0), ht, Option.some_bind, if_pos hgt, clipLoop_spec _ _ hwf]
      rfl
    · intro j p hj
      refine ⟨{ p with Grad := { p.Grad with Data := p.Grad.Data.map (fun g =>
          g * (maxNorm / (sqrt (gradSqSum opt.Params) + 1 / 1000000))) } }, ?_, rfl, by simp, ?_⟩
      · show (opt.Params.map _)[j]? = _
        rw [List.getElem?_map, hj]
        rfl
      intro i g hg
      refine ⟨g * (maxNorm / (sqrt (gradSqSum opt.Params) + 1 / 1000000)), ?_, ?_, ?_, ?_⟩
      · show (p.Grad.Data.map _)[i]? = _
        rw [List.getElem?_map, hg]
        rfl
      · intro h; exact mul_pos h hc
      · intro h; exact mul_neg_of_neg_of_pos h hc
      · intro h; rw [h, zero_mul]

/-- Witness for C36: the gradients `[3, -4]` and `[0]` (norm `5`) clipped to
`maxNorm = 1`, over the reals with the square root. -/
theorem ClipGradNorm_bound_witness :
    ∃ opt', (NewAdamW [⟨NewFromData [1, 2] [2], NewFromData [3, -4] [2], "weight"⟩,
          ⟨NewFromData [3] [1], NewFromData [0] [1], "bias"⟩] (1 / 10) : AdamW ℝ).ClipGradNorm
          Real.sqrt 1 = some opt' ∧
      Real.sqrt (gradSqSum opt'.Params) ≤ 1 ∧
      opt'.ClipGradNorm Real.sqrt 1 = some opt' := by
  obtain ⟨opt', h1, h2, -, -, h5⟩ := ClipGradNorm_bound Real.sqrt
    (fun x y hx => Real.sqrt_mul hx y) Real.sqrt_mul_self_eq_abs
    (NewAdamW [⟨NewFromData [1, 2] [2], NewFromData [3, -4] [2], "weight"⟩,
      ⟨NewFromData [3] [1], NewFromData [0] [1], "bias"⟩] (1 / 10) : AdamW ℝ) 1 (by norm_num)
    (by
      intro p hp
      simp only [NewAdamW, List.mem_cons, List.mem_singleton, List.not_mem_nil, or_false] at hp
      rcases hp with rfl | rfl <;> rfl)
  exact ⟨opt', h1, h2, h5⟩

end optim

namespace tensor

/-! ## Four nested loops whose body writes several cells -/

theorem nest4_rel {α : Type} (n1 n2 n3 n4 L : Nat)
    (body : Nat → Nat → Nat → Nat → List α → Option (List α))
    (Wr : Nat → Nat → Nat → Nat → Nat → α → Prop) (d0 : List α)
    (hcons : ∀ a b c d a' b' c' d' p v v', a < n1 → b < n2 → c < n3 → d < n4 → a' < n1 →
      b' < n2 → c' < n3 → d' < n4 → Wr a b c d p v → Wr a' b' c' d' p v' → v = v')
    (hbody : ∀ a b c d s, a < n1 → b < n2 → c < n3 → d < n4 → s.length = L →
      ∃ s', body a b c d s = some s' ∧ s'.length = L ∧
        (∀ p v, Wr a b c d p v → s'[p]? = some v) ∧
        (∀ p, (∀ v, ¬ Wr a b c d p v) → s'[p]? = s[p]?))
    (hlen : d0.length = L) :
    ∃ d', forRange (fun a s => forRange (fun b s => forRange (fun c s => forRange (fun d s =>
            body a b c d s) n4 s) n3 s) n2 s) n1 d0 = some d' ∧
      d'.length = L ∧
      (∀ a b c d p v, a < n1 → b < n2 → c < n3 → d < n4 → Wr a b c d p v → d'[p]? = some v) ∧
      (∀ p, (∀ a b c d v, a < n1 → b < n2 → c < n3 → d < n4 → ¬ Wr a b c d p v) →
        d'[p]? = d0[p]?) := by
  obtain ⟨d', h1, hl, hin, hout⟩ := loop_rel n1 L
    (fun a s => forRange (fun b s => forRange (fun c s => forRange (fun d s =>
      body a b c d s) n4 s) n3 s) n2 s)
    (fun a p v => ∃ b c d, b < n2 ∧ c < n3 ∧ d < n4 ∧ Wr a b c d p v) d0
    (by
      rintro a a' p v v' ha ha' ⟨b, c, d, hb, hc, hd, hw⟩ ⟨b', c', d', hb', hc', hd', hw'⟩
      exact hcons a b c d a' b' c' d' p v v' ha hb hc hd ha' hb' hc' hd' hw hw')
    (by
      intro a s ha hs
      obtain ⟨s', g1, gl, gin, gout⟩ := loop_rel n2 L
        (fun b s => forRange (fun c s => forRange (fun d s => body a b c d s) n4 s) n3 s)
        (fun b p v => ∃ c d, c < n3 ∧ d < n4 ∧ Wr a b c d p v) s
        (by
          rintro b b' p v v' hb hb' ⟨c, d, hc, hd, hw⟩ ⟨c', d', hc', hd', hw'⟩
          exact hcons a b c d a b' c' d' p v v' ha hb hc hd ha hb' hc' hd' hw hw')
        (by
          intro b s hb hs
          obtain ⟨s', g1, gl, gin, gout⟩ := loop_rel n3 L
            (fun c s => forRange (fun d s => body a b c d s) n4 s)
            (fun c p v => ∃ d, d < n4 ∧ Wr a b c d p v) s
            (by
              rintro c c' p v v' hc hc' ⟨d, hd, hw⟩ ⟨d', hd', hw'⟩
              exact hcons a b c d a b c' d' p v v' ha hb hc hd ha hb hc' hd' hw hw')
            (by
              intro c s hc hs
              obtain ⟨s', g1, gl, gin, gout⟩ := loop_rel n4 L
                (fun d s => body a b c d s) (fun d p v => Wr a b c d p v) s
                (by
                  intro d d' p v v' hd hd' hw hw'
                  exact hcons a b c d a b c d' p v v' ha hb hc hd ha hb hc hd' hw hw')
                (by
                  intro d s hd hs
                  exact hbody a b c d s ha hb hc hd hs)
                hs
              refine ⟨s', g1, gl, ?_, ?_⟩
              · rintro p v ⟨d, hd, hw⟩
                exact gin d _ _ hd hw
              · intro p hp'
                exact gout p (fun d v hd hw => hp' v ⟨d, hd, hw⟩))
            hs
          refine ⟨s', g1, gl, ?_, ?_⟩
          · rintro p v ⟨c, d, hc, hd, hw⟩
            exact gin c _ _ hc ⟨d, hd, hw⟩
          · intro p hp'
            exact gout p (fun c v hc ⟨d, hd, hw⟩ => hp' v ⟨c, d, hc, hd, hw⟩))
        hs
      refine ⟨s', g1, gl, ?_, ?_⟩
      · rintro p v ⟨b, c, d, hb, hc, hd, hw⟩
        exact gin b _ _ hb ⟨c, d, hc, hd, hw⟩
      · intro p hp'
        exact gout p (fun b v hb ⟨c, d, hc, hd, hw⟩ => hp' v ⟨b, c, d, hb, hc, hd, hw⟩))
    hlen
  refine ⟨d', h1, hl, ?_, ?_⟩
  · intro a b c d p v ha hb hc hd hw
    exact hin a _ _ ha ⟨b, c, d, hb, hc, hd, hw⟩
  · intro p hp
    apply hout
    rintro a v ha ⟨b, c, d, hb, hc, hd, hw⟩
    exact hp a b c d v ha hb hc hd hw

end tensor

namespace transformer

open tensor nn

/-! ## The head layout is a bijection -/

theorem idx4_decomp {B H T D p : Nat} (h : p < B * (H * (T * D))) :
    ∃ b h t d, b < B ∧ h < H ∧ t < T ∧ d < D ∧ p = ((b * H + h) * T + t) * D + d := by
  have h' : p < B * H * T * D := by
    calc p < B * (H * (T * D)) := h
      _ = B * H * T * D := by ring
  obtain ⟨r1, d, hr1, hd, e1⟩ := idx2_decomp h'
  obtain ⟨r2, t, hr2, ht, e2⟩ := idx2_decomp hr1
  obtain ⟨b, hh, hb, hhh, e3⟩ := idx2_decomp hr2
  exact ⟨b, hh, t, d, hb, hhh, ht, hd, by rw [e1, e2, e3]⟩

theorem flat_decomp {B T C H D p : Nat} (hC : C = H * D) (h : p < B * T * C) :
    ∃ b t h d, b < B ∧ t < T ∧ h < H ∧ d < D ∧ p = (b * T + t) * C + h * D + d := by
  obtain ⟨r, c, hr, hc, e1⟩ := idx2_decomp h
  obtain ⟨b, t, hb, ht, e2⟩ := idx2_decomp hr
  rw [hC] at hc
  obtain ⟨hh, d, hhh, hd, e3⟩ := idx2_decomp hc
  exact ⟨b, t, hh, d, hb, ht, hhh, hd, by rw [e1, e2, e3, Nat.add_assoc]⟩

theorem inverseReassembleLoop_spec {α : Type} [Zero α] (flatData : List α) (B T C H D : Nat)
    (hHD : H * D ≤ C) (hlen : flatData.length = B * T * C) (d0 : List α)
    (hd0 : d0.length = B * (H * (T * D))) :
    ∃ d', inverseReassembleLoop flatData B T C H D d0 = some d' ∧
      d'.length = B * (H * (T * D)) ∧
      ∀ b t h d, b < B → t < T → h < H → d < D →
        d'[((b * H + h) * T + t) * D + d]? = flatData[(b * T + t) * C + h * D + d]? := by
  have hsrc : ∀ b t h d, b < B → t < T → h < H → d < D →
      (b * T + t) * C + h * D + d < flatData.length := by
    intro b t h d hb ht hh hd
    have c1 : h * D + d < C := lt_of_lt_of_le (idx2_lt hh hd) hHD
    have c2 := idx2_lt (idx2_lt hb ht) c1
    rw [hlen]
    omega
  obtain ⟨d', h1, hl, hin, -⟩ := nest4_write B T H D (B * (H * (T * D)))
    (fun b t h d => ((b * H + h) * T + t) * D + d)
    (fun b t h d => flatData[(b * T + t) * C + h * D + d]?)
    (fun b t h d => (flatData[(b * T + t) * C + h * D + d]?).getD 0) d0
    (fun b t h d hb ht hh hd => getElem?_eq_some_getD _ _ (hsrc b t h d hb ht hh hd))
    (fun b t h d hb ht hh hd => idx4_lt hb hh ht hd)
    (by
      intro b t h d b' t' h' d' hb ht hh hd hb' ht' hh' hd' e
      obtain ⟨e1, e2, e3, e4⟩ := idx4_inj hh ht hd hh' ht' hd' e
      subst e1 e2 e3 e4
      rfl)
    hd0
  refine ⟨d', ?_, hl, ?_⟩
  · unfold inverseReassembleLoop
    simpa using h1
  · intro b t h d hb ht hh hd
    rw [hin b t h d hb ht hh hd]
    exact (getElem?_eq_some_getD _ _ (hsrc b t h d hb ht hh hd)).symm

end transformer

namespace transformer

open tensor nn

theorem qkv_pos_inj {T C H D b t h d k b' t' h' d' k' : Nat} (hHD : H * D ≤ C)
    (ht : t < T) (hh : h < H) (hd : d < D) (hk : k < 3) (ht' : t' < T) (hh' : h' < H)
    (hd' : d' < D) (hk' : k' < 3)
    (e : (b * T + t) * (3 * C) + k * C + h * D + d
      = (b' * T + t') * (3 * C) + k' * C + h' * D + d') :
    b = b' ∧ t = t' ∧ h = h' ∧ d = d' ∧ k = k' := by
  have c1 : h * D + d < C := lt_of_lt_of_le (idx2_lt hh hd) hHD
  have c2 : h' * D + d' < C := lt_of_lt_of_le (idx2_lt hh' hd') hHD
  have c3 : k * C + (h * D + d) < 3 * C := idx2_lt hk c1
  have c4 : k' * C + (h' * D + d') < 3 * C := idx2_lt hk' c2
  obtain ⟨e1, e2⟩ := idx2_inj c3 c4 (by omega : (b * T + t) * (3 * C) + (k * C + (h * D + d))
    = (b' * T + t') * (3 * C) + (k' * C + (h' * D + d')))
  obtain ⟨e3, e4⟩ := idx2_inj ht ht' e1
  obtain ⟨e5, e6⟩ := idx2_inj c1 c2 e2
  obtain ⟨e7, e8⟩ := idx2_inj hd hd' e6
  exact ⟨e3, e4, e7, e8, e5⟩

theorem qkvGradLoop_spec {α : Type} [Zero α] (dQ dK dV : List α) (B T C H D : Nat)
    (hHD : H * D ≤ C) (hq : dQ.length = B * (H * (T * D))) (hk : dK.length = B * (H * (T * D)))
    (hv : dV.length = B * (H * (T * D))) (d0 : List α) (hd0 : d0.length = B * T * (3 * C)) :
    ∃ d', qkvGradLoop dQ dK dV B T C H D d0 = some d' ∧ d'.length = B * T * (3 * C) ∧
      (∀ b t h d, b < B → t < T → h < H → d < D →
        d'[(b * T + t) * (3 * C) + h * D + d]? = dQ[((b * H + h) * T + t) * D + d]? ∧
        d'[(b * T + t) * (3 * C) + C + h * D + d]? = dK[((b * H + h) * T + t) * D + d]? ∧
        d'[(b * T + t) * (3 * C) + 2 * C + h * D + d]? = dV[((b * H + h) * T + t) * D + d]?) ∧
      (∀ b t c, b < B → t < T → H * D ≤ c → c < C →
        d'[(b * T + t) * (3 * C) + c]? = d0[(b * T + t) * (3 * C) + c]? ∧
        d'[(b * T + t) * (3 * C) + C + c]? = d0[(b * T + t) * (3 * C) + C + c]? ∧
        d'[(b * T + t) * (3 * C) + 2 * C + c]? = d0[(b * T + t) * (3 * C) + 2 * C + c]?) := by
  have hsrc : ∀ (l : List α), l.length = B * (H * (T * D)) → ∀ b t h d, b < B → t < T → h < H →
      d < D → l[((b * H + h) * T + t) * D + d]? = some
        ((l[((b * H + h) * T + t) * D + d]?).getD 0) := by
    intro l hl b t h d hb ht hh hd
    exact getElem?_eq_some_getD _ _ (by rw [hl]; exact idx4_lt hb hh ht hd)
  have hpos : ∀ b t h d k, b < B → t < T → h < H → d < D → k < 3 →
      (b * T + t) * (3 * C) + k * C + h * D + d < B * T * (3 * C) := by
    intro b t h d k hb ht hh hd hk3
    have c1 : h * D + d < C := lt_of_lt_of_le (idx2_lt hh hd) hHD
    have c3 : k * C + (h * D + d) < 3 * C := idx2_lt hk3 c1
    have := idx2_lt (idx2_lt hb ht) c3
    omega
  obtain ⟨d', h1, hl, hin, hout⟩ := nest4_rel B T H D (B * T * (3 * C))
    (fun b t h d s =>
      (dQ[((b * H + h) * T + t) * D + d]?).bind (fun xq =>
      (setIdx s ((b * T + t) * (3 * C) + h * D + d) xq).bind (fun s1 =>
      (dK[((b * H + h) * T + t) * D + d]?).bind (fun xk =>
      (setIdx s1 ((b * T + t) * (3 * C) + C + h * D + d) xk).bind (fun s2 =>
      (dV[((b * H + h) * T + t) * D + d]?).bind (fun xv =>
      setIdx s2 ((b * T + t) * (3 * C) + 2 * C + h * D + d) xv))))))
    (fun b t h d p v =>
      (p = (b * T + t) * (3 * C) + 0 * C + h * D + d
        ∧ v = (dQ[((b * H + h) * T + t) * D + d]?).getD 0) ∨
      (p = (b * T + t) * (3 * C) + 1 * C + h * D + d
        ∧ v = (dK[((b * H + h) * T + t) * D + d]?).getD 0) ∨
      (p = (b * T + t) * (3 * C) + 2 * C + h * D + d
        ∧ v = (dV[((b * H + h) * T + t) * D + d]?).getD 0)) d0
    (by
      intro b t h d b' t' h' d' p v v' hb ht hh hd hb' ht' hh' hd' hw hw'
      rcases hw with ⟨e, rfl⟩ | ⟨e, rfl⟩ | ⟨e, rfl⟩ <;>
        rcases hw' with ⟨e', rfl⟩ | ⟨e', rfl⟩ | ⟨e', rfl⟩ <;>
        obtain ⟨e1, e2, e3, e4, e5⟩ := qkv_pos_inj hHD ht hh hd (by omega) ht' hh' hd'
          (by omega) (e.symm.trans e') <;>
        first
          | (subst e1 e2 e3 e4; rfl)
          | (exact absurd e5 (by decide)))
    (by
      intro b t h d s hb ht hh hd hs
      have p0 := hpos b t h d 0 hb ht hh hd (by omega)
      have p1 := hpos b t h d 1 hb ht hh hd (by omega)
      have p2 := hpos b t h d 2 hb ht hh hd (by omega)
      have c1 : h * D + d < C := lt_of_lt_of_le (idx2_lt hh hd) hHD
      simp only [Nat.zero_mul, Nat.one_mul, Nat.add_zero] at p0 p1
      refine ⟨((s.set ((b * T + t) * (3 * C) + h * D + d)
            ((dQ[((b * H + h) * T + t) * D + d]?).getD 0)).set
            ((b * T + t) * (3 * C) + C + h * D + d)
            ((dK[((b * H + h) * T + t) * D + d]?).getD 0)).set
            ((b * T + t) * (3 * C) + 2 * C + h * D + d)
            ((dV[((b * H + h) * T + t) * D + d]?).getD 0), ?_, by simpa using hs, ?_, ?_⟩
      · obtain ⟨xq, eq⟩ : ∃ x, dQ[((b * H + h) * T + t) * D + d]? = some x :=
          ⟨_, hsrc dQ hq b t h d hb ht hh hd⟩
        obtain ⟨xk, ek⟩ : ∃ x, dK[((b * H + h) * T + t) * D + d]? = some x :=
          ⟨_, hsrc dK hk b t h d hb ht hh hd⟩
        obtain ⟨xv, ev⟩ : ∃ x, dV[((b * H + h) * T + t) * D + d]? = some x :=
          ⟨_, hsrc dV hv b t h d hb ht hh hd⟩
        simp only [eq, ek, ev, Option.some_bind, Option.getD_some]
        rw [setIdx_eq_some _ _ _ (by omega), Option.some_bind,
          setIdx_eq_some _ _ _ (by simp; omega), Option.some_bind,
          setIdx_eq_some _ _ _ (by simp; omega)]
      · intro p v hw
        simp only [Nat.zero_mul, Nat.one_mul, Nat.add_zero] at hw
        rcases hw with ⟨rfl, rfl⟩ | ⟨rfl, rfl⟩ | ⟨rfl, rfl⟩
        · rw [List.getElem?_set_ne (by omega), List.getElem?_set_ne (by omega),
            List.getElem?_set_self (by omega)]
        · rw [List.getElem?_set_ne (by omega), List.getElem?_set_self (by simp; omega)]
        · rw [List.getElem?_set_self (by simp; omega)]
      · intro p hp
        simp only [Nat.zero_mul, Nat.one_mul, Nat.add_zero] at hp
        have n0 : (b * T + t) * (3 * C) + h * D + d ≠ p := fun e => hp _ (Or.inl ⟨e.symm, rfl⟩)
        have n1 : (b * T + t) * (3 * C) + C + h * D + d ≠ p :=
          fun e => hp _ (Or.inr (Or.inl ⟨e.symm, rfl⟩))
        have n2 : (b * T + t) * (3 * C) + 2 * C + h * D + d ≠ p :=
          fun e => hp _ (Or.inr (Or.inr ⟨e.symm, rfl⟩))
        rw [List.getElem?_set_ne n2, List.getElem?_set_ne n1, List.getElem?_set_ne n0])
    hd0
  refine ⟨d', ?_, hl, ?_, ?_⟩
  · unfold qkvGradLoop
    simpa using h1
  · intro b t h d hb ht hh hd
    refine ⟨?_, ?_, ?_⟩
    · rw [hsrc dQ hq b t h d hb ht hh hd]
      exact hin b t h d _ _ hb ht hh hd (Or.inl ⟨by simp, rfl⟩)
    · rw [hsrc dK hk b t h d hb ht hh hd]
      exact hin b t h d _ _ hb ht hh hd (Or.inr (Or.inl ⟨by simp, rfl⟩))
    · rw [hsrc dV hv b t h d hb ht hh hd]
      exact hin b t h d _ _ hb ht hh hd (Or.inr (Or.inr ⟨rfl, rfl⟩))
  · intro b t c hb ht hc hcC
    have key : ∀ k, k < 3 → d'[(b * T + t) * (3 * C) + k * C + c]?
        = d0[(b * T + t) * (3 * C) + k * C + c]? := by
      intro k hk3
      apply hout
      intro b' t' h' d1 v hb' ht' hh' hd' hw
      have c2 : h' * D + d1 < H * D := idx2_lt hh' hd'
      have c2' : h' * D + d1 < C := lt_of_lt_of_le c2 hHD
      have aux : ∀ k', k' < 3 → (b * T + t) * (3 * C) + k * C + c
          ≠ (b' * T + t') * (3 * C) + k' * C + h' * D + d1 := by
        intro k' hk' e
        have c3 : k * C + c < 3 * C := idx2_lt hk3 hcC
        have c4 : k' * C + (h' * D + d1) < 3 * C := idx2_lt hk' c2'
        obtain ⟨-, e2⟩ := idx2_inj c3 c4 (by omega : (b * T + t) * (3 * C) + (k * C + c)
          = (b' * T + t') * (3 * C) + (k' * C + (h' * D + d1)))
        obtain ⟨-, e4⟩ := idx2_inj hcC c2' e2
        omega
      rcases hw with ⟨e, -⟩ | ⟨e, -⟩ | ⟨e, -⟩
      · exact aux 0 (by omega) e
      · exact aux 1 (by omega) e
      · exact aux 2 (by omega) e
    have k0 := key 0 (by omega)
    have k1 := key 1 (by omega)
    have k2 := key 2 (by omega)
    simp only [Nat.zero_mul, Nat.one_mul, Nat.add_zero] at k0 k1
    exact ⟨k0, k1, k2⟩

end transformer

namespace transformer

open tensor nn

/-! ## Splitting into heads and reassembling are mutually inverse -/

theorem New_length4 {α : Type} [Zero α] (B H T D : Nat) :
    (New [B, H, T, D] : NDArray α).Data.length = B * (H * (T * D)) := by
  rw [(New_facts _).2.2.2, List.length_replicate]
  simp

theorem New_length3 {α : Type} [Zero α] (B T C : Nat) :
    (New [B, T, C] : NDArray α).Data.length = B * T * C := by
  rw [(New_facts _).2.2.2, List.length_replicate]
  simp [Nat.mul_assoc]

theorem ext_of_lt {α : Type} {x y : List α} (L : Nat) (hx : x.length = L) (hy : y.length = L)
    (h : ∀ p, p < L → x[p]? = y[p]?) : x = y := by
  apply List.ext_getElem?
  intro p
  by_cases hp : p < L
  · exact h p hp
  · rw [List.getElem?_eq_none (by omega), List.getElem?_eq_none (by omega)]

/-- C40: with `C = NHead * headDim` (positivity of `NHead` and `headDim` is not
needed), the index map `(b,t,h,d) -> ((b*NHead + h)*T + t)*headDim + d` of the
head layout is a bijection from `[0,B) x [0,T) x [0,NHead) x [0,headDim)` onto
`[0, B*T*C)`; the inverse reassembly of `Backward` followed by the reassembly
of `Forward` returns the original `[B, T, C]` buffer, and conversely; the
split of `Forward` followed by the QKV gradient reassembly of `Backward`
returns the original `[B, T, 3C]` buffer, and conversely. -/
theorem head_layout_inverse {α : Type} [Zero α] (B T C H D : Nat) (hC : C = H * D) :
    ((∀ b t h d, b < B → t < T → h < H → d < D → ((b * H + h) * T + t) * D + d < B * T * C) ∧
      (∀ b t h d b' t' h' d', b < B → t < T → h < H → d < D → b' < B → t' < T → h' < H →
        d' < D → ((b * H + h) * T + t) * D + d = ((b' * H + h') * T + t') * D + d' →
        b = b' ∧ t = t' ∧ h = h' ∧ d = d') ∧
      (∀ p, p < B * T * C →
        ∃ b t h d, b < B ∧ t < T ∧ h < H ∧ d < D ∧ p = ((b * H + h) * T + t) * D + d)) ∧
    (∀ x : List α, x.length = B * T * C →
      ∃ y, inverseReassembleLoop x B T C H D (New [B, H, T, D] : NDArray α).Data = some y ∧
        reassembleLoop y B T C H D (New [B, T, C] : NDArray α).Data = some x) ∧
    (∀ y : List α, y.length = B * (H * (T * D)) →
      ∃ x, reassembleLoop y B T C H D (New [B, T, C] : NDArray α).Data = some x ∧
        inverseReassembleLoop x B T C H D (New [B, H, T, D] : NDArray α).Data = some y) ∧
    (∀ qkv : List α, qkv.length = B * T * (3 * C) →
      ∃ q k v, splitLoop qkv B T C H D
          ((New [B, H, T, D] : NDArray α).Data, (New [B, H, T, D] : NDArray α).Data,
            (New [B, H, T, D] : NDArray α).Data) = some (q, k, v) ∧
        qkvGradLoop q k v B T C H D (New [B, T, 3 * C] : NDArray α).Data = some qkv) ∧
    (∀ q k v : List α, q.length = B * (H * (T * D)) → k.length = B * (H * (T * D)) →
      v.length = B * (H * (T * D)) →
      ∃ g, qkvGradLoop q k v B T C H D (New [B, T, 3 * C] : NDArray α).Data = some g ∧
        splitLoop g B T C H D
          ((New [B, H, T, D] : NDArray α).Data, (New [B, H, T, D] : NDArray α).Data,
            (New [B, H, T, D] : NDArray α).Data) = some (q, k, v)) := by
  have hHD : H * D ≤ C := le_of_eq hC.symm
  have hsz : B * T * C = B * (H * (T * D)) := by rw [hC]; ring
  refine ⟨⟨?_, ?_, ?_⟩, ?_, ?_, ?_, ?_⟩
  · intro b t h d hb ht hh hd
    rw [hsz]
    exact idx4_lt hb hh ht hd
  · intro b t h d b' t' h' d' _ ht hh hd _ ht' hh' hd' e
    obtain ⟨e1, e2, e3, e4⟩ := idx4_inj hh ht hd hh' ht' hd' e
    exact ⟨e1, e3, e2, e4⟩
  · intro p hp
    rw [hsz] at hp
    obtain ⟨b, h, t, d, hb, hh, ht, hd, e⟩ := idx4_decomp hp
    exact ⟨b, t, h, d, hb, ht, hh, hd, e⟩
  · intro x hx
    obtain ⟨y, y1, y2, y3⟩ := inverseReassembleLoop_spec x B T C H D hHD hx
      (New [B, H, T, D] : NDArray α).Data (New_length4 B H T D)
    obtain ⟨x', x1, x2, x3, -⟩ := reassembleLoop_spec y B T C H D hHD y2
      (New [B, T, C] : NDArray α).Data (New_length3 B T C)
    have e : x' = x := by
      apply ext_of_lt (B * T * C) x2 hx
      intro p hp
      obtain ⟨b, t, h, d, hb, ht, hh, hd, rfl⟩ := flat_decomp hC hp
      rw [x3 b t h d hb ht hh hd, y3 b t h d hb ht hh hd]
    rw [e] at x1
    exact ⟨y, y1, x1⟩
  · intro y hy
    obtain ⟨x, x1, x2, x3, -⟩ := reassembleLoop_spec y B T C H D hHD hy
      (New [B, T, C] : NDArray α).Data (New_length3 B T C)
    obtain ⟨y', y1, y2, y3⟩ := inverseReassembleLoop_spec x B T C H D hHD x2
      (New [B, H, T, D] : NDArray α).Data (New_length4 B H T D)
    have e : y' = y := by
      apply ext_of_lt (B * (H * (T * D))) y2 hy
      intro p hp
      obtain ⟨b, h, t, d, hb, hh, ht, hd, rfl⟩ := idx4_decomp hp
      rw [y3 b t h d hb ht hh hd, x3 b t h d hb ht hh hd]
    rw [e] at y1
    exact ⟨x, x1, y1⟩
  · intro qkv hqkv
    obtain ⟨q, k, v, s1, lq, lk, lv, s2⟩ := splitLoop_spec qkv B T C H D hHD hqkv
      ((New [B, H, T, D] : NDArray α).Data, (New [B, H, T, D] : NDArray α).Data,
        (New [B, H, T, D] : NDArray α).Data) (New_length4 B H T D) (New_length4 B H T D)
      (New_length4 B H T D)
    obtain ⟨g, g1, g2, g3, -⟩ := qkvGradLoop_spec q k v B T C H D hHD lq lk lv
      (New [B, T, 3 * C] : NDArray α).Data (New_length3 B T (3 * C))
    have e : g = qkv := by
      apply ext_of_lt (B * T * (3 * C)) g2 hqkv
      intro p hp
      obtain ⟨r, c3, hr, hc3, rfl⟩ := idx2_decomp hp
      obtain ⟨b, t, hb, ht, rfl⟩ := idx2_decomp hr
      obtain ⟨kk, c, hkk, hc, rfl⟩ := idx2_decomp hc3
      rw [hC] at hc
      obtain ⟨h, d, hh, hd, rfl⟩ := idx2_decomp hc
      obtain ⟨a1, a2, a3⟩ := g3 b t h d hb ht hh hd
      obtain ⟨b1, b2, b3⟩ := s2 b t h d hb ht hh hd
      have hk3 : kk = 0 ∨ kk = 1 ∨ kk = 2 := by omega
      rcases hk3 with rfl | rfl | rfl
      · have i1 : (b * T + t) * (3 * C) + (0 * C + (h * D + d))
            = (b * T + t) * (3 * C) + h * D + d := by omega
        rw [i1, a1, b1]
      · have i1 : (b * T + t) * (3 * C) + (1 * C + (h * D + d))
            = (b * T + t) * (3 * C) + C + h * D + d := by omega
        rw [i1, a2, b2]
      · have i1 : (b * T + t) * (3 * C) + (2 * C + (h * D + d))
            = (b * T + t) * (3 * C) + 2 * C + h * D + d := by omega
        rw [i1, a3, b3]
    rw [e] at g1
    exact ⟨q, k, v, s1, g1⟩
  · intro q k v hq hk hv
    obtain ⟨g, g1, g2, g3, -⟩ := qkvGradLoop_spec q k v B T C H D hHD hq hk hv
      (New [B, T, 3 * C] : NDArray α).Data (New_length3 B T (3 * C))
    obtain ⟨q', k', v', s1, lq, lk, lv, s2⟩ := splitLoop_spec g B T C H D hHD g2
      ((New [B, H, T, D] : NDArray α).Data, (New [B, H, T, D] : NDArray α).Data,
        (New [B, H, T, D] : NDArray α).Data) (New_length4 B H T D) (New_length4 B H T D)
      (New_length4 B H T D)
    have eq : q' = q := by
      apply ext_of_lt (B * (H * (T * D))) lq hq
      intro p hp
      obtain ⟨b, h, t, d, hb, hh, ht, hd, rfl⟩ := idx4_decomp hp
      rw [(s2 b t h d hb ht hh hd).1, (g3 b t h d hb ht hh hd).1]
    have ek : k' = k := by
      apply ext_of_lt (B * (H * (T * D))) lk hk
      intro p hp
      obtain ⟨b, h, t, d, hb, hh, ht, hd, rfl⟩ := idx4_decomp hp
      rw [(s2 b t h d hb ht hh hd).2.1, (g3 b t h d hb ht hh hd).2.1]
    have ev : v' = v := by
      apply ext_of_lt (B * (H * (T * D))) lv hv
      intro p hp
      obtain ⟨b, h, t, d, hb, hh, ht, hd, rfl⟩ := idx4_decomp hp
      rw [(s2 b t h d hb ht hh hd).2.2, (g3 b t h d hb ht hh hd).2.2]
    rw [eq, ek, ev] at s1
    exact ⟨g, g1, s1⟩

/-- Witness for C40: one batch, two positions, two heads of width one. -/
theorem head_layout_inverse_witness :
    (∃ y, inverseReassembleLoop ([1, 2, 3, 4] : List ℤ) 1 2 2 2 1
          (New [1, 2, 2, 1] : NDArray ℤ).Data = some y ∧
        reassembleLoop y 1 2 2 2 1 (New [1, 2, 2] : NDArray ℤ).Data = some [1, 2, 3, 4]) ∧
    (∃ q k v, splitLoop ([1, 2, 3, 4, 5, 6, 7, 8, 9, 10, 11, 12] : List ℤ) 1 2 2 2 1
          ((New [1, 2, 2, 1] : NDArray ℤ).Data, (New [1, 2, 2, 1] : NDArray ℤ).Data,
            (New [1, 2, 2, 1] : NDArray ℤ).Data) = some (q, k, v) ∧
        qkvGradLoop q k v 1 2 2 2 1 (New [1, 2, 3 * 2] : NDArray ℤ).Data
          = some [1, 2, 3, 4, 5, 6, 7, 8, 9, 10, 11, 12]) :=
  ⟨(head_layout_inverse 1 2 2 2 1 (by decide)).2.1 [1, 2, 3, 4] (by decide),
    (head_layout_inverse 1 2 2 2 1 (by decide)).2.2.2.1 [1, 2, 3, 4, 5, 6, 7, 8, 9, 10, 11, 12]
      (by decide)⟩

end transformer

namespace data

open tensor

/-! ## `GetBatch` -/

theorem fillRow_spec {α : Type} [Ring α] (tokens : List Int) (BS N b offset : Nat)
    (hb : b < N) (hoff : offset + BS + 1 ≤ tokens.length)
    (P : Nat → Nat → List α × List Int → Prop)
    (hP : ∀ b' t' (s : List α × List Int) (p : Nat) (u : α) (w : Int), t' < BS →
      p ≠ b' * BS + t' → s.1.length = N * BS → s.2.length = N * BS →
      P b' t' s → P b' t' (s.1.set p u, s.2.set p w))
    (hnew : ∀ t (s : List α × List Int), t < BS → s.1.length = N * BS → s.2.length = N * BS →
      tokens[offset + t]? = some ((tokens[offset + t]?).getD 0) →
      P b t (s.1.set (b * BS + t) (((tokens[offset + t]?).getD 0 : Int) : α),
        s.2.set (b * BS + t) ((tokens[offset + t + 1]?).getD 0)))
    (s : List α × List Int) (h1 : s.1.length = N * BS) (h2 : s.2.length = N * BS)
    (hrows : ∀ b' t', b' < b → t' < BS → P b' t' s) :
    ∃ s', fillRow tokens BS b offset s = some s' ∧ s'.1.length = N * BS ∧
      s'.2.length = N * BS ∧ ∀ b' t', b' ≤ b → t' < BS → P b' t' s' := by
  obtain ⟨s', g1, gl1, gl2, gP⟩ := forRange_inv
    (fun t (s : List α × List Int) => do
      let token ← tokens[offset + t]?
      let target ← tokens[offset + t + 1]?
      let x ← setIdx s.1 (b * BS + t) (token : α)
      let y ← setIdx s.2 (b * BS + t) target
      some (x, y))
    (fun t s => s.1.length = N * BS ∧ s.2.length = N * BS ∧
      ∀ b' t', t' < BS → (b' < b ∨ (b' = b ∧ t' < t)) → P b' t' s)
    BS s ⟨h1, h2, by
      intro b' t' ht' hc
      rcases hc with hc | ⟨-, hc⟩
      · exact hrows b' t' hc ht'
      · exact absurd hc (Nat.not_lt_zero _)⟩
    (by
      intro t s ht ⟨l1, l2, hi⟩
      have e1 := getElem?_eq_some_getD tokens (offset + t) (by omega)
      have e2 := getElem?_eq_some_getD tokens (offset + t + 1) (by omega)
      have hlt : b * BS + t < N * BS := idx2_lt hb ht
      refine ⟨(s.1.set (b * BS + t) (((tokens[offset + t]?).getD 0 : Int) : α),
        s.2.set (b * BS + t) ((tokens[offset + t + 1]?).getD 0)), ?_, by simpa using l1,
        by simpa using l2, ?_⟩
      · obtain ⟨tok, ek⟩ : ∃ z, tokens[offset + t]? = some z := ⟨_, e1⟩
        obtain ⟨tgt, eg⟩ : ∃ z, tokens[offset + t + 1]? = some z := ⟨_, e2⟩
        simp only [ek, eg, Option.bind_eq_bind, Option.some_bind, Option.getD_some]
        rw [setIdx_eq_some _ _ _ (by omega), Option.some_bind,
          setIdx_eq_some _ _ _ (by omega), Option.some_bind]
      · intro b' t' ht' hc
        by_cases he : b' = b ∧ t' = t
        · obtain ⟨rfl, rfl⟩ := he
          exact hnew t' s ht' l1 l2 e1
        · have hne : b * BS + t ≠ b' * BS + t' := by
            intro e
            obtain ⟨a1, a2⟩ := idx2_inj ht ht' e
            exact he ⟨a1.symm, a2.symm⟩
          apply hP b' t' s _ _ _ ht' hne l1 l2
          apply hi b' t' ht'
          rcases hc with hc | ⟨hc1, hc2⟩
          · exact Or.inl hc
          · exact Or.inr ⟨hc1, by
              rcases Nat.lt_succ_iff_lt_or_eq.mp hc2 with h | h
              · exact h
              · exact absurd ⟨hc1, h⟩ he⟩)
  refine ⟨s', g1, gl1, gl2, ?_⟩
  intro b' t' hb' ht'
  apply gP b' t' ht'
  rcases Nat.lt_or_eq_of_le hb' with h | h
  · exact Or.inl h
  · exact Or.inr ⟨h, ht'⟩

end data

namespace data

open tensor

/-- C39: `rand.Intn(n)` returns a value in `[0, n)`. For a dataset with
`len(Tokens) > BlockSize + 1` and every `batchSize`, `GetBatch` returns without
an out-of-range access, and for each row `b` there is an offset `o` with
`0 ≤ o < len(Tokens) - BlockSize - 1` such that `x[b,t] = Tokens[o+t]` and
`y[b*BlockSize+t] = Tokens[o+t+1]` for every `t < BlockSize`, so
`x[b,t+1] = y[b*BlockSize+t]` for `t < BlockSize - 1`; for
`len(Tokens) ≤ BlockSize + 1` it returns the all-zero `x` and `y`. -/
theorem GetBatch_spec {α : Type} [Ring α] (intn : Nat → Nat → Nat)
    (hintn : ∀ c n, 0 < n → intn c n < n) (k : Nat) (ds : TextDataset) (batchSize : Nat) :
    (ds.BlockSize + 1 < ds.Tokens.length →
      ∃ (x : NDArray α) (y : List Int) (k' : Nat),
        ds.GetBatch intn k batchSize = some (x, y, k') ∧
        x.Shape = [batchSize, ds.BlockSize] ∧ x.Data.length = batchSize * ds.BlockSize ∧
        y.length = batchSize * ds.BlockSize ∧
        ∀ b, b < batchSize → ∃ o, o < ds.Tokens.length - ds.BlockSize - 1 ∧
          (∀ t, t < ds.BlockSize → ∃ token target : Int,
            ds.Tokens[o + t]? = some token ∧ ds.Tokens[o + t + 1]? = some target ∧
            x.Data[b * ds.BlockSize + t]? = some (token : α) ∧
            y[b * ds.BlockSize + t]? = some target) ∧
          (∀ t, t + 1 < ds.BlockSize → ∃ target : Int,
            y[b * ds.BlockSize + t]? = some target ∧
            x.Data[b * ds.BlockSize + (t + 1)]? = some (target : α))) ∧
    (ds.Tokens.length ≤ ds.BlockSize + 1 →
      ds.GetBatch intn k batchSize
        = some ((New [batchSize, ds.BlockSize] : NDArray α),
            List.replicate (batchSize * ds.BlockSize) 0, k) ∧
      (New [batchSize, ds.BlockSize] : NDArray α).Data
        = List.replicate (batchSize * ds.BlockSize) 0) := by
  constructor
  · intro hlen
    have hM : 0 < ds.Tokens.length - ds.BlockSize - 1 := by omega
    have hcond : ¬ ((ds.Tokens.length : Int) - (ds.BlockSize : Int) - 1 ≤ 0) := by omega
    have hnewlen : (New [batchSize, ds.BlockSize] : NDArray α).Data.length
        = batchSize * ds.BlockSize := by
      rw [(New_facts _).2.2.2, List.length_replicate]
      simp
    obtain ⟨s, g1, gl1, gl2, gP⟩ := forRange_inv
      (fun b (s : List α × List Int) =>
        fillRow ds.Tokens ds.BlockSize b
          (intn (k + b) (ds.Tokens.length - ds.BlockSize - 1)) s)
      (fun b s => s.1.length = batchSize * ds.BlockSize ∧
        s.2.length = batchSize * ds.BlockSize ∧
        ∀ b' t', b' < b → t' < ds.BlockSize →
          s.1[b' * ds.BlockSize + t']? = some
            (((ds.Tokens[intn (k + b') (ds.Tokens.length - ds.BlockSize - 1) + t']?).getD 0
              : Int) : α) ∧
          s.2[b' * ds.BlockSize + t']? = some
            ((ds.Tokens[intn (k + b') (ds.Tokens.length - ds.BlockSize - 1) + t' + 1]?).getD 0))
      batchSize
      ((New [batchSize, ds.BlockSize] : NDArray α).Data,
        List.replicate (batchSize * ds.BlockSize) 0)
      ⟨hnewlen, by simp, fun b' t' hb' => absurd hb' (Nat.not_lt_zero _)⟩
      (by
        intro b s hb ⟨l1, l2, hrows⟩
        have ho := hintn (k + b) _ hM
        obtain ⟨s', f1, fl1, fl2, fP⟩ := fillRow_spec ds.Tokens ds.BlockSize batchSize b
          (intn (k + b) (ds.Tokens.length - ds.BlockSize - 1)) hb (by omega)
          (fun b' t' s =>
            s.1[b' * ds.BlockSize + t']? = some
              (((ds.Tokens[intn (k + b') (ds.Tokens.length - ds.BlockSize - 1) + t']?).getD 0
                : Int) : α) ∧
            s.2[b' * ds.BlockSize + t']? = some
              ((ds.Tokens[intn (k + b') (ds.Tokens.length - ds.BlockSize - 1) + t' + 1]?).getD 0))
          (by
            intro b' t' s p u w _ hne _ _ ⟨a1, a2⟩
            exact ⟨by rw [List.getElem?_set_ne hne]; exact a1,
              by rw [List.getElem?_set_ne hne]; exact a2⟩)
          (by
            intro t s ht a1 a2 _
            have hlt : b * ds.BlockSize + t < batchSize * ds.BlockSize := idx2_lt hb ht
            exact ⟨by rw [List.getElem?_set_self (by omega)],
              by rw [List.getElem?_set_self (by omega)]⟩)
          s l1 l2 hrows
        exact ⟨s', f1, fl1, fl2, fun b' t' hb' ht' => fP b' t' (Nat.lt_succ_iff.mp hb') ht'⟩)
    refine ⟨{ (New [batchSize, ds.BlockSize] : NDArray α) with Data := s.1 }, s.2,
      k + batchSize, ?_, (New_facts (α := α) _).1, gl1, gl2, ?_⟩
    · unfold TextDataset.GetBatch
      rw [if_neg hcond, g1]
      rfl
    · intro b hb
      have ho := hintn (k + b) _ hM
      refine ⟨intn (k + b) (ds.Tokens.length - ds.BlockSize - 1), ho, ?_, ?_⟩
      · intro t ht
        exact ⟨_, _, getElem?_eq_some_getD _ _ (by omega), getElem?_eq_some_getD _ _ (by omega),
          (gP b t hb ht).1, (gP b t hb ht).2⟩
      · intro t ht
        exact ⟨_, (gP b t hb (by omega)).2, (gP b (t + 1) hb ht).1⟩
  · intro hlen
    have hcond : (ds.Tokens.length : Int) - (ds.BlockSize : Int) - 1 ≤ 0 := by omega
    refine ⟨?_, ?_⟩
    · unfold TextDataset.GetBatch
      rw [if_pos hcond]
    · rw [(New_facts _).2.2.2]
      simp

/-- Witness for C39: five tokens, block size `2`, two rows; `rand.Intn(n)`
returns `c % n` on its `c`-th call, so the offsets are `0` and `1`. -/
theorem GetBatch_spec_witness :
    (TextDataset.GetBatch (fun c n => c % n) 0 (NewTextDataset [5, 6, 7, 8, 9] 2) 2
        : Option (NDArray ℤ × List Int × Nat))
      = some (NewFromData [5, 6, 6, 7] [2, 2], [6, 7, 7, 8], 2) ∧
    ∃ (x : NDArray ℤ) (y : List Int) (k' : Nat),
      TextDataset.GetBatch (fun c n => c % n) 0 (NewTextDataset [5, 6, 7, 8, 9] 2) 2
        = some (x, y, k') ∧ x.Shape = [2, 2] ∧ y.length = 2 * 2 := by
  refine ⟨by decide, ?_⟩
  obtain ⟨x, y, k', h1, h2, -, h4, -⟩ := (GetBatch_spec (α := ℤ) (fun c n => c % n)
    (fun c n hn => Nat.mod_lt c hn) 0 (NewTextDataset [5, 6, 7, 8, 9] 2) 2).1 (by decide)
  exact ⟨x, y, k', h1, h2, h4⟩

end data

namespace tokenizer

/-! ## Go maps as association lists -/

theorem mapGet_mapSet {κ ν : Type} [DecidableEq κ] (m : List (κ × ν)) (k k' : κ) (v : ν) :
    mapGet (mapSet m k v) k' = if k = k' then some v else mapGet m k' := by
  induction m with
  | nil => simp [mapSet, mapGet]
  | cons e rest ih =>
    obtain ⟨k0, v0⟩ := e
    by_cases h0 : k0 = k
    · subst h0
      by_cases h1 : k0 = k' <;> simp [mapSet, mapGet, h1]
    · by_cases h1 : k = k'
      · subst h1
        simp [mapSet, mapGet, h0, ih]
      · simp [mapSet, mapGet, h0, h1, ih]

theorem mem_mapSet {κ ν : Type} [DecidableEq κ] (m : List (κ × ν)) (k : κ) (v : ν)
    (x : κ × ν) (h : x ∈ mapSet m k v) : x ∈ m ∨ x = (k, v) := by
  induction m with
  | nil =>
    simp only [mapSet, List.mem_singleton] at h
    exact Or.inr h
  | cons e rest ih =>
    obtain ⟨k0, v0⟩ := e
    by_cases h0 : k0 = k
    · simp only [mapSet, if_pos h0, List.mem_cons] at h
      rcases h with h | h
      · exact Or.inr h
      · exact Or.inl (List.mem_cons_of_mem _ h)
    · simp only [mapSet, if_neg h0, List.mem_cons] at h
      rcases h with h | h
      · exact Or.inl (by rw [h]; exact List.mem_cons_self _ _)
      · rcases ih h with h' | h'
        · exact Or.inl (List.mem_cons_of_mem _ h')
        · exact Or.inr h'

theorem mapSet_length_pos {κ ν : Type} [DecidableEq κ] (m : List (κ × ν)) (k : κ) (v : ν) :
    (mapSet m k v).length ≠ 0 := by
  cases m with
  | nil => simp [mapSet]
  | cons e rest =>
    obtain ⟨k0, v0⟩ := e
    by_cases h0 : k0 = k <;> simp [mapSet, h0]

theorem mem_of_mapGet {κ ν : Type} [DecidableEq κ] (m : List (κ × ν)) (k : κ) (v : ν)
    (h : mapGet m k = some v) : (k, v) ∈ m := by
  induction m with
  | nil => simp [mapGet] at h
  | cons e rest ih =>
    obtain ⟨k0, v0⟩ := e
    by_cases h0 : k0 = k
    · simp only [mapGet, if_pos h0, Option.some.injEq] at h
      rw [← h0, ← h]
      exact List.mem_cons_self _ _
    · simp only [mapGet, if_neg h0] at h
      exact List.mem_cons_of_mem _ (ih h)

/-! ## `getStats`, `getMax` and the search of `Encode` -/

theorem Adjacent_cons {a : Int} {ids : List Int} {p : Pair} (h : Adjacent ids p) :
    Adjacent (a :: ids) p := by
  obtain ⟨l, r, e⟩ := h
  exact ⟨a :: l, r, by rw [e]; rfl⟩

theorem Adjacent_length {ids : List Int} {p : Pair} (h : Adjacent ids p) : 2 ≤ ids.length := by
  obtain ⟨l, r, e⟩ := h
  rw [e]
  simp only [List.length_append, List.length_cons]
  omega

theorem Adjacent_mem {ids : List Int} {p : Pair} (h : Adjacent ids p) :
    p.a ∈ ids ∧ p.b ∈ ids := by
  obtain ⟨l, r, e⟩ := h
  rw [e]
  simp

theorem statsLoop_adj (ids : List Int) :
    ∀ (counts : List (Pair × Int)) (x : Pair × Int), x ∈ statsLoop ids counts →
      (∃ v, (x.1, v) ∈ counts) ∨ Adjacent ids x.1 := by
  induction ids with
  | nil =>
    intro counts x hx
    exact Or.inl ⟨x.2, hx⟩
  | cons a tl ih =>
    intro counts x hx
    cases tl with
    | nil => exact Or.inl ⟨x.2, hx⟩
    | cons b rest =>
      simp only [statsLoop] at hx
      rcases ih _ x hx with ⟨v, hv⟩ | hadj
      · rcases mem_mapSet _ _ _ _ hv with h | h
        · exact Or.inl ⟨v, h⟩
        · refine Or.inr ⟨[], rest, ?_⟩
          have e1 : x.1 = ⟨a, b⟩ := (Prod.mk.inj h).1
          rw [e1]
          rfl
      · exact Or.inr (Adjacent_cons hadj)

theorem statsLoop_pos (ids : List Int) :
    ∀ (counts : List (Pair × Int)), (∀ x, x ∈ counts → 0 < x.2) →
      ∀ x, x ∈ statsLoop ids counts → 0 < x.2 := by
  induction ids with
  | nil =>
    intro counts hc x hx
    exact hc x hx
  | cons a tl ih =>
    intro counts hc x hx
    cases tl with
    | nil => exact hc x hx
    | cons b rest =>
      simp only [statsLoop] at hx
      apply ih _ _ x hx
      intro y hy
      rcases mem_mapSet _ _ _ _ hy with h | h
      · exact hc y h
      · rw [h]
        show 0 < (mapGet counts ⟨a, b⟩).getD 0 + 1
        cases hg : mapGet counts ⟨a, b⟩ with
        | none => simp
        | some v =>
          have := hc _ (mem_of_mapGet _ _ _ hg)
          simp only [Option.getD_some]
          omega

theorem getStats_adj (ids : List Int) (x : Pair × Int) (hx : x ∈ getStats ids) :
    Adjacent ids x.1 ∧ 0 < x.2 := by
  refine ⟨?_, statsLoop_pos ids [] (fun y hy => absurd hy (List.not_mem_nil _)) x hx⟩
  rcases statsLoop_adj ids [] x hx with ⟨v, hv⟩ | h
  · exact absurd hv (List.not_mem_nil _)
  · exact h

theorem getMax_fold (l : List (Pair × Int)) :
    ∀ acc : Int × Pair,
      l.foldl (fun (acc : Int × Pair) pv => if pv.2 > acc.1 then (pv.2, pv.1) else acc) acc = acc ∨
      ∃ v, ((l.foldl (fun (acc : Int × Pair) pv => if pv.2 > acc.1 then (pv.2, pv.1) else acc)
        acc).2, v) ∈ l := by
  induction l with
  | nil => intro acc; exact Or.inl rfl
  | cons x rest ih =>
    intro acc
    simp only [List.foldl_cons]
    by_cases h : x.2 > acc.1
    · rw [if_pos h]
      rcases ih (x.2, x.1) with e | ⟨v, hv⟩
      · exact Or.inr ⟨x.2, by rw [e]; exact List.mem_cons_self _ _⟩
      · exact Or.inr ⟨v, List.mem_cons_of_mem _ hv⟩
    · rw [if_neg h]
      rcases ih acc with e | ⟨v, hv⟩
      · exact Or.inl e
      · exact Or.inr ⟨v, List.mem_cons_of_mem _ hv⟩

theorem getMax_mem (stats : List (Pair × Int)) (hne : stats.length ≠ 0)
    (hpos : ∀ x, x ∈ stats → 0 < x.2) : ∃ v, (getMax stats, v) ∈ stats := by
  cases stats with
  | nil => exact absurd rfl hne
  | cons x rest =>
    unfold getMax
    simp only [List.foldl_cons]
    have hx : x.2 > (-1 : Int) := by
      have := hpos x (List.mem_cons_self _ _)
      omega
    rw [if_pos hx]
    rcases getMax_fold rest (x.2, x.1) with e | ⟨v, hv⟩
    · exact ⟨x.2, by rw [e]; exact List.mem_cons_self _ _⟩
    · exact ⟨v, List.mem_cons_of_mem _ hv⟩

theorem bestPair_fold (t : Tokenizer) (L l : List (Pair × Int)) :
    ∀ acc : Int × Pair × Bool, (∀ x, x ∈ l → x ∈ L) →
      (acc.2.2 = true → (∃ v, (acc.2.1, v) ∈ L) ∧ mapGet t.Merges acc.2.1 = some acc.1) →
      ((l.foldl (fun (acc : Int × Pair × Bool) pv =>
          match mapGet t.Merges pv.1 with
          | some rank => if rank < acc.1 then (rank, pv.1, true) else acc
          | none => acc) acc).2.2 = true →
        (∃ v, ((l.foldl (fun (acc : Int × Pair × Bool) pv =>
          match mapGet t.Merges pv.1 with
          | some rank => if rank < acc.1 then (rank, pv.1, true) else acc
          | none => acc) acc).2.1, v) ∈ L) ∧
        mapGet t.Merges (l.foldl (fun (acc : Int × Pair × Bool) pv =>
          match mapGet t.Merges pv.1 with
          | some rank => if rank < acc.1 then (rank, pv.1, true) else acc
          | none => acc) acc).2.1
          = some (l.foldl (fun (acc : Int × Pair × Bool) pv =>
          match mapGet t.Merges pv.1 with
          | some rank => if rank < acc.1 then (rank, pv.1, true) else acc
          | none => acc) acc).1) := by
  induction l with
  | nil => intro acc _ h; exact h
  | cons x rest ih =>
    intro acc hsub hacc
    simp only [List.foldl_cons]
    apply ih _ (fun y hy => hsub y (List.mem_cons_of_mem _ hy))
    cases hg : mapGet t.Merges x.1 with
    | none => exact hacc
    | some rank =>
      by_cases hr : rank < acc.1
      · simp only [if_pos hr]
        intro _
        exact ⟨⟨x.2, hsub x (List.mem_cons_self _ _)⟩, hg⟩
      · simp only [if_neg hr]
        exact hacc

theorem bestPair_spec (t : Tokenizer) (stats : List (Pair × Int))
    (h : (bestPair t stats).2.2 = true) :
    (∃ v, ((bestPair t stats).2.1, v) ∈ stats) ∧
      mapGet t.Merges (bestPair t stats).2.1 = some (bestPair t stats).1 :=
  bestPair_fold t stats stats _ (fun _ hx => hx) (fun hf => by simp at hf) h

end tokenizer

namespace tokenizer

/-! ## `merge` -/

theorem merge_match (a b : Int) (rest : List Int) (p : Pair) (idx : Int)
    (h : a = p.a ∧ b = p.b) : merge (a :: b :: rest) p idx = idx :: merge rest p idx := by
  rw [merge, if_pos h]

theorem merge_skip (a b : Int) (rest : List Int) (p : Pair) (idx : Int)
    (h : ¬ (a = p.a ∧ b = p.b)) :
    merge (a :: b :: rest) p idx = a :: merge (b :: rest) p idx := by
  rw [merge, if_neg h]

theorem merge_length_le (ids : List Int) (p : Pair) (idx : Int) :
    (merge ids p idx).length ≤ ids.length := by
  induction ids, p, idx using merge.induct with
  | case1 a b rest p idx h ih =>
    rw [merge_match a b rest p idx h]
    simp only [List.length_cons]
    omega
  | case2 a b rest p idx h ih =>
    rw [merge_skip a b rest p idx h]
    simp only [List.length_cons] at ih ⊢
    omega
  | case3 a p idx => simp [merge]
  | case4 p idx => simp [merge]

theorem Adjacent_cons_iff (a : Int) (ids : List Int) (p : Pair) :
    Adjacent (a :: ids) p ↔ (a = p.a ∧ ∃ r, ids = p.b :: r) ∨ Adjacent ids p := by
  constructor
  · rintro ⟨l, r, e⟩
    cases l with
    | nil =>
      simp only [List.nil_append, List.cons.injEq] at e
      exact Or.inl ⟨e.1, r, e.2⟩
    | cons x l' =>
      simp only [List.cons_append, List.cons.injEq] at e
      exact Or.inr ⟨l', r, e.2⟩
  · rintro (⟨e, r, e'⟩ | h)
    · exact ⟨[], r, by rw [e, e']; rfl⟩
    · exact Adjacent_cons h

theorem merge_length_lt (ids : List Int) (p : Pair) (idx : Int) (hadj : Adjacent ids p) :
    (merge ids p idx).length < ids.length := by
  induction ids, p, idx using merge.induct with
  | case1 a b rest p idx h ih =>
    rw [merge_match a b rest p idx h]
    have := merge_length_le rest p idx
    simp only [List.length_cons]
    omega
  | case2 a b rest p idx h ih =>
    rw [merge_skip a b rest p idx h]
    rcases (Adjacent_cons_iff a (b :: rest) p).mp hadj with ⟨e, r, e'⟩ | h'
    · simp only [List.cons.injEq] at e'
      exact absurd ⟨e, e'.1⟩ h
    · have := ih h'
      simp only [List.length_cons] at this ⊢
      omega
  | case3 a p idx =>
    have := Adjacent_length hadj
    simp at this
  | case4 p idx =>
    have := Adjacent_length hadj
    simp at this

theorem merge_head (b : Int) (rest : List Int) (p : Pair) (idx : Int) :
    ∃ tl, merge (b :: rest) p idx = idx :: tl ∨ merge (b :: rest) p idx = b :: tl := by
  cases rest with
  | nil => exact ⟨[], Or.inr (by simp [merge])⟩
  | cons c rest' =>
    by_cases h : b = p.a ∧ c = p.b
    · exact ⟨_, Or.inl (merge_match b c rest' p idx h)⟩
    · exact ⟨_, Or.inr (merge_skip b c rest' p idx h)⟩

theorem merge_no_adjacent (ids : List Int) (p : Pair) (idx : Int) (ha : idx ≠ p.a)
    (hb : idx ≠ p.b) : ¬ Adjacent (merge ids p idx) p := by
  induction ids, p, idx using merge.induct with
  | case1 a b rest p idx h ih =>
    rw [merge_match a b rest p idx h, Adjacent_cons_iff]
    rintro (⟨e, -⟩ | h')
    · exact ha e
    · exact ih ha hb h'
  | case2 a b rest p idx h ih =>
    rw [merge_skip a b rest p idx h, Adjacent_cons_iff]
    rintro (⟨e, r, e'⟩ | h')
    · obtain ⟨tl, e1 | e1⟩ := merge_head b rest p idx
      · rw [e1] at e'
        simp only [List.cons.injEq] at e'
        exact hb e'.1
      · rw [e1] at e'
        simp only [List.cons.injEq] at e'
        exact h ⟨e, e'.1⟩
    · exact ih ha hb h'
  | case3 a p idx =>
    intro h
    have := Adjacent_length h
    simp [merge] at this
  | case4 p idx =>
    intro h
    have := Adjacent_length h
    simp [merge] at this

theorem merge_mem (ids : List Int) (p : Pair) (idx : Int) (x : Int)
    (hx : x ∈ merge ids p idx) : x ∈ ids ∨ x = idx := by
  induction ids, p, idx using merge.induct with
  | case1 a b rest p idx h ih =>
    rw [merge_match a b rest p idx h, List.mem_cons] at hx
    rcases hx with e | hx
    · exact Or.inr e
    · rcases ih hx with h1 | h1
      · exact Or.inl (List.mem_cons_of_mem _ (List.mem_cons_of_mem _ h1))
      · exact Or.inr h1
  | case2 a b rest p idx h ih =>
    rw [merge_skip a b rest p idx h, List.mem_cons] at hx
    rcases hx with e | hx
    · exact Or.inl (by rw [e]; exact List.mem_cons_self _ _)
    · rcases ih hx with h1 | h1
      · exact Or.inl (List.mem_cons_of_mem _ h1)
      · exact Or.inr h1
  | case3 a p idx => exact Or.inl (by simpa [merge] using hx)
  | case4 p idx => simp [merge] at hx

theorem merge_bytes (D : Int → Bytes) (ids : List Int) (p : Pair) (idx : Int)
    (h : D idx = D p.a ++ D p.b) :
    ((merge ids p idx).map D).flatten = (ids.map D).flatten := by
  induction ids, p, idx using merge.induct with
  | case1 a b rest p idx hm ih =>
    rw [merge_match a b rest p idx hm]
    simp only [List.map_cons, List.flatten_cons, ih h, h, hm.1, hm.2, List.append_assoc]
  | case2 a b rest p idx hm ih =>
    rw [merge_skip a b rest p idx hm]
    simp only [List.map_cons, List.flatten_cons] at ih ⊢
    rw [ih h]
  | case3 a p idx => simp [merge]
  | case4 p idx => simp [merge]

/-! ## `Decode` -/

theorem Decode_eq (t : Tokenizer) (ids : List Int) :
    t.Decode ids = (ids.map t.bytesOf).flatten := by
  have key : ∀ (l : List Int) (acc : Bytes),
      l.foldl (fun sb id => sb ++ (mapGet t.Decoder id).getD []) acc
        = acc ++ (l.map t.bytesOf).flatten := by
    intro l
    induction l with
    | nil => intro acc; simp
    | cons x rest ih =>
      intro acc
      simp only [List.foldl_cons, ih, List.map_cons, List.flatten_cons, List.append_assoc]
      rfl
  unfold Tokenizer.Decode
  rw [key]
  simp

end tokenizer

namespace tokenizer

/-! ## The loop of `Encode` ends -/

theorem encodeLoop_ok (order : Nat → List (Pair × Int) → List (Pair × Int))
    (hord : ∀ c l, (order c l).Perm l) (t : Tokenizer) (D : Int → Bytes)
    (hm : ∀ p r, mapGet t.Merges p = some r → D r = D p.a ++ D p.b) (fuel : Nat) :
    ∀ (c : Nat) (ids : List Int), ids.length ≤ fuel + 1 →
      ∃ out, encodeLoop order t fuel c ids = some out ∧ out.length ≤ ids.length ∧
        (out.map D).flatten = (ids.map D).flatten := by
  induction fuel with
  | zero =>
    intro c ids hlen
    by_cases hs : (getStats ids).length = 0
    · exact ⟨ids, by rw [encodeLoop, if_pos hs], le_refl _, rfl⟩
    · by_cases hf : (bestPair t (order c (getStats ids))).2.2 = false
      · exact ⟨ids, by rw [encodeLoop, if_neg hs, encodeStep, if_pos hf], le_refl _, rfl⟩
      · have hf' : (bestPair t (order c (getStats ids))).2.2 = true := by
          simpa using hf
        obtain ⟨⟨v, hv⟩, -⟩ := bestPair_spec t _ hf'
        have hadj : Adjacent ids (bestPair t (order c (getStats ids))).2.1 :=
          (getStats_adj ids _ (((hord c _).mem_iff).mp hv)).1
        have := Adjacent_length hadj
        omega
  | succ fuel ih =>
    intro c ids hlen
    by_cases hs : (getStats ids).length = 0
    · exact ⟨ids, by rw [encodeLoop, if_pos hs], le_refl _, rfl⟩
    · by_cases hf : (bestPair t (order c (getStats ids))).2.2 = false
      · exact ⟨ids, by rw [encodeLoop, if_neg hs, encodeStep, if_pos hf], le_refl _, rfl⟩
      · have hf' : (bestPair t (order c (getStats ids))).2.2 = true := by
          simpa using hf
        obtain ⟨⟨v, hv⟩, hrank⟩ := bestPair_spec t _ hf'
        have hadj : Adjacent ids (bestPair t (order c (getStats ids))).2.1 :=
          (getStats_adj ids _ (((hord c _).mem_iff).mp hv)).1
        have hlt := merge_length_lt ids _ (bestPair t (order c (getStats ids))).1 hadj
        obtain ⟨out, o1, o2, o3⟩ := ih (c + 1)
          (merge ids (bestPair t (order c (getStats ids))).2.1
            (bestPair t (order c (getStats ids))).1) (by omega)
        refine ⟨out, ?_, by omega, ?_⟩
        · rw [encodeLoop, if_neg hs, encodeStep, if_neg hf]
          exact o1
        · rw [o3]
          exact merge_bytes D ids _ _ (hm _ _ hrank)

theorem bytes_of_text (t : Tokenizer) (ht : t.Trained) (s : Bytes) :
    ((s.map (fun c => (c.val : Int))).map t.bytesOf).flatten = s := by
  induction s with
  | nil => rfl
  | cons c rest ih =>
    simp only [List.map_cons, List.flatten_cons, ih]
    show (mapGet t.Decoder (c.val : Int)).getD [] ++ rest = c :: rest
    rw [ht.2.1 c]
    rfl

/-! ## `Train` gives a trained tokenizer -/

theorem initLoop_facts (t : Tokenizer) (n : Nat) :
    (initLoop n t).Merges = t.Merges ∧ (0 < n → (initLoop n t).Encoder.length ≠ 0) ∧
      ∀ c, c < n → mapGet (initLoop n t).Decoder (c : Int) = some [Fin.ofNat c] := by
  induction n with
  | zero => exact ⟨rfl, fun h => absurd h (Nat.lt_irrefl 0), fun c hc => absurd hc (Nat.not_lt_zero _)⟩
  | succ n ih =>
    obtain ⟨i1, -, i3⟩ := ih
    refine ⟨i1, fun _ => mapSet_length_pos _ _ _, ?_⟩
    intro c hc
    show mapGet (mapSet (initLoop n t).Decoder (n : Int) [Fin.ofNat n]) (c : Int) = _
    rw [mapGet_mapSet]
    by_cases h : (n : Int) = (c : Int)
    · have hcn : n = c := by exact_mod_cast h
      rw [if_pos h, hcn]
    · rw [if_neg h]
      have hcn : c ≠ n := fun e => h (by rw [e])
      exact i3 c (by omega)

theorem bytesOf_recordMerge (t : Tokenizer) (pair : Pair) (idx x : Int) (h : x ≠ idx) :
    (recordMerge t pair idx).bytesOf x = t.bytesOf x := by
  show (mapGet (mapSet t.Decoder idx _) x).getD [] = _
  rw [mapGet_mapSet, if_neg (fun e => h e.symm)]
  rfl

theorem trainLoop_trained (order : Nat → List (Pair × Int) → List (Pair × Int))
    (hord : ∀ c l, (order c l).Perm l) (n : Nat) :
    ∀ (i : Nat) (t : Tokenizer) (ids : List Int),
      t.Encoder.length ≠ 0 →
      (∀ c : Fin 256, mapGet t.Decoder (c.val : Int) = some [c]) →
      (∀ p r, mapGet t.Merges p = some r →
        p.a < r ∧ p.b < r ∧ r < 256 + (i : Int) ∧ t.bytesOf r = t.bytesOf p.a ++ t.bytesOf p.b) →
      (∀ x, x ∈ ids → x < 256 + (i : Int)) →
      (trainLoop order n i t ids).Trained := by
  induction n with
  | zero =>
    intro i t ids h1 h2 h3 _
    exact ⟨h1, h2, fun p r h => ⟨(h3 p r h).1, (h3 p r h).2.1, (h3 p r h).2.2.2⟩⟩
  | succ n ih =>
    intro i t ids h1 h2 h3 h4
    by_cases hs : (getStats ids).length = 0
    · rw [trainLoop, if_pos hs]
      exact ⟨h1, h2, fun p r h => ⟨(h3 p r h).1, (h3 p r h).2.1, (h3 p r h).2.2.2⟩⟩
    · rw [trainLoop, if_neg hs]
      have hpos : ∀ x, x ∈ order i (getStats ids) → 0 < x.2 := fun x hx =>
        (getStats_adj ids x (((hord i _).mem_iff).mp hx)).2
      obtain ⟨v, hv⟩ := getMax_mem (order i (getStats ids))
        (by rw [(hord i _).length_eq]; exact hs) hpos
      have hadj : Adjacent ids (getMax (order i (getStats ids))) :=
        (getStats_adj ids _ (((hord i _).mem_iff).mp hv)).1
      obtain ⟨ma, mb⟩ := Adjacent_mem hadj
      have ha := h4 _ ma
      have hb := h4 _ mb
      apply ih (i + 1)
      · exact mapSet_length_pos _ _ _
      · intro c
        show mapGet (mapSet t.Decoder (256 + (i : Int)) _) (c.val : Int) = _
        rw [mapGet_mapSet, if_neg (by have := c.isLt; omega)]
        exact h2 c
      · intro p r hpr
        have hpr' : mapGet (mapSet t.Merges (getMax (order i (getStats ids))) (256 + (i : Int))) p
            = some r := hpr
        rw [mapGet_mapSet] at hpr'
        by_cases hp : getMax (order i (getStats ids)) = p
        · rw [if_pos hp] at hpr'
          have hr : r = 256 + (i : Int) := (Option.some.inj hpr').symm
          subst hp
          refine ⟨by omega, by omega, by push_cast; omega, ?_⟩
          rw [hr, bytesOf_recordMerge _ _ _ _ (ne_of_lt ha),
            bytesOf_recordMerge _ _ _ _ (ne_of_lt hb)]
          show (mapGet (mapSet t.Decoder (256 + (i : Int)) _) (256 + (i : Int))).getD [] = _
          rw [mapGet_mapSet, if_pos rfl]
          rfl
        · rw [if_neg hp] at hpr'
          obtain ⟨q1, q2, q3, q4⟩ := h3 p r hpr'
          refine ⟨q1, q2, by push_cast; omega, ?_⟩
          rw [bytesOf_recordMerge _ _ _ _ (ne_of_lt q3),
            bytesOf_recordMerge _ _ _ _ (ne_of_lt (lt_trans q1 q3)),
            bytesOf_recordMerge _ _ _ _ (ne_of_lt (lt_trans q2 q3))]
          exact q4
      · intro x hx
        rcases merge_mem _ _ _ _ hx with h | h
        · have := h4 x h
          push_cast
          omega
        · rw [h]
          push_cast
          omega

theorem trainLoop_ranked (order : Nat → List (Pair × Int) → List (Pair × Int))
    (hord : ∀ c l, (order c l).Perm l) (n : Nat) :
    ∀ (i : Nat) (t : Tokenizer) (ids : List Int),
      t.Encoder.length ≠ 0 → t.Ranked → (∀ x, x ∈ ids → x < 256 + (i : Int)) →
      (trainLoop order n i t ids).Encoder.length ≠ 0 ∧ (trainLoop order n i t ids).Ranked := by
  induction n with
  | zero =>
    intro i t ids h1 h2 _
    exact ⟨h1, h2⟩
  | succ n ih =>
    intro i t ids h1 h2 h4
    by_cases hs : (getStats ids).length = 0
    · rw [trainLoop, if_pos hs]
      exact ⟨h1, h2⟩
    · rw [trainLoop, if_neg hs]
      have hpos : ∀ x, x ∈ order i (getStats ids) → 0 < x.2 := fun x hx =>
        (getStats_adj ids x (((hord i _).mem_iff).mp hx)).2
      obtain ⟨v, hv⟩ := getMax_mem (order i (getStats ids))
        (by rw [(hord i _).length_eq]; exact hs) hpos
      have hadj : Adjacent ids (getMax (order i (getStats ids))) :=
        (getStats_adj ids _ (((hord i _).mem_iff).mp hv)).1
      obtain ⟨ma, mb⟩ := Adjacent_mem hadj
      have ha := h4 _ ma
      have hb := h4 _ mb
      apply ih (i + 1)
      · exact mapSet_length_pos _ _ _
      · intro p r hpr
        have hpr' : mapGet (mapSet t.Merges (getMax (order i (getStats ids))) (256 + (i : Int))) p
            = some r := hpr
        rw [mapGet_mapSet] at hpr'
        by_cases hp : getMax (order i (getStats ids)) = p
        · rw [if_pos hp] at hpr'
          have hr : r = 256 + (i : Int) := (Option.some.inj hpr').symm
          subst hp
          exact ⟨by omega, by omega⟩
        · rw [if_neg hp] at hpr'
          exact h2 p r hpr'
      · intro x hx
        rcases merge_mem _ _ _ _ hx with h | h
        · have := h4 x h
          push_cast
          omega
        · rw [h]
          push_cast
          omega

theorem Train_ranked (order : Nat → List (Pair × Int) → List (Pair × Int))
    (hord : ∀ c l, (order c l).Perm l) (t : Tokenizer) (ht : t.Ranked) (text : Bytes)
    (vocabSize : Int) :
    (t.Train order text vocabSize).Encoder.length ≠ 0 ∧ (t.Train order text vocabSize).Ranked := by
  have key : ∀ T : Tokenizer, T.Ranked → T.Encoder.length ≠ 0 →
      (setVocabSize (trainLoop order (vocabSize - 256).toNat 0 T
        (text.map (fun c => (c.val : Int))))).Encoder.length ≠ 0 ∧
      (setVocabSize (trainLoop order (vocabSize - 256).toNat 0 T
        (text.map (fun c => (c.val : Int))))).Ranked := by
    intro T i1 i2
    exact trainLoop_ranked order hord (vocabSize - 256).toNat 0 T
      (text.map (fun c => (c.val : Int))) i2 i1
      (by
        intro x hx
        obtain ⟨c, -, rfl⟩ := List.mem_map.mp hx
        have := c.isLt
        simp only [Nat.cast_zero, add_zero]
        omega)
  obtain ⟨i1, i2, -⟩ := initLoop_facts t 256
  exact key (initLoop 256 t) (fun p r h => ht p r (by rw [← i1]; exact h)) (i2 (by omega))

theorem Train_trained (order : Nat → List (Pair × Int) → List (Pair × Int))
    (hord : ∀ c l, (order c l).Perm l) (text : Bytes) (vocabSize : Int) :
    (New.Train order text vocabSize).Trained := by
  have key : ∀ T : Tokenizer, T.Merges = [] → T.Encoder.length ≠ 0 →
      (∀ c : Nat, c < 256 → mapGet T.Decoder (c : Int) = some [Fin.ofNat c]) →
      (setVocabSize (trainLoop order (vocabSize - 256).toNat 0 T
        (text.map (fun c => (c.val : Int))))).Trained := by
    intro T i1 i2 i3
    exact trainLoop_trained order hord (vocabSize - 256).toNat 0 T
      (text.map (fun c => (c.val : Int))) i2
      (by
        intro c
        rw [i3 c.val c.isLt]
        congr 2
        apply Fin.ext
        simp [Fin.ofNat, Nat.mod_eq_of_lt c.isLt])
      (by
        intro p r hpr
        rw [i1] at hpr
        simp [mapGet] at hpr)
      (by
        intro x hx
        obtain ⟨c, -, rfl⟩ := List.mem_map.mp hx
        have := c.isLt
        simp only [Nat.cast_zero, add_zero]
        omega)
  obtain ⟨i1, i2, i3⟩ := initLoop_facts New 256
  exact key (initLoop 256 New) i1 (i2 (by omega)) i3

end tokenizer

namespace tokenizer

/-! ## `Decode` after `Encode`, and the length of `Encode` -/

/-- C37: a `range` loop over a map visits its entries in some order
(`order`, `order'` return permutations). For a fresh tokenizer on which
`Train(text, vocabSize)` has been called once, whichever pair `getMax` picks
among the most frequent ones, and every byte string `s`: `Encode(s)` returns
(`len(s) - 1` merging iterations are enough) and `Decode(Encode(s)) = s`. -/
theorem Decode_Encode_roundtrip (order order' : Nat → List (Pair × Int) → List (Pair × Int))
    (hord : ∀ c l, (order c l).Perm l) (hord' : ∀ c l, (order' c l).Perm l) (text : Bytes)
    (vocabSize : Int) (s : Bytes) (fuel : Nat) (hfuel : s.length ≤ fuel + 1) :
    ∃ ids, (New.Train order text vocabSize).Encode order' fuel s = some ids ∧
      (New.Train order text vocabSize).Decode ids = s := by
  have ht := Train_trained order hord text vocabSize
  obtain ⟨out, o1, -, o3⟩ := encodeLoop_ok order' hord' (New.Train order text vocabSize)
    (New.Train order text vocabSize).bytesOf
    (fun p r h => (ht.2.2 p r h).2.2) fuel 0 (s.map (fun c => (c.val : Int)))
    (by rw [List.length_map]; exact hfuel)
  refine ⟨out, ?_, ?_⟩
  · unfold Tokenizer.Encode
    rw [if_neg ht.1]
    exact o1
  · rw [Decode_eq, o3]
    exact bytes_of_text _ ht s

/-- Witness for C37: training on `abab` with one merge, then `abc`. -/
theorem Decode_Encode_roundtrip_witness :
    ∃ ids, (New.Train (fun _ l => l) [97, 98, 97, 98] 257).Encode (fun _ l => l) 2 [97, 98, 99]
        = some ids ∧
      (New.Train (fun _ l => l) [97, 98, 97, 98] 257).Decode ids = [97, 98, 99] :=
  Decode_Encode_roundtrip (fun _ l => l) (fun _ l => l) (fun _ l => List.Perm.refl l)
    (fun _ l => List.Perm.refl l) [97, 98, 97, 98] 257 [97, 98, 99] 2 (by decide)

/-- C38: for a tokenizer whose merges `(a, b) -> r` all have `a < r` and
`b < r` (the fresh tokenizer, which has none, is one), the tokenizer after
`Train` is again such a tokenizer, and for every input `s`: every iteration
of the loop of `Encode` that finds a pair to merge (at any ids) finds one that
occurs in the ids, `merge` makes the ids strictly shorter and leaves no
adjacent occurrence of that pair; `Encode(s)` returns after at most
`len(s) - 1` merging iterations (none for the empty string), and
`len(Encode(s)) ≤ len(s)`. -/
theorem Encode_terminates (order order' : Nat → List (Pair × Int) → List (Pair × Int))
    (hord : ∀ c l, (order c l).Perm l) (hord' : ∀ c l, (order' c l).Perm l)
    (t : Tokenizer) (ht : t.Ranked) (text : Bytes) (vocabSize : Int) :
    (t.Train order text vocabSize).Ranked ∧
    (∀ (c : Nat) (ids : List Int), (getStats ids).length ≠ 0 →
      (bestPair (t.Train order text vocabSize) (order' c (getStats ids))).2.2 = true →
      Adjacent ids (bestPair (t.Train order text vocabSize) (order' c (getStats ids))).2.1 ∧
      (merge ids (bestPair (t.Train order text vocabSize) (order' c (getStats ids))).2.1
        (bestPair (t.Train order text vocabSize) (order' c (getStats ids))).1).length
        < ids.length ∧
      ¬ Adjacent
        (merge ids (bestPair (t.Train order text vocabSize) (order' c (getStats ids))).2.1
          (bestPair (t.Train order text vocabSize) (order' c (getStats ids))).1)
        (bestPair (t.Train order text vocabSize) (order' c (getStats ids))).2.1) ∧
    ∀ s : Bytes, ∃ out,
      (t.Train order text vocabSize).Encode order' (s.length - 1) s = some out ∧
      out.length ≤ s.length := by
  obtain ⟨hne, hr⟩ := Train_ranked order hord t ht text vocabSize
  refine ⟨hr, ?_, ?_⟩
  · intro c ids _ hf
    obtain ⟨⟨v, hv⟩, hrank⟩ := bestPair_spec (t.Train order text vocabSize) _ hf
    have hadj : Adjacent ids
        (bestPair (t.Train order text vocabSize) (order' c (getStats ids))).2.1 :=
      (getStats_adj ids _ (((hord' c _).mem_iff).mp hv)).1
    obtain ⟨r1, r2⟩ := hr _ _ hrank
    exact ⟨hadj, merge_length_lt ids _ _ hadj,
      merge_no_adjacent ids _ _ (ne_of_gt r1) (ne_of_gt r2)⟩
  · intro s
    obtain ⟨out, o1, o2, -⟩ := encodeLoop_ok order' hord' (t.Train order text vocabSize)
      (fun _ => []) (fun _ _ _ => rfl) (s.length - 1) 0 (s.map (fun c => (c.val : Int)))
      (by rw [List.length_map]; omega)
    refine ⟨out, ?_, by rw [List.length_map] at o2; exact o2⟩
    unfold Tokenizer.Encode
    rw [if_neg hne]
    exact o1

/-- Witness for C38: the fresh tokenizer trained on `abab` with one merge, then
the input `abab`. -/
theorem Encode_terminates_witness :
    ∃ out, (New.Train (fun _ l => l) [97, 98, 97, 98] 257).Encode (fun _ l => l)
        (([97, 98, 97, 98] : Bytes).length - 1) [97, 98, 97, 98] = some out ∧
      out.length ≤ ([97, 98, 97, 98] : Bytes).length :=
  (Encode_terminates (fun _ l => l) (fun _ l => l) (fun _ l => List.Perm.refl l)
    (fun _ l => List.Perm.refl l) New (fun p r h => by simp [New, mapGet] at h)
    [97, 98, 97, 98] 257).2.2 [97, 98, 97, 98]

end tokenizer
